import Mathlib

/-!
# imgcache: the in-memory index, the cache request classifier and the worker

A shallow embedding of `pkg/cache` (index.go, types.go, utils.go, localcache.go)
and `pkg/worker` (worker.go).

Conventions of the embedding
* Go `string` is `String`; `CacheKey` and `DataFile` are strings.
* Go `int` / `int64` are `Int` (no arithmetic is performed on them here).
* A Go `map[string]T` is an association list `List (String × T)`; a lookup
  returns the first binding of the key.  `mapSet` is `m[k] = v`, `mapDel` is
  `delete(m, k)`, `mapModify` is a write through the pointer stored under `k`.
* A Go `error` result is `Option String` (`none` is `nil`).  A method with a
  pointer receiver returns the new receiver next to its Go results.
* `time.Now().Unix()` is a parameter `now` of the operation that reads it.
-/

namespace Imgcache

/-! ## Go maps -/

/-- Lookup `m[k]` with the comma-ok idiom: `none` when the key is absent. -/
def mapGet {β : Type} : List (String × β) → String → Option β
  | [], _ => none
  | (k', v) :: t, k => if k' = k then some v else mapGet t k

/-- The statement `delete(m, k)`. -/
def mapDel {β : Type} : List (String × β) → String → List (String × β)
  | [], _ => []
  | (k', v) :: t, k => if k' = k then mapDel t k else (k', v) :: mapDel t k

/-- The statement `m[k] = v`. -/
def mapSet {β : Type} (m : List (String × β)) (k : String) (v : β) : List (String × β) :=
  (k, v) :: mapDel m k

/-- A write through the pointer stored under `k` (`m[k].field = x`). -/
def mapModify {β : Type} : List (String × β) → String → (β → β) → List (String × β)
  | [], _, _ => []
  | (k', v) :: t, k, f =>
    if k' = k then (k', f v) :: mapModify t k f else (k', v) :: mapModify t k f

/-- The keys of the map (`maps.Keys`), in the order of the association list. -/
def mapKeys {β : Type} (m : List (String × β)) : List String :=
  (m.map Prod.fst).dedup

/-! ## types.go -/

def SUFFIX_META_FILE : String := ".meta.json"
def SUFFIX_LAYER_FILE : String := ".layer"
def SUFFIX_MANIFEST_FILE : String := ".manifest"
def SUFFIX_PARTIAL_FILE : String := ".partial"

def ORIGIN_UPSTREAM : String := "origin-upstream"
def ORIGIN_CACHE : String := "origin-cache"

def DEFAULT_PROTO : String := "HTTP/1.1"
def DEFAULT_UNCOMPRESSED : Bool := false
def DEFAULT_AUTH_KEY : String := "[_default]"

def STATUS_NOT_FOUND : Int := -1
def STATUS_AVAILABLE : Int := 2
def STATUS_IN_PROGRESS : Int := 1

def NO_WORKER : Int := -1

/-- The struct `ResponseFile` (the sidecar of a data file). -/
structure ResponseFile where
  Status : String
  StatusCode : Int
  Proto : String
  Header : List (String × List String)
  ContentLength : Int
  Uncompressed : Bool
  CacheKey : String
  deriving DecidableEq, Repr

/-- The struct `CacheKeyMetadata`; a nil `*ResponseFile` is `none`. -/
structure CacheKeyMetadata where
  Status : Int
  WorkerID : Int
  ResponseFile : Option ResponseFile
  Atime : Int
  Ctime : Int
  deriving DecidableEq, Repr

/-- The struct `MemoryIndex` without its locks. -/
structure MemoryIndex where
  meta : List (String × CacheKeyMetadata)
  store : List (String × String)
  dataref : List (String × String)
  deriving DecidableEq, Repr

/-! ## index.go -/

def NewMemoryIndex : MemoryIndex :=
  { meta := [], store := [], dataref := [] }

/-- `GetResponseFile`: the pointer held by the entry, or an empty
`ResponseFile` and an error. -/
def GetResponseFile (i : MemoryIndex) (ckey : String) :
    Option ResponseFile × Option String :=
  match mapGet i.meta ckey with
  | some data => (data.ResponseFile, none)
  | none =>
    (some { Status := "", StatusCode := 0, Proto := "", Header := [],
            ContentLength := 0, Uncompressed := false, CacheKey := "" },
     some "cache key not found")

def GetWorker (i : MemoryIndex) (ckey : String) : Int :=
  match mapGet i.meta ckey with
  | some data => data.WorkerID
  | none => NO_WORKER

def GetStatus (i : MemoryIndex) (ckey : String) : Int :=
  match mapGet i.meta ckey with
  | some data => data.Status
  | none => STATUS_NOT_FOUND

def GetATime (i : MemoryIndex) (ckey : String) : Int × Option String :=
  match mapGet i.meta ckey with
  | some data => (data.Atime, none)
  | none => (-1, some "cache key not found")

def GetCTime (i : MemoryIndex) (ckey : String) : Int × Option String :=
  match mapGet i.meta ckey with
  | some data => (data.Ctime, none)
  | none => (-1, some "cache key not found")

def GetDataRef (i : MemoryIndex) (df : String) : String :=
  match mapGet i.dataref df with
  | some ckey => ckey
  | none => ""

def GetDatafile (i : MemoryIndex) (ckey : String) : String × Option String :=
  match mapGet i.store ckey with
  | some df => (df, none)
  | none => ("", some "auth key does not exists")

def SetResponseFile (i : MemoryIndex) (ckey : String) (rf : Option ResponseFile) :
    MemoryIndex × Option String :=
  match mapGet i.meta ckey with
  | some _ =>
    ({ i with meta := mapModify i.meta ckey (fun data => { data with ResponseFile := rf }) },
     none)
  | none => (i, some "cache key not found")

/-- `SetATime`: the source returns the error on both paths. -/
def SetATime (i : MemoryIndex) (now : Int) (ckey : String) : MemoryIndex × Option String :=
  match mapGet i.meta ckey with
  | some _ =>
    ({ i with meta := mapModify i.meta ckey (fun data => { data with Atime := now }) },
     some "invalid cache key")
  | none => (i, some "invalid cache key")

def SetStatus (i : MemoryIndex) (ckey : String) (status : Int) : MemoryIndex × Option String :=
  match mapGet i.meta ckey with
  | some _ =>
    ({ i with meta := mapModify i.meta ckey (fun data => { data with Status := status }) },
     none)
  | none => (i, some "failed to update cache key status, not found")

def SetWorker (i : MemoryIndex) (ckey : String) (id : Int) (force : Bool) :
    MemoryIndex × Option String :=
  match mapGet i.meta ckey with
  | some data =>
    if force ∨ data.WorkerID = NO_WORKER then
      ({ i with meta := mapModify i.meta ckey (fun data => { data with WorkerID := id }) },
       none)
    else (i, none)
  | none => (i, some "failed to update cache key status, not found")

def ListCacheKeys (i : MemoryIndex) : List String :=
  mapKeys i.store

/-- `Put`: insert the three rows that are missing, each under its own test. -/
def Put (i : MemoryIndex) (now : Int) (ckey df : String) : MemoryIndex × Option String :=
  if ckey = "" ∨ df = "" then
    (i, some "invalid value for cache key or datafile")
  else
    let meta1 :=
      match mapGet i.meta ckey with
      | none =>
        mapSet i.meta ckey
          { Atime := now, Ctime := now, Status := STATUS_NOT_FOUND,
            ResponseFile := none, WorkerID := NO_WORKER }
      | some _ => i.meta
    let store1 :=
      match mapGet i.store ckey with
      | none => mapSet i.store ckey df
      | some _ => i.store
    let dataref1 :=
      match mapGet i.dataref df with
      | none => mapSet i.dataref df ckey
      | some _ => i.dataref
    ({ meta := meta1, store := store1, dataref := dataref1 }, none)

def Delete (i : MemoryIndex) (ckey : String) : MemoryIndex :=
  let dataref1 :=
    match mapGet i.store ckey with
    | some df => mapDel i.dataref df
    | none => i.dataref
  { meta := mapDel i.meta ckey, store := mapDel i.store ckey, dataref := dataref1 }

def Len (i : MemoryIndex) : Nat :=
  (mapKeys i.store).length

/-! ## Go standard library: path/filepath and regexp -/

/-- The elements of a path: the pieces between slashes (`"a//b"` has the
elements `a`, the empty element and `b`). -/
def splitSlash : List Char → List (List Char)
  | [] => [[]]
  | c :: cs =>
    if c = '/' then [] :: splitSlash cs
    else
      match splitSlash cs with
      | [] => [[c]]
      | h :: t => (c :: h) :: t

/-- One round of the loop of `filepath.Clean` on the path element `e`, with
`out` the elements written so far: an empty element and `.` are dropped; `..`
removes the last element written when that is a real element, is dropped at
the root of a rooted path and is kept otherwise; a real element is appended. -/
def cleanStep (rooted : Bool) (out : List (List Char)) (e : List Char) : List (List Char) :=
  if e = [] ∨ e = ['.'] then out
  else if e = ['.', '.'] then
    match out.getLast? with
    | some l => if l = ['.', '.'] then out ++ [e] else out.dropLast
    | none => if rooted then out else out ++ [e]
  else out ++ [e]

/-- Go `filepath.Clean` on Unix: the shortest equivalent path by lexical
processing; the empty path becomes `.`, a rooted path keeps its leading slash. -/
def Clean (path : String) : String :=
  match path.data with
  | [] => "."
  | c :: cs =>
    let rooted : Bool := decide (c = '/')
    let out := (splitSlash (c :: cs)).foldl (cleanStep rooted) []
    let body := String.mk (List.intercalate ['/'] out)
    if rooted then "/" ++ body
    else if out = [] then "." else body

/-- Go `filepath.Join` of two elements: leading empty elements are ignored, the
rest is joined with a slash and cleaned; all empty gives the empty string. -/
def filepathJoin (a b : String) : String :=
  if a ≠ "" then Clean (a ++ "/" ++ b)
  else if b ≠ "" then Clean b
  else ""

/-- A compiled expression of the shape `^/.*L(.+)$` with `L` a literal. -/
structure PathRegex where
  literal : String
  deriving DecidableEq, Repr

/-- The class `.` of Go regexp without the `s` flag: any character but newline. -/
def notNewline (c : Char) : Bool :=
  decide (c ≠ Char.ofNat 10)

/-- One alternative of the leftmost-first search for `^/.*L(.+)$` on a text
`/rest`: `.*` takes the first `n` characters of `rest`, the literal `L` must
follow, and `(.+)` must take all that remains up to the end of the text, at
least one character.  The result is the capture. -/
def matchAt (lit rest : List Char) (n : Nat) : Option (List Char) :=
  let star := rest.take n
  let tail := rest.drop n
  let grp := tail.drop lit.length
  if star.all notNewline && lit.isPrefixOf tail && !grp.isEmpty && grp.all notNewline then
    some grp
  else none

/-- Go `FindStringSubmatch` for `^/.*L(.+)$`: the whole match and the capture.
The greedy `.*` is tried from its longest extent down to the empty one. -/
def FindStringSubmatch (re : PathRegex) (s : String) : Option (List String) :=
  match s.data with
  | [] => none
  | c :: rest =>
    if c = '/' then
      match (List.range (rest.length + 1)).reverse.findSome? (matchAt re.literal.data rest) with
      | some grp => some [s, String.mk grp]
      | none => none
    else none

/-- Go `MatchString`: whether the expression has a match in the text. -/
def MatchString (re : PathRegex) (s : String) : Bool :=
  (FindStringSubmatch re s).isSome

/-! ## types.go: the two expressions, requests -/

/-- The expression `^/.*/blobs/sha256:(.+)$`. -/
def REGEX_LAYER : PathRegex := { literal := "/blobs/sha256:" }

/-- The expression `^/.*/manifests/sha256:(.+)$`. -/
def REGEX_MANIFEST : PathRegex := { literal := "/manifests/sha256:" }

/-- The constant `http.MethodGet`. -/
def MethodGet : String := "GET"

/-- The constant `http.MethodHead`. -/
def MethodHead : String := "HEAD"

/-- The parts of `*http.Request` the cache reads: the method, `URL.Path` and
the value of the `Authorization` header. -/
structure Request where
  Method : String
  Path : String
  Authorization : String
  deriving DecidableEq, Repr

/-- The struct `CacheRequest` without its reply channel. -/
structure CacheRequest where
  CacheEnabled : Bool
  CacheKey : String
  AuthKey : String
  DataFile : String
  ResponseFilePath : String
  Request : Request
  ItemType : String
  deriving DecidableEq, Repr

/-! ## utils.go -/

def ComputeAuthKey (authorization : String) : String :=
  if authorization = "" then DEFAULT_AUTH_KEY
  else "[" ++ authorization ++ "]"

def ComputeResponseFilePath (filePath : String) : String :=
  filePath ++ SUFFIX_META_FILE

def ComputeDataFile (datapath name suffix : String) : String × Option String :=
  if name = "" then ("", some "invalid file name")
  else (filepathJoin datapath (name ++ suffix), none)

def ComputeLayerFile (datapath name : String) : String × Option String :=
  ComputeDataFile datapath name SUFFIX_LAYER_FILE

def ComputeManifestFile (datapath name : String) : String × Option String :=
  ComputeDataFile datapath name SUFFIX_MANIFEST_FILE

/-! ## localcache.go: NewCacheRequest -/

/-- One of the two blocks of `NewCacheRequest`: when the expression matches
and the method is GET, compute the datafile and fill the request.  The result
`Sum.inl` is the early `return cr`, `Sum.inr` falls through to the next
statement.  `groups[1]` is read with a default: the index is in range, the
expression has one capture group. -/
def cacheRequestBlock (re : PathRegex) (suffix itemType : String) (r : Request)
    (dataPath : String) (cr : CacheRequest) : CacheRequest ⊕ CacheRequest :=
  if MatchString re r.Path && decide (r.Method = MethodGet) then
    let groups := (FindStringSubmatch re r.Path).getD []
    let (df, err) := ComputeDataFile dataPath (groups.getD 1 "") suffix
    if err ≠ none then Sum.inl cr
    else
      Sum.inr
        { cr with
          CacheEnabled := true
          DataFile := df
          AuthKey := ComputeAuthKey r.Authorization
          CacheKey := groups.getD 1 ""
          ResponseFilePath := ComputeResponseFilePath df
          ItemType := itemType }
  else Sum.inr cr

def NewCacheRequest (r : Request) (dataPath : String) : CacheRequest :=
  let cr : CacheRequest :=
    { CacheEnabled := false, CacheKey := "", AuthKey := "", DataFile := "",
      ResponseFilePath := "", Request := r, ItemType := "" }
  match cacheRequestBlock REGEX_LAYER SUFFIX_LAYER_FILE "layer" r dataPath cr with
  | Sum.inl cr1 => cr1
  | Sum.inr cr1 =>
    match cacheRequestBlock REGEX_MANIFEST SUFFIX_MANIFEST_FILE "manifest" r dataPath cr1 with
    | Sum.inl cr2 => cr2
    | Sum.inr cr2 => cr2

/-! ## The world of the worker: index, files, LRU list, queue, trace -/

/-- The parts of `*http.Response` that the cache and the worker read; the body
is the list of its bytes. -/
structure HttpResponse where
  Status : String
  StatusCode : Int
  Proto : String
  Header : List (String × List String)
  ContentLength : Int
  Uncompressed : Bool
  Body : List Nat
  deriving DecidableEq, Repr

/-- The content of a file of the data directory: its bytes (a response body,
the text `Dump` wrote), or, in the description of a directory, a sidecar that
holds the JSON text of a `ResponseFile`. -/
inductive FileData where
  | bytes (content : List Nat)
  | json (rf : ResponseFile)
  deriving DecidableEq, Repr

/-- What the worker does towards the outside, in the order it happens. -/
inductive Event where
  /-- `authRequest`: a HEAD request was sent upstream; the status code of the
  response, `none` for a transport error. -/
  | head (ckey : String) (code : Option Int)
  /-- `getResponseFromUpstream`: a request was sent upstream, with `client.Do`
  (`usedForCache`) or with `Transport.RoundTrip`. -/
  | get (usedForCache : Bool) (path : String)
  /-- `LocalCache.Create` was invoked for the cache key. -/
  | create (ckey : String)
  /-- `LocalCache.Read` was invoked for the cache key. -/
  | read (ckey : String)
  /-- A `CacheResponse` was written to the reply channel of the request. -/
  | send (path : String) (origin : String) (resp : HttpResponse)
  /-- The request was put back into the queue of the worker. -/
  | push (path : String)
  /-- The goroutine `gc.Try()` was started. -/
  | gcTry
  /-- A nil pointer was dereferenced. -/
  | fault
  deriving DecidableEq, Repr

/-- The shared state: the index (one object, held by the cache and by the
worker), the files of the data directory, the LRU list of `LocalCache` (its
elements carry an identity, `LRUElements` maps a cache key to an element), the
queue of the worker and the trace of events. -/
structure World where
  index : MemoryIndex
  files : List (String × FileData)
  LRUQueue : List (Nat × String)
  LRUElements : List (String × Nat)
  nextElement : Nat
  queue : List CacheRequest
  trace : List Event
  deriving DecidableEq, Repr

/-- What the outside answers during one iteration of the worker loop: the two
clock readings, the result of each HTTP call (`none` is a transport error) and
whether each file operation fails. -/
structure Env where
  nowPut : Int
  nowRead : Int
  /-- The HEAD probe issued when the status is NotFound. -/
  headFirst : Option Int
  /-- The HEAD probe issued when the status is Available. -/
  headSecond : Option Int
  /-- The `client.Do` of `storeFile`. -/
  getForCache : Option HttpResponse
  /-- The `Transport.RoundTrip` of `handleFromUpstream`. -/
  getDirect : Option HttpResponse
  createErr : Bool
  renameErr : Bool
  removeErr : Bool
  dumpErr : Bool
  /-- `io.CopyBuffer` fails after this many bytes. -/
  copyErr : Option Nat
  openErr : Bool
  deriving DecidableEq, Repr

def World.log (w : World) (e : Event) : World :=
  { w with trace := w.trace ++ [e] }

/-- `list.PushFront`: a new element at the front. -/
def lruPushFront (w : World) (ckey : String) : World :=
  { w with
    LRUQueue := (w.nextElement, ckey) :: w.LRUQueue
    LRUElements := mapSet w.LRUElements ckey w.nextElement
    nextElement := w.nextElement + 1 }

/-- `list.MoveToFront`: nothing happens for an element that is not in the list. -/
def lruMoveToFront (q : List (Nat × String)) (el : Nat) : List (Nat × String) :=
  match q.find? (fun e => e.1 = el) with
  | some e => e :: q.filter (fun x => x.1 ≠ el)
  | none => q

/-- `list.Remove`: nothing happens for an element that is not in the list. -/
def lruRemove (q : List (Nat × String)) (el : Nat) : List (Nat × String) :=
  q.filter (fun x => x.1 ≠ el)

/-! ## responsefile.go -/

/-- The table of Go `http.StatusText`. -/
def statusTexts : List (Int × String) :=
  [(100, "Continue"), (101, "Switching Protocols"), (102, "Processing"),
   (103, "Early Hints"),
   (200, "OK"), (201, "Created"), (202, "Accepted"),
   (203, "Non-Authoritative Information"), (204, "No Content"), (205, "Reset Content"),
   (206, "Partial Content"), (207, "Multi-Status"), (208, "Already Reported"),
   (226, "IM Used"),
   (300, "Multiple Choices"), (301, "Moved Permanently"), (302, "Found"),
   (303, "See Other"), (304, "Not Modified"), (305, "Use Proxy"),
   (307, "Temporary Redirect"), (308, "Permanent Redirect"),
   (400, "Bad Request"), (401, "Unauthorized"), (402, "Payment Required"),
   (403, "Forbidden"), (404, "Not Found"), (405, "Method Not Allowed"),
   (406, "Not Acceptable"), (407, "Proxy Authentication Required"),
   (408, "Request Timeout"), (409, "Conflict"), (410, "Gone"), (411, "Length Required"),
   (412, "Precondition Failed"), (413, "Request Entity Too Large"),
   (414, "Request URI Too Long"), (415, "Unsupported Media Type"),
   (416, "Requested Range Not Satisfiable"), (417, "Expectation Failed"),
   (418, "I" ++ String.singleton (Char.ofNat 39) ++ "m a teapot"),
   (421, "Misdirected Request"), (422, "Unprocessable Entity"), (423, "Locked"),
   (424, "Failed Dependency"), (425, "Too Early"), (426, "Upgrade Required"),
   (428, "Precondition Required"), (429, "Too Many Requests"),
   (431, "Request Header Fields Too Large"), (451, "Unavailable For Legal Reasons"),
   (500, "Internal Server Error"), (501, "Not Implemented"), (502, "Bad Gateway"),
   (503, "Service Unavailable"), (504, "Gateway Timeout"),
   (505, "HTTP Version Not Supported"), (506, "Variant Also Negotiates"),
   (507, "Insufficient Storage"), (508, "Loop Detected"), (510, "Not Extended"),
   (511, "Network Authentication Required")]

/-- Go `http.StatusText`: the text of a status code, empty for an unknown code. -/
def StatusText (code : Int) : String :=
  match statusTexts.find? (fun e => e.1 = code) with
  | some e => e.2
  | none => ""

/-! ## Go standard library: unicode/utf8

A Go string is a sequence of bytes, here a list of numbers; it need not be
valid UTF-8. -/

/-- Go `utf8.RuneError`, the replacement character U+FFFD. -/
def RuneError : Nat := 0xFFFD

/-- A continuation byte of UTF-8. -/
def isCont (b : Nat) : Bool :=
  decide (0x80 ≤ b ∧ b ≤ 0xBF)

/-- Go `utf8.DecodeRune`: the first rune of the bytes and its width in bytes;
`(RuneError, 1)` when the bytes do not start with a valid encoding (a
continuation byte or a byte that never occurs at the start, a sequence that
is cut short, an overlong encoding, a surrogate, a value above U+10FFFF),
`(RuneError, 0)` for no bytes. -/
def DecodeRune : List Nat → Nat × Nat
  | [] => (RuneError, 0)
  | b0 :: rest =>
    if b0 < 0x80 then (b0, 1)
    else if b0 < 0xC2 then (RuneError, 1)
    else if b0 < 0xE0 then
      match rest with
      | b1 :: _ =>
        if isCont b1 then ((b0 - 0xC0) * 64 + (b1 - 0x80), 2) else (RuneError, 1)
      | [] => (RuneError, 1)
    else if b0 < 0xF0 then
      match rest with
      | b1 :: b2 :: _ =>
        if (if b0 = 0xE0 then 0xA0 else 0x80) ≤ b1 ∧ b1 ≤ (if b0 = 0xED then 0x9F else 0xBF) ∧
            isCont b2 then
          (((b0 - 0xE0) * 64 + (b1 - 0x80)) * 64 + (b2 - 0x80), 3)
        else (RuneError, 1)
      | _ => (RuneError, 1)
    else if b0 < 0xF5 then
      match rest with
      | b1 :: b2 :: b3 :: _ =>
        if (if b0 = 0xF0 then 0x90 else 0x80) ≤ b1 ∧ b1 ≤ (if b0 = 0xF4 then 0x8F else 0xBF) ∧
            isCont b2 ∧ isCont b3 then
          ((((b0 - 0xF0) * 64 + (b1 - 0x80)) * 64 + (b2 - 0x80)) * 64 + (b3 - 0x80), 4)
        else (RuneError, 1)
      | _ => (RuneError, 1)
    else (RuneError, 1)

/-- Go `utf8.AppendRune`: the UTF-8 encoding of a rune; a surrogate and a
value above U+10FFFF are encoded as `RuneError`. -/
def EncodeRune (r : Nat) : List Nat :=
  if r < 0x80 then [r]
  else if r < 0x800 then [0xC0 + r / 64, 0x80 + r % 64]
  else if (0xD800 ≤ r ∧ r < 0xE000) ∨ 0x10FFFF < r then [0xEF, 0xBF, 0xBD]
  else if r < 0x10000 then [0xE0 + r / 4096, 0x80 + r / 64 % 64, 0x80 + r % 64]
  else [0xF0 + r / 262144, 0x80 + r / 4096 % 64, 0x80 + r / 64 % 64, 0x80 + r % 64]

/-- The bytes of a text in UTF-8. -/
def utf8Bytes : List Char → List Nat
  | [] => []
  | c :: cs => EncodeRune c.toNat ++ utf8Bytes cs

/-- The Go string that holds the text `s`. -/
def goString (s : String) : List Nat :=
  utf8Bytes s.data

/-- The runes of a Go string with the bytes of each, as a `range` loop over
the string and the loop of the JSON encoder see them: a byte that starts no
valid encoding is a `RuneError` of width 1.  Every round takes at least one
byte, `fuel` bounds the rounds. -/
def runeSegments : Nat → List Nat → List (Nat × List Nat)
  | 0, _ => []
  | _ + 1, [] => []
  | fuel + 1, b :: rest =>
    ((DecodeRune (b :: rest)).1, (b :: rest).take (DecodeRune (b :: rest)).2) ::
      runeSegments fuel (rest.drop ((DecodeRune (b :: rest)).2 - 1))

def goRunes (s : List Nat) : List (Nat × List Nat) :=
  runeSegments s.length s

/-- The text a Go string stands for when it is read as UTF-8 with every
invalid byte replaced by U+FFFD (`strings.ToValidUTF8` rune by rune, the
coercion of `encoding/json`). -/
def coerceUTF8 (s : List Nat) : String :=
  String.mk ((goRunes s).map (fun seg => Char.ofNat seg.1))

/-! ## Go standard library: encoding/json, the text -/

/-- The bytes of an ASCII text. -/
def asciiBytes (s : String) : List Nat :=
  s.data.map Char.toNat

/-- The digit of `hex = "0123456789abcdef"` for a value below 16. -/
def hexDigit (n : Nat) : Nat :=
  if n < 10 then 48 + n else 87 + n

/-- The table `htmlSafeSet` of the encoder: the ASCII bytes from the space on
that are written as they are, which excludes the quote, the backslash and
`&`, `<`, `>`. -/
def htmlSafe (b : Nat) : Bool :=
  decide (0x20 ≤ b ∧ b < 0x80 ∧ b ≠ 34 ∧ b ≠ 38 ∧ b ≠ 60 ∧ b ≠ 62 ∧ b ≠ 92)

/-- What the loop of `appendString` (with `escapeHTML`, the setting of
`json.Marshal`) writes for one rune of the string. -/
def appendRune (seg : Nat × List Nat) : List Nat :=
  if seg.1 < 0x80 then
    if htmlSafe seg.1 then [seg.1]
    else if seg.1 = 92 ∨ seg.1 = 34 then [92, seg.1]
    else if seg.1 = 8 then [92, 98]
    else if seg.1 = 12 then [92, 102]
    else if seg.1 = 10 then [92, 110]
    else if seg.1 = 13 then [92, 114]
    else if seg.1 = 9 then [92, 116]
    else [92, 117, 48, 48, hexDigit (seg.1 / 16), hexDigit (seg.1 % 16)]
  else if seg.1 = RuneError ∧ seg.2.length = 1 then [92, 117, 102, 102, 102, 100]
  else if seg.1 = 0x2028 ∨ seg.1 = 0x2029 then [92, 117, 50, 48, 50, hexDigit (seg.1 % 16)]
  else seg.2

/-- Go `appendString`: the JSON string literal of a Go string. -/
def appendString (src : List Nat) : List Nat :=
  34 :: ((goRunes src).map appendRune).flatten ++ [34]

/-- The decimal digits of a natural number; `fuel` bounds their number. -/
def natDigits : Nat → Nat → List Nat → List Nat
  | 0, _, acc => acc
  | fuel + 1, n, acc =>
    if n < 10 then (48 + n) :: acc else natDigits fuel (n / 10) ((48 + n % 10) :: acc)

/-- Go `strconv.AppendInt(dst, n, 10)`. -/
def intText (n : Int) : List Nat :=
  if n < 0 then 45 :: natDigits (n.natAbs + 1) n.natAbs []
  else natDigits (n.natAbs + 1) n.natAbs []

/-- The elements of a JSON array or object with commas between them. -/
def commaJoin : List (List Nat) → List Nat
  | [] => []
  | [x] => x
  | x :: y :: rest => x ++ 44 :: commaJoin (y :: rest)

/-- The text of a `[]string`: `null` for a nil slice. -/
def sliceText : Option (List (List Nat)) → List Nat
  | none => asciiBytes "null"
  | some vs => 91 :: commaJoin (vs.map appendString) ++ [93]

/-- The order of Go strings (`strings.Compare`): byte by byte. -/
def leBytes : List Nat → List Nat → Bool
  | [], _ => true
  | _ :: _, [] => false
  | a :: as, b :: bs =>
    if a < b then true
    else if b < a then false
    else leBytes as bs

/-- The value a Go map holds under a key, the map being written as a list of
its entries. -/
def goMapGet {β : Type} : List (List Nat × β) → List Nat → Option β
  | [], _ => none
  | (k1, v) :: t, k => if k1 = k then some v else goMapGet t k

/-- The keys of a Go map in the order in which the encoder writes them. -/
def sortedKeys {β : Type} (h : List (List Nat × β)) : List (List Nat) :=
  List.insertionSort (fun a b => leBytes a b = true) (h.map Prod.fst).dedup

/-- The text of a `map[string][]string`: `null` for a nil map, else the keys
in increasing order, each with its slice. -/
def headerText : Option (List (List Nat × Option (List (List Nat)))) → List Nat
  | none => asciiBytes "null"
  | some h =>
    123 :: commaJoin ((sortedKeys h).map (fun k =>
      appendString k ++ 58 :: sliceText ((goMapGet h k).getD none))) ++ [125]

/-- A `ResponseFile` as Go holds it: a string is a sequence of bytes, the
header map and the slices in it may be nil. -/
structure GoResponseFile where
  Status : List Nat
  StatusCode : Int
  Proto : List Nat
  Header : Option (List (List Nat × Option (List (List Nat))))
  ContentLength : Int
  Uncompressed : Bool
  CacheKey : List Nat
  deriving DecidableEq, Repr

/-- The header map of `ResponseFile.toGo`. -/
def goHeader (h : List (String × List String)) :
    List (List Nat × Option (List (List Nat))) :=
  h.map (fun kv => (goString kv.1, some (kv.2.map goString)))

/-- The Go value of a `ResponseFile` of this embedding, whose strings are
texts: the strings in UTF-8, the header a map that is not nil. -/
def ResponseFile.toGo (m : ResponseFile) : GoResponseFile :=
  { Status := goString m.Status
    StatusCode := m.StatusCode
    Proto := goString m.Proto
    Header := some (goHeader m.Header)
    ContentLength := m.ContentLength
    Uncompressed := m.Uncompressed
    CacheKey := goString m.CacheKey }

/-- Go `json.Marshal` of a `*ResponseFile`: the text of the object, the
members in the order of the fields under their tags, without white space. -/
def jsonMarshal (m : GoResponseFile) : List Nat :=
  123 :: asciiBytes "\"status\":" ++ appendString m.Status ++
    asciiBytes ",\"statusCode\":" ++ intText m.StatusCode ++
    asciiBytes ",\"proto\":" ++ appendString m.Proto ++
    asciiBytes ",\"header\":" ++ headerText m.Header ++
    asciiBytes ",\"contentLength\":" ++ intText m.ContentLength ++
    asciiBytes ",\"uncompressed\":" ++
    asciiBytes (if m.Uncompressed then "true" else "false") ++
    asciiBytes ",\"cacheKey\":" ++ appendString m.CacheKey ++ [125]

/-! ## responsefile.go: NewResponseFile and Dump -/

def NewResponseFile (cLen : Int) (status : Int) (headers : List (String × List String))
    (ck : String) : ResponseFile :=
  { Status := StatusText status
    StatusCode := status
    Proto := DEFAULT_PROTO
    ContentLength := cLen
    Header := headers
    Uncompressed := DEFAULT_UNCOMPRESSED
    CacheKey := ck }

/-- `ResponseFile.Dump` on the Go value of the receiver: `json.Marshal` (which
has no error for this struct), `os.Create`, which may fail, and the write of
the text. -/
def Dump (env : Env) (m : GoResponseFile) (path : String) (w : World) : World × Option String :=
  if env.dumpErr then (w, some "open failed")
  else ({ w with files := mapSet w.files path (FileData.bytes (jsonMarshal m)) }, none)

/-! ## localcache.go: Create and Read -/

/-- `os.Create(partialdf)`: an empty file under the partial name. -/
def createPartial (cr : CacheRequest) (w : World) : World :=
  { w with files := mapSet w.files (cr.DataFile ++ SUFFIX_PARTIAL_FILE) (FileData.bytes []) }

/-- `os.Rename(partialdf, cr.DataFile)`. -/
def renamePartial (cr : CacheRequest) (w : World) : World :=
  match mapGet w.files (cr.DataFile ++ SUFFIX_PARTIAL_FILE) with
  | some d =>
    { w with
      files := mapSet (mapDel w.files (cr.DataFile ++ SUFFIX_PARTIAL_FILE)) cr.DataFile d }
  | none => w

/-- `io.CopyBuffer(dst, content, buf)`: the open file, now named
`cr.DataFile`, receives the body, or its first bytes when the copy fails. -/
def copyBody (env : Env) (cr : CacheRequest) (content : List Nat) (w : World) :
    World × Option String :=
  match env.copyErr with
  | none => ({ w with files := mapSet w.files cr.DataFile (FileData.bytes content) }, none)
  | some n =>
    ({ w with files := mapSet w.files cr.DataFile (FileData.bytes (content.take n)) },
     some "copy failed")

/-- `LocalCache.Create`. -/
def Create (env : Env) (cr : CacheRequest) (respfile : ResponseFile) (content : List Nat)
    (w : World) : World × Option String :=
  let w0 := w.log (Event.create cr.CacheKey)
  let (idx1, err) := SetResponseFile w0.index cr.CacheKey (some respfile)
  let w1 := { w0 with index := idx1 }
  if err ≠ none then (w1, err)
  else if env.createErr then (w1, some "failed to create cache file")
  else
    let w2 := createPartial cr w1
    if env.renameErr then
      -- os.Remove(partialdf): try to remove
      let w3 :=
        if env.removeErr then w2
        else { w2 with files := mapDel w2.files (cr.DataFile ++ SUFFIX_PARTIAL_FILE) }
      (w3, some "failed to rename partial cache file")
    else
      let w3 := renamePartial cr w2
      let (w4, _) := Dump env respfile.toGo cr.ResponseFilePath w3
      let (w5, err5) := copyBody env cr content w4
      (lruPushFront w5 cr.CacheKey, err5)

/-- `LocalCache.Read`: the response file of the index, the content of the
data file. -/
def Read (env : Env) (cr : CacheRequest) (w : World) :
    World × Option (FileData × Option ResponseFile) × Option String :=
  let w0 := w.log (Event.read cr.CacheKey)
  let (meta, err) := GetResponseFile w0.index cr.CacheKey
  if err ≠ none then (w0, none, err)
  else
    let w1 := { w0 with index := (SetATime w0.index env.nowRead cr.CacheKey).1 }
    match (if env.openErr then none else mapGet w1.files cr.DataFile) with
    | none => (w1, none, some "open failed")
    | some file =>
      let w2 :=
        match mapGet w1.LRUElements cr.CacheKey with
        | some el => { w1 with LRUQueue := lruMoveToFront w1.LRUQueue el }
        | none => w1
      (w2, some (file, meta), none)

/-! ## worker.go -/

def Push (cr : CacheRequest) (w : World) : World :=
  { (w.log (Event.push cr.Request.Path)) with queue := w.queue ++ [cr] }

/-- `authRequest`: the HEAD request is authorised when the response has the
status 200. -/
def authRequest (res : Option Int) (cr : CacheRequest) (w : World) : World × Bool :=
  let w1 := w.log (Event.head cr.CacheKey res)
  match res with
  | none => (w1, false)
  | some code => (w1, decide (code = 200))

def checkPerms (res : Option Int) (cr : CacheRequest) (w : World) : World × Option String :=
  let (w1, isAuthorised) := authRequest res cr w
  if !isAuthorised then (w1, some "authentication HEAD request failed")
  else (w1, none)

/-- The response that `getResponseFromUpstream` returns with a transport error. -/
def defaultBadGatewayResponse : HttpResponse :=
  { Status := StatusText 502
    StatusCode := 502
    Proto := ""
    Header := []
    ContentLength := 0
    Uncompressed := false
    Body := "Upstream is broken mate!".data.map Char.toNat }

def getResponseFromUpstream (res : Option HttpResponse) (cr : CacheRequest)
    (usedForCache : Bool) (w : World) : World × HttpResponse × Option String :=
  let w1 := w.log (Event.get usedForCache cr.Request.Path)
  match res with
  | none => (w1, defaultBadGatewayResponse, some "upstream error")
  | some resp => (w1, resp, none)

/-- How `getResponseFromCache` ends: with a response, with an error, or in
the dereference of a nil response file. -/
inductive CacheRead where
  | ok (resp : HttpResponse)
  | error (msg : String)
  | fault
  deriving DecidableEq, Repr

/-- `getResponseFromCache`: the response is built from the fields of the
response file (`meta.Status` and the following); the body is the data file. -/
def getResponseFromCache (env : Env) (cr : CacheRequest) (w : World) : World × CacheRead :=
  let (w1, res, err) := Read env cr w
  match res with
  | none => (w1, CacheRead.error ("failed to read file: " ++ err.getD ""))
  | some (_, none) => (w1.log Event.fault, CacheRead.fault)
  | some (file, some meta) =>
    (w1,
     CacheRead.ok
       { Status := meta.Status
         StatusCode := meta.StatusCode
         Proto := meta.Proto
         Body := match file with
           | FileData.bytes b => b
           | FileData.json _ => []
         Uncompressed := meta.Uncompressed
         ContentLength := meta.ContentLength
         Header := meta.Header })

/-- `storeFile` for the worker `currWorkerId`. -/
def storeFile (env : Env) (currWorkerId : Int) (cr : CacheRequest) (w : World) :
    World × Option String :=
  let (idx1, err1) := SetWorker w.index cr.CacheKey currWorkerId false
  let w1 := { w with index := idx1 }
  if err1 ≠ none then (w1, err1)
  else
    let allocatedWorker := GetWorker w1.index cr.CacheKey
    if allocatedWorker ≠ currWorkerId then (w1, none)
    else
      let (w2, respForCache, err2) := getResponseFromUpstream env.getForCache cr true w1
      if respForCache.StatusCode ≠ 200 then
        (w2, some "upstream returned a non-200 response")
      else if err2 ≠ none then (w2, some "error while requesting upstream")
      else
        let (idx3, err3) := SetStatus w2.index cr.CacheKey STATUS_IN_PROGRESS
        let w3 := { w2 with index := idx3 }
        if err3 ≠ none then (w3, some "failed to set status for cache request")
        else
          let respfile :=
            NewResponseFile respForCache.ContentLength respForCache.StatusCode
              respForCache.Header cr.CacheKey
          let (w4, err4) := Create env cr respfile respForCache.Body w3
          if err4 ≠ none then
            -- reset status if download/write failed
            ({ w4 with index := (SetStatus w4.index cr.CacheKey STATUS_NOT_FOUND).1 },
             some "error while writing file to disk")
          else
            let (idx5, err5) := SetStatus w4.index cr.CacheKey STATUS_AVAILABLE
            let w5 := { w4 with index := idx5 }
            if err5 ≠ none then
              (w5, some "error while setting status in index for cachekey")
            else
              -- the error tested after this call is still the nil of SetStatus
              ({ w5 with index := (SetWorker w5.index cr.CacheKey NO_WORKER true).1 }, none)

def handleFromUpstream (env : Env) (cr : CacheRequest) (w : World) : World :=
  let (w1, resp, _) := getResponseFromUpstream env.getDirect cr false w
  w1.log (Event.send cr.Request.Path ORIGIN_UPSTREAM resp)

/-- The loop of `waitForStatusUpdate`: `remaining` rounds are left, `x` rounds
are done; `obs k` is what the `k`-th call of `GetStatus` returns. -/
def waitLoop (obs : Nat → Int) : Nat → Nat → Int → Int × Option String
  | 0, _, ckeystatus => (ckeystatus, some "timeout waiting for cache key status")
  | remaining + 1, x, _ =>
    let ckeystatus := obs (x + 1)
    if ckeystatus ≠ STATUS_NOT_FOUND then (ckeystatus, none)
    else waitLoop obs remaining (x + 1) ckeystatus

/-- `waitForStatusUpdate`: one call of `GetStatus` before the loop, then the
rounds `x = 0, ..., 300`. -/
def waitForStatusUpdate (obs : Nat → Int) : Int × Option String :=
  waitLoop obs 301 0 (obs 0)

/-- The block `if ckeystatus == cache.STATUS_AVAILABLE` of `Run`; after a
fault the goroutine is gone and the request stays unanswered. -/
def runAvailable (env : Env) (cr : CacheRequest) (w : World) : World :=
  let (w1, err) := checkPerms env.headSecond cr w
  if err ≠ none then handleFromUpstream env cr w1
  else
    let (w2, res) := getResponseFromCache env cr w1
    match res with
    | CacheRead.ok resp => w2.log (Event.send cr.Request.Path ORIGIN_CACHE resp)
    | CacheRead.error _ =>
      -- go w.gc.Try(): try to cleanup bad cache
      handleFromUpstream env cr (w2.log Event.gcTry)
    | CacheRead.fault => w2

/-- The statements of `Run` after the NotFound block, for the status held in
`ckeystatus`. -/
def runDispatch (env : Env) (cr : CacheRequest) (ckeystatus : Int) (w : World) : World :=
  if ckeystatus = STATUS_IN_PROGRESS then Push cr w
  else if ckeystatus = STATUS_AVAILABLE then runAvailable env cr w
  else handleFromUpstream env cr w

/-- The body of `if cr.CacheEnabled` in `Run`, from the status read at the top;
the status is polled on the index of the worker alone (no other goroutine
runs in between). -/
def runCacheable (env : Env) (id : Int) (cr : CacheRequest) (ckeystatus : Int) (w : World) :
    World :=
  if ckeystatus = STATUS_NOT_FOUND then
    -- no perms no party
    let (w1, err1) := checkPerms env.headFirst cr w
    if err1 ≠ none then handleFromUpstream env cr w1
    else
      let (idx2, err2) := Put w1.index env.nowPut cr.CacheKey cr.DataFile
      let w2 := { w1 with index := idx2 }
      if err2 ≠ none then handleFromUpstream env cr w2
      else
        let (w3, err3) := storeFile env id cr w2
        if err3 ≠ none then handleFromUpstream env cr w3
        else
          let (ckeystatus4, err4) :=
            waitForStatusUpdate (fun _ => GetStatus w3.index cr.CacheKey)
          if err4 ≠ none then Push cr w3
          else runDispatch env cr ckeystatus4 w3
  else runDispatch env cr ckeystatus w

/-- One iteration of the loop of `Run` for the worker `id`, on the request
`cr` popped from the queue. -/
def Run (env : Env) (id : Int) (cr : CacheRequest) (w : World) : World :=
  if cr.CacheEnabled then runCacheable env id cr (GetStatus w.index cr.CacheKey) w
  else handleFromUpstream env cr w

/-! ## Workers side by side -/

/-- A step of one of the workers.  An iteration of `Run` is cut in two at the
first call that leaves the process: `pop` takes the next request from the
queue and reads its status (the first two statements of the loop), `finish`
runs the rest of the iteration, from the HEAD probe on, with the answers `env`
of the outside.  Between the two steps of a worker the other workers run. -/
inductive Action where
  | pop (id : Int)
  | finish (id : Int) (env : Env)
  deriving Repr

/-- The world and, for each worker that has popped a request, the request and
the status the worker has read. -/
structure System where
  world : World
  inflight : List (Int × CacheRequest × Int)
  deriving Repr

def inflightGet : List (Int × CacheRequest × Int) → Int → Option (CacheRequest × Int)
  | [], _ => none
  | (k, v) :: t, id => if k = id then some v else inflightGet t id

def stepSystem (s : System) : Action → System
  | Action.pop id =>
    match inflightGet s.inflight id, s.world.queue with
    | none, cr :: rest =>
      { world := { s.world with queue := rest }
        inflight := (id, cr, GetStatus s.world.index cr.CacheKey) :: s.inflight }
    | _, _ => s
  | Action.finish id env =>
    match inflightGet s.inflight id with
    | some (cr, ckeystatus) =>
      { world :=
          if cr.CacheEnabled then runCacheable env id cr ckeystatus s.world
          else handleFromUpstream env cr s.world
        inflight := s.inflight.filter (fun e => e.1 ≠ id) }
    | none => s

def runSchedule (s : System) (sched : List Action) : System :=
  sched.foldl stepSystem s

/-- How often `LocalCache.Create` was invoked for the cache key. -/
def createCount (ckey : String) (tr : List Event) : Nat :=
  tr.count (Event.create ckey)

/-- Whether the event is a reply with origin cache. -/
def isCacheSend : Event → Bool
  | Event.send _ origin _ => decide (origin = ORIGIN_CACHE)
  | _ => false

/-- Whether the event is a reply. -/
def isSend : Event → Bool
  | Event.send _ _ _ => true
  | _ => false

/-! ## A scenario: two requests for one new layer -/

/-- The request `GET /v2/x/blobs/sha256:ABC` with the data path `/data`. -/
def scenarioRequest : CacheRequest :=
  NewCacheRequest { Method := "GET", Path := "/v2/x/blobs/sha256:ABC", Authorization := "" }
    "/data"

/-- The upstream answers 200 with the body `OK`. -/
def scenarioUpstream : HttpResponse :=
  { Status := "200 OK", StatusCode := 200, Proto := "HTTP/1.1", Header := [],
    ContentLength := 2, Uncompressed := false, Body := [79, 75] }

/-- Every probe passes, the upstream answers, no file operation fails. -/
def scenarioEnv : Env :=
  { nowPut := 100, nowRead := 101, headFirst := some 200, headSecond := some 200,
    getForCache := some scenarioUpstream, getDirect := some scenarioUpstream,
    createErr := false, renameErr := false, removeErr := false, dumpErr := false,
    copyErr := none, openErr := false }

/-- The upstream answers every probe with 401. -/
def scenarioDenied : Env :=
  { scenarioEnv with headFirst := some 401, headSecond := some 401 }

/-- A fresh cache with the request queued twice. -/
def scenarioWorld : World :=
  { index := NewMemoryIndex, files := [], LRUQueue := [], LRUElements := [],
    nextElement := 0, queue := [scenarioRequest, scenarioRequest], trace := [] }

/-! ## Sequences of index calls -/

/-- One call of a mutating method of the index, with its arguments (and the
clock reading for the two methods that read the clock). -/
inductive IndexOp where
  | put (now : Int) (ckey df : String)
  | delete (ckey : String)
  | setStatus (ckey : String) (status : Int)
  | setResponseFile (ckey : String) (rf : Option ResponseFile)
  | setATime (now : Int) (ckey : String)
  | setWorker (ckey : String) (id : Int) (force : Bool)
  deriving DecidableEq, Repr

/-- The index after one call (the returned error is dropped, as a caller that
ignores it does). -/
def applyOp (i : MemoryIndex) : IndexOp → MemoryIndex
  | .put now ckey df => (Put i now ckey df).1
  | .delete ckey => Delete i ckey
  | .setStatus ckey status => (SetStatus i ckey status).1
  | .setResponseFile ckey rf => (SetResponseFile i ckey rf).1
  | .setATime now ckey => (SetATime i now ckey).1
  | .setWorker ckey id force => (SetWorker i ckey id force).1

/-- The index after a sequence of calls, first call first. -/
def runOps (i : MemoryIndex) (ops : List IndexOp) : MemoryIndex :=
  ops.foldl applyOp i

/-- Caller discipline: a `Put(d, f)` is issued only while `f` is not the
dataref row of a different digest. -/
def datafileFree (i : MemoryIndex) : IndexOp → Bool
  | .put _ ckey df =>
    decide (mapGet i.dataref df = none ∨ mapGet i.dataref df = some ckey)
  | _ => true

/-- Caller discipline: a `Put(d, f)` is issued only while `d` is not stored
under a different datafile. -/
def digestFree (i : MemoryIndex) : IndexOp → Bool
  | .put _ ckey df =>
    decide (mapGet i.store ckey = none ∨ mapGet i.store ckey = some df)
  | _ => true

/-- The sequence of calls respects the discipline `g` at every call, started
from the index `i`. -/
def allowedRun (g : MemoryIndex → IndexOp → Bool) (i : MemoryIndex) : List IndexOp → Bool
  | [] => true
  | op :: ops => g i op && allowedRun g (applyOp i op) ops

/-! ## Invariants of the three maps -/

/-- Row coexistence: a digest has a store row exactly when it has a meta row. -/
def KeysAgree (i : MemoryIndex) : Prop :=
  ∀ d, (mapGet i.store d).isSome = (mapGet i.meta d).isSome

/-- Forward reference: the datafile stored for a digest refers back to it. -/
def RefForward (i : MemoryIndex) : Prop :=
  ∀ d f, mapGet i.store d = some f → mapGet i.dataref f = some d

/-- Backward reference: a dataref row points to the digest stored under it. -/
def RefBackward (i : MemoryIndex) : Prop :=
  ∀ d f, mapGet i.dataref f = some d → mapGet i.store d = some f

/-! ## The clock along a sequence of index calls -/

/-- The clock reading of a call, for the two calls that read the clock. -/
def opTime : IndexOp → Option Int
  | IndexOp.put now _ _ => some now
  | IndexOp.setATime now _ => some now
  | _ => none

/-- The clock is non-decreasing: every reading of the sequence is at least
the reading before it, and the first is at least `t`. -/
def clockMonotone (t : Int) : List IndexOp → Bool
  | [] => true
  | op :: ops =>
    match opTime op with
    | some now => decide (t ≤ now) && clockMonotone now ops
    | none => clockMonotone t ops

/-- Whether the call is `Delete(d)`. -/
def deletes (d : String) : IndexOp → Bool
  | IndexOp.delete ckey => decide (ckey = d)
  | _ => false

/-- Every atime of the index is at most `t`. -/
def AtimesBelow (t : Int) (i : MemoryIndex) : Prop :=
  ∀ k m, mapGet i.meta k = some m → m.Atime ≤ t

/-- The clock after a sequence of calls that started at `t`: the last reading. -/
def clockAfter (t : Int) : List IndexOp → Int
  | [] => t
  | op :: ops =>
    match opTime op with
    | some now => clockAfter now ops
    | none => clockAfter t ops

/-! ## Go standard library: os and encoding/json -/

/-- The error of a file operation: the file does not exist (`os.ErrNotExist`),
or another error. -/
inductive OsError where
  | notExist
  | other
  deriving DecidableEq, Repr

/-- `os.Remove(path)`; `fails` says that the operation fails for another
reason than the absence of the file. -/
def osRemove (fails : Bool) (path : String) (files : List (String × FileData)) :
    List (String × FileData) × Option OsError :=
  if fails then (files, some OsError.other)
  else
    match mapGet files path with
    | some _ => (mapDel files path, none)
    | none => (files, some OsError.notExist)

/-- The order of Go strings (byte order, which on UTF-8 is the order of the
code points). -/
def leChars : List Char → List Char → Bool
  | [], _ => true
  | _ :: _, [] => false
  | a :: as, b :: bs =>
    if a.toNat < b.toNat then true
    else if b.toNat < a.toNat then false
    else leChars as bs

def strLe (a b : String) : Bool :=
  leChars a.data b.data

/-- The strings in increasing order (`sort.Strings`, the order of `os.ReadDir`). -/
def sortStrings (l : List String) : List String :=
  List.insertionSort (fun a b => strLe a b = true) l

/-- A JSON document as `encoding/json` reads and writes it: a number is an
integer literal (`num`) or another number literal (`frac`). -/
inductive JVal where
  | null
  | bool (b : Bool)
  | num (n : Int)
  | frac
  | str (s : String)
  | arr (xs : List JVal)
  | obj (kvs : List (String × JVal))

/-- The fields of `ResponseFile`. -/
inductive Field where
  | status
  | statusCode
  | proto
  | header
  | contentLength
  | uncompressed
  | cacheKey
  deriving DecidableEq, Repr

/-- The `json` tags of the struct `ResponseFile`, in the order of the fields. -/
def fieldTags : List (String × Field) :=
  [("status", Field.status), ("statusCode", Field.statusCode), ("proto", Field.proto),
   ("header", Field.header), ("contentLength", Field.contentLength),
   ("uncompressed", Field.uncompressed), ("cacheKey", Field.cacheKey)]

/-- Case folding of a key for the match against the tags, which are ASCII:
an upper-case ASCII letter and the two letters that fold to ASCII letters
(long s, Kelvin sign) go to the lower-case letter. -/
def foldChar (c : Char) : Char :=
  if c.toNat = 0x17F then 's'
  else if c.toNat = 0x212A then 'k'
  else if 65 ≤ c.toNat ∧ c.toNat ≤ 90 then Char.ofNat (c.toNat + 32)
  else c

def foldName (s : String) : String :=
  String.mk (s.data.map foldChar)

/-- The field a key of the document is decoded into: the field with that tag,
else the first field whose tag is the key up to case; none for an unknown key. -/
def fieldOf (key : String) : Option Field :=
  match fieldTags.find? (fun e => e.1 = key) with
  | some e => some e.2
  | none =>
    match fieldTags.find? (fun e => foldName e.1 = foldName key) with
    | some e => some e.2
    | none => none

/-- The values of the Go type `int` (64 bits). -/
def inIntRange (n : Int) : Bool :=
  decide (-9223372036854775808 ≤ n ∧ n ≤ 9223372036854775807)

/-- Decoding into a `string`; the flag is a type error, `null` changes nothing. -/
def decodeString (v : JVal) (old : String) : String × Bool :=
  match v with
  | JVal.null => (old, false)
  | JVal.str s => (s, false)
  | _ => (old, true)

def decodeInt (v : JVal) (old : Int) : Int × Bool :=
  match v with
  | JVal.null => (old, false)
  | JVal.num n => if inIntRange n then (n, false) else (old, true)
  | _ => (old, true)

def decodeBool (v : JVal) (old : Bool) : Bool × Bool :=
  match v with
  | JVal.null => (old, false)
  | JVal.bool b => (b, false)
  | _ => (old, true)

/-- Decoding into a new `[]string`: an element that is no string stays empty
and is a type error. -/
def decodeSlice (v : JVal) : List String × Bool :=
  match v with
  | JVal.null => ([], false)
  | JVal.arr xs => (xs.map (fun x => (decodeString x "").1), xs.any (fun x => (decodeString x "").2))
  | _ => ([], true)

/-- Decoding into a `map[string][]string`: every key of the object is set. -/
def decodeHeader (v : JVal) (old : List (String × List String)) :
    List (String × List String) × Bool :=
  match v with
  | JVal.null => (old, false)
  | JVal.obj kvs =>
    (kvs.foldl (fun m kv => mapSet m kv.1 (decodeSlice kv.2).1) old,
     kvs.any (fun kv => (decodeSlice kv.2).2))
  | _ => (old, true)

def setField (m : ResponseFile) (f : Field) (v : JVal) : ResponseFile × Bool :=
  match f with
  | Field.status => ({ m with Status := (decodeString v m.Status).1 }, (decodeString v m.Status).2)
  | Field.statusCode =>
    ({ m with StatusCode := (decodeInt v m.StatusCode).1 }, (decodeInt v m.StatusCode).2)
  | Field.proto => ({ m with Proto := (decodeString v m.Proto).1 }, (decodeString v m.Proto).2)
  | Field.header => ({ m with Header := (decodeHeader v m.Header).1 }, (decodeHeader v m.Header).2)
  | Field.contentLength =>
    ({ m with ContentLength := (decodeInt v m.ContentLength).1 },
     (decodeInt v m.ContentLength).2)
  | Field.uncompressed =>
    ({ m with Uncompressed := (decodeBool v m.Uncompressed).1 },
     (decodeBool v m.Uncompressed).2)
  | Field.cacheKey =>
    ({ m with CacheKey := (decodeString v m.CacheKey).1 }, (decodeString v m.CacheKey).2)

/-- One key of the document: an unknown key is skipped, a type error is
remembered and the decoding goes on. -/
def unmarshalKey (acc : ResponseFile × Bool) (kv : String × JVal) : ResponseFile × Bool :=
  match fieldOf kv.1 with
  | none => acc
  | some f => ((setField acc.1 f kv.2).1, acc.2 || (setField acc.1 f kv.2).2)

/-- Go `json.Unmarshal` of a document into a `*ResponseFile`: `null` changes
nothing, an object is decoded key by key, another value is a type error. -/
def Unmarshal (doc : JVal) (m : ResponseFile) : ResponseFile × Option String :=
  match doc with
  | JVal.null => (m, none)
  | JVal.obj kvs =>
    ((kvs.foldl unmarshalKey (m, false)).1,
     if (kvs.foldl unmarshalKey (m, false)).2 then some "json: cannot unmarshal" else none)
  | _ => (m, some "json: cannot unmarshal")

/-- The `header` member: the keys of the map in increasing order, each with
the array of its values.  (A nil map and an empty map, a nil slice and an
empty slice are both the empty list here; Go writes `null` for the nil ones
and reads it back as nil.) -/
def marshalHeader (h : List (String × List String)) : JVal :=
  JVal.obj
    ((sortStrings (mapKeys h)).map
      (fun k => (k, JVal.arr (((mapGet h k).getD []).map JVal.str))))

/-- Go `json.Marshal` of a `ResponseFile`: the members in the order of the
fields, under their tags. -/
def Marshal (m : ResponseFile) : JVal :=
  JVal.obj
    [("status", JVal.str m.Status), ("statusCode", JVal.num m.StatusCode),
     ("proto", JVal.str m.Proto), ("header", marshalHeader m.Header),
     ("contentLength", JVal.num m.ContentLength),
     ("uncompressed", JVal.bool m.Uncompressed), ("cacheKey", JVal.str m.CacheKey)]

/-! ## Go standard library: encoding/json, reading a text -/

/-- The value of a hexadecimal digit. -/
def hexVal (b : Nat) : Option Nat :=
  if 48 ≤ b ∧ b ≤ 57 then some (b - 48)
  else if 97 ≤ b ∧ b ≤ 102 then some (b - 87)
  else if 65 ≤ b ∧ b ≤ 70 then some (b - 55)
  else none

/-- The decoder's `getu4`: the value of the escape `\uXXXX` the bytes start
with, `none` when they do not start with one. -/
def getu4 : List Nat → Option Nat
  | e :: u :: a :: b :: c :: d :: _ =>
    if e = 92 ∧ u = 117 then
      match hexVal a, hexVal b, hexVal c, hexVal d with
      | some x, some y, some z, some w => some (((x * 16 + y) * 16 + z) * 16 + w)
      | _, _, _, _ => none
    else none
  | _ => none

/-- The character of a one-letter escape. -/
def simpleEscape (e : Nat) : Option Char :=
  if e = 34 then some (Char.ofNat 34)
  else if e = 92 then some (Char.ofNat 92)
  else if e = 47 then some (Char.ofNat 47)
  else if e = 98 then some (Char.ofNat 8)
  else if e = 102 then some (Char.ofNat 12)
  else if e = 110 then some (Char.ofNat 10)
  else if e = 114 then some (Char.ofNat 13)
  else if e = 116 then some (Char.ofNat 9)
  else none

/-- One more character in front of the text read. -/
def consChar (c : Char) (r : Option (List Char × List Nat)) : Option (List Char × List Nat) :=
  r.map (fun p => (c :: p.1, p.2))

/-- A JSON string literal after its opening quote, as the scanner accepts it
and `unquote` reads it: up to the closing quote; a control character and an
unknown escape are syntax errors; `\uXXXX` is the character with that code, a
high and a low surrogate in two such escapes are one character, a surrogate
alone is U+FFFD; bytes that are not valid UTF-8 are read as U+FFFD each.  The
result is the text and the bytes after the closing quote. -/
def stringBody : Nat → List Nat → Option (List Char × List Nat)
  | 0, _ => none
  | _ + 1, [] => none
  | fuel + 1, b :: rest =>
    if b = 34 then some ([], rest)
    else if b = 92 then
      match rest with
      | [] => none
      | e :: rest1 =>
        if e = 117 then
          match getu4 (b :: rest) with
          | none => none
          | some rr =>
            if 0xD800 ≤ rr ∧ rr < 0xE000 then
              match getu4 (rest1.drop 4) with
              | some rr1 =>
                if rr < 0xDC00 ∧ 0xDC00 ≤ rr1 ∧ rr1 < 0xE000 then
                  consChar (Char.ofNat ((rr - 0xD800) * 1024 + (rr1 - 0xDC00) + 0x10000))
                    (stringBody fuel (rest1.drop 10))
                else consChar (Char.ofNat RuneError) (stringBody fuel (rest1.drop 4))
              | none => consChar (Char.ofNat RuneError) (stringBody fuel (rest1.drop 4))
            else consChar (Char.ofNat rr) (stringBody fuel (rest1.drop 4))
        else
          match simpleEscape e with
          | some c => consChar c (stringBody fuel rest1)
          | none => none
    else if b < 0x20 then none
    else if b < 0x80 then consChar (Char.ofNat b) (stringBody fuel rest)
    else
      consChar (Char.ofNat (DecodeRune (b :: rest)).1)
        (stringBody fuel (rest.drop ((DecodeRune (b :: rest)).2 - 1)))

/-- A JSON string literal after its opening quote, with fuel for every byte. -/
def stringLiteral (bs : List Nat) : Option (List Char × List Nat) :=
  stringBody (bs.length + 1) bs

/-- White space between the tokens of a JSON text. -/
def isSpace (b : Nat) : Bool :=
  decide (b = 32 ∨ b = 9 ∨ b = 13 ∨ b = 10)

def skipSpace : List Nat → List Nat
  | [] => []
  | b :: rest => if isSpace b then skipSpace rest else b :: rest

def isDigit (b : Nat) : Bool :=
  decide (48 ≤ b ∧ b ≤ 57)

/-- The digits the bytes start with, and the bytes after them. -/
def spanDigits : List Nat → List Nat × List Nat
  | [] => ([], [])
  | b :: rest =>
    if isDigit b then (b :: (spanDigits rest).1, (spanDigits rest).2)
    else ([], b :: rest)

/-- The number written with the digits. -/
def digitsValue (ds : List Nat) : Nat :=
  ds.foldl (fun acc d => acc * 10 + (d - 48)) 0

/-- The fraction and the exponent of a number literal, when there are any:
whether there is one, and the bytes after it; `none` for a dot or an exponent
mark without digits. -/
def fractionAndExponent (bs : List Nat) : Option (Bool × List Nat) :=
  let afterFrac : Option (Bool × List Nat) :=
    match bs with
    | 46 :: rest =>
      if (spanDigits rest).1 = [] then none else some (true, (spanDigits rest).2)
    | _ => some (false, bs)
  match afterFrac with
  | none => none
  | some (hasFrac, rest) =>
    match rest with
    | e :: rest1 =>
      if e = 101 ∨ e = 69 then
        let rest2 :=
          match rest1 with
          | s :: rest3 => if s = 43 ∨ s = 45 then rest3 else rest1
          | [] => rest1
        if (spanDigits rest2).1 = [] then none else some (true, (spanDigits rest2).2)
      else some (hasFrac, rest)
    | [] => some (hasFrac, rest)

/-- A JSON number literal, its sign read already: an integer part that is `0`
or starts with a digit from 1 to 9, then a fraction and an exponent when there
are any.  A literal without both is the integer `num`, another one is `frac`. -/
def numberLiteral (negative : Bool) (bs : List Nat) : Option (JVal × List Nat) :=
  match bs with
  | [] => none
  | d :: rest =>
    if ¬ isDigit d then none
    else
      let intDigits : List Nat := if d = 48 then [d] else d :: (spanDigits rest).1
      let afterInt : List Nat := if d = 48 then rest else (spanDigits rest).2
      match fractionAndExponent afterInt with
      | none => none
      | some (true, rest1) => some (JVal.frac, rest1)
      | some (false, rest1) =>
        some (JVal.num (if negative then -(digitsValue intDigits : Int)
          else (digitsValue intDigits : Int)), rest1)

/-- What the parser is reading: a value, the elements of an array from an
element on, the members of an object from a key on. -/
inductive Reading where
  | value
  | elements
  | members
  deriving DecidableEq, Repr

/-- The nesting of arrays and objects the scanner accepts. -/
def maxNestingDepth : Nat := 10000

/-- The JSON text at the start of the bytes, which begin with a token, and
the bytes after it; `depth` is the number of arrays and objects around it,
`fuel` bounds the nested calls. -/
def parseJSON : Nat → Nat → Reading → List Nat → Option (JVal × List Nat)
  | 0, _, _, _ => none
  | fuel + 1, depth, Reading.value, bs =>
    match bs with
    | [] => none
    | b :: rest =>
      if b = 34 then
        (stringLiteral rest).map (fun p => (JVal.str (String.mk p.1), p.2))
      else if b = 91 then
        if maxNestingDepth ≤ depth then none
        else
          match skipSpace rest with
          | c :: rest1 =>
            if c = 93 then some (JVal.arr [], rest1)
            else parseJSON fuel (depth + 1) Reading.elements (c :: rest1)
          | [] => none
      else if b = 123 then
        if maxNestingDepth ≤ depth then none
        else
          match skipSpace rest with
          | c :: rest1 =>
            if c = 125 then some (JVal.obj [], rest1)
            else parseJSON fuel (depth + 1) Reading.members (c :: rest1)
          | [] => none
      else if b = 45 then numberLiteral true rest
      else if isDigit b then numberLiteral false (b :: rest)
      else if (asciiBytes "true").isPrefixOf (b :: rest) then
        some (JVal.bool true, (b :: rest).drop 4)
      else if (asciiBytes "false").isPrefixOf (b :: rest) then
        some (JVal.bool false, (b :: rest).drop 5)
      else if (asciiBytes "null").isPrefixOf (b :: rest) then
        some (JVal.null, (b :: rest).drop 4)
      else none
  | fuel + 1, depth, Reading.elements, bs =>
    match parseJSON fuel depth Reading.value bs with
    | none => none
    | some (v, rest) =>
      match skipSpace rest with
      | c :: rest1 =>
        if c = 93 then some (JVal.arr [v], rest1)
        else if c = 44 then
          match parseJSON fuel depth Reading.elements (skipSpace rest1) with
          | some (JVal.arr vs, rest2) => some (JVal.arr (v :: vs), rest2)
          | _ => none
        else none
      | [] => none
  | fuel + 1, depth, Reading.members, bs =>
    match bs with
    | [] => none
    | q :: rest =>
      if q ≠ 34 then none
      else
        match stringLiteral rest with
        | none => none
        | some (key, rest1) =>
          match skipSpace rest1 with
          | c :: rest2 =>
            if c ≠ 58 then none
            else
              match parseJSON fuel depth Reading.value (skipSpace rest2) with
              | none => none
              | some (v, rest3) =>
                match skipSpace rest3 with
                | e :: rest4 =>
                  if e = 125 then some (JVal.obj [(String.mk key, v)], rest4)
                  else if e = 44 then
                    match parseJSON fuel depth Reading.members (skipSpace rest4) with
                    | some (JVal.obj kvs, rest5) =>
                      some (JVal.obj ((String.mk key, v) :: kvs), rest5)
                    | _ => none
                  else none
                | [] => none
          | [] => none

/-- The syntax layer of Go `json.Unmarshal` on the bytes of a file: the
document of a text that is one JSON value with white space around it, `none`
for a syntax error. -/
def jsonParse (bs : List Nat) : Option JVal :=
  match parseJSON (2 * bs.length + 2) 0 Reading.value (skipSpace bs) with
  | some (v, rest) => if skipSpace rest = [] then some v else none
  | none => none

/-! ## The documents of the values `json.Marshal` writes -/

/-- The document of a `[]string`. -/
def sliceDoc : Option (List (List Nat)) → JVal
  | none => JVal.null
  | some vs => JVal.arr (vs.map (fun v => JVal.str (coerceUTF8 v)))

/-- The document of a `map[string][]string`. -/
def headerDoc : Option (List (List Nat × Option (List (List Nat)))) → JVal
  | none => JVal.null
  | some h =>
    JVal.obj ((sortedKeys h).map (fun k =>
      (coerceUTF8 k, sliceDoc ((goMapGet h k).getD none))))

/-- The text of the member of the header map under the key `k`. -/
def headerMember (h : List (List Nat × Option (List (List Nat)))) (k : List Nat) : List Nat :=
  appendString k ++ 58 :: sliceText ((goMapGet h k).getD none)

/-- The document `json.Marshal` writes for a Go value: every string is
written as its coercion to valid UTF-8. -/
def goDocument (g : GoResponseFile) : JVal :=
  JVal.obj
    [("status", JVal.str (coerceUTF8 g.Status)), ("statusCode", JVal.num g.StatusCode),
     ("proto", JVal.str (coerceUTF8 g.Proto)), ("header", headerDoc g.Header),
     ("contentLength", JVal.num g.ContentLength),
     ("uncompressed", JVal.bool g.Uncompressed), ("cacheKey", JVal.str (coerceUTF8 g.CacheKey))]

/-! ## responsefile.go: Load -/

/-- The zero value `ResponseFile{}`. -/
def emptyResponseFile : ResponseFile :=
  { Status := "", StatusCode := 0, Proto := "", Header := [], ContentLength := 0,
    Uncompressed := false, CacheKey := "" }

/-- The syntax layer of `encoding/json` on the bytes of a file: the document,
or `none` for a syntax error. -/
abbrev JsonParser := List Nat → Option JVal

/-- The clock reading of `Put` for each directory entry. -/
abbrev EntryClock := String → Int

/-- The JSON document in a file: what the syntax layer of `encoding/json`
(`parse`, `none` for a syntax error; `jsonParse` is the one of Go) makes of
the bytes, and the document of the `ResponseFile` for a sidecar that is given
by its value. -/
def documentOf (parse : JsonParser) : FileData → Option JVal
  | FileData.bytes b => parse b
  | FileData.json rf => some (Marshal rf)

/-- `ResponseFile.Load`: a file that cannot be read gives `nil` and leaves
the receiver as it is; `readErr` says that `os.ReadFile` fails although the
file exists. -/
def Load (parse : JsonParser) (readErr : Bool) (m : ResponseFile)
    (path : String) (files : List (String × FileData)) : ResponseFile × Option String :=
  match (if readErr then none else mapGet files path) with
  | none => (m, none)
  | some file =>
    match documentOf parse file with
    | none => (m, some "invalid character")
    | some doc => Unmarshal doc m

/-! ## localcache.go: List, Restore, Delete -/

/-- The name of the file `p` as an entry of the directory `dir`: the entries
are the files whose path is the join of the directory and one path element
(the data directory is flat). -/
def entryName (dir : String) (p : String) : Option String :=
  let lead : List Char :=
    if Clean dir = "/" then ['/'] else if Clean dir = "." then [] else (Clean dir).data ++ ['/']
  if lead.isPrefixOf p.data then
    let name := p.data.drop lead.length
    if name ≠ [] ∧ '/' ∉ name then some (String.mk name) else none
  else none

/-- `LocalCache.List`: the names of the entries of the data directory, sorted
as `os.ReadDir` returns them. -/
def LocalCache.List (listErr : Bool) (dataPath : String) (w : World) :
    List String × Option String :=
  if listErr then ([], some "open failed")
  else (sortStrings ((mapKeys w.files).filterMap (entryName dataPath)), none)

/-- The body of the loop of `Restore` for the directory entry `name`; an
error is the `return err` of the loop. -/
def restoreFile (parse : JsonParser) (readErr : String → Bool)
    (clock : EntryClock) (dataPath : String) (files : List (String × FileData))
    (name : String) (idx : MemoryIndex) : MemoryIndex × Option String :=
  let df := filepathJoin dataPath name
  let metapath := ComputeResponseFilePath df
  let (rf, err) := Load parse (readErr metapath) emptyResponseFile metapath files
  if err ≠ none then (idx, err)
  else
    let i1 := (Put idx (clock name) rf.CacheKey df).1
    let i2 := (SetStatus i1 rf.CacheKey STATUS_AVAILABLE).1
    let i3 := (SetResponseFile i2 rf.CacheKey (some rf)).1
    -- avoid the cache key to stay in progress
    let (i4, err4) := SetStatus i3 rf.CacheKey STATUS_AVAILABLE
    if err4 ≠ none then (Delete i4 rf.CacheKey, none) else (i4, none)

/-- The loop of `Restore` over the directory entries. -/
def restoreLoop (parse : JsonParser) (readErr : String → Bool)
    (clock : EntryClock) (dataPath : String) (files : List (String × FileData)) :
    List String → MemoryIndex → MemoryIndex × Option String
  | [], idx => (idx, none)
  | name :: rest, idx =>
    match restoreFile parse readErr clock dataPath files name idx with
    | (idx1, some err) => (idx1, some err)
    | (idx1, none) => restoreLoop parse readErr clock dataPath files rest idx1

/-- `LocalCache.Restore`. -/
def LocalCache.Restore (parse : JsonParser) (listErr : Bool)
    (readErr : String → Bool) (clock : EntryClock) (dataPath : String) (w : World) :
    World × Option String :=
  let (names, err) := LocalCache.List listErr dataPath w
  if err ≠ none then (w, some "failed to restore")
  else
    let (idx, err1) := restoreLoop parse readErr clock dataPath w.files names w.index
    ({ w with index := idx }, err1)

/-- `LocalCache.Delete`; `rmData` and `rmMeta` say that the removal of the
data file, of the sidecar, fails for another reason than absence. -/
def LocalCache.Delete (rmData rmMeta : Bool) (filepath ckey : String) (atomic : Bool)
    (w : World) : World × Option String :=
  if filepath = "" ∧ ckey = "" then (w, some "empty cache key and empty datafile")
  else
    let filepath1 := if filepath = "" then (GetDatafile w.index ckey).1 else filepath
    -- the error tested after GetDataRef is the nil it was declared with
    let ckey1 := if ckey = "" then GetDataRef w.index filepath1 else ckey
    -- remove ckey if it exists
    let w1 : World :=
      if ckey1 ≠ "" then
        { w with
          LRUQueue :=
            match mapGet w.LRUElements ckey1 with
            | some le => lruRemove w.LRUQueue le
            | none => w.LRUQueue
          index := Imgcache.Delete w.index ckey1 }
      else w
    -- remove underlying file if it exists
    if filepath1 ≠ "" then
      let (files2, err2) := osRemove rmData filepath1 w1.files
      let w2 := { w1 with files := files2 }
      if err2 ≠ some OsError.notExist ∧ atomic then
        (w2, err2.map (fun _ => "remove failed"))
      else
        let (files3, err3) := osRemove rmMeta (ComputeResponseFilePath filepath1) w2.files
        let w3 := { w2 with files := files3 }
        if err3 ≠ some OsError.notExist ∧ atomic then
          (w3, err3.map (fun _ => "remove failed"))
        else (w3, none)
    else (w1, none)

/-- Whether the cache key is the value of an element of the LRU list, and how
often. -/
def lruCount (ckey : String) (q : List (Nat × String)) : Nat :=
  (q.map Prod.snd).count ckey

/-! ## Scenarios of the store -/

/-- The cache after the first request of the scenario has been served: the
layer `ABC` is stored with its sidecar. -/
def scenarioStored : World :=
  Run scenarioEnv 0 scenarioRequest { scenarioWorld with queue := [] }

/-- The copy of the body breaks off after one byte. -/
def scenarioCopyFails : Env :=
  { scenarioEnv with copyErr := some 1 }

/-- A fresh cache in which the entry of `ABC` has been put. -/
def scenarioPut : World :=
  { scenarioWorld with
    queue := []
    index := (Put NewMemoryIndex 100 "ABC" "/data/ABC.layer").1 }

/-- A data directory at startup: the layer `a` with an empty sidecar file, the
layer `b` with the sidecar that `Dump` wrote. -/
def scenarioDirectory : World :=
  { scenarioWorld with
    queue := []
    files :=
      [("/data/a.layer", FileData.bytes [1]),
       ("/data/a.layer.meta.json", FileData.bytes []),
       ("/data/b.layer", FileData.bytes [2]),
       ("/data/b.layer.meta.json", FileData.json (NewResponseFile 1 200 [] "b"))] }

/-- The same directory without the sidecar of `a`. -/
def scenarioDirectoryMissing : World :=
  { scenarioWorld with
    queue := []
    files :=
      [("/data/a.layer", FileData.bytes [1]),
       ("/data/b.layer", FileData.bytes [2]),
       ("/data/b.layer.meta.json", FileData.json (NewResponseFile 1 200 [] "b"))] }

/-- A `ResponseFile` as Go holds it, with a header value that is the one byte
0xFF: a byte that an HTTP header may carry and that is no UTF-8. -/
def scenarioLatinHeader : GoResponseFile :=
  { Status := goString "OK"
    StatusCode := 200
    Proto := goString "HTTP/1.1"
    Header := some [(goString "X", some [[0xFF]])]
    ContentLength := 2
    Uncompressed := false
    CacheKey := goString "ABC" }

/-! ## Scenarios of a failed fetch -/

/-- The upstream answers the GET for the cache with 500. -/
def scenarioUpstreamFails : Env :=
  { scenarioEnv with
    getForCache := some { scenarioUpstream with Status := "500", StatusCode := 500 } }

/-- The upstream does not answer the GET for the cache (transport error). -/
def scenarioUpstreamDown : Env :=
  { scenarioEnv with getForCache := none }

/-! ## worker.go: the polls of waitForStatusUpdate -/

/-- What `waitForStatusUpdate` has done when it returns: the two results, the
number of calls of `GetStatus` made inside the loop, and the sum of the
`time.Sleep` calls in milliseconds. -/
structure WaitOutcome where
  status : Int
  err : Option String
  polls : Nat
  sleptMs : Nat
  deriving DecidableEq, Repr

/-- The loop of `waitForStatusUpdate` as in `waitLoop`, with its polls and
sleeps counted: round `x` calls `GetStatus` once and, when the status is
NotFound, sleeps 20 ms. -/
def waitLoopTimed (obs : Nat → Int) : Nat → Nat → Int → WaitOutcome
  | 0, x, ckeystatus =>
    { status := ckeystatus, err := some "timeout waiting for cache key status",
      polls := x, sleptMs := 20 * x }
  | remaining + 1, x, _ =>
    let ckeystatus := obs (x + 1)
    if ckeystatus ≠ STATUS_NOT_FOUND then
      { status := ckeystatus, err := none, polls := x + 1, sleptMs := 20 * x }
    else waitLoopTimed obs remaining (x + 1) ckeystatus

def waitForStatusUpdateTimed (obs : Nat → Int) : WaitOutcome :=
  waitLoopTimed obs 301 0 (obs 0)

/-! ## localcache.go: GetLeastUsedFile -/

/-- How `GetLeastUsedFile` ends: with the two results of `GetDatafile`, or in
the dereference of the nil element that `LRUQueue.Back()` returns for an
empty list. -/
inductive LeastUsed where
  | result (df : String) (err : Option String)
  | fault
  deriving DecidableEq, Repr

/-- `GetLeastUsedFile`: the back of the list is its last element; the type
assertion on the value succeeds, every value pushed is a `CacheKey`. -/
def GetLeastUsedFile (w : World) : LeastUsed :=
  match w.LRUQueue.getLast? with
  | none => LeastUsed.fault
  | some el =>
    let (df, err) := GetDatafile w.index el.2
    LeastUsed.result df err

/-! ## diskusage.go -/

/-- How one iteration of the loop of `reduceDiskUsage` ends: with the sleep of
100 s, with `continue`, or in the fault of `GetLeastUsedFile`. -/
inductive ReduceStep where
  | sleep (w : World)
  | again (w : World)
  | fault
  deriving DecidableEq, Repr

/-- One iteration of the loop of `reduceDiskUsage`; `maxSize` is
`int64(gc.disk.maxSize)`, `size` is what `getDirSize` returned, the division
is the division of `int64`. -/
def reduceDiskUsageStep (rmData rmMeta : Bool) (maxSize size : Int) (w : World) :
    ReduceStep :=
  let tolerance := Int.tdiv maxSize 100 * 15
  if size < maxSize - tolerance then
    -- disk space is under the limit
    ReduceStep.sleep w
  else
    match GetLeastUsedFile w with
    | LeastUsed.fault => ReduceStep.fault
    | LeastUsed.result luf err =>
      if err ≠ none then ReduceStep.again w
      else ReduceStep.again (LocalCache.Delete rmData rmMeta luf "" false w).1

/-! ## The outcome of an iteration of the worker loop -/

/-- Whether the event is a re-enqueue of the request. -/
def isPush : Event → Bool
  | Event.push _ => true
  | _ => false

/-- What the events added between the worlds `w` and `w2` say about an
iteration on the request `cr`: either one reply and no re-enqueue, with the
queue as it was, or no reply and one re-enqueue, with `cr` at the end of the
queue and for the reason `requeued`; and a reply with origin cache only under
the condition `cached`. -/
def IterationOutcome (cr : CacheRequest) (w w2 : World) (requeued cached : Prop) : Prop :=
  ∃ evs, w2.trace = w.trace ++ evs ∧
    ((evs.countP isSend = 1 ∧ evs.countP isPush = 0 ∧ w2.queue = w.queue) ∨
      (evs.countP isSend = 0 ∧ evs.countP isPush = 1 ∧ w2.queue = w.queue ++ [cr] ∧
        requeued)) ∧
    (0 < evs.countP isCacheSend → cached)

/-- A cache in which the entry of `ABC` is Available and has no response file,
while the data file exists. -/
def scenarioNoResponseFile : World :=
  { scenarioPut with
    index := (SetStatus scenarioPut.index "ABC" STATUS_AVAILABLE).1
    files := [("/data/ABC.layer", FileData.bytes [79, 75])] }

/-! ## filesystem.go: checkStalePartialFiles -/

/-- Go `strings.HasSuffix`. -/
def HasSuffix (s suffix : String) : Bool :=
  suffix.data.isSuffixOf s.data

/-- What `os.Stat(path)` returns at the sample number `k` of the check of a
file (`k = 0` for the call before the loop): the size, or `none` for an error. -/
abbrev StatOracle := String → Nat → Option Int

/-- The loop `for counter := 0; counter < 4; counter++` of
`checkStalePartialFiles`, with `remaining` rounds left; the result is
`toDelete`.  A round whose `Stat` fails goes on to the next round at once, a
round that sees no growth sleeps one second. -/
def staleLoop (stat : Nat → Option Int) (prevfsize : Int) : Nat → Nat → Bool
  | 0, _ => true
  | remaining + 1, counter =>
    match stat (counter + 1) with
    | none => staleLoop stat prevfsize remaining (counter + 1)
    | some currfsize =>
      if prevfsize < currfsize then false
      else staleLoop stat prevfsize remaining (counter + 1)

/-- The body of the loop of `checkStalePartialFiles` for the directory entry
`name`; `rmErr` says that `os.Remove` fails. -/
def checkStalePartialFile (dataPath : String) (stat : StatOracle) (rmErr : Bool)
    (name : String) (w : World) : World :=
  if !HasSuffix name SUFFIX_PARTIAL_FILE then w
  else
    -- fmt.Sprintf("%s%s", gc.cache.GetDataPath(), i.Name())
    let fpath := dataPath ++ name
    match stat fpath 0 with
    | none => w
    | some prevfsize =>
      if staleLoop (stat fpath) prevfsize 4 0 then
        { w with files := (osRemove rmErr fpath w.files).1 }
      else w

/-- `checkStalePartialFiles`. -/
def checkStalePartialFiles (listErr rmErr : Bool) (dataPath : String) (stat : StatOracle)
    (w : World) : World :=
  let (names, err) := LocalCache.List listErr dataPath w
  if err ≠ none then w
  else names.foldl (fun w1 name => checkStalePartialFile dataPath stat rmErr name w1) w

/-- A data directory `/data` that holds one partial file of two bytes. -/
def scenarioPartial : World :=
  { scenarioWorld with
    queue := []
    files := [("/data/ABC.layer.partial", FileData.bytes [79, 75])] }

/-- Nothing writes: the partial file has two bytes at every sample, and no
file exists under another path. -/
def scenarioStaleStat : StatOracle :=
  fun path _ => if path = "/data/ABC.layer.partial" then some 2 else none

/-- A writer is at work: the partial file has `2 + k` bytes at the sample `k`. -/
def scenarioGrowingStat : StatOracle :=
  fun path k => if path = "/data/ABC.layer.partial" then some (2 + k) else none

/-! ## gc/index.go: cleanCacheKey and cleanCacheKeys

A `time.Duration` is its number of nanoseconds, a `time.Time` the number of
nanoseconds since the epoch. -/

/-- `time.Second`. -/
def Second : Int := 1000000000

/-! ### The float64 arithmetic of `Duration.Seconds`

A float64 of the range that occurs here is written as a multiple of `2^-82`,
so that the arithmetic is the arithmetic of natural numbers. -/

/-- The integer nearest to `a / b`, the even one of two that are equally
near: the rounding of IEEE 754 arithmetic. -/
def roundHalfEven (a b : Nat) : Nat :=
  let q := a / b
  let r := a % b
  if 2 * r < b then q
  else if b < 2 * r then q + 1
  else if q % 2 = 0 then q else q + 1

/-- The position of the highest bit of `n` that is set, found in at most
`fuel` halvings. -/
def bitLog : Nat → Nat → Nat
  | 0, _ => 0
  | fuel + 1, n => if 2 ≤ n then bitLog fuel (n / 2) + 1 else 0

/-- The integer part of the binary logarithm of `n ≥ 1`. -/
def floorLog2 (n : Nat) : Nat :=
  bitLog n n

/-- The float64 nearest to the rational number `p / q`, as a multiple of
`2^-82`: the number is rounded to 53 significant bits, to the even
significand in a tie.  With `x` the number in units of `2^-82`, the unit in
the last place of its binade is `2^(⌊log₂ x⌋ - 52)` of these units.  This is
the float64 for zero and for every `p / q` from `2^-30` on (the numbers that
occur here are at least `10^-9` and below `2^34`). -/
def float64Scaled (p q : Nat) : Nat :=
  if p = 0 then 0
  else
    let ulp := 2 ^ (floorLog2 (p * 2 ^ 82 / q) - 52)
    roundHalfEven (p * 2 ^ 82) (q * ulp) * ulp

/-- Go `Duration.Seconds` for a duration of `n` nanoseconds, `n ≥ 0`:
`sec := d / Second; nsec := d % Second; float64(sec) + float64(nsec)/1e9`, as
a multiple of `2^-82`.  The two conversions are exact (`sec` is below `2^53`),
the quotient and the sum are each rounded to a float64. -/
def secondsScaled (n : Nat) : Nat :=
  float64Scaled
    ((n / 1000000000) * 2 ^ 82 + float64Scaled (n % 1000000000) 1000000000) (2 ^ 82)

/-- `int(d.Seconds())` for a duration of `n` nanoseconds, `n ≥ 0`: the
conversion to `int` drops the fraction. -/
def wholeSeconds (n : Nat) : Nat :=
  secondsScaled n / 2 ^ 82

/-- `time.Duration(int(d.Seconds() - d.Seconds()*2)) * time.Second`: with `x`
the seconds of `d` as a float64, `x*2` and `x - x*2` are exact, so the
difference is `-x`; the conversion to `int` truncates toward zero; the product
with `time.Second` stays in the range of `int64`.  The seconds of a negative
duration are the negated seconds of its magnitude (`sec` and `nsec` are both
negative, and the rounding is symmetric). -/
def negatedWholeSeconds (d : Int) : Int :=
  -(Int.sign d * (wholeSeconds d.natAbs : Int)) * Second

/-- The duration that `cleanCacheKey` compares an age with, for the
configured duration `d`. -/
def effectiveThreshold (d : Int) : Int :=
  -negatedWholeSeconds d

/-- The error of `os.Stat(path)`; `fails` says that the call fails for
another reason than the absence of the file. -/
def osStat (fails : Bool) (path : String) (files : List (String × FileData)) :
    Option OsError :=
  if fails then some OsError.other
  else
    match mapGet files path with
    | some _ => none
    | none => some OsError.notExist

/-- `cleanCacheKey`; `now1` and `now2` are the two readings of `time.Now()`. -/
def cleanCacheKey (rmData rmMeta statFails : Bool) (now1 now2 : Int) (k df : String)
    (cfgMaxAge cfgMaxU : Int) (w : World) : World :=
  -- checking max unused
  let (atimeInt, err) := GetATime w.index k
  let unusedHit : Bool :=
    if err ≠ none then false
    else
      -- unused.After(atime), atime := time.Unix(atimeInt, 0)
      decide (atimeInt * Second < now1 + negatedWholeSeconds cfgMaxU)
  if unusedHit then (LocalCache.Delete rmData rmMeta df k false w).1
  else
    -- checking max age
    let (ctimeInt, err2) := GetCTime w.index k
    let ageHit : Bool :=
      if err2 ≠ none then false
      else decide (ctimeInt * Second < now2 + negatedWholeSeconds cfgMaxAge)
    if ageHit then (LocalCache.Delete rmData rmMeta df k false w).1
    else
      -- checking missing files: key exists but not the underlying file
      if osStat statFails df w.files = some OsError.notExist then
        (LocalCache.Delete rmData rmMeta df k false w).1
      else w

/-- The thresholds of one kind of object. -/
structure GcLimits where
  maxUnused : Int
  maxAge : Int
  deriving DecidableEq, Repr

/-- The body of the loop of `cleanCacheKeys` for the cache key `k`; the file
oracles are asked by path, the clock by cache key. -/
def cleanCacheKeysStep (layers manifests : GcLimits) (rmFails statFails : String → Bool)
    (clock : String → Int × Int) (k : String) (w : World) : World :=
  let df := (GetDatafile w.index k).1
  if HasSuffix df SUFFIX_LAYER_FILE then
    cleanCacheKey (rmFails df) (rmFails (ComputeResponseFilePath df)) (statFails df)
      (clock k).1 (clock k).2 k df layers.maxAge layers.maxUnused w
  else if HasSuffix df SUFFIX_MANIFEST_FILE then
    cleanCacheKey (rmFails df) (rmFails (ComputeResponseFilePath df)) (statFails df)
      (clock k).1 (clock k).2 k df manifests.maxAge manifests.maxUnused w
  else w

/-- `cleanCacheKeys`: the keys are listed once, from a Go map, so their order
is not determined; `order` is the order of this run. -/
def cleanCacheKeys (layers manifests : GcLimits) (rmFails statFails : String → Bool)
    (clock : String → Int × Int) (order : List String → List String) (w : World) : World :=
  (order (ListCacheKeys w.index)).foldl
    (fun w1 k => cleanCacheKeysStep layers manifests rmFails statFails clock k w1) w

/-! ## filesystem.go: cleanOrphanFiles -/

/-- The scan of Go `strings.Replace(s, old, new, -1)` for a non-empty `old`:
every occurrence of `old`, found from the left without overlap, is replaced
by `new`; `skip` characters of the occurrence just replaced are still to be
passed over. -/
def replaceAllChars (old new : List Char) : Nat → List Char → List Char
  | _, [] => []
  | skip + 1, _ :: cs => replaceAllChars old new skip cs
  | 0, c :: cs =>
    if old.isPrefixOf (c :: cs) then new ++ replaceAllChars old new (old.length - 1) cs
    else c :: replaceAllChars old new 0 cs

/-- Go `strings.Replace(s, old, new, -1)`, for a non-empty `old`. -/
def stringsReplaceAll (s old new : String) : String :=
  String.mk (replaceAllChars old.data new.data 0 s.data)

/-- The body of the first loop of `cleanOrphanFiles` for the directory entry
`name`; `orphans` is the Go map `map[string]struct{}`. -/
def orphanStep (orphans : List (String × Unit)) (name : String) : List (String × Unit) :=
  if HasSuffix name SUFFIX_META_FILE then
    let dataFile := stringsReplaceAll name SUFFIX_META_FILE ""
    if (mapGet orphans dataFile).isSome then mapDel orphans dataFile
    else mapSet orphans name ()
  else if HasSuffix name SUFFIX_PARTIAL_FILE then orphans
  else
    let respFile := ComputeResponseFilePath name
    if (mapGet orphans respFile).isSome then mapDel orphans respFile
    else mapSet orphans name ()

/-- The map `orphans` after the first loop of `cleanOrphanFiles`. -/
def orphansOf (names : List String) : List (String × Unit) :=
  names.foldl orphanStep []

/-- `cleanOrphanFiles`; the second loop ranges over a Go map, `order` is the
order of this run; `rmFails` says for a path that its removal fails. -/
def cleanOrphanFiles (listErr : Bool) (rmFails : String → Bool)
    (order : List String → List String) (dataPath : String) (w : World) : World :=
  let (names, err) := LocalCache.List listErr dataPath w
  if err ≠ none then w
  else
    (order (mapKeys (orphansOf names))).foldl
      (fun w1 fname =>
        let f := (ComputeDataFile dataPath fname "").1
        (LocalCache.Delete (rmFails f) (rmFails (ComputeResponseFilePath f)) f "" false
          w1).1)
      w

/-- The request `GET /v2/x/blobs/sha256:a.meta.json` with the data path `/data`. -/
def scenarioOddRequest : CacheRequest :=
  NewCacheRequest
    { Method := "GET", Path := "/v2/x/blobs/sha256:a.meta.json", Authorization := "" } "/data"

/-- The cache after that request has been served on a fresh cache. -/
def scenarioOddStored : World :=
  Run scenarioEnv 0 scenarioOddRequest { scenarioWorld with queue := [] }

/-! ## proxy.go: rewriteRequest -/

def HOST_PLACEHOLDER_PREFIX : String := "$group"
def HEADER_ORIGINAL_HOST : String := "X-ORIGINAL-HOST"

/-- An upstream rule.  The compiled expression is given by what its
`FindStringSubmatch` returns on a text: `none` when the expression does not
match (`MatchString` is false), otherwise the full match followed by the
capture groups. -/
structure UpstreamRule where
  regex : String → Option (List String)
  host : String
  scheme : String

structure DefaultBackend where
  Host : String
  Schema : String
  deriving DecidableEq, Repr

/-- The fields of `Proxy` that `rewriteRequest` reads. -/
structure Proxy where
  upstreamRules : List UpstreamRule
  defaultBackend : DefaultBackend

/-- The fields of `*http.Request` that `rewriteRequest` reads and writes;
`URLScheme` and `URLHost` are `r.URL.Scheme` and `r.URL.Host`. -/
structure ProxyRequest where
  RequestURI : String
  RemoteAddr : String
  Host : String
  Header : List (String × List String)
  URLScheme : String
  URLHost : String
  deriving DecidableEq, Repr

/-- The bytes allowed in a header name (the `token` characters). -/
def validHeaderFieldByte (c : Char) : Bool :=
  c.isAlphanum ||
    ("!#$%&*+-.^_|~".data ++ [Char.ofNat 39, Char.ofNat 96]).contains c

/-- The letters of a header name in canonical case: upper case at the start
and after a dash, lower case elsewhere. -/
def canonicalCase : Bool → List Char → List Char
  | _, [] => []
  | upper, c :: cs =>
    let c1 := if upper && c.isLower then c.toUpper
      else if !upper && c.isUpper then c.toLower
      else c
    c1 :: canonicalCase (decide (c1 = '-')) cs

/-- Go `textproto.CanonicalMIMEHeaderKey`: a name with a byte that is not
allowed in a header name is returned as it is. -/
def CanonicalMIMEHeaderKey (s : String) : String :=
  if s.data.all validHeaderFieldByte then String.mk (canonicalCase true s.data) else s

/-- Go `http.Header.Set`. -/
def headerSet (h : List (String × List String)) (key value : String) :
    List (String × List String) :=
  mapSet h (CanonicalMIMEHeaderKey key) [value]

def appendHostToXForwardHeader (header : List (String × List String)) (host : String) :
    List (String × List String) :=
  match mapGet header "X-Forwarded-For" with
  | some prior => headerSet header "X-Forwarded-For" (String.intercalate ", " prior ++ ", " ++ host)
  | none => headerSet header "X-Forwarded-For" host

/-- The loop `for i, g := range groups` of `rewriteRequest`, from the index
`i` on: each round replaces every occurrence of the text `$group<i>` in the
host built so far. -/
def substituteGroups : String → Nat → List String → String
  | upstreamHost, _, [] => upstreamHost
  | upstreamHost, i, g :: rest =>
    substituteGroups
      (stringsReplaceAll upstreamHost (HOST_PLACEHOLDER_PREFIX ++ toString i) g) (i + 1) rest

/-- The loop over the rules of `rewriteRequest`; `none` when the loop ends
without a match. -/
def rewriteRules : List UpstreamRule → ProxyRequest → Option ProxyRequest
  | [], _ => none
  | cfg :: rest, r =>
    if !(cfg.regex r.Host).isSome then rewriteRules rest r
    else
      let groups := (cfg.regex r.Host).getD []
      let upstreamHost := substituteGroups cfg.host 0 groups
      some { r with URLScheme := cfg.scheme, URLHost := upstreamHost, Host := upstreamHost }

/-- The statements of `rewriteRequest` before the loop over the rules;
`clientIP` is the host that `net.SplitHostPort` finds in `r.RemoteAddr`,
`none` when it returns an error. -/
def rewriteHeaders (clientIP : Option String) (r : ProxyRequest) : ProxyRequest :=
  let r1 := { r with RequestURI := "" }
  let r2 :=
    match clientIP with
    | some ip => { r1 with Header := appendHostToXForwardHeader r1.Header ip }
    | none => r1
  { r2 with Header := headerSet r2.Header HEADER_ORIGINAL_HOST r2.Host }

/-- `rewriteRequest`. -/
def rewriteRequest (p : Proxy) (clientIP : Option String) (r : ProxyRequest) : ProxyRequest :=
  let r3 := rewriteHeaders clientIP r
  match rewriteRules p.upstreamRules r3 with
  | some r4 => r4
  | none =>
    -- no match, set default backend
    { r3 with
      URLScheme := p.defaultBackend.Schema
      URLHost := p.defaultBackend.Host
      Host := p.defaultBackend.Host }

/-- The expression `^(a)(b)(c)(d)(e)(f)(g)(h)(i)(j)$`: it matches the text
`abcdefghij` only, with one letter in each of its ten groups. -/
def scenarioTenGroups : String → Option (List String) :=
  fun s =>
    if s = "abcdefghij" then
      some ["abcdefghij", "a", "b", "c", "d", "e", "f", "g", "h", "i", "j"]
    else none

/-- A proxy with one rule for that expression and the host template `host`. -/
def scenarioProxy (host : String) : Proxy :=
  { upstreamRules := [{ regex := scenarioTenGroups, host := host, scheme := "https" }]
    defaultBackend := { Host := "registry.local", Schema := "http" } }

/-- A request for the host `host`. -/
def scenarioHostRequest (host : String) : ProxyRequest :=
  { RequestURI := "/v2/", RemoteAddr := "10.0.0.1:4000", Host := host, Header := [],
    URLScheme := "", URLHost := "" }

/-! ## streaming.go: lazyStream -/

/-- The error `io.EOF`. -/
def EOF : String := "EOF"

/-- One result of `src.Read(buf)`: the bytes `buf[0:nr]` and the error. -/
structure ReadResult where
  data : List Nat
  err : Option String
  deriving DecidableEq, Repr

/-- A source that delivers finitely many bytes: the results of its next
reads, in order (each fits the buffer of 32 KiB), and the error that every
read returns, with no byte, once they are used up. -/
structure Source where
  reads : List ReadResult
  last : String
  deriving DecidableEq, Repr

def Source.Read (s : Source) : ReadResult × Source :=
  match s.reads with
  | [] => ({ data := [], err := some s.last }, s)
  | r :: rest => (r, { s with reads := rest })

/-- A destination: the bytes it has received, and the results `(nw, ew)` of
its next writes; once they are used up, a write takes all the bytes and
returns no error. -/
structure Sink where
  received : List Nat
  writes : List (Int × Option String)
  deriving DecidableEq, Repr

def Sink.Write (d : Sink) (p : List Nat) : (Int × Option String) × Sink :=
  match d.writes with
  | [] => ((p.length, none), { d with received := d.received ++ p })
  | (nw, ew) :: rest =>
    ((nw, ew), { received := d.received ++ p.take nw.toNat, writes := rest })

/-- How one round of the loop of `lazyStream` ends: with a `break`, or with
the state of the next round. -/
inductive Round where
  | done (written : Int) (err : Option String) (dst : Sink)
  | next (src : Source) (dst : Sink) (written : Int)
  deriving DecidableEq, Repr

/-- The test at the end of a round of `lazyStream`. -/
def lazyStreamTail (totalBytes : Int) (er : Option String) (src : Source) (dst : Sink)
    (written : Int) : Round :=
  if er ≠ none ∧ written = totalBytes then
    Round.done written (if er ≠ some EOF then er else none) dst
  else Round.next src dst written

/-- One round of the loop of `lazyStream`. -/
def lazyStreamRound (totalBytes : Int) (src : Source) (dst : Sink) (written : Int) : Round :=
  let (r, src1) := src.Read
  let nr : Int := r.data.length
  if 0 < nr then
    let ((nw0, ew0), dst1) := dst.Write r.data
    let invalid : Bool := decide (nw0 < 0 ∨ nr < nw0)
    let nw : Int := if invalid then 0 else nw0
    let ew : Option String :=
      if invalid then (if ew0 = none then some "invalid write result" else ew0) else ew0
    let written1 := written + nw
    if ew ≠ none then Round.done written1 ew dst1
    else if nr ≠ nw then Round.done written1 (some "short write") dst1
    else lazyStreamTail totalBytes r.err src1 dst1 written1
  else lazyStreamTail totalBytes r.err src1 dst written

/-- The loop of `lazyStream`, run for at most `fuel` rounds: the results and
the destination, or `none` when the loop has not left after `fuel` rounds. -/
def lazyStreamLoop (totalBytes : Int) :
    Nat → Source → Sink → Int → Option (Int × Option String × Sink)
  | 0, _, _, _ => none
  | fuel + 1, src, dst, written =>
    match lazyStreamRound totalBytes src dst written with
    | Round.done written1 err dst1 => some (written1, err, dst1)
    | Round.next src1 dst1 written1 => lazyStreamLoop totalBytes fuel src1 dst1 written1

/-- `lazyStream(dst, src, totalBytes)`, run for at most `fuel` rounds. -/
def lazyStream (fuel : Nat) (dst : Sink) (src : Source) (totalBytes : Int) :
    Option (Int × Option String × Sink) :=
  lazyStreamLoop totalBytes fuel src dst 0

/-- The bytes that the reads deliver, in order. -/
def deliveredBytes (reads : List ReadResult) : List Nat :=
  (reads.map ReadResult.data).flatten

/-- A destination that takes every write in full and has received nothing yet. -/
def scenarioSink : Sink :=
  { received := [], writes := [] }

/-! ## The cache between the iterations of the workers -/

/-- Invariant 2 of the data model: an entry that is Available has a response
file. -/
def ResponseFilesPresent (i : MemoryIndex) : Prop :=
  ∀ k d, mapGet i.meta k = some d → d.Status = STATUS_AVAILABLE → d.ResponseFile ≠ none

/-- The entry of `k`, when there is one, has a response file. -/
def HasResponseFile (i : MemoryIndex) (k : String) : Prop :=
  ∀ d, mapGet i.meta k = some d → d.ResponseFile ≠ none

/-- The cache that `NewCache` builds on `NewMemoryIndex`, with an empty data
directory and an empty queue. -/
def freshWorld : World :=
  { index := NewMemoryIndex, files := [], LRUQueue := [], LRUElements := [],
    nextElement := 0, queue := [], trace := [] }

/-- What happens to the cache in the course of a run: an iteration of a
worker, the rest of an iteration whose status was read earlier (the `finish`
of `Action`), `Restore`, `LocalCache.Delete` (the call by which the garbage
collector changes the index and the LRU list), a change of the files of the
data directory, a change of the queue. -/
inductive CacheOp where
  | run (env : Env) (id : Int) (cr : CacheRequest)
  | finish (env : Env) (id : Int) (cr : CacheRequest) (ckeystatus : Int)
  | restore (parse : JsonParser) (listErr : Bool) (readErr : String → Bool)
      (clock : EntryClock) (dataPath : String)
  | delete (rmData rmMeta : Bool) (filepath ckey : String) (atomic : Bool)
  | setFiles (files : List (String × FileData))
  | setQueue (queue : List CacheRequest)

def applyCacheOp (w : World) : CacheOp → World
  | .run env id cr => Run env id cr w
  | .finish env id cr ckeystatus =>
    if cr.CacheEnabled then runCacheable env id cr ckeystatus w
    else handleFromUpstream env cr w
  | .restore parse listErr readErr clock dataPath =>
    (LocalCache.Restore parse listErr readErr clock dataPath w).1
  | .delete rmData rmMeta filepath ckey atomic =>
    (LocalCache.Delete rmData rmMeta filepath ckey atomic w).1
  | .setFiles files => { w with files := files }
  | .setQueue queue => { w with queue := queue }

/-- The cache after a sequence of such steps, first step first. -/
def runCacheOps (w : World) (ops : List CacheOp) : World :=
  ops.foldl applyCacheOp w

/-! # Properties -/

/-! ## Go maps -/

theorem mapGet_mapDel_self {β : Type} (m : List (String × β)) (k : String) :
    mapGet (mapDel m k) k = none := by
  induction m with
  | nil => rfl
  | cons e t ih =>
    obtain ⟨k', v⟩ := e
    simp only [mapDel]
    split_ifs with hk
    · exact ih
    · simp [mapGet, hk, ih]

theorem mapGet_mapDel_ne {β : Type} (m : List (String × β)) {k x : String} (h : x ≠ k) :
    mapGet (mapDel m k) x = mapGet m x := by
  induction m with
  | nil => rfl
  | cons e t ih =>
    obtain ⟨k', v⟩ := e
    simp only [mapDel, mapGet]
    split_ifs with hk hx hx
    · exact absurd (hx.symm.trans hk) h
    · exact ih
    · simp [mapGet, hx]
    · simp [mapGet, hx, ih]

theorem mapDel_absent {β : Type} (m : List (String × β)) (k : String)
    (h : mapGet m k = none) : mapDel m k = m := by
  induction m with
  | nil => rfl
  | cons e t ih =>
    obtain ⟨k', v⟩ := e
    simp only [mapGet] at h
    split_ifs at h with hk
    simp [mapDel, hk, ih h]

theorem mapGet_mapSet_self {β : Type} (m : List (String × β)) (k : String) (v : β) :
    mapGet (mapSet m k v) k = some v := by
  simp [mapSet, mapGet]

theorem mapGet_mapSet_ne {β : Type} (m : List (String × β)) {k x : String} (v : β)
    (h : x ≠ k) : mapGet (mapSet m k v) x = mapGet m x := by
  have hk : ¬ k = x := fun e => h e.symm
  simp [mapSet, mapGet, hk, mapGet_mapDel_ne m h]

theorem mapGet_mapModify_self {β : Type} (m : List (String × β)) (k : String) (f : β → β) :
    mapGet (mapModify m k f) k = (mapGet m k).map f := by
  induction m with
  | nil => rfl
  | cons e t ih =>
    obtain ⟨k', v⟩ := e
    simp only [mapModify, mapGet]
    split_ifs with hk
    · simp [mapGet, hk]
    · simp [mapGet, hk, ih]

theorem mapGet_mapModify_ne {β : Type} (m : List (String × β)) {k x : String} (f : β → β)
    (h : x ≠ k) : mapGet (mapModify m k f) x = mapGet m x := by
  induction m with
  | nil => rfl
  | cons e t ih =>
    obtain ⟨k', v⟩ := e
    simp only [mapModify, mapGet]
    split_ifs with hk hx hx
    · exact absurd (hx.symm.trans hk) h
    · simp [mapGet, hx, ih]
    · simp [mapGet, hx]
    · simp [mapGet, hx, ih]

theorem mapGet_mapModify_isSome {β : Type} (m : List (String × β)) (k x : String)
    (f : β → β) : (mapGet (mapModify m k f) x).isSome = (mapGet m x).isSome := by
  by_cases h : x = k
  · subst h
    rw [mapGet_mapModify_self]
    cases mapGet m x <;> rfl
  · rw [mapGet_mapModify_ne m f h]

/-! ## The index: Put, Delete, SetWorker -/

theorem Put_ok_of_nonempty (i : MemoryIndex) (now : Int) (d f : String)
    (hd : d ≠ "") (hf : f ≠ "") :
    Put i now d f =
      ({ meta :=
           match mapGet i.meta d with
           | none =>
             mapSet i.meta d
               { Atime := now, Ctime := now, Status := STATUS_NOT_FOUND,
                 ResponseFile := none, WorkerID := NO_WORKER }
           | some _ => i.meta
         store :=
           match mapGet i.store d with
           | none => mapSet i.store d f
           | some _ => i.store
         dataref :=
           match mapGet i.dataref f with
           | none => mapSet i.dataref f d
           | some _ => i.dataref }, none) := by
  simp [Put, hd, hf]

/-- When the three rows are present, `Put` is the identity. -/
theorem Put_present (i : MemoryIndex) (now : Int) (d f : String)
    (hd : d ≠ "") (hf : f ≠ "")
    (hm : (mapGet i.meta d).isSome) (hs : (mapGet i.store d).isSome)
    (hr : (mapGet i.dataref f).isSome) :
    Put i now d f = (i, none) := by
  rw [Put_ok_of_nonempty i now d f hd hf]
  obtain ⟨m, hm⟩ := Option.isSome_iff_exists.mp hm
  obtain ⟨s, hs⟩ := Option.isSome_iff_exists.mp hs
  obtain ⟨r, hr⟩ := Option.isSome_iff_exists.mp hr
  simp [hm, hs, hr]

/-- C6: `Put(d, f)` returns an error if and only if `d` or `f` is empty, and
when it returns an error the index (meta, store and dataref) is unchanged. -/
theorem Put_error_iff_empty (i : MemoryIndex) (now : Int) (d f : String) :
    ((Put i now d f).2 ≠ none ↔ (d = "" ∨ f = "")) ∧
    ((Put i now d f).2 ≠ none → (Put i now d f).1 = i) := by
  by_cases h : d = "" ∨ f = ""
  · simp [Put, h]
  · simp [Put, h]

/-- C7: on an index where the non-empty digest `d` has no row in meta and
store and the non-empty datafile `f` has no row in dataref, `Put(d, f)` at time
`now` succeeds; the entry of `d` has status NotFound, writer NO_WORKER,
ctime = atime = now and no response file; `GetDatafile(d)` is `f`,
`GetDataRef(f)` is `d`; the rows of every other digest and datafile are
unchanged. -/
theorem Put_fresh (i : MemoryIndex) (now : Int) (d f : String)
    (hd : d ≠ "") (hf : f ≠ "")
    (hm : mapGet i.meta d = none) (hs : mapGet i.store d = none)
    (hr : mapGet i.dataref f = none) :
    (Put i now d f).2 = none ∧
    mapGet (Put i now d f).1.meta d =
      some { Status := STATUS_NOT_FOUND, WorkerID := NO_WORKER, ResponseFile := none,
             Atime := now, Ctime := now } ∧
    GetStatus (Put i now d f).1 d = -1 ∧
    GetWorker (Put i now d f).1 d = -1 ∧
    GetCTime (Put i now d f).1 d = (now, none) ∧
    GetATime (Put i now d f).1 d = (now, none) ∧
    GetResponseFile (Put i now d f).1 d = (none, none) ∧
    GetDatafile (Put i now d f).1 d = (f, none) ∧
    GetDataRef (Put i now d f).1 f = d ∧
    (∀ d', d' ≠ d →
      mapGet (Put i now d f).1.meta d' = mapGet i.meta d' ∧
      mapGet (Put i now d f).1.store d' = mapGet i.store d') ∧
    (∀ f', f' ≠ f → mapGet (Put i now d f).1.dataref f' = mapGet i.dataref f') := by
  rw [Put_ok_of_nonempty i now d f hd hf]
  simp only [hm, hs, hr]
  refine ⟨trivial, mapGet_mapSet_self _ _ _, ?_, ?_, ?_, ?_, ?_, ?_, ?_, ?_, ?_⟩
  · simp [GetStatus, mapGet_mapSet_self, STATUS_NOT_FOUND]
  · simp [GetWorker, mapGet_mapSet_self, NO_WORKER]
  · simp [GetCTime, mapGet_mapSet_self]
  · simp [GetATime, mapGet_mapSet_self]
  · simp [GetResponseFile, mapGet_mapSet_self]
  · simp [GetDatafile, mapGet_mapSet_self]
  · simp [GetDataRef, mapGet_mapSet_self]
  · intro d' hne
    exact ⟨mapGet_mapSet_ne _ _ hne, mapGet_mapSet_ne _ _ hne⟩
  · intro f' hne
    exact mapGet_mapSet_ne _ _ hne

/-- C8: `Put` is idempotent: on every index and for non-empty `d` and `f`, a
second `Put(d, f)` at any time succeeds and returns the index exactly as the
first call left it (all rows, so also the status, writer, ctime, atime and
response file of `d`). -/
theorem Put_idempotent (i : MemoryIndex) (now1 now2 : Int) (d f : String)
    (hd : d ≠ "") (hf : f ≠ "") :
    Put (Put i now1 d f).1 now2 d f = ((Put i now1 d f).1, none) := by
  apply Put_present _ now2 d f hd hf
  · rw [Put_ok_of_nonempty i now1 d f hd hf]
    cases h : mapGet i.meta d with
    | none => simp [mapGet_mapSet_self]
    | some m => simp [h]
  · rw [Put_ok_of_nonempty i now1 d f hd hf]
    cases h : mapGet i.store d with
    | none => simp [mapGet_mapSet_self]
    | some m => simp [h]
  · rw [Put_ok_of_nonempty i now1 d f hd hf]
    cases h : mapGet i.dataref f with
    | none => simp [mapGet_mapSet_self]
    | some m => simp [h]

/-- C10: on an index that holds `d` with writer `data.WorkerID`,
`SetWorker(d, id, false)` succeeds and leaves the writer `id` when the writer
was NO_WORKER and leaves the whole index untouched otherwise;
`SetWorker(d, id, true)` succeeds and sets the writer to `id`; in both cases
the other fields of `d`, the other entries, store and dataref are unchanged. -/
theorem SetWorker_spec (i : MemoryIndex) (d : String) (id : Int) (data : CacheKeyMetadata)
    (h : mapGet i.meta d = some data) :
    (SetWorker i d id false).2 = none ∧
    GetWorker (SetWorker i d id false).1 d =
      (if data.WorkerID = NO_WORKER then id else data.WorkerID) ∧
    (data.WorkerID ≠ NO_WORKER → (SetWorker i d id false).1 = i) ∧
    (SetWorker i d id true).2 = none ∧
    GetWorker (SetWorker i d id true).1 d = id ∧
    (∀ force : Bool,
      mapGet (SetWorker i d id force).1.meta d =
        some { data with WorkerID := GetWorker (SetWorker i d id force).1 d } ∧
      (∀ d', d' ≠ d → mapGet (SetWorker i d id force).1.meta d' = mapGet i.meta d') ∧
      (SetWorker i d id force).1.store = i.store ∧
      (SetWorker i d id force).1.dataref = i.dataref) := by
  have key : ∀ force : Bool, force = true ∨ data.WorkerID = NO_WORKER →
      SetWorker i d id force =
        ({ i with meta := mapModify i.meta d (fun x => { x with WorkerID := id }) }, none) := by
    intro force hc
    simp [SetWorker, h, hc]
  have keep : ¬ data.WorkerID = NO_WORKER → SetWorker i d id false = (i, none) := by
    intro hc
    simp [SetWorker, h, hc]
  refine ⟨?_, ?_, ?_, ?_, ?_, ?_⟩
  · by_cases hc : data.WorkerID = NO_WORKER
    · rw [key false (Or.inr hc)]
    · rw [keep hc]
  · by_cases hc : data.WorkerID = NO_WORKER
    · rw [key false (Or.inr hc)]
      simp [GetWorker, mapGet_mapModify_self, h, hc]
    · rw [keep hc]
      simp [GetWorker, h, hc]
  · intro hc
    rw [keep hc]
  · rw [key true (Or.inl rfl)]
  · rw [key true (Or.inl rfl)]
    simp [GetWorker, mapGet_mapModify_self, h]
  · intro force
    by_cases hc : force = true ∨ data.WorkerID = NO_WORKER
    · rw [key force hc]
      refine ⟨?_, fun d' hne => mapGet_mapModify_ne _ _ hne, rfl, rfl⟩
      simp [GetWorker, mapGet_mapModify_self, h]
    · have hf : force = false := by
        cases force
        · rfl
        · exact absurd (Or.inl rfl) hc
      subst hf
      rw [keep (fun e => hc (Or.inr e))]
      refine ⟨?_, fun _ _ => rfl, rfl, rfl⟩
      simp [GetWorker, h]

/-! ## Invariants of the three maps -/

theorem mapGet_mapDel_isSome {β γ : Type} (m : List (String × β)) (n : List (String × γ))
    (k x : String) (h : (mapGet m x).isSome = (mapGet n x).isSome) :
    (mapGet (mapDel m k) x).isSome = (mapGet (mapDel n k) x).isSome := by
  by_cases hx : x = k
  · subst hx
    rw [mapGet_mapDel_self, mapGet_mapDel_self]
    rfl
  · rw [mapGet_mapDel_ne m hx, mapGet_mapDel_ne n hx, h]

theorem setter_store_dataref (i : MemoryIndex) (op : IndexOp)
    (hp : ∀ now d f, op ≠ .put now d f) (hd : ∀ d, op ≠ .delete d) :
    (applyOp i op).store = i.store ∧ (applyOp i op).dataref = i.dataref ∧
    ∀ x, (mapGet (applyOp i op).meta x).isSome = (mapGet i.meta x).isSome := by
  cases op with
  | put now d f => exact absurd rfl (hp now d f)
  | delete d => exact absurd rfl (hd d)
  | setStatus d st =>
    simp only [applyOp, SetStatus]
    cases h : mapGet i.meta d with
    | none => exact ⟨rfl, rfl, fun _ => rfl⟩
    | some m => exact ⟨rfl, rfl, fun x => mapGet_mapModify_isSome _ _ _ _⟩
  | setResponseFile d rf =>
    simp only [applyOp, SetResponseFile]
    cases h : mapGet i.meta d with
    | none => exact ⟨rfl, rfl, fun _ => rfl⟩
    | some m => exact ⟨rfl, rfl, fun x => mapGet_mapModify_isSome _ _ _ _⟩
  | setATime now d =>
    simp only [applyOp, SetATime]
    cases h : mapGet i.meta d with
    | none => exact ⟨rfl, rfl, fun _ => rfl⟩
    | some m => exact ⟨rfl, rfl, fun x => mapGet_mapModify_isSome _ _ _ _⟩
  | setWorker d id force =>
    simp only [applyOp, SetWorker]
    cases h : mapGet i.meta d with
    | none => exact ⟨rfl, rfl, fun _ => rfl⟩
    | some m =>
      simp only
      split_ifs
      · exact ⟨rfl, rfl, fun x => mapGet_mapModify_isSome _ _ _ _⟩
      · exact ⟨rfl, rfl, fun _ => rfl⟩

theorem Put_unchanged_of_empty (i : MemoryIndex) (now : Int) (d f : String)
    (h : d = "" ∨ f = "") : (Put i now d f).1 = i := by
  simp [Put, h]

theorem KeysAgree_Put (i : MemoryIndex) (now : Int) (d f : String) (h : KeysAgree i) :
    KeysAgree (Put i now d f).1 := by
  by_cases he : d = "" ∨ f = ""
  · rw [Put_unchanged_of_empty i now d f he]
    exact h
  · have hd : d ≠ "" := fun e => he (Or.inl e)
    have hf : f ≠ "" := fun e => he (Or.inr e)
    rw [Put_ok_of_nonempty i now d f hd hf]
    intro x
    have hx := h x
    have hdd := h d
    by_cases hxd : x = d
    · subst hxd
      cases hs : mapGet i.store x <;> cases hm : mapGet i.meta x <;>
        simp [hs, hm, mapGet_mapSet_self] at hdd ⊢
    · cases hs : mapGet i.store d <;> cases hm : mapGet i.meta d <;>
        simp [mapGet_mapSet_ne _ _ hxd, hx]

theorem KeysAgree_Delete (i : MemoryIndex) (d : String) (h : KeysAgree i) :
    KeysAgree (Delete i d) := by
  intro x
  exact mapGet_mapDel_isSome _ _ _ _ (h x)

theorem KeysAgree_applyOp (i : MemoryIndex) (op : IndexOp) (h : KeysAgree i) :
    KeysAgree (applyOp i op) := by
  by_cases hp : ∃ now d f, op = .put now d f
  · obtain ⟨now, d, f, rfl⟩ := hp
    exact KeysAgree_Put i now d f h
  · by_cases hd : ∃ d, op = .delete d
    · obtain ⟨d, rfl⟩ := hd
      exact KeysAgree_Delete i d h
    · obtain ⟨hs, _, hm⟩ := setter_store_dataref i op
        (fun now d f e => hp ⟨now, d, f, e⟩) (fun d e => hd ⟨d, e⟩)
      intro x
      rw [hs, hm x]
      exact h x

theorem KeysAgree_runOps (ops : List IndexOp) (i : MemoryIndex) (h : KeysAgree i) :
    KeysAgree (runOps i ops) := by
  induction ops generalizing i with
  | nil => exact h
  | cons op ops ih => exact ih (applyOp i op) (KeysAgree_applyOp i op h)

theorem RefForward_Put (i : MemoryIndex) (now : Int) (d f : String) (h : RefForward i)
    (hg : mapGet i.dataref f = none ∨ mapGet i.dataref f = some d) :
    RefForward (Put i now d f).1 := by
  by_cases he : d = "" ∨ f = ""
  · rw [Put_unchanged_of_empty i now d f he]
    exact h
  · have hd : d ≠ "" := fun e => he (Or.inl e)
    have hf : f ≠ "" := fun e => he (Or.inr e)
    rw [Put_ok_of_nonempty i now d f hd hf]
    intro d' f' hst
    simp only at hst ⊢
    -- the store row of d' in the old index, or the new row (d, f)
    have hold : (d' = d ∧ f' = f) ∨ mapGet i.store d' = some f' := by
      cases hs : mapGet i.store d with
      | none =>
        rw [hs] at hst
        by_cases hdd : d' = d
        · subst hdd
          rw [mapGet_mapSet_self] at hst
          exact Or.inl ⟨rfl, (Option.some.inj hst).symm⟩
        · rw [mapGet_mapSet_ne _ _ hdd] at hst
          exact Or.inr hst
      | some x =>
        rw [hs] at hst
        exact Or.inr hst
    rcases hold with ⟨rfl, rfl⟩ | hold
    · rcases hg with hg | hg
      · simp [hg, mapGet_mapSet_self]
      · simp [hg]
    · have href := h d' f' hold
      cases hr : mapGet i.dataref f with
      | none =>
        have hne : f' ≠ f := by
          intro e
          rw [e, hr] at href
          exact Option.noConfusion href
        simp only
        rw [mapGet_mapSet_ne _ _ hne]
        exact href
      | some y => exact href

theorem RefBackward_Put (i : MemoryIndex) (now : Int) (d f : String) (h : RefBackward i)
    (hg2 : mapGet i.store d = none ∨ mapGet i.store d = some f) :
    RefBackward (Put i now d f).1 := by
  by_cases he : d = "" ∨ f = ""
  · rw [Put_unchanged_of_empty i now d f he]
    exact h
  · have hd : d ≠ "" := fun e => he (Or.inl e)
    have hf : f ≠ "" := fun e => he (Or.inr e)
    rw [Put_ok_of_nonempty i now d f hd hf]
    intro d' f' hrf
    simp only at hrf ⊢
    have hold : (d' = d ∧ f' = f) ∨ mapGet i.dataref f' = some d' := by
      cases hr : mapGet i.dataref f with
      | none =>
        rw [hr] at hrf
        by_cases hff : f' = f
        · subst hff
          rw [mapGet_mapSet_self] at hrf
          exact Or.inl ⟨(Option.some.inj hrf).symm, rfl⟩
        · rw [mapGet_mapSet_ne _ _ hff] at hrf
          exact Or.inr hrf
      | some x =>
        rw [hr] at hrf
        exact Or.inr hrf
    rcases hold with ⟨rfl, rfl⟩ | hold
    · rcases hg2 with hg2 | hg2
      · simp [hg2, mapGet_mapSet_self]
      · simp [hg2]
    · have hst := h d' f' hold
      cases hs : mapGet i.store d with
      | none =>
        have hne : d' ≠ d := by
          intro e
          rw [e, hs] at hst
          exact Option.noConfusion hst
        simp only
        rw [mapGet_mapSet_ne _ _ hne]
        exact hst
      | some y => exact hst

theorem RefForward_Delete (i : MemoryIndex) (d : String) (h : RefForward i) :
    RefForward (Delete i d) := by
  intro d' f' hst
  simp only [Delete] at hst ⊢
  have hne : d' ≠ d := by
    intro e
    rw [e, mapGet_mapDel_self] at hst
    exact Option.noConfusion hst
  rw [mapGet_mapDel_ne _ hne] at hst
  have href := h d' f' hst
  cases hs : mapGet i.store d with
  | none => exact href
  | some f0 =>
    have hf : f' ≠ f0 := by
      intro e
      have h0 := h d f0 hs
      rw [← e, href] at h0
      exact hne (Option.some.inj h0)
    simp only
    rw [mapGet_mapDel_ne _ hf]
    exact href

theorem RefBackward_Delete (i : MemoryIndex) (d : String) (h : RefBackward i) :
    RefBackward (Delete i d) := by
  intro d' f' hrf
  simp only [Delete] at hrf ⊢
  cases hs : mapGet i.store d with
  | none =>
    rw [hs] at hrf
    have hst := h d' f' hrf
    have hne : d' ≠ d := by
      intro e
      rw [e, hs] at hst
      exact Option.noConfusion hst
    rw [mapGet_mapDel_ne _ hne]
    exact hst
  | some f0 =>
    rw [hs] at hrf
    simp only at hrf
    have hf : f' ≠ f0 := by
      intro e
      rw [e, mapGet_mapDel_self] at hrf
      exact Option.noConfusion hrf
    rw [mapGet_mapDel_ne _ hf] at hrf
    have hst := h d' f' hrf
    have hne : d' ≠ d := by
      intro e
      rw [e, hs] at hst
      exact hf (Option.some.inj hst).symm
    rw [mapGet_mapDel_ne _ hne]
    exact hst

theorem RefForward_applyOp (i : MemoryIndex) (op : IndexOp) (h : RefForward i)
    (hg : datafileFree i op = true) : RefForward (applyOp i op) := by
  by_cases hp : ∃ now d f, op = .put now d f
  · obtain ⟨now, d, f, rfl⟩ := hp
    exact RefForward_Put i now d f h (by simpa [datafileFree] using hg)
  · by_cases hd : ∃ d, op = .delete d
    · obtain ⟨d, rfl⟩ := hd
      exact RefForward_Delete i d h
    · obtain ⟨hs, hr, _⟩ := setter_store_dataref i op
        (fun now d f e => hp ⟨now, d, f, e⟩) (fun d e => hd ⟨d, e⟩)
      intro d f
      rw [hs, hr]
      exact h d f

theorem RefBackward_applyOp (i : MemoryIndex) (op : IndexOp) (h : RefBackward i)
    (hg : digestFree i op = true) : RefBackward (applyOp i op) := by
  by_cases hp : ∃ now d f, op = .put now d f
  · obtain ⟨now, d, f, rfl⟩ := hp
    simp only [digestFree, decide_eq_true_eq] at hg
    exact RefBackward_Put i now d f h hg
  · by_cases hd : ∃ d, op = .delete d
    · obtain ⟨d, rfl⟩ := hd
      exact RefBackward_Delete i d h
    · obtain ⟨hs, hr, _⟩ := setter_store_dataref i op
        (fun now d f e => hp ⟨now, d, f, e⟩) (fun d e => hd ⟨d, e⟩)
      intro d f
      rw [hs, hr]
      exact h d f

theorem RefForward_runOps (ops : List IndexOp) (i : MemoryIndex) (h : RefForward i)
    (hg : allowedRun datafileFree i ops = true) : RefForward (runOps i ops) := by
  induction ops generalizing i with
  | nil => exact h
  | cons op ops ih =>
    simp only [allowedRun, Bool.and_eq_true] at hg
    exact ih (applyOp i op) (RefForward_applyOp i op h hg.1) hg.2

theorem RefBackward_runOps (ops : List IndexOp) (i : MemoryIndex) (h : RefBackward i)
    (hg : allowedRun digestFree i ops = true) : RefBackward (runOps i ops) := by
  induction ops generalizing i with
  | nil => exact h
  | cons op ops ih =>
    simp only [allowedRun, Bool.and_eq_true] at hg
    exact ih (applyOp i op) (RefBackward_applyOp i op h hg.1) hg.2

/-! ## The claims on the index -/

theorem Put_fresh_witness :
    ("key" ≠ "" ∧ "datafile" ≠ "" ∧ mapGet NewMemoryIndex.meta "key" = none) ∧
    GetStatus (Put NewMemoryIndex 1700000000 "key" "datafile").1 "key" = -1 ∧
    GetDatafile (Put NewMemoryIndex 1700000000 "key" "datafile").1 "key" = ("datafile", none) ∧
    GetDataRef (Put NewMemoryIndex 1700000000 "key" "datafile").1 "datafile" = "key" :=
  have h := Put_fresh NewMemoryIndex 1700000000 "key" "datafile"
    (by decide) (by decide) rfl rfl rfl
  ⟨⟨by decide, by decide, rfl⟩, h.2.2.1, h.2.2.2.2.2.2.2.1, h.2.2.2.2.2.2.2.2.1⟩

theorem Put_idempotent_witness :
    "key" ≠ "" ∧ "datafile" ≠ "" ∧
    Put (Put NewMemoryIndex 10 "key" "datafile").1 20 "key" "datafile" =
      ((Put NewMemoryIndex 10 "key" "datafile").1, none) :=
  ⟨by decide, by decide,
   Put_idempotent NewMemoryIndex 10 20 "key" "datafile" (by decide) (by decide)⟩

theorem SetWorker_spec_witness :
    GetWorker (SetWorker (Put NewMemoryIndex 10 "key" "datafile").1 "key" 11 false).1 "key" = 11 ∧
    GetWorker (SetWorker (Put NewMemoryIndex 10 "key" "datafile").1 "key" 11 true).1 "key" = 11 :=
  have h := SetWorker_spec (Put NewMemoryIndex 10 "key" "datafile").1 "key" 11
    { Status := -1, WorkerID := -1, ResponseFile := none, Atime := 10, Ctime := 10 }
    (by decide)
  ⟨h.2.1, h.2.2.2.2.1⟩

/-- C2 as stated fails: after `Put("d1", "f")` and `Put("d2", "f")` the digest
`d2` is stored under `f` while `dataref["f"]` is `d1`, so the row of `d2` has
no back reference and the two digests share a datafile. -/
theorem shared_datafile_breaks_reference :
    ¬ (∀ d f,
        mapGet (runOps NewMemoryIndex [.put 0 "d1" "f", .put 0 "d2" "f"]).store d = some f →
        mapGet (runOps NewMemoryIndex [.put 0 "d1" "f", .put 0 "d2" "f"]).dataref f = some d) := by
  intro h
  exact absurd (h "d2" "f" (by decide)) (by decide)

/-- C2, amended: in every index state reached from `NewMemoryIndex` by a
sequence of Put, Delete, SetStatus, SetResponseFile, SetATime and SetWorker
calls, a digest has a store row iff it has a meta row; and when every
`Put(d, f)` of the sequence is issued while `f` is not the dataref row of a
different digest, `store[d] = f` implies `dataref[f] = d`, so that two digests
never share a datafile. -/
theorem index_rows_coexist (ops : List IndexOp) :
    (∀ d, (mapGet (runOps NewMemoryIndex ops).store d).isSome ↔
          (mapGet (runOps NewMemoryIndex ops).meta d).isSome) ∧
    (allowedRun datafileFree NewMemoryIndex ops = true →
      (∀ d f, mapGet (runOps NewMemoryIndex ops).store d = some f →
              mapGet (runOps NewMemoryIndex ops).dataref f = some d) ∧
      (∀ d1 d2 f, mapGet (runOps NewMemoryIndex ops).store d1 = some f →
                  mapGet (runOps NewMemoryIndex ops).store d2 = some f → d1 = d2)) := by
  refine ⟨fun d => ?_, fun hg => ?_⟩
  · have h := KeysAgree_runOps ops NewMemoryIndex (fun _ => rfl) d
    rw [h]
  · have h : RefForward (runOps NewMemoryIndex ops) :=
      RefForward_runOps ops NewMemoryIndex (fun _ _ hst => Option.noConfusion hst) hg
    refine ⟨h, fun d1 d2 f h1 h2 => ?_⟩
    have e1 := h d1 f h1
    have e2 := h d2 f h2
    rw [e1] at e2
    exact Option.some.inj e2

theorem index_rows_coexist_witness :
    allowedRun datafileFree NewMemoryIndex
      [.put 5 "d1" "f1", .put 6 "d2" "f2", .setStatus "d1" 2, .delete "d2",
       .put 7 "d2" "f2"] = true ∧
    (∀ d f,
      mapGet (runOps NewMemoryIndex
        [.put 5 "d1" "f1", .put 6 "d2" "f2", .setStatus "d1" 2, .delete "d2",
         .put 7 "d2" "f2"]).store d = some f →
      mapGet (runOps NewMemoryIndex
        [.put 5 "d1" "f1", .put 6 "d2" "f2", .setStatus "d1" 2, .delete "d2",
         .put 7 "d2" "f2"]).dataref f = some d) :=
  ⟨by decide,
   ((index_rows_coexist
      [.put 5 "d1" "f1", .put 6 "d2" "f2", .setStatus "d1" 2, .delete "d2",
       .put 7 "d2" "f2"]).2 (by decide)).1⟩

/-- C9 as stated fails: after `Put("d", "f1")` and `Put("d", "f2")`, a
reachable state, `Delete("d")` leaves the dataref row `f2 ↦ d` behind. -/
theorem Delete_leaves_dangling_dataref :
    mapGet (Delete (runOps NewMemoryIndex [.put 0 "d" "f1", .put 0 "d" "f2"]) "d").dataref "f2"
      = some "d" := by
  decide

/-- C9, amended: in every state reached from `NewMemoryIndex`, after
`Delete(d)` the digest `d` is a key of neither meta nor store, and `Delete(d)`
on a state without an entry for `d` leaves the index unchanged; no dataref row
maps to `d` after `Delete(d)` exactly when, before the call, every dataref row
that maps to `d` is the row of the datafile stored for `d`, and that is the
case whenever every `Put(d, f)` of the sequence was issued while `d` was not
stored under another datafile. -/
theorem Delete_removes_rows (ops : List IndexOp) (d : String) :
    mapGet (Delete (runOps NewMemoryIndex ops) d).meta d = none ∧
    mapGet (Delete (runOps NewMemoryIndex ops) d).store d = none ∧
    (mapGet (runOps NewMemoryIndex ops).meta d = none →
      Delete (runOps NewMemoryIndex ops) d = runOps NewMemoryIndex ops) ∧
    ((∀ f, mapGet (Delete (runOps NewMemoryIndex ops) d).dataref f ≠ some d) ↔
      (∀ f, mapGet (runOps NewMemoryIndex ops).dataref f = some d →
            mapGet (runOps NewMemoryIndex ops).store d = some f)) ∧
    (allowedRun digestFree NewMemoryIndex ops = true →
      ∀ f, mapGet (Delete (runOps NewMemoryIndex ops) d).dataref f ≠ some d) := by
  refine ⟨mapGet_mapDel_self _ _, mapGet_mapDel_self _ _, fun hm => ?_, ⟨fun h f hf => ?_,
    fun h f hf => ?_⟩, fun hg f hf => ?_⟩
  · have hk := KeysAgree_runOps ops NewMemoryIndex (fun _ => rfl) d
    rw [hm] at hk
    have hs : mapGet (runOps NewMemoryIndex ops).store d = none := by
      cases h : mapGet (runOps NewMemoryIndex ops).store d with
      | none => rfl
      | some x => rw [h] at hk; exact Bool.noConfusion hk
    simp only [Delete, hs, mapDel_absent _ _ hs, mapDel_absent _ _ hm]
  · have hnot := h f
    simp only [Delete] at hnot
    cases hs : mapGet (runOps NewMemoryIndex ops).store d with
    | none =>
      rw [hs] at hnot
      exact absurd hf hnot
    | some f0 =>
      rw [hs] at hnot
      simp only at hnot
      by_cases e : f = f0
      · rw [e]
      · rw [mapGet_mapDel_ne _ e] at hnot
        exact absurd hf hnot
  · simp only [Delete] at hf
    cases hs : mapGet (runOps NewMemoryIndex ops).store d with
    | none =>
      rw [hs] at hf
      have hst := h f hf
      rw [hs] at hst
      exact Option.noConfusion hst
    | some f0 =>
      rw [hs] at hf
      simp only at hf
      have e : f ≠ f0 := by
        intro e
        rw [e, mapGet_mapDel_self] at hf
        exact Option.noConfusion hf
      rw [mapGet_mapDel_ne _ e] at hf
      have hst := h f hf
      rw [hs] at hst
      exact e (Option.some.inj hst).symm
  · have hb : RefBackward (Delete (runOps NewMemoryIndex ops) d) :=
      RefBackward_Delete _ d
        (RefBackward_runOps ops NewMemoryIndex (fun _ _ hst => Option.noConfusion hst) hg)
    have hst := hb d f hf
    simp only [Delete] at hst
    rw [mapGet_mapDel_self] at hst
    exact Option.noConfusion hst

theorem Delete_removes_rows_witness :
    allowedRun digestFree NewMemoryIndex
      [.put 5 "key" "datafile", .put 6 "other" "datafile", .setWorker "key" 3 false]
      = true ∧
    ∀ f, mapGet (Delete (runOps NewMemoryIndex
          [.put 5 "key" "datafile", .put 6 "other" "datafile",
           .setWorker "key" 3 false]) "key").dataref f ≠ some "key" :=
  ⟨by decide,
   (Delete_removes_rows
      [.put 5 "key" "datafile", .put 6 "other" "datafile", .setWorker "key" 3 false]
      "key").2.2.2.2 (by decide)⟩

/-! ## filepath.Clean keeps the suffix of the last element -/

theorem splitSlash_noslash (s : List Char) (hs : '/' ∉ s) : splitSlash s = [s] := by
  induction s with
  | nil => rfl
  | cons c cs ih =>
    have hc : c ≠ '/' := fun e => hs (e ▸ List.mem_cons_self _ _)
    have hcs : '/' ∉ cs := fun h => hs (List.mem_cons_of_mem _ h)
    simp [splitSlash, hc, ih hcs]

theorem splitSlash_append (q s : List Char) (hs : '/' ∉ s) :
    ∃ init l, splitSlash q = init ++ [l] ∧ splitSlash (q ++ s) = init ++ [l ++ s] := by
  induction q with
  | nil => exact ⟨[], [], rfl, by simpa using splitSlash_noslash s hs⟩
  | cons c cs ih =>
    obtain ⟨init, l, h1, h2⟩ := ih
    by_cases hc : c = '/'
    · exact ⟨[] :: init, l, by simp [splitSlash, hc, h1], by simp [splitSlash, hc, h2]⟩
    · cases init with
      | nil =>
        exact ⟨[], c :: l, by simp [splitSlash, hc, h1], by
          rw [List.cons_append]
          simp only [splitSlash, hc, if_false, h2]
          rfl⟩
      | cons i0 it =>
        exact ⟨(c :: i0) :: it, l, by simp [splitSlash, hc, h1], by
          rw [List.cons_append]
          simp only [splitSlash, hc, if_false, h2]
          rfl⟩

theorem cleanStep_real (rooted : Bool) (out : List (List Char)) (e : List Char)
    (h : 3 ≤ e.length) : cleanStep rooted out e = out ++ [e] := by
  have h1 : ¬ (e = [] ∨ e = ['.']) := by
    rintro (rfl | rfl) <;> simp at h
  have h2 : ¬ e = ['.', '.'] := by
    rintro rfl
    simp at h
  simp [cleanStep, h1, h2]

theorem intercalate_concat (sep : List Char) (ys : List (List Char)) (e : List Char) :
    ∃ pre, List.intercalate sep (ys ++ [e]) = pre ++ e := by
  induction ys with
  | nil => exact ⟨[], by simp [List.intercalate]⟩
  | cons y ys ih =>
    obtain ⟨pre, hp⟩ := ih
    cases ys with
    | nil => exact ⟨y ++ sep, by simp [List.intercalate, List.intersperse]⟩
    | cons z zs =>
      refine ⟨y ++ sep ++ pre, ?_⟩
      rw [List.cons_append] at hp
      rw [List.cons_append, List.cons_append]
      simp only [List.intercalate, List.intersperse, List.flatten_cons] at hp ⊢
      rw [hp]
      simp

theorem Clean_suffix (p : String) (s : List Char) (q : List Char)
    (hp : p.data = q ++ s) (hs : '/' ∉ s) (hl : 3 ≤ s.length) :
    ∃ pre : String, Clean p = pre ++ String.mk s := by
  obtain ⟨init, l, _, h2⟩ := splitSlash_append q s hs
  have hreal : 3 ≤ (l ++ s).length := by simp; omega
  unfold Clean
  cases hd : p.data with
  | nil =>
    rw [hd] at hp
    have : s = [] := (List.append_eq_nil.mp hp.symm).2
    subst this
    simp at hl
  | cons c cs =>
    simp only
    have hsplit : splitSlash (c :: cs) = init ++ [l ++ s] := by rw [← hd, hp, h2]
    rw [hsplit, List.foldl_append]
    simp only [List.foldl_cons, List.foldl_nil, cleanStep_real _ _ _ hreal]
    obtain ⟨pre, hpre⟩ := intercalate_concat ['/']
      (List.foldl (cleanStep (decide (c = '/'))) [] init) (l ++ s)
    rw [hpre]
    split_ifs with h1 h2
    · exact ⟨"/" ++ String.mk (pre ++ l), by
        apply String.ext; simp⟩
    · simp at h2
    · exact ⟨String.mk (pre ++ l), by apply String.ext; simp⟩

/-- A joined path whose last element carries a suffix ends with that suffix. -/
theorem filepathJoin_suffix (a g suffix : String) (hs : '/' ∉ suffix.data)
    (hl : 3 ≤ suffix.data.length) :
    ∃ pre : String, filepathJoin a (g ++ suffix) = pre ++ suffix := by
  unfold filepathJoin
  split_ifs with h1 h2
  · exact Clean_suffix (a ++ "/" ++ (g ++ suffix)) suffix.data (a.data ++ ['/'] ++ g.data)
      (by simp) hs hl
  · exact Clean_suffix (g ++ suffix) suffix.data g.data (by simp) hs hl
  · exfalso
    have hd : (g ++ suffix).data = ("" : String).data := by rw [not_not.mp h2]
    simp only [String.data_append] at hd
    have : suffix.data = [] := (List.append_eq_nil.mp hd).2
    rw [this] at hl
    simp at hl

/-! ## The cache decision of NewCacheRequest -/

theorem matchAt_nonempty (lit rest : List Char) (n : Nat) (grp : List Char)
    (h : matchAt lit rest n = some grp) : grp ≠ [] := by
  unfold matchAt at h
  simp only at h
  split_ifs at h with hc
  have hg := Option.some.inj h
  simp only [Bool.and_eq_true, Bool.not_eq_true', List.isEmpty_eq_false] at hc
  rw [← hg]
  exact hc.1.2

/-- A match of `^/.*L(.+)$` returns the text and a non-empty capture. -/
theorem FindStringSubmatch_some (re : PathRegex) (s : String) (gs : List String)
    (h : FindStringSubmatch re s = some gs) : ∃ g, gs = [s, g] ∧ g ≠ "" := by
  unfold FindStringSubmatch at h
  cases hs : s.data with
  | nil => rw [hs] at h; exact Option.noConfusion h
  | cons c rest =>
    rw [hs] at h
    simp only at h
    split_ifs at h with hc
    cases hf : (List.range (rest.length + 1)).reverse.findSome?
        (matchAt re.literal.data rest) with
    | none => rw [hf] at h; exact Option.noConfusion h
    | some grp =>
      rw [hf] at h
      obtain ⟨n, _, hn⟩ := List.exists_of_findSome?_eq_some hf
      refine ⟨String.mk grp, (Option.some.inj h).symm, ?_⟩
      intro e
      have hd : (String.mk grp).data = ("" : String).data := by rw [e]
      exact matchAt_nonempty _ _ _ _ hn hd

theorem cacheRequestBlock_skip (re : PathRegex) (suffix itemType : String) (r : Request)
    (dataPath : String) (cr : CacheRequest)
    (h : ¬ (MatchString re r.Path = true ∧ r.Method = MethodGet)) :
    cacheRequestBlock re suffix itemType r dataPath cr = Sum.inr cr := by
  unfold cacheRequestBlock
  rw [if_neg]
  simpa using h

theorem cacheRequestBlock_fill (re : PathRegex) (suffix itemType : String) (r : Request)
    (dataPath : String) (cr : CacheRequest) (g : String)
    (hm : FindStringSubmatch re r.Path = some [r.Path, g]) (hg : r.Method = MethodGet) :
    cacheRequestBlock re suffix itemType r dataPath cr =
      Sum.inr
        { cr with
          CacheEnabled := true
          DataFile := filepathJoin dataPath (g ++ suffix)
          AuthKey := ComputeAuthKey r.Authorization
          CacheKey := g
          ResponseFilePath := ComputeResponseFilePath (filepathJoin dataPath (g ++ suffix))
          ItemType := itemType } := by
  obtain ⟨g', hgs, hne⟩ := FindStringSubmatch_some re r.Path _ hm
  have hgg : g' = g := by
    have := List.cons.inj hgs
    exact (List.cons.inj this.2).1.symm
  subst hgg
  unfold cacheRequestBlock
  simp [MatchString, hm, hg, ComputeDataFile, hne]

theorem MatchString_true_iff (re : PathRegex) (s : String) :
    MatchString re s = true ↔ ∃ g, FindStringSubmatch re s = some [s, g] := by
  unfold MatchString
  constructor
  · intro h
    obtain ⟨gs, hgs⟩ := Option.isSome_iff_exists.mp h
    obtain ⟨g, hg, _⟩ := FindStringSubmatch_some re s gs hgs
    exact ⟨g, by rw [hgs, hg]⟩
  · rintro ⟨g, hg⟩
    rw [hg]
    rfl

theorem pair_eq_capture {s g1 g2 : String} (h : some [s, g1] = some [s, g2]) : g1 = g2 :=
  (List.cons.inj (List.cons.inj (Option.some.inj h)).2).1

theorem NewCacheRequest_of_manifest (r : Request) (dataPath g : String)
    (hg : r.Method = MethodGet)
    (hm : FindStringSubmatch REGEX_MANIFEST r.Path = some [r.Path, g]) :
    (NewCacheRequest r dataPath).CacheEnabled = true ∧
    (NewCacheRequest r dataPath).CacheKey = g ∧
    (NewCacheRequest r dataPath).ItemType = "manifest" ∧
    (NewCacheRequest r dataPath).DataFile = filepathJoin dataPath (g ++ ".manifest") := by
  by_cases hl : MatchString REGEX_LAYER r.Path = true
  · obtain ⟨gl, hgl⟩ := (MatchString_true_iff _ _).mp hl
    unfold NewCacheRequest
    simp only [cacheRequestBlock_fill _ _ _ _ _ _ _ hgl hg,
      cacheRequestBlock_fill _ _ _ _ _ _ _ hm hg]
    refine ⟨?_, ?_, ?_, ?_⟩ <;> first | rfl | trivial
  · unfold NewCacheRequest
    simp only [cacheRequestBlock_skip _ _ _ _ _ _ (fun h => hl h.1),
      cacheRequestBlock_fill _ _ _ _ _ _ _ hm hg]
    refine ⟨?_, ?_, ?_, ?_⟩ <;> first | rfl | trivial

theorem NewCacheRequest_of_layer (r : Request) (dataPath g : String)
    (hg : r.Method = MethodGet)
    (hm : ¬ MatchString REGEX_MANIFEST r.Path = true)
    (hl : FindStringSubmatch REGEX_LAYER r.Path = some [r.Path, g]) :
    (NewCacheRequest r dataPath).CacheEnabled = true ∧
    (NewCacheRequest r dataPath).CacheKey = g ∧
    (NewCacheRequest r dataPath).ItemType = "layer" ∧
    (NewCacheRequest r dataPath).DataFile = filepathJoin dataPath (g ++ ".layer") := by
  unfold NewCacheRequest
  simp only [cacheRequestBlock_fill _ _ _ _ _ _ _ hl hg,
    cacheRequestBlock_skip _ _ _ _ _ _ (fun h => hm h.1)]
  refine ⟨?_, ?_, ?_, ?_⟩ <;> first | rfl | trivial

theorem NewCacheRequest_of_none (r : Request) (dataPath : String)
    (h : ¬ (r.Method = MethodGet ∧
      (MatchString REGEX_LAYER r.Path = true ∨ MatchString REGEX_MANIFEST r.Path = true))) :
    (NewCacheRequest r dataPath).CacheEnabled = false ∧
    (NewCacheRequest r dataPath).CacheKey = "" ∧
    (NewCacheRequest r dataPath).DataFile = "" := by
  unfold NewCacheRequest
  simp only [cacheRequestBlock_skip _ _ _ _ _ _ (fun hh => h ⟨hh.2, Or.inl hh.1⟩),
    cacheRequestBlock_skip _ _ _ _ _ _ (fun hh => h ⟨hh.2, Or.inr hh.1⟩)]
  refine ⟨?_, ?_, ?_⟩ <;> first | rfl | trivial

/-- C4: `NewCacheRequest` sets `CacheEnabled` if and only if the method is GET
and the URL path matches `^/.*/blobs/sha256:(.+)$` or
`^/.*/manifests/sha256:(.+)$`.  When the manifest expression matches, the
CacheKey is its capture, the ItemType is `manifest` and the DataFile is
the join of the data path and `<capture>.manifest`, a path that ends in
`.manifest`; when only the layer expression matches, the CacheKey is its
capture, the ItemType is `layer` and the DataFile is the join of the data path
and `<capture>.layer`, a path that ends in `.layer`.  When the request is not cacheable,
CacheKey and DataFile are empty. -/
theorem NewCacheRequest_cacheable (r : Request) (dataPath : String) :
    ((NewCacheRequest r dataPath).CacheEnabled = true ↔
      r.Method = "GET" ∧
        (MatchString REGEX_LAYER r.Path = true ∨ MatchString REGEX_MANIFEST r.Path = true)) ∧
    (∀ g, r.Method = "GET" →
      FindStringSubmatch REGEX_MANIFEST r.Path = some [r.Path, g] →
      (NewCacheRequest r dataPath).CacheKey = g ∧
      (NewCacheRequest r dataPath).ItemType = "manifest" ∧
      (NewCacheRequest r dataPath).DataFile = filepathJoin dataPath (g ++ ".manifest") ∧
      ∃ pre : String, (NewCacheRequest r dataPath).DataFile = pre ++ ".manifest") ∧
    (∀ g, r.Method = "GET" →
      MatchString REGEX_MANIFEST r.Path = false →
      FindStringSubmatch REGEX_LAYER r.Path = some [r.Path, g] →
      (NewCacheRequest r dataPath).CacheKey = g ∧
      (NewCacheRequest r dataPath).ItemType = "layer" ∧
      (NewCacheRequest r dataPath).DataFile = filepathJoin dataPath (g ++ ".layer") ∧
      ∃ pre : String, (NewCacheRequest r dataPath).DataFile = pre ++ ".layer") ∧
    ((NewCacheRequest r dataPath).CacheEnabled = false →
      (NewCacheRequest r dataPath).CacheKey = "" ∧
      (NewCacheRequest r dataPath).DataFile = "") := by
  by_cases hc : r.Method = MethodGet ∧
      (MatchString REGEX_LAYER r.Path = true ∨ MatchString REGEX_MANIFEST r.Path = true)
  · obtain ⟨hg, hlm⟩ := hc
    have hen : (NewCacheRequest r dataPath).CacheEnabled = true := by
      by_cases hm : MatchString REGEX_MANIFEST r.Path = true
      · obtain ⟨gm, hgm⟩ := (MatchString_true_iff _ _).mp hm
        exact (NewCacheRequest_of_manifest r dataPath gm hg hgm).1
      · obtain ⟨gl, hgl⟩ := (MatchString_true_iff _ _).mp (hlm.resolve_right hm)
        exact (NewCacheRequest_of_layer r dataPath gl hg hm hgl).1
    refine ⟨⟨fun _ => ⟨hg, hlm⟩, fun _ => hen⟩, ?_, ?_, ?_⟩
    · intro g _ hgm
      obtain ⟨_, hk, ht, hdf⟩ := NewCacheRequest_of_manifest r dataPath g hg hgm
      refine ⟨hk, ht, hdf, ?_⟩
      rw [hdf]
      exact filepathJoin_suffix dataPath g ".manifest" (by decide) (by decide)
    · intro g _ hm hgl
      obtain ⟨_, hk, ht, hdf⟩ := NewCacheRequest_of_layer r dataPath g hg (by simp [hm]) hgl
      refine ⟨hk, ht, hdf, ?_⟩
      rw [hdf]
      exact filepathJoin_suffix dataPath g ".layer" (by decide) (by decide)
    · intro h
      rw [hen] at h
      exact Bool.noConfusion h
  · obtain ⟨hen, hk, hd⟩ := NewCacheRequest_of_none r dataPath hc
    refine ⟨⟨fun h => ?_, fun h => absurd h hc⟩, ?_, ?_, fun _ => ⟨hk, hd⟩⟩
    · rw [hen] at h
      exact Bool.noConfusion h
    · intro g hg hgm
      exact absurd ⟨hg, Or.inr ((MatchString_true_iff _ _).mpr ⟨g, hgm⟩)⟩ hc
    · intro g hg _ hgl
      exact absurd ⟨hg, Or.inl ((MatchString_true_iff _ _).mpr ⟨g, hgl⟩)⟩ hc

theorem NewCacheRequest_cacheable_witness :
    (NewCacheRequest
      { Method := "GET", Path := "/v2/x/blobs/sha256:ABC", Authorization := "" }
      "/data").CacheKey = "ABC" ∧
    (NewCacheRequest
      { Method := "GET", Path := "/v2/x/blobs/sha256:ABC", Authorization := "" }
      "/data").ItemType = "layer" ∧
    (NewCacheRequest
      { Method := "GET", Path := "/v2/x/blobs/sha256:ABC", Authorization := "" }
      "/data").DataFile = filepathJoin "/data" ("ABC" ++ ".layer") :=
  have h := (NewCacheRequest_cacheable
    { Method := "GET", Path := "/v2/x/blobs/sha256:ABC", Authorization := "" }
    "/data").2.2.1 "ABC" rfl (by decide) (by decide)
  ⟨h.1, h.2.1, h.2.2.1⟩

/-- C5, the code at the failing inputs: with data path `/data`, the cacheable
path `/v2/x/blobs/sha256:../../etc/x` gets the DataFile `/etc/x.layer`, which
is not under `/data`; and the distinct digests `a/../b` and `b` get the same
DataFile `/data/b.layer`. -/
theorem DataFile_escapes_and_collides :
    (NewCacheRequest
      { Method := "GET", Path := "/v2/x/blobs/sha256:../../etc/x", Authorization := "" }
      "/data").CacheEnabled = true ∧
    (NewCacheRequest
      { Method := "GET", Path := "/v2/x/blobs/sha256:../../etc/x", Authorization := "" }
      "/data").CacheKey = "../../etc/x" ∧
    (NewCacheRequest
      { Method := "GET", Path := "/v2/x/blobs/sha256:../../etc/x", Authorization := "" }
      "/data").DataFile = "/etc/x.layer" ∧
    (NewCacheRequest
      { Method := "GET", Path := "/v2/x/blobs/sha256:a/../b", Authorization := "" }
      "/data").CacheKey = "a/../b" ∧
    (NewCacheRequest
      { Method := "GET", Path := "/v2/x/blobs/sha256:b", Authorization := "" }
      "/data").CacheKey = "b" ∧
    (NewCacheRequest
      { Method := "GET", Path := "/v2/x/blobs/sha256:a/../b", Authorization := "" }
      "/data").DataFile = "/data/b.layer" ∧
    (NewCacheRequest
      { Method := "GET", Path := "/v2/x/blobs/sha256:b", Authorization := "" }
      "/data").DataFile = "/data/b.layer" := by
  refine ⟨?_, ?_, ?_, ?_, ?_, ?_, ?_⟩ <;> decide

/-! ## The worker: traces of one iteration -/

theorem Dump_trace (env : Env) (m : GoResponseFile) (path : String) (w : World) :
    (Dump env m path w).1.trace = w.trace := by
  unfold Dump
  split_ifs <;> rfl

theorem renamePartial_trace (cr : CacheRequest) (w : World) :
    (renamePartial cr w).trace = w.trace := by
  unfold renamePartial
  split <;> rfl

theorem copyBody_trace (env : Env) (cr : CacheRequest) (c : List Nat) (w : World) :
    (copyBody env cr c w).1.trace = w.trace := by
  unfold copyBody
  split <;> rfl

theorem Create_trace (env : Env) (cr : CacheRequest) (rf : ResponseFile) (c : List Nat)
    (w : World) : (Create env cr rf c w).1.trace = w.trace ++ [Event.create cr.CacheKey] := by
  unfold Create
  simp only
  split_ifs
  · rfl
  · rfl
  · rfl
  · rfl
  · simp only [lruPushFront, copyBody_trace, Dump_trace, renamePartial_trace]
    rfl

theorem getResponseFromUpstream_trace (res : Option HttpResponse) (cr : CacheRequest)
    (b : Bool) (w : World) :
    (getResponseFromUpstream res cr b w).1.trace = w.trace ++ [Event.get b cr.Request.Path] := by
  unfold getResponseFromUpstream
  cases res <;> rfl


theorem storeFile_trace (env : Env) (id : Int) (cr : CacheRequest) (w : World) :
    ∃ evs, (storeFile env id cr w).1.trace = w.trace ++ evs ∧ ∀ e ∈ evs, isSend e = false := by
  unfold storeFile
  rcases SetWorker w.index cr.CacheKey id false with ⟨idx1, err1⟩
  simp only
  have hg := getResponseFromUpstream_trace env.getForCache cr true { w with index := idx1 }
  generalize getResponseFromUpstream env.getForCache cr true { w with index := idx1 } = g
    at hg ⊢
  obtain ⟨w2, resp, err2⟩ := g
  simp only at hg ⊢
  rcases SetStatus w2.index cr.CacheKey STATUS_IN_PROGRESS with ⟨idx3, err3⟩
  simp only
  have hc := Create_trace env cr
    (NewResponseFile resp.ContentLength resp.StatusCode resp.Header cr.CacheKey) resp.Body
    { w2 with index := idx3 }
  generalize Create env cr
    (NewResponseFile resp.ContentLength resp.StatusCode resp.Header cr.CacheKey) resp.Body
    { w2 with index := idx3 } = c at hc ⊢
  obtain ⟨w4, err4⟩ := c
  simp only at hc ⊢
  have hc2 : w4.trace = w.trace ++ [Event.get true cr.Request.Path, Event.create cr.CacheKey] := by
    rw [hc, hg, List.append_assoc]
    rfl
  have h0 : ∀ e ∈ ([] : List Event), isSend e = false := fun e he => absurd he (List.not_mem_nil e)
  have h1 : ∀ e ∈ [Event.get true cr.Request.Path], isSend e = false := by
    simp [isSend]
  have h2 : ∀ e ∈ [Event.get true cr.Request.Path, Event.create cr.CacheKey],
      isSend e = false := by
    simp [isSend]
  by_cases c1 : err1 ≠ none
  · rw [if_pos c1]
    exact ⟨[], (List.append_nil _).symm, h0⟩
  rw [if_neg c1]
  by_cases c2 : GetWorker idx1 cr.CacheKey ≠ id
  · rw [if_pos c2]
    exact ⟨[], (List.append_nil _).symm, h0⟩
  rw [if_neg c2]
  by_cases c3 : resp.StatusCode ≠ 200
  · rw [if_pos c3]
    exact ⟨_, hg, h1⟩
  rw [if_neg c3]
  by_cases c4 : err2 ≠ none
  · rw [if_pos c4]
    exact ⟨_, hg, h1⟩
  rw [if_neg c4]
  by_cases c5 : err3 ≠ none
  · rw [if_pos c5]
    exact ⟨_, hg, h1⟩
  rw [if_neg c5]
  by_cases c6 : err4 ≠ none
  · rw [if_pos c6]
    exact ⟨_, hc2, h2⟩
  rw [if_neg c6]
  by_cases c7 : (SetStatus w4.index cr.CacheKey STATUS_AVAILABLE).2 ≠ none
  · rw [if_pos c7]
    exact ⟨_, hc2, h2⟩
  rw [if_neg c7]
  exact ⟨_, hc2, h2⟩

theorem handleFromUpstream_eq (env : Env) (cr : CacheRequest) (w : World) :
    handleFromUpstream env cr w =
      { w with
        trace := w.trace ++ [Event.get false cr.Request.Path,
          Event.send cr.Request.Path ORIGIN_UPSTREAM
            (env.getDirect.getD defaultBadGatewayResponse)] } := by
  unfold handleFromUpstream getResponseFromUpstream
  cases env.getDirect <;> simp [World.log]

theorem checkPerms_eq (res : Option Int) (cr : CacheRequest) (w : World) :
    checkPerms res cr w =
      ({ w with trace := w.trace ++ [Event.head cr.CacheKey res] },
       if res = some 200 then none else some "authentication HEAD request failed") := by
  unfold checkPerms authRequest
  cases res with
  | none => simp [World.log]
  | some code =>
    by_cases h : code = 200
    · simp [World.log, h]
    · simp [World.log, h]


theorem Read_trace (env : Env) (cr : CacheRequest) (w : World) :
    (Read env cr w).1.trace = w.trace ++ [Event.read cr.CacheKey] := by
  unfold Read
  simp only
  split_ifs
  · rfl
  · rfl
  · cases mapGet (w.log (Event.read cr.CacheKey)).files cr.DataFile with
    | none => rfl
    | some file =>
      cases mapGet (w.log (Event.read cr.CacheKey)).LRUElements cr.CacheKey <;> rfl

theorem getResponseFromCache_trace (env : Env) (cr : CacheRequest) (w : World) :
    ((getResponseFromCache env cr w).2 ≠ CacheRead.fault →
      (getResponseFromCache env cr w).1.trace = w.trace ++ [Event.read cr.CacheKey]) ∧
    ((getResponseFromCache env cr w).2 = CacheRead.fault →
      (getResponseFromCache env cr w).1.trace =
        w.trace ++ [Event.read cr.CacheKey, Event.fault]) := by
  unfold getResponseFromCache
  simp only
  split
  · exact ⟨fun _ => Read_trace env cr w, fun h => CacheRead.noConfusion h⟩
  · refine ⟨fun h => absurd rfl h, fun _ => ?_⟩
    simp [World.log, Read_trace]
  · exact ⟨fun _ => Read_trace env cr w, fun h => CacheRead.noConfusion h⟩

theorem upstream_not_cache : (ORIGIN_UPSTREAM = ORIGIN_CACHE) = False := by
  simp [ORIGIN_UPSTREAM, ORIGIN_CACHE]

theorem handleFromUpstream_no_cache_send (env : Env) (cr : CacheRequest) (w : World)
    (e : Event) (he : e ∈ (handleFromUpstream env cr w).trace) (hc : isCacheSend e = true) :
    e ∈ w.trace := by
  rw [handleFromUpstream_eq] at he
  simp only [List.mem_append, List.mem_cons, List.mem_singleton, List.not_mem_nil,
    or_false] at he
  rcases he with he | he | he
  · exact he
  · subst he
    simp [isCacheSend] at hc
  · subst he
    simp [isCacheSend, upstream_not_cache] at hc

theorem runAvailable_cache_send (env : Env) (cr : CacheRequest) (w : World)
    (e : Event) (he : e ∈ (runAvailable env cr w).trace) (hc : isCacheSend e = true) :
    e ∈ w.trace ∨
    (env.headSecond = some 200 ∧
      ∃ resp, (runAvailable env cr w).trace =
        w.trace ++ [Event.head cr.CacheKey (some 200), Event.read cr.CacheKey,
          Event.send cr.Request.Path ORIGIN_CACHE resp]) := by
  unfold runAvailable at he ⊢
  rw [checkPerms_eq] at he ⊢
  by_cases h2 : env.headSecond = some 200
  · simp only [h2, if_true, ne_eq, not_true_eq_false, if_false] at he ⊢
    obtain ⟨hok, hfault⟩ := getResponseFromCache_trace env cr
      { w with trace := w.trace ++ [Event.head cr.CacheKey (some 200)] }
    cases hr : (getResponseFromCache env cr
        { w with trace := w.trace ++ [Event.head cr.CacheKey (some 200)] }).2 with
    | ok resp =>
      right
      refine ⟨trivial, resp, ?_⟩
      simp only [hr, World.log]
      rw [hok (by rw [hr]; exact fun h => CacheRead.noConfusion h)]
      simp
    | error msg =>
      left
      simp only [hr] at he
      have h1 := handleFromUpstream_no_cache_send _ _ _ e he hc
      simp only [World.log] at h1
      rw [hok (by rw [hr]; exact fun h => CacheRead.noConfusion h)] at h1
      simp only [List.mem_append, List.mem_cons, List.mem_singleton, List.not_mem_nil,
        or_false] at h1
      rcases h1 with ((h1 | h1) | h1) | h1
      · exact h1
      · subst h1; simp [isCacheSend] at hc
      · subst h1; simp [isCacheSend] at hc
      · subst h1; simp [isCacheSend] at hc
    | fault =>
      left
      simp only [hr] at he
      rw [hfault hr] at he
      simp only [List.mem_append, List.mem_cons, List.mem_singleton, List.not_mem_nil,
        or_false] at he
      rcases he with (he | he) | he | he
      · exact he
      · subst he; simp [isCacheSend] at hc
      · subst he; simp [isCacheSend] at hc
      · subst he; simp [isCacheSend] at hc
  · simp only [h2, if_false, ne_eq, not_false_eq_true, if_true] at he ⊢
    left
    have h1 := handleFromUpstream_no_cache_send _ _ _ e he hc
    simp only [List.mem_append, List.mem_singleton] at h1
    rcases h1 with h1 | h1
    · exact h1
    · subst h1; simp [isCacheSend] at hc


theorem isCacheSend_isSend (e : Event) (h : isCacheSend e = true) : isSend e = true := by
  cases e <;> simp_all [isCacheSend, isSend]

theorem mem_of_cache_send_append (tr evs : List Event) (e : Event)
    (he : e ∈ tr ++ evs) (hc : isCacheSend e = true) (hevs : ∀ x ∈ evs, isSend x = false) :
    e ∈ tr := by
  rcases List.mem_append.mp he with h | h
  · exact h
  · have := hevs e h
    rw [isCacheSend_isSend e hc] at this
    exact Bool.noConfusion this

theorem Push_trace (cr : CacheRequest) (w : World) :
    (Push cr w).trace = w.trace ++ [Event.push cr.Request.Path] := rfl

theorem runDispatch_cache_send (env : Env) (cr : CacheRequest) (st : Int) (w : World)
    (e : Event) (he : e ∈ (runDispatch env cr st w).trace) (hc : isCacheSend e = true) :
    e ∈ w.trace ∨
    (env.headSecond = some 200 ∧
      ∃ resp, (runDispatch env cr st w).trace =
        w.trace ++ [Event.head cr.CacheKey (some 200), Event.read cr.CacheKey,
          Event.send cr.Request.Path ORIGIN_CACHE resp]) := by
  unfold runDispatch at he ⊢
  split_ifs at he ⊢ with h1 h2
  · left
    rw [Push_trace] at he
    exact mem_of_cache_send_append _ _ e he hc (by simp [isSend])
  · exact runAvailable_cache_send env cr w e he hc
  · left
    exact handleFromUpstream_no_cache_send env cr w e he hc

theorem runCacheable_cache_send (env : Env) (id : Int) (cr : CacheRequest) (st : Int)
    (w : World) (e : Event) (he : e ∈ (runCacheable env id cr st w).trace)
    (hc : isCacheSend e = true) :
    e ∈ w.trace ∨
    (env.headSecond = some 200 ∧
      ∃ pre resp, (runCacheable env id cr st w).trace =
        pre ++ [Event.head cr.CacheKey (some 200), Event.read cr.CacheKey,
          Event.send cr.Request.Path ORIGIN_CACHE resp]) := by
  revert he
  unfold runCacheable
  by_cases hst : st = STATUS_NOT_FOUND
  · simp only [hst, if_true, checkPerms_eq]
    -- the events before the dispatch are no replies
    have hhead : ∀ x ∈ [Event.head cr.CacheKey env.headFirst], isSend x = false := by
      simp [isSend]
    obtain ⟨evs, htr, hevs⟩ := storeFile_trace env id cr
      { w with
        trace := w.trace ++ [Event.head cr.CacheKey env.headFirst]
        index := (Put w.index env.nowPut cr.CacheKey cr.DataFile).1 }
    have back : ∀ x, x ∈ (storeFile env id cr
        { w with
          trace := w.trace ++ [Event.head cr.CacheKey env.headFirst]
          index := (Put w.index env.nowPut cr.CacheKey cr.DataFile).1 }).1.trace →
        isCacheSend x = true → x ∈ w.trace := by
      intro x hx hxc
      rw [htr] at hx
      have h1 := mem_of_cache_send_append _ _ x hx hxc hevs
      exact mem_of_cache_send_append _ _ x h1 hxc hhead
    by_cases h200 : env.headFirst = some 200
    · simp only [h200, if_true, ne_eq, not_true_eq_false, if_false]
      rw [h200] at back
      by_cases h2 : (Put w.index env.nowPut cr.CacheKey cr.DataFile).2 = none
      · simp only [h2, not_true_eq_false, if_false]
        by_cases h3 : (storeFile env id cr
            { w with
              trace := w.trace ++ [Event.head cr.CacheKey (some 200)]
              index := (Put w.index env.nowPut cr.CacheKey cr.DataFile).1 }).2 = none
        · simp only [h3, not_true_eq_false, if_false]
          split_ifs with h4
          · intro he
            rcases runDispatch_cache_send env cr _ _ e he hc with h | ⟨h200, resp, hresp⟩
            · left
              exact back e h hc
            · right
              exact ⟨h200, _, resp, hresp⟩
          · intro he
            left
            rw [Push_trace] at he
            have h := mem_of_cache_send_append _ _ e he hc (by simp [isSend])
            exact back e h hc
        · simp only [h3, not_false_eq_true, if_true]
          intro he
          left
          have h := handleFromUpstream_no_cache_send _ _ _ e he hc
          exact back e h hc
      · simp only [h2, not_false_eq_true, if_true]
        intro he
        left
        have h := handleFromUpstream_no_cache_send _ _ _ e he hc
        rw [← h200] at h
        exact mem_of_cache_send_append _ _ e h hc hhead
    · simp only [h200, if_false, ne_eq, reduceCtorEq, not_false_eq_true, if_true]
      intro he
      left
      have h := handleFromUpstream_no_cache_send _ _ _ e he hc
      exact mem_of_cache_send_append _ _ e h hc hhead
  · simp only [hst, if_false]
    intro he
    rcases runDispatch_cache_send env cr st w e he hc with h | ⟨h200, resp, hresp⟩
    · left
      exact h
    · right
      exact ⟨h200, _, resp, hresp⟩

/-- C3: one iteration of the worker loop on a cacheable request whose HEAD
probes are denied (no 200, or a transport error) leaves the index, the files
and the LRU list as they were and adds no reply with origin cache; it re-enqueues
the request without a probe when the status is InProgress, and otherwise
replies with origin upstream after at most one denied probe.  For every
iteration, a reply with origin cache comes directly after a HEAD probe of the
request that returned 200 and the read of the cache. -/
theorem Run_probe_denied (env : Env) (id : Int) (cr : CacheRequest) (w : World) :
    (cr.CacheEnabled = true → env.headFirst ≠ some 200 → env.headSecond ≠ some 200 →
      (Run env id cr w).index = w.index ∧
      (Run env id cr w).files = w.files ∧
      (Run env id cr w).LRUQueue = w.LRUQueue ∧
      (∀ e ∈ (Run env id cr w).trace, isCacheSend e = true → e ∈ w.trace) ∧
      (GetStatus w.index cr.CacheKey = STATUS_IN_PROGRESS →
        (Run env id cr w).queue = w.queue ++ [cr] ∧
        (Run env id cr w).trace = w.trace ++ [Event.push cr.Request.Path]) ∧
      (GetStatus w.index cr.CacheKey ≠ STATUS_IN_PROGRESS →
        (Run env id cr w).queue = w.queue ∧
        ∃ probes,
          (∀ x ∈ probes, ∃ code, x = Event.head cr.CacheKey code ∧ code ≠ some 200) ∧
          (Run env id cr w).trace =
            w.trace ++ probes ++
              [Event.get false cr.Request.Path,
               Event.send cr.Request.Path ORIGIN_UPSTREAM
                 (env.getDirect.getD defaultBadGatewayResponse)])) ∧
    (∀ e ∈ (Run env id cr w).trace, isCacheSend e = true →
      e ∈ w.trace ∨
      (env.headSecond = some 200 ∧
        ∃ pre resp, (Run env id cr w).trace =
          pre ++ [Event.head cr.CacheKey (some 200), Event.read cr.CacheKey,
            Event.send cr.Request.Path ORIGIN_CACHE resp])) := by
  constructor
  · intro hen h1 h2
    have hcs : ∀ e ∈ (Run env id cr w).trace, isCacheSend e = true → e ∈ w.trace := by
      intro e he hc
      unfold Run at he
      rw [if_pos hen] at he
      rcases runCacheable_cache_send env id cr _ w e he hc with h | ⟨h200, _⟩
      · exact h
      · exact absurd h200 h2
    have key : Run env id cr w =
        (if GetStatus w.index cr.CacheKey = STATUS_NOT_FOUND then
          { w with
            trace := w.trace ++ [Event.head cr.CacheKey env.headFirst] ++
              [Event.get false cr.Request.Path,
               Event.send cr.Request.Path ORIGIN_UPSTREAM
                 (env.getDirect.getD defaultBadGatewayResponse)] }
        else if GetStatus w.index cr.CacheKey = STATUS_IN_PROGRESS then Push cr w
        else if GetStatus w.index cr.CacheKey = STATUS_AVAILABLE then
          { w with
            trace := w.trace ++ [Event.head cr.CacheKey env.headSecond] ++
              [Event.get false cr.Request.Path,
               Event.send cr.Request.Path ORIGIN_UPSTREAM
                 (env.getDirect.getD defaultBadGatewayResponse)] }
        else
          { w with
            trace := w.trace ++
              [Event.get false cr.Request.Path,
               Event.send cr.Request.Path ORIGIN_UPSTREAM
                 (env.getDirect.getD defaultBadGatewayResponse)] }) := by
      unfold Run runCacheable runDispatch runAvailable
      simp only [hen, if_true, checkPerms_eq, handleFromUpstream_eq, h1, h2, if_false,
        ne_eq, not_false_eq_true, reduceCtorEq]
    refine ⟨?_, ?_, ?_, hcs, ?_, ?_⟩
    all_goals rw [key]
    · split_ifs <;> rfl
    · split_ifs <;> rfl
    · split_ifs <;> rfl
    · intro hst
      have hnf : ¬ (STATUS_IN_PROGRESS = STATUS_NOT_FOUND) := by decide
      simp [hst, hnf, Push, World.log]
    · intro hst
      split_ifs with ha hb
      · exact ⟨rfl, [Event.head cr.CacheKey env.headFirst],
          by simpa using h1, by simp⟩
      · exact ⟨rfl, [Event.head cr.CacheKey env.headSecond],
          by simpa using h2, by simp⟩
      · exact ⟨rfl, [], by simp, by simp⟩
  · intro e he hc
    unfold Run at he ⊢
    by_cases hen : cr.CacheEnabled = true
    · simp only [hen, if_true] at he ⊢
      exact runCacheable_cache_send env id cr _ w e he hc
    · simp only [hen, if_false] at he ⊢
      left
      exact handleFromUpstream_no_cache_send env cr w e he hc


theorem Run_probe_denied_witness :
    (scenarioRequest.CacheEnabled = true ∧ scenarioDenied.headFirst ≠ some 200 ∧
      scenarioDenied.headSecond ≠ some 200) ∧
    (Run scenarioDenied 0 scenarioRequest scenarioWorld).index = scenarioWorld.index ∧
    (Run scenarioDenied 0 scenarioRequest scenarioWorld).files = scenarioWorld.files :=
  have h := (Run_probe_denied scenarioDenied 0 scenarioRequest scenarioWorld).1
    (by decide) (by decide) (by decide)
  ⟨⟨by decide, by decide, by decide⟩, h.1, h.2.1⟩

/-- When the probes pass, the iteration on the new digest stores the layer
and replies with origin cache, right after the probe that returned 200. -/
theorem Run_cache_reply_example :
    (Run scenarioEnv 0 scenarioRequest scenarioWorld).trace =
      [Event.head "ABC" (some 200), Event.get true "/v2/x/blobs/sha256:ABC",
       Event.create "ABC", Event.head "ABC" (some 200), Event.read "ABC",
       Event.send "/v2/x/blobs/sha256:ABC" ORIGIN_CACHE
         { Status := "OK", StatusCode := 200, Proto := "HTTP/1.1", Header := [],
           ContentLength := 2, Uncompressed := false, Body := [79, 75] }] := by
  decide

/-! ## Two workers on one new digest -/

/-- A worker that pops and finishes with no other worker in between performs
one iteration of `Run`. -/
theorem pop_finish_is_Run (env : Env) (id : Int) (cr : CacheRequest) (w : World) :
    (runSchedule { world := { w with queue := cr :: w.queue }, inflight := [] }
      [Action.pop id, Action.finish id env]).world = Run env id cr w := by
  simp only [runSchedule, List.foldl, stepSystem, inflightGet, if_true, Run]

/-- C1, the code on the failing schedule: two workers pop the two requests for
the new digest `ABC` and both read the status NotFound; worker 0 then runs its
iteration to the end (probe, Put, claim, fetch, Create, Available, release of
the claim), and worker 1 goes on from the status it has read (probe, Put,
claim of the released entry, fetch, Create).  `LocalCache.Create` is invoked
twice for the digest.  When the second worker pops only after the first has
finished, it is invoked once. -/
theorem two_workers_create_twice :
    createCount "ABC"
      (runSchedule { world := scenarioWorld, inflight := [] }
        [Action.pop 0, Action.pop 1, Action.finish 0 scenarioEnv,
         Action.finish 1 scenarioEnv]).world.trace = 2 ∧
    createCount "ABC"
      (runSchedule { world := scenarioWorld, inflight := [] }
        [Action.pop 0, Action.finish 0 scenarioEnv, Action.pop 1,
         Action.finish 1 scenarioEnv]).world.trace = 1 := by
  constructor <;> decide

/-! ## SetStatus and SetATime -/

theorem mapGet_mapModify (m : List (String × CacheKeyMetadata)) (k x : String)
    (f : CacheKeyMetadata → CacheKeyMetadata) :
    mapGet (mapModify m k f) x = (mapGet m x).map (fun v => if x = k then f v else v) := by
  by_cases h : x = k
  · subst h
    rw [mapGet_mapModify_self]
    simp
  · rw [mapGet_mapModify_ne m f h]
    simp [h]

/-- C11: `SetStatus(d, s)` returns an error if and only if `d` has no entry,
and then leaves the index unchanged; when `d` has an entry it succeeds for
every integer `s`, afterwards `GetStatus(d)` is `s`, the other fields of the
entry, the other entries, store and dataref are unchanged. -/
theorem SetStatus_spec (i : MemoryIndex) (d : String) (s : Int) :
    ((SetStatus i d s).2 ≠ none ↔ mapGet i.meta d = none) ∧
    (mapGet i.meta d = none → (SetStatus i d s).1 = i) ∧
    (∀ data, mapGet i.meta d = some data →
      (SetStatus i d s).2 = none ∧
      GetStatus (SetStatus i d s).1 d = s ∧
      mapGet (SetStatus i d s).1.meta d = some { data with Status := s } ∧
      (∀ d', d' ≠ d → mapGet (SetStatus i d s).1.meta d' = mapGet i.meta d') ∧
      (SetStatus i d s).1.store = i.store ∧
      (SetStatus i d s).1.dataref = i.dataref) := by
  cases h : mapGet i.meta d with
  | none =>
    refine ⟨?_, ?_, ?_⟩
    · simp [SetStatus, h]
    · intro _
      simp [SetStatus, h]
    · intro data hd
      exact Option.noConfusion hd
  | some data0 =>
    refine ⟨?_, ?_, ?_⟩
    · simp [SetStatus, h]
    · intro hd
      exact Option.noConfusion hd
    · intro data hd
      have e : data0 = data := Option.some.inj hd
      subst e
      simp only [SetStatus, h]
      refine ⟨trivial, ?_, ?_, ?_, trivial, trivial⟩
      · simp [GetStatus, mapGet_mapModify_self, h]
      · simp [mapGet_mapModify_self, h]
      · intro d' hne
        exact mapGet_mapModify_ne _ _ hne

theorem SetStatus_spec_witness :
    GetStatus (SetStatus (Put NewMemoryIndex 10 "key" "datafile").1 "key" 2).1 "key" = 2 ∧
    (SetStatus NewMemoryIndex "key" 2).2 ≠ none :=
  ⟨((SetStatus_spec (Put NewMemoryIndex 10 "key" "datafile").1 "key" 2).2.2
      { Status := -1, WorkerID := -1, ResponseFile := none, Atime := 10, Ctime := 10 }
      (by decide)).2.1,
   (SetStatus_spec NewMemoryIndex "key" 2).1.mpr rfl⟩

/-- C12, the code on an existing entry: after `Put("key", "datafile")`,
`SetATime("key")` updates the atime and returns an error; it returns the error
for every index, time and key. -/
theorem SetATime_error_on_success :
    (SetATime (Put NewMemoryIndex 10 "key" "datafile").1 20 "key").2
      = some "invalid cache key" ∧
    GetATime (SetATime (Put NewMemoryIndex 10 "key" "datafile").1 20 "key").1 "key"
      = (20, none) ∧
    (SetStatus (Put NewMemoryIndex 10 "key" "datafile").1 "key" 2).2 = none ∧
    (∀ (i : MemoryIndex) (now : Int) (d : String), (SetATime i now d).2 ≠ none) := by
  refine ⟨by decide, by decide, by decide, ?_⟩
  intro i now d
  unfold SetATime
  cases mapGet i.meta d <;> simp

/-! ## The atime along a sequence of calls -/

theorem clockMonotone_append (t : Int) (pre post : List IndexOp) :
    clockMonotone t (pre ++ post) =
      (clockMonotone t pre && clockMonotone (clockAfter t pre) post) := by
  induction pre generalizing t with
  | nil => simp [clockMonotone, clockAfter]
  | cons op ops ih =>
    rw [List.cons_append]
    simp only [clockMonotone, clockAfter]
    cases opTime op with
    | none => exact ih t
    | some now => simp only [ih now, Bool.and_assoc]

/-- One call under a clock that does not go back: the atimes stay below the
clock, and an entry that is not deleted keeps or raises its atime. -/
theorem atime_step (i : MemoryIndex) (op : IndexOp) (t : Int) (h : AtimesBelow t i)
    (hc : ∀ now, opTime op = some now → t ≤ now) :
    AtimesBelow ((opTime op).getD t) (applyOp i op) ∧
    (∀ d m1, deletes d op = false → mapGet i.meta d = some m1 →
      ∃ m2, mapGet (applyOp i op).meta d = some m2 ∧ m1.Atime ≤ m2.Atime) := by
  cases op with
  | put now k f =>
    have htn : t ≤ now := hc now rfl
    by_cases he : k = "" ∨ f = ""
    · simp only [applyOp, Put_unchanged_of_empty i now k f he, opTime, Option.getD_some]
      exact ⟨fun x m hx => le_trans (h x m hx) htn, fun d m1 _ hd => ⟨m1, hd, le_refl _⟩⟩
    · have hk : k ≠ "" := fun e => he (Or.inl e)
      have hf : f ≠ "" := fun e => he (Or.inr e)
      simp only [applyOp, Put_ok_of_nonempty i now k f hk hf, opTime, Option.getD_some]
      cases hm : mapGet i.meta k with
      | some m0 =>
        exact ⟨fun x m hx => le_trans (h x m hx) htn, fun d m1 _ hd => ⟨m1, hd, le_refl _⟩⟩
      | none =>
        constructor
        · intro x m hx
          by_cases hxk : x = k
          · subst hxk
            rw [mapGet_mapSet_self] at hx
            rw [← Option.some.inj hx]
          · rw [mapGet_mapSet_ne _ _ hxk] at hx
            exact le_trans (h x m hx) htn
        · intro d m1 _ hd
          have hdk : d ≠ k := by
            intro e
            rw [e, hm] at hd
            exact Option.noConfusion hd
          exact ⟨m1, by rw [mapGet_mapSet_ne _ _ hdk]; exact hd, le_refl _⟩
  | delete k =>
    simp only [applyOp, Delete, opTime, Option.getD_none]
    constructor
    · intro x m hx
      by_cases hxk : x = k
      · subst hxk
        rw [mapGet_mapDel_self] at hx
        exact Option.noConfusion hx
      · rw [mapGet_mapDel_ne _ hxk] at hx
        exact h x m hx
    · intro d m1 hdel hd
      have hdk : d ≠ k := by
        intro e
        simp [deletes, e] at hdel
      exact ⟨m1, by rw [mapGet_mapDel_ne _ hdk]; exact hd, le_refl _⟩
  | setStatus k st =>
    simp only [applyOp, SetStatus, opTime, Option.getD_none]
    cases hm : mapGet i.meta k with
    | none => exact ⟨h, fun d m1 _ hd => ⟨m1, hd, le_refl _⟩⟩
    | some m0 =>
      constructor
      · intro x m hx
        simp only [mapGet_mapModify] at hx
        cases hx0 : mapGet i.meta x with
        | none => rw [hx0] at hx; exact Option.noConfusion hx
        | some v =>
          rw [hx0] at hx
          have := h x v hx0
          rw [← Option.some.inj hx]
          split_ifs <;> exact this
      · intro d m1 _ hd
        refine ⟨_, by simp only [mapGet_mapModify, hd, Option.map_some']; rfl, ?_⟩
        split_ifs <;> exact le_refl _
  | setResponseFile k rf =>
    simp only [applyOp, SetResponseFile, opTime, Option.getD_none]
    cases hm : mapGet i.meta k with
    | none => exact ⟨h, fun d m1 _ hd => ⟨m1, hd, le_refl _⟩⟩
    | some m0 =>
      constructor
      · intro x m hx
        simp only [mapGet_mapModify] at hx
        cases hx0 : mapGet i.meta x with
        | none => rw [hx0] at hx; exact Option.noConfusion hx
        | some v =>
          rw [hx0] at hx
          have := h x v hx0
          rw [← Option.some.inj hx]
          split_ifs <;> exact this
      · intro d m1 _ hd
        refine ⟨_, by simp only [mapGet_mapModify, hd, Option.map_some']; rfl, ?_⟩
        split_ifs <;> exact le_refl _
  | setATime now k =>
    have htn : t ≤ now := hc now rfl
    simp only [applyOp, SetATime, opTime, Option.getD_some]
    cases hm : mapGet i.meta k with
    | none =>
      exact ⟨fun x m hx => le_trans (h x m hx) htn, fun d m1 _ hd => ⟨m1, hd, le_refl _⟩⟩
    | some m0 =>
      constructor
      · intro x m hx
        simp only [mapGet_mapModify] at hx
        cases hx0 : mapGet i.meta x with
        | none => rw [hx0] at hx; exact Option.noConfusion hx
        | some v =>
          rw [hx0] at hx
          have := h x v hx0
          rw [← Option.some.inj hx]
          split_ifs
          · exact le_refl _
          · exact le_trans this htn
      · intro d m1 _ hd
        refine ⟨_, by simp only [mapGet_mapModify, hd, Option.map_some']; rfl, ?_⟩
        split_ifs
        · exact le_trans (h d m1 hd) htn
        · exact le_refl _
  | setWorker k id force =>
    simp only [applyOp, SetWorker, opTime, Option.getD_none]
    cases hm : mapGet i.meta k with
    | none => exact ⟨h, fun d m1 _ hd => ⟨m1, hd, le_refl _⟩⟩
    | some m0 =>
      simp only
      split_ifs with hfc
      · constructor
        · intro x m hx
          simp only [mapGet_mapModify] at hx
          cases hx0 : mapGet i.meta x with
          | none => rw [hx0] at hx; exact Option.noConfusion hx
          | some v =>
            rw [hx0] at hx
            have := h x v hx0
            rw [← Option.some.inj hx]
            split_ifs <;> exact this
        · intro d m1 _ hd
          refine ⟨_, by simp only [mapGet_mapModify, hd, Option.map_some']; rfl, ?_⟩
          split_ifs <;> exact le_refl _
      · exact ⟨h, fun d m1 _ hd => ⟨m1, hd, le_refl _⟩⟩

theorem atime_run (ops : List IndexOp) (i : MemoryIndex) (t : Int) (h : AtimesBelow t i)
    (hc : clockMonotone t ops = true) :
    AtimesBelow (clockAfter t ops) (runOps i ops) ∧
    (∀ d m1, (∀ op ∈ ops, deletes d op = false) → mapGet i.meta d = some m1 →
      ∃ m2, mapGet (runOps i ops).meta d = some m2 ∧ m1.Atime ≤ m2.Atime) := by
  induction ops generalizing i t with
  | nil => exact ⟨h, fun d m1 _ hd => ⟨m1, hd, le_refl _⟩⟩
  | cons op ops ih =>
    simp only [clockMonotone] at hc
    have hstep : ∀ now, opTime op = some now → t ≤ now := by
      intro now hn
      rw [hn] at hc
      simp only [Bool.and_eq_true, decide_eq_true_eq] at hc
      exact hc.1
    obtain ⟨hb, hd1⟩ := atime_step i op t h hstep
    have hrest : clockMonotone ((opTime op).getD t) ops = true := by
      cases hn : opTime op with
      | none => rw [hn] at hc; exact hc
      | some now =>
        rw [hn] at hc
        simp only [Bool.and_eq_true] at hc
        exact hc.2
    obtain ⟨hb2, hd2⟩ := ih (applyOp i op) ((opTime op).getD t) hb hrest
    have hclk : clockAfter t (op :: ops) = clockAfter ((opTime op).getD t) ops := by
      simp only [clockAfter]
      cases opTime op <;> rfl
    refine ⟨by rw [hclk]; exact hb2, ?_⟩
    intro d m1 hkeep hd
    obtain ⟨m, hm, hle⟩ := hd1 d m1 (hkeep op (List.mem_cons_self _ _)) hd
    obtain ⟨m2, hm2, hle2⟩ := hd2 d m (fun o ho => hkeep o (List.mem_cons_of_mem _ ho)) hm
    exact ⟨m2, hm2, le_trans hle hle2⟩

/-- C13: under a non-decreasing clock, along every sequence of index calls
from `NewMemoryIndex`, an entry `d` that the later calls `post` do not delete
stays in the index with an atime that is at least the atime it had after the
earlier calls `pre`; and `SetATime(d)` on an existing entry sets the atime to
the clock reading and changes no other field, no other entry, neither store
nor dataref. -/
theorem atime_nondecreasing (pre post : List IndexOp) (t : Int) (d : String)
    (hclock : clockMonotone t (pre ++ post) = true)
    (hkeep : ∀ op ∈ post, deletes d op = false) :
    (∀ m1, mapGet (runOps NewMemoryIndex pre).meta d = some m1 →
      ∃ m2, mapGet (runOps NewMemoryIndex (pre ++ post)).meta d = some m2 ∧
        m1.Atime ≤ m2.Atime) ∧
    (∀ (i : MemoryIndex) (now : Int) (data : CacheKeyMetadata),
      mapGet i.meta d = some data →
      mapGet (SetATime i now d).1.meta d = some { data with Atime := now } ∧
      (∀ d', d' ≠ d → mapGet (SetATime i now d).1.meta d' = mapGet i.meta d') ∧
      (SetATime i now d).1.store = i.store ∧
      (SetATime i now d).1.dataref = i.dataref) := by
  constructor
  · intro m1 h1
    rw [clockMonotone_append, Bool.and_eq_true] at hclock
    have hpre := atime_run pre NewMemoryIndex t
      (fun k m hk => Option.noConfusion hk) hclock.1
    have hpost := atime_run post (runOps NewMemoryIndex pre) (clockAfter t pre)
      hpre.1 hclock.2
    have e : runOps NewMemoryIndex (pre ++ post) = runOps (runOps NewMemoryIndex pre) post := by
      simp [runOps, List.foldl_append]
    rw [e]
    exact hpost.2 d m1 hkeep h1
  · intro i now data hd
    simp only [SetATime, hd]
    refine ⟨?_, fun d' hne => mapGet_mapModify_ne _ _ hne, trivial, trivial⟩
    simp [mapGet_mapModify_self, hd]

theorem atime_nondecreasing_witness :
    clockMonotone 0
      ([IndexOp.put 10 "key" "datafile"] ++
        [IndexOp.setStatus "key" 2, IndexOp.setATime 20 "key"]) = true ∧
    (∃ m2,
      mapGet (runOps NewMemoryIndex
        ([IndexOp.put 10 "key" "datafile"] ++
          [IndexOp.setStatus "key" 2, IndexOp.setATime 20 "key"])).meta "key" = some m2 ∧
      (10 : Int) ≤ m2.Atime) :=
  ⟨by decide,
   (atime_nondecreasing [IndexOp.put 10 "key" "datafile"]
      [IndexOp.setStatus "key" 2, IndexOp.setATime 20 "key"] 0 "key" (by decide)
      (by decide)).1
      { Status := -1, WorkerID := -1, ResponseFile := none, Atime := 10, Ctime := 10 }
      (by decide)⟩

/-! ## The store: Delete, Create, the LRU list, Restore -/

/-- C16, the code at the failing input: with the layer `ABC` and its sidecar
on disk, `Delete("/data/ABC.layer", "ABC", atomic = true)` returns nil after
the removal of the data file and leaves the sidecar in place; with
`atomic = false` both files are unlinked and the index rows are gone.  With
both arguments empty the call fails and changes nothing. -/
theorem Delete_atomic_keeps_sidecar :
    (LocalCache.Delete false false "/data/ABC.layer" "ABC" true scenarioStored).2 = none ∧
    mapGet (LocalCache.Delete false false "/data/ABC.layer" "ABC" true scenarioStored).1.files
      "/data/ABC.layer" = none ∧
    (mapGet (LocalCache.Delete false false "/data/ABC.layer" "ABC" true scenarioStored).1.files
      "/data/ABC.layer.meta.json").isSome = true ∧
    mapGet (LocalCache.Delete false false "/data/ABC.layer" "ABC" false scenarioStored).1.files
      "/data/ABC.layer.meta.json" = none ∧
    (LocalCache.Delete false false "/data/ABC.layer" "ABC" false scenarioStored).1.index
      = NewMemoryIndex ∧
    (∀ (rmData rmMeta atomic : Bool) (w : World),
      LocalCache.Delete rmData rmMeta "" "" atomic w
        = (w, some "empty cache key and empty datafile")) := by
  refine ⟨by decide, by decide, by decide, by decide, by decide, ?_⟩
  intro rmData rmMeta atomic w
  simp [LocalCache.Delete]

/-- C17, the code at the failing input: in `Create` the partial file is
renamed before the body is copied, so the final name `/data/ABC.layer` exists
with an empty body in between; and when the copy of the two bytes breaks off
after one, `Create` fails and leaves the first byte under the final name, with
no `.partial` file. -/
theorem Create_final_name_before_body :
    mapGet (renamePartial scenarioRequest (createPartial scenarioRequest scenarioPut)).files
      "/data/ABC.layer" = some (FileData.bytes []) ∧
    (Create scenarioCopyFails scenarioRequest (NewResponseFile 2 200 [] "ABC") [79, 75]
      scenarioPut).2 = some "copy failed" ∧
    mapGet (Create scenarioCopyFails scenarioRequest (NewResponseFile 2 200 [] "ABC") [79, 75]
      scenarioPut).1.files "/data/ABC.layer" = some (FileData.bytes [79]) ∧
    mapGet (Create scenarioCopyFails scenarioRequest (NewResponseFile 2 200 [] "ABC") [79, 75]
      scenarioPut).1.files "/data/ABC.layer.partial" = none := by
  refine ⟨by decide, by decide, by decide, by decide⟩

/-- C18, the code at the failing input: a `Create` whose copy fails still
puts the digest into the LRU list; the retry by the same worker puts it there
a second time; and `Delete` then removes one of the two elements, so the list
still holds the deleted digest. -/
theorem LRU_holds_failed_and_duplicate :
    (Create scenarioCopyFails scenarioRequest (NewResponseFile 2 200 [] "ABC") [79, 75]
      scenarioPut).2 ≠ none ∧
    lruCount "ABC"
      (Create scenarioCopyFails scenarioRequest (NewResponseFile 2 200 [] "ABC") [79, 75]
        scenarioPut).1.LRUQueue = 1 ∧
    lruCount "ABC"
      (Run scenarioEnv 0 scenarioRequest
        (Run scenarioCopyFails 0 scenarioRequest scenarioPut)).LRUQueue = 2 ∧
    lruCount "ABC"
      (LocalCache.Delete false false "/data/ABC.layer" "ABC" false
        (Run scenarioEnv 0 scenarioRequest
          (Run scenarioCopyFails 0 scenarioRequest scenarioPut))).1.LRUQueue = 1 := by
  refine ⟨by decide, by decide, by decide, by decide⟩

theorem Load_missing (parse : JsonParser) (readErr : Bool) (m : ResponseFile) (p : String)
    (files : List (String × FileData)) (h : mapGet files p = none) :
    Load parse readErr m p files = (m, none) := by
  unfold Load
  cases readErr <;> simp [h]

theorem Load_damaged (parse : JsonParser) (m : ResponseFile) (p : String)
    (files : List (String × FileData)) (b : List Nat)
    (h : mapGet files p = some (FileData.bytes b)) (hp : parse b = none) :
    Load parse false m p files = (m, some "invalid character") := by
  simp [Load, h, documentOf, hp]

theorem Load_document (parse : JsonParser) (m : ResponseFile) (p : String)
    (files : List (String × FileData)) (rf : ResponseFile)
    (h : mapGet files p = some (FileData.json rf)) :
    Load parse false m p files = Unmarshal (Marshal rf) m := by
  simp [Load, h, documentOf]

theorem Restore_eq (parse : JsonParser) (readErr : String → Bool) (clock : EntryClock)
    (dataPath : String) (w : World) :
    LocalCache.Restore parse false readErr clock dataPath w =
      ({ w with
         index := (restoreLoop parse readErr clock dataPath w.files
           (LocalCache.List false dataPath w).1 w.index).1 },
       (restoreLoop parse readErr clock dataPath w.files
         (LocalCache.List false dataPath w).1 w.index).2) := by
  simp [LocalCache.Restore, LocalCache.List]

/-- An entry without a sidecar is skipped: nothing is loaded, the calls on the
empty cache key fail, the loop goes on. -/
theorem restoreFile_missing (parse : JsonParser) (readErr : String → Bool)
    (clock : EntryClock) (dataPath : String) (files : List (String × FileData))
    (name : String) (idx : MemoryIndex)
    (h : mapGet files (ComputeResponseFilePath (filepathJoin dataPath name)) = none)
    (hm : mapGet idx.meta "" = none) (hs : mapGet idx.store "" = none) :
    restoreFile parse readErr clock dataPath files name idx = (idx, none) := by
  unfold restoreFile
  simp only [Load_missing parse _ _ _ _ h]
  simp [emptyResponseFile, Put, SetStatus, SetResponseFile, hm, Delete, hs,
    mapDel_absent _ _ hm, mapDel_absent _ _ hs]

theorem restoreFile_damaged (parse : JsonParser) (readErr : String → Bool)
    (clock : EntryClock) (dataPath : String) (files : List (String × FileData))
    (name : String) (idx : MemoryIndex) (b : List Nat)
    (hr : readErr (ComputeResponseFilePath (filepathJoin dataPath name)) = false)
    (h : mapGet files (ComputeResponseFilePath (filepathJoin dataPath name))
      = some (FileData.bytes b))
    (hp : parse b = none) :
    restoreFile parse readErr clock dataPath files name idx
      = (idx, some "invalid character") := by
  unfold restoreFile
  simp only [hr, Load_damaged parse _ _ _ b h hp]
  simp

/-- C15, the code at the failing input: in a data directory where the sidecar
of `a.layer` is an empty file (no JSON text) and `b.layer` has the sidecar that
`Dump` wrote, `Restore` returns the error of the first entry and the digest
`b` is not in the index; with the sidecar of `a.layer` missing instead,
`Restore` goes on and `b` is restored as Available. -/
theorem Restore_aborts_on_damaged_sidecar (parse : JsonParser) (clock : EntryClock)
    (hparse : parse [] = none) :
    (LocalCache.Restore parse false (fun _ => false) clock "/data" scenarioDirectory).2
      = some "invalid character" ∧
    mapGet (LocalCache.Restore parse false (fun _ => false) clock "/data"
      scenarioDirectory).1.index.meta "b" = none ∧
    (LocalCache.Restore parse false (fun _ => false) clock "/data"
      scenarioDirectoryMissing).2 = none ∧
    GetStatus (LocalCache.Restore parse false (fun _ => false) clock "/data"
      scenarioDirectoryMissing).1.index "b" = STATUS_AVAILABLE := by
  have hl1 : (LocalCache.List false "/data" scenarioDirectory).1
      = ["a.layer", "a.layer.meta.json", "b.layer", "b.layer.meta.json"] := by
    decide
  have hl2 : (LocalCache.List false "/data" scenarioDirectoryMissing).1
      = ["a.layer", "b.layer", "b.layer.meta.json"] := by
    decide
  have hj2 : ComputeResponseFilePath (filepathJoin "/data" "b.layer")
      = "/data/b.layer.meta.json" := by decide
  have hjb : filepathJoin "/data" "b.layer" = "/data/b.layer" := by decide
  have e1 : scenarioDirectory.index = NewMemoryIndex := rfl
  have e2 : scenarioDirectoryMissing.index = NewMemoryIndex := rfl
  -- the first entry of the damaged directory
  have hbad := restoreFile_damaged parse (fun _ => false) clock "/data"
    scenarioDirectory.files "a.layer" NewMemoryIndex [] rfl (by decide) hparse
  -- the entries of the directory with the missing sidecar
  have hmiss := restoreFile_missing parse (fun _ => false) clock "/data"
    scenarioDirectoryMissing.files "a.layer" NewMemoryIndex (by decide) rfl rfl
  have hu : Unmarshal (Marshal (NewResponseFile 1 200 [] "b")) emptyResponseFile
      = (NewResponseFile 1 200 [] "b", none) := by decide
  have hgood : (restoreFile parse (fun _ => false) clock "/data"
      scenarioDirectoryMissing.files "b.layer" NewMemoryIndex).2 = none ∧
      GetStatus (restoreFile parse (fun _ => false) clock "/data"
        scenarioDirectoryMissing.files "b.layer" NewMemoryIndex).1 "b" = STATUS_AVAILABLE ∧
      mapGet (restoreFile parse (fun _ => false) clock "/data"
        scenarioDirectoryMissing.files "b.layer" NewMemoryIndex).1.meta "" = none ∧
      mapGet (restoreFile parse (fun _ => false) clock "/data"
        scenarioDirectoryMissing.files "b.layer" NewMemoryIndex).1.store "" = none := by
    unfold restoreFile
    simp only [hj2, hjb]
    rw [Load_document parse _ _ _ (NewResponseFile 1 200 [] "b") (by decide), hu]
    simp [NewResponseFile, Put, SetStatus, SetResponseFile, GetStatus, mapGet, mapSet, mapDel,
      mapModify, NewMemoryIndex, STATUS_AVAILABLE]
  rw [Restore_eq, Restore_eq, hl1, hl2, e1, e2]
  cases hr : restoreFile parse (fun _ => false) clock "/data"
      scenarioDirectoryMissing.files "b.layer" NewMemoryIndex with
  | mk idx err =>
    rw [hr] at hgood
    obtain ⟨h1, h2, h3, h4⟩ := hgood
    simp only at h1 h2 h3 h4
    subst h1
    have hskip := restoreFile_missing parse (fun _ => false) clock "/data"
      scenarioDirectoryMissing.files "b.layer.meta.json" idx (by decide) h3 h4
    simp only [restoreLoop, hbad, hmiss, hr, hskip]
    exact ⟨trivial, rfl, trivial, h2⟩

theorem Restore_aborts_on_damaged_sidecar_witness :
    (fun _ : List Nat => (none : Option JVal)) [] = none ∧
    mapGet (LocalCache.Restore (fun _ => none) false (fun _ => false) (fun _ => 7) "/data"
      scenarioDirectory).1.index.meta "b" = none :=
  ⟨rfl, (Restore_aborts_on_damaged_sidecar (fun _ => none) (fun _ => 7) rfl).2.1⟩

/-! ## Dump and Load -/

theorem mapGet_isSome_iff_mem {β : Type} (m : List (String × β)) (x : String) :
    (mapGet m x).isSome = true ↔ x ∈ m.map Prod.fst := by
  induction m with
  | nil => simp [mapGet]
  | cons e t ih =>
    obtain ⟨k, v⟩ := e
    simp only [mapGet, List.map_cons, List.mem_cons]
    split_ifs with hk
    · simp [hk]
    · rw [ih]
      constructor
      · exact fun h => Or.inr h
      · rintro (h | h)
        · exact absurd h.symm hk
        · exact h

/-- Setting every key of a list to a value that depends on the key alone. -/
theorem mapGet_foldl_mapSet {β : Type} (g : String → β) (ks : List String)
    (init : List (String × β)) (x : String) :
    mapGet (ks.foldl (fun acc k => mapSet acc k (g k)) init) x =
      if x ∈ ks then some (g x) else mapGet init x := by
  induction ks generalizing init with
  | nil => simp
  | cons k ks ih =>
    simp only [List.foldl_cons, ih, List.mem_cons]
    by_cases hx : x ∈ ks
    · simp [hx]
    · by_cases hk : x = k
      · subst hk
        simp [hx, mapGet_mapSet_self]
      · simp [hx, hk, mapGet_mapSet_ne _ _ hk]

theorem decodeSlice_strings (vs : List String) :
    decodeSlice (JVal.arr (vs.map JVal.str)) = (vs, false) := by
  have e1 : ((fun x => (decodeString x "").1) ∘ JVal.str) = id := by
    funext s
    rfl
  have e2 : ((fun x => (decodeString x "").2) ∘ JVal.str) = fun _ => false := by
    funext s
    rfl
  simp only [decodeSlice, List.map_map, List.any_map, e1, e2, List.map_id]
  refine Prod.ext rfl ?_
  simp [decodeString]

theorem decodeHeader_marshalHeader (h : List (String × List String)) :
    (decodeHeader (marshalHeader h) []).2 = false ∧
    ∀ k, mapGet (decodeHeader (marshalHeader h) []).1 k = mapGet h k := by
  simp only [decodeHeader, marshalHeader, List.foldl_map, List.any_map, decodeSlice_strings]
  constructor
  · simp [decodeSlice_strings]
  · intro k
    have hfold := mapGet_foldl_mapSet (fun k => (mapGet h k).getD [])
      (sortStrings (mapKeys h)) [] k
    simp only [Function.comp] at hfold ⊢
    rw [hfold]
    have hmem : k ∈ sortStrings (mapKeys h) ↔ (mapGet h k).isSome = true := by
      rw [mapGet_isSome_iff_mem]
      unfold sortStrings mapKeys
      rw [(List.perm_insertionSort _ _).mem_iff, List.mem_dedup]
    cases hk : mapGet h k with
    | none =>
      have : ¬ k ∈ sortStrings (mapKeys h) := by
        rw [hmem, hk]
        simp
      simp [this, mapGet]
    | some v =>
      have : k ∈ sortStrings (mapKeys h) := by
        rw [hmem, hk]
        rfl
      simp [this]

theorem fieldOf_tags :
    fieldOf "status" = some Field.status ∧ fieldOf "statusCode" = some Field.statusCode ∧
    fieldOf "proto" = some Field.proto ∧ fieldOf "header" = some Field.header ∧
    fieldOf "contentLength" = some Field.contentLength ∧
    fieldOf "uncompressed" = some Field.uncompressed ∧
    fieldOf "cacheKey" = some Field.cacheKey := by
  refine ⟨?_, ?_, ?_, ?_, ?_, ?_, ?_⟩ <;> decide

/-- The document of a `ResponseFile` decodes, into the zero value, to the
fields it was written from. -/
theorem Unmarshal_Marshal (m : ResponseFile) (h1 : inIntRange m.StatusCode = true)
    (h2 : inIntRange m.ContentLength = true) :
    (Unmarshal (Marshal m) emptyResponseFile).2 = none ∧
    (Unmarshal (Marshal m) emptyResponseFile).1.Status = m.Status ∧
    (Unmarshal (Marshal m) emptyResponseFile).1.StatusCode = m.StatusCode ∧
    (Unmarshal (Marshal m) emptyResponseFile).1.Proto = m.Proto ∧
    (∀ k, mapGet (Unmarshal (Marshal m) emptyResponseFile).1.Header k = mapGet m.Header k) ∧
    (Unmarshal (Marshal m) emptyResponseFile).1.ContentLength = m.ContentLength ∧
    (Unmarshal (Marshal m) emptyResponseFile).1.Uncompressed = m.Uncompressed ∧
    (Unmarshal (Marshal m) emptyResponseFile).1.CacheKey = m.CacheKey := by
  obtain ⟨t1, t2, t3, t4, t5, t6, t7⟩ := fieldOf_tags
  obtain ⟨he, hh⟩ := decodeHeader_marshalHeader m.Header
  simp only [Unmarshal, Marshal, List.foldl, unmarshalKey, t1, t2, t3, t4, t5, t6, t7, setField,
    decodeString, decodeInt, decodeBool, h1, h2, if_true, emptyResponseFile, he,
    Bool.or_false, Bool.false_eq_true, if_false]
  exact ⟨trivial, trivial, trivial, trivial, hh, trivial, trivial, trivial⟩

/-! ## UTF-8: decoding what was encoded -/

theorem Char_toNat_valid (c : Char) :
    c.toNat < 0xD800 ∨ (0xDFFF < c.toNat ∧ c.toNat < 0x110000) := by
  have h := c.valid
  unfold UInt32.isValidChar Nat.isValidChar at h
  exact h

theorem EncodeRune_ne_nil (r : Nat) : EncodeRune r ≠ [] := by
  unfold EncodeRune
  split_ifs <;> simp

theorem DecodeRune_EncodeRune (c : Char) (more : List Nat) :
    DecodeRune (EncodeRune c.toNat ++ more) = (c.toNat, (EncodeRune c.toNat).length) := by
  have hv := Char_toNat_valid c
  generalize c.toNat = n at hv
  unfold EncodeRune
  by_cases h1 : n < 0x80
  · simp [h1, DecodeRune]
  · by_cases h2 : n < 0x800
    · have a1 : ¬ (0xC0 + n / 64 < 0x80) := by omega
      have a2 : ¬ (0xC0 + n / 64 < 0xC2) := by omega
      have a3 : 0xC0 + n / 64 < 0xE0 := by omega
      have a4 : isCont (0x80 + n % 64) = true := by simp [isCont]; omega
      simp only [h1, h2, if_false, if_true, List.cons_append, List.nil_append, DecodeRune, a1, a2,
        a3, a4, List.length_cons, List.length_nil]
      refine Prod.ext ?_ rfl
      simp only
      omega
    · have hs : ¬ ((0xD800 ≤ n ∧ n < 0xE000) ∨ 0x10FFFF < n) := by omega
      by_cases h3 : n < 0x10000
      · have a1 : ¬ (0xE0 + n / 4096 < 0x80) := by omega
        have a2 : ¬ (0xE0 + n / 4096 < 0xC2) := by omega
        have a3 : ¬ (0xE0 + n / 4096 < 0xE0) := by omega
        have a4 : 0xE0 + n / 4096 < 0xF0 := by omega
        have a5 : isCont (0x80 + n % 64) = true := by simp [isCont]; omega
        have a6 : (if 0xE0 + n / 4096 = 0xE0 then 0xA0 else 0x80) ≤ 0x80 + n / 64 % 64 ∧
            0x80 + n / 64 % 64 ≤ (if 0xE0 + n / 4096 = 0xED then 0x9F else 0xBF) ∧
            isCont (0x80 + n % 64) = true := by
          refine ⟨?_, ?_, a5⟩
          · split_ifs <;> omega
          · split_ifs <;> omega
        simp only [h1, h2, hs, h3, if_false, if_true, List.cons_append, List.nil_append,
          DecodeRune, a1, a2, a3, a4, a6, and_self, List.length_cons, List.length_nil]
        refine Prod.ext ?_ rfl
        simp only
        omega
      · have a1 : ¬ (0xF0 + n / 262144 < 0x80) := by omega
        have a2 : ¬ (0xF0 + n / 262144 < 0xC2) := by omega
        have a3 : ¬ (0xF0 + n / 262144 < 0xE0) := by omega
        have a4 : ¬ (0xF0 + n / 262144 < 0xF0) := by omega
        have a4b : 0xF0 + n / 262144 < 0xF5 := by omega
        have a5 : isCont (0x80 + n % 64) = true := by simp [isCont]; omega
        have a5b : isCont (0x80 + n / 64 % 64) = true := by simp [isCont]; omega
        have a6 : (if 0xF0 + n / 262144 = 0xF0 then 0x90 else 0x80) ≤ 0x80 + n / 4096 % 64 ∧
            0x80 + n / 4096 % 64 ≤ (if 0xF0 + n / 262144 = 0xF4 then 0x8F else 0xBF) ∧
            isCont (0x80 + n / 64 % 64) = true ∧ isCont (0x80 + n % 64) = true := by
          refine ⟨?_, ?_, a5b, a5⟩
          · split_ifs <;> omega
          · split_ifs <;> omega
        simp only [h1, h2, hs, h3, if_false, if_true, List.cons_append, List.nil_append,
          DecodeRune, a1, a2, a3, a4, a4b, a6, and_self, List.length_cons, List.length_nil]
        refine Prod.ext ?_ rfl
        simp only
        omega

/-- One round of `runeSegments` on bytes that start with a whole encoding. -/
theorem runeSegments_step (f r : Nat) (seg more : List Nat) (hne : seg ≠ [])
    (hd : DecodeRune (seg ++ more) = (r, seg.length)) :
    runeSegments (f + 1) (seg ++ more) = (r, seg) :: runeSegments f more := by
  cases seg with
  | nil => exact absurd rfl hne
  | cons b t =>
    rw [List.cons_append] at hd ⊢
    simp only [runeSegments, hd]
    simp

theorem runeSegments_utf8Bytes (cs : List Char) :
    ∀ f, (utf8Bytes cs).length ≤ f →
      runeSegments f (utf8Bytes cs) = cs.map (fun c => (c.toNat, EncodeRune c.toNat)) := by
  induction cs with
  | nil =>
    intro f _
    cases f <;> rfl
  | cons c cs ih =>
    intro f hf
    have hne := EncodeRune_ne_nil c.toNat
    have hlen : 0 < (EncodeRune c.toNat).length := List.length_pos.mpr hne
    simp only [utf8Bytes, List.length_append] at hf
    obtain ⟨f1, rfl⟩ : ∃ f1, f = f1 + 1 := ⟨f - 1, by omega⟩
    simp only [utf8Bytes, List.map_cons]
    rw [runeSegments_step f1 c.toNat _ _ hne (DecodeRune_EncodeRune c _), ih f1 (by omega)]

theorem Char_ofNat_toNat (c : Char) : Char.ofNat c.toNat = c := by
  have h := Char_toNat_valid c
  unfold Char.ofNat
  rw [dif_pos (by exact h)]
  rfl

/-- A text comes back from its UTF-8 bytes. -/
theorem coerceUTF8_goString (s : String) : coerceUTF8 (goString s) = s := by
  unfold coerceUTF8 goRunes goString
  rw [runeSegments_utf8Bytes s.data _ (le_refl _)]
  simp only [List.map_map]
  have e : ((fun seg : Nat × List Nat => Char.ofNat seg.1) ∘
      fun c : Char => (c.toNat, EncodeRune c.toNat)) = id := by
    funext c
    exact Char_ofNat_toNat c
  rw [e, List.map_id]

theorem goString_injective (a b : String) (h : goString a = goString b) : a = b := by
  rw [← coerceUTF8_goString a, ← coerceUTF8_goString b, h]

/-! ## A string literal: reading what `appendString` wrote -/

theorem hexVal_hexDigit : ∀ n, n < 16 → hexVal (hexDigit n) = some n := by
  decide

theorem drop_four (a b c d : Nat) (l : List Nat) : (a :: b :: c :: d :: l).drop 4 = l := rfl

/-- The decoder reads the escape `\u00XX` of an ASCII byte as that byte. -/
theorem stringBody_u00 (f b : Nat) (hb : b < 0x80) (more : List Nat) :
    stringBody (f + 1) (92 :: 117 :: 48 :: 48 :: hexDigit (b / 16) :: hexDigit (b % 16) :: more) =
      consChar (Char.ofNat b) (stringBody f more) := by
  have h1 := hexVal_hexDigit (b / 16) (by omega)
  have h2 := hexVal_hexDigit (b % 16) (by omega)
  have h0 : hexVal 48 = some 0 := by decide
  have hg : getu4 (92 :: 117 :: 48 :: 48 :: hexDigit (b / 16) :: hexDigit (b % 16) :: more) =
      some b := by
    simp only [getu4, h0, h1, h2, and_self, if_true]
    congr 1
    omega
  have hs : ¬ (0xD800 ≤ b ∧ b < 0xE000) := by omega
  simp only [stringBody, hg, hs, if_false, drop_four]
  simp

theorem stringBody_ascii (f b : Nat) (raw : List Nat) (hb : b < 0x80) (more : List Nat) :
    stringBody (f + 1) (appendRune (b, raw) ++ more) =
      consChar (Char.ofNat b) (stringBody f more) := by
  unfold appendRune
  simp only [hb, if_true]
  by_cases hsafe : htmlSafe b = true
  · have hs := hsafe
    simp only [htmlSafe, decide_eq_true_eq] at hs
    have n34 : ¬ b = 34 := hs.2.2.1
    have n92 : ¬ b = 92 := hs.2.2.2.2.2.2
    have n20 : ¬ b < 0x20 := by omega
    simp only [hsafe, if_true, List.cons_append, List.nil_append, stringBody, n34, n92, n20, hb,
      if_false]
  · simp only [hsafe, Bool.false_eq_true, if_false]
    by_cases e1 : b = 92 ∨ b = 34
    · rcases e1 with rfl | rfl
      · simp [stringBody, simpleEscape]
      · simp [stringBody, simpleEscape]
    · simp only [e1, if_false]
      by_cases e2 : b = 8
      · subst e2
        simp [stringBody, simpleEscape]
      · by_cases e3 : b = 12
        · subst e3
          simp [stringBody, simpleEscape]
        · by_cases e4 : b = 10
          · subst e4
            simp [stringBody, simpleEscape]
          · by_cases e5 : b = 13
            · subst e5
              simp [stringBody, simpleEscape]
            · by_cases e6 : b = 9
              · subst e6
                simp [stringBody, simpleEscape]
              · simp only [e2, e3, e4, e5, e6, if_false, List.cons_append, List.nil_append]
                exact stringBody_u00 f b hb more

theorem stringBody_invalid (f : Nat) (raw : List Nat) (hl : raw.length = 1) (more : List Nat) :
    stringBody (f + 1) (appendRune (RuneError, raw) ++ more) =
      consChar (Char.ofNat RuneError) (stringBody f more) := by
  have hg : ∀ l, getu4 (92 :: 117 :: 102 :: 102 :: 102 :: 100 :: l) = some RuneError := by
    intro l
    rfl
  unfold appendRune
  simp only [RuneError, hl, and_self, if_true, show ¬ (0xFFFD < 0x80) by decide, if_false,
    List.cons_append, List.nil_append]
  simp only [stringBody, hg, RuneError, drop_four]
  simp

/-- The decoder reads a valid encoding of two or more bytes, written as it is
or as the escape of U+2028 and U+2029, as its rune. -/
theorem stringBody_multi (f r : Nat) (seg : List Nat) (b0 : Nat) (t : List Nat)
    (hseg : seg = b0 :: t) (hb0 : 0xC2 ≤ b0) (hr : 0x80 ≤ r) (hlen : 2 ≤ seg.length)
    (hdec : ∀ more, DecodeRune (seg ++ more) = (r, seg.length)) (more : List Nat) :
    stringBody (f + 1) (appendRune (r, seg) ++ more) =
      consChar (Char.ofNat r) (stringBody f more) := by
  unfold appendRune
  have h1 : ¬ r < 0x80 := by omega
  have h2 : ¬ (r = RuneError ∧ seg.length = 1) := by omega
  simp only [h1, h2, if_false]
  by_cases h3 : r = 0x2028 ∨ r = 0x2029
  · rcases h3 with rfl | rfl
    · simp [stringBody, getu4, hexVal, hexDigit]
    · simp [stringBody, getu4, hexVal, hexDigit]
  · simp only [h3, if_false]
    have hd := hdec more
    subst hseg
    rw [List.cons_append] at hd ⊢
    have n34 : ¬ b0 = 34 := by omega
    have n92 : ¬ b0 = 92 := by omega
    have n20 : ¬ b0 < 0x20 := by omega
    have n80 : ¬ b0 < 0x80 := by omega
    simp only [stringBody, n34, n92, n20, n80, if_false, hd]
    congr 1
    simp

/-- What `DecodeRune` returns: the byte itself for an ASCII byte, the error of
width 1 with nothing else known, or the rune of a whole valid encoding of two
or more bytes, which any bytes may follow. -/
theorem DecodeRune_cases (b0 : Nat) (rest : List Nat) :
    (b0 < 0x80 ∧ DecodeRune (b0 :: rest) = (b0, 1)) ∨
    (0x80 ≤ b0 ∧ DecodeRune (b0 :: rest) = (RuneError, 1)) ∨
    (0xC2 ≤ b0 ∧ 0x80 ≤ (DecodeRune (b0 :: rest)).1 ∧ 2 ≤ (DecodeRune (b0 :: rest)).2 ∧
      ((b0 :: rest).take (DecodeRune (b0 :: rest)).2).length = (DecodeRune (b0 :: rest)).2 ∧
      ∀ more, DecodeRune ((b0 :: rest).take (DecodeRune (b0 :: rest)).2 ++ more) =
        DecodeRune (b0 :: rest)) := by
  by_cases h1 : b0 < 0x80
  · left
    exact ⟨h1, by simp [DecodeRune, h1]⟩
  · right
    by_cases h2 : b0 < 0xC2
    · left
      exact ⟨by omega, by simp [DecodeRune, h1, h2]⟩
    · by_cases h3 : b0 < 0xE0
      · cases rest with
        | nil => left; exact ⟨by omega, by simp [DecodeRune, h1, h2, h3]⟩
        | cons b1 r1 =>
          by_cases c1 : isCont b1 = true
          · right
            have hc := c1
            simp only [isCont, decide_eq_true_eq] at hc
            refine ⟨by omega, ?_, ?_, ?_, ?_⟩
            · simp only [DecodeRune, h1, h2, h3, c1, if_true, if_false]
              omega
            · simp [DecodeRune, h1, h2, h3, c1]
            · simp [DecodeRune, h1, h2, h3, c1]
            · intro more
              simp [DecodeRune, h1, h2, h3, c1]
          · left
            exact ⟨by omega, by simp [DecodeRune, h1, h2, h3, c1]⟩
      · by_cases h4 : b0 < 0xF0
        · cases rest with
          | nil => left; exact ⟨by omega, by simp [DecodeRune, h1, h2, h3, h4]⟩
          | cons b1 r1 =>
            cases r1 with
            | nil => left; exact ⟨by omega, by simp [DecodeRune, h1, h2, h3, h4]⟩
            | cons b2 r2 =>
              by_cases c1 : (if b0 = 0xE0 then 0xA0 else 0x80) ≤ b1 ∧
                  b1 ≤ (if b0 = 0xED then 0x9F else 0xBF) ∧ isCont b2 = true
              · right
                have hc := c1.2.2
                simp only [isCont, decide_eq_true_eq] at hc
                have hb1 : 0x80 ≤ b1 := by
                  have := c1.1
                  split_ifs at this <;> omega
                have hb1' : b0 = 0xE0 → 0xA0 ≤ b1 := by
                  intro e
                  have := c1.1
                  rw [if_pos e] at this
                  exact this
                refine ⟨by omega, ?_, ?_, ?_, ?_⟩
                · simp only [DecodeRune, h1, h2, h3, h4, c1, and_self, if_true, if_false]
                  by_cases e : b0 = 0xE0
                  · have := hb1' e
                    omega
                  · omega
                · simp [DecodeRune, h1, h2, h3, h4, c1]
                · simp [DecodeRune, h1, h2, h3, h4, c1]
                · intro more
                  simp [DecodeRune, h1, h2, h3, h4, c1]
              · left
                exact ⟨by omega, by simp [DecodeRune, h1, h2, h3, h4, c1]⟩
        · by_cases h5 : b0 < 0xF5
          · cases rest with
            | nil => left; exact ⟨by omega, by simp [DecodeRune, h1, h2, h3, h4, h5]⟩
            | cons b1 r1 =>
              cases r1 with
              | nil => left; exact ⟨by omega, by simp [DecodeRune, h1, h2, h3, h4, h5]⟩
              | cons b2 r2 =>
                cases r2 with
                | nil => left; exact ⟨by omega, by simp [DecodeRune, h1, h2, h3, h4, h5]⟩
                | cons b3 r3 =>
                  by_cases c1 : (if b0 = 0xF0 then 0x90 else 0x80) ≤ b1 ∧
                      b1 ≤ (if b0 = 0xF4 then 0x8F else 0xBF) ∧ isCont b2 = true ∧
                      isCont b3 = true
                  · right
                    have hb1 : 0x80 ≤ b1 := by
                      have := c1.1
                      split_ifs at this <;> omega
                    have hb1' : b0 = 0xF0 → 0x90 ≤ b1 := by
                      intro e
                      have := c1.1
                      rw [if_pos e] at this
                      exact this
                    refine ⟨by omega, ?_, ?_, ?_, ?_⟩
                    · simp only [DecodeRune, h1, h2, h3, h4, h5, c1, and_self, if_true, if_false]
                      by_cases e : b0 = 0xF0
                      · have := hb1' e
                        omega
                      · omega
                    · simp [DecodeRune, h1, h2, h3, h4, h5, c1]
                    · simp [DecodeRune, h1, h2, h3, h4, h5, c1]
                    · intro more
                      simp [DecodeRune, h1, h2, h3, h4, h5, c1]
                  · left
                    exact ⟨by omega, by simp [DecodeRune, h1, h2, h3, h4, h5, c1]⟩
          · left
            exact ⟨by omega, by simp [DecodeRune, h1, h2, h3, h4, h5]⟩

/-- The decoder reads what the encoder wrote for one rune of a Go string as the
character of that rune, in one round. -/
theorem stringBody_appendRune (b0 : Nat) (rest : List Nat) (f : Nat) (more : List Nat) :
    stringBody (f + 1)
      (appendRune ((DecodeRune (b0 :: rest)).1,
        (b0 :: rest).take (DecodeRune (b0 :: rest)).2) ++ more) =
      consChar (Char.ofNat (DecodeRune (b0 :: rest)).1) (stringBody f more) := by
  rcases DecodeRune_cases b0 rest with ⟨h1, hd⟩ | ⟨h1, hd⟩ | ⟨h1, hr, h2, hl, hd⟩
  · rw [hd]
    exact stringBody_ascii f b0 _ h1 more
  · rw [hd]
    exact stringBody_invalid f _ (by simp) more
  · obtain ⟨t, ht⟩ : ∃ t, (b0 :: rest).take (DecodeRune (b0 :: rest)).2 = b0 :: t := by
      obtain ⟨n, hn⟩ : ∃ n, (DecodeRune (b0 :: rest)).2 = n + 1 :=
        ⟨(DecodeRune (b0 :: rest)).2 - 1, by omega⟩
      rw [hn]
      exact ⟨rest.take n, rfl⟩
    exact stringBody_multi f _ _ b0 t ht h1 hr (by rw [hl]; exact h2)
      (fun m => by rw [hd m, hl]) more

theorem appendRune_length (b0 : Nat) (rest : List Nat) :
    1 ≤ (appendRune ((DecodeRune (b0 :: rest)).1,
      (b0 :: rest).take (DecodeRune (b0 :: rest)).2)).length := by
  have hseg : 1 ≤ ((b0 :: rest).take (DecodeRune (b0 :: rest)).2).length := by
    rcases DecodeRune_cases b0 rest with ⟨_, hd⟩ | ⟨_, hd⟩ | ⟨_, _, h2, hl, _⟩
    · rw [hd]
      exact Nat.le_refl 1
    · rw [hd]
      exact Nat.le_refl 1
    · omega
  unfold appendRune
  split_ifs
  all_goals first
    | exact hseg
    | exact Nat.succ_le_succ (Nat.zero_le _)

/-- The decoder reads the runes the encoder wrote, up to the closing quote. -/
theorem stringBody_segments (k : Nat) :
    ∀ (bs : List Nat) (f : Nat) (more : List Nat), (runeSegments k bs).length + 1 ≤ f →
      stringBody f (((runeSegments k bs).map appendRune).flatten ++ 34 :: more) =
        some ((runeSegments k bs).map (fun seg => Char.ofNat seg.1), more) := by
  induction k with
  | zero =>
    intro bs f more hf
    obtain ⟨f1, rfl⟩ : ∃ f1, f = f1 + 1 := ⟨f - 1, by omega⟩
    simp [runeSegments, stringBody]
  | succ k ih =>
    intro bs f more hf
    obtain ⟨f1, rfl⟩ : ∃ f1, f = f1 + 1 := ⟨f - 1, by omega⟩
    cases bs with
    | nil => simp [runeSegments, stringBody]
    | cons b rest =>
      simp only [runeSegments, List.map_cons, List.flatten_cons, List.append_assoc,
        List.length_cons] at hf ⊢
      rw [stringBody_appendRune b rest f1, ih _ f1 more (by omega)]
      rfl

theorem runeSegments_length_le (k : Nat) :
    ∀ bs : List Nat,
      (runeSegments k bs).length ≤ ((runeSegments k bs).map appendRune).flatten.length := by
  induction k with
  | zero => intro bs; simp [runeSegments]
  | succ k ih =>
    intro bs
    cases bs with
    | nil => simp [runeSegments]
    | cons b rest =>
      simp only [runeSegments, List.map_cons, List.flatten_cons, List.length_cons,
        List.length_append]
      have h1 := appendRune_length b rest
      have h2 := ih (rest.drop ((DecodeRune (b :: rest)).2 - 1))
      omega

/-- The string literal that `appendString` writes for a Go string is read as
the text of the string, every invalid byte replaced by U+FFFD. -/
theorem stringLiteral_appendString (src more : List Nat) :
    ∃ body, appendString src ++ more = 34 :: body ∧
      stringLiteral body = some ((coerceUTF8 src).data, more) := by
  refine ⟨((goRunes src).map appendRune).flatten ++ 34 :: more, ?_, ?_⟩
  · simp [appendString]
  · unfold stringLiteral coerceUTF8 goRunes
    have hl := runeSegments_length_le src.length src
    rw [stringBody_segments src.length src _ more (by
      simp only [List.length_append, List.length_cons]
      omega)]

/-! ## Numbers: reading what `strconv.AppendInt` wrote -/

theorem digitsValue_append (xs : List Nat) (d : Nat) :
    digitsValue (xs ++ [d]) = digitsValue xs * 10 + (d - 48) := by
  simp [digitsValue, List.foldl_append]

/-- The digits of a number: they are digits, they do not start with `0` unless
the number is 0, and their value is the number. -/
theorem natDigits_spec (f : Nat) :
    ∀ (n : Nat) (acc : List Nat), n < f →
      ∃ d ds, natDigits f n acc = d :: ds ++ acc ∧ isDigit d = true ∧
        (∀ x ∈ ds, isDigit x = true) ∧ digitsValue (d :: ds) = n ∧
        (d = 48 → n = 0 ∧ ds = []) := by
  induction f with
  | zero => intro n acc h; omega
  | succ f ih =>
    intro n acc h
    unfold natDigits
    by_cases h10 : n < 10
    · rw [if_pos h10]
      refine ⟨48 + n, [], rfl, by simp [isDigit]; omega, by simp, by simp [digitsValue],
        fun e => ⟨by omega, rfl⟩⟩
    · rw [if_neg h10]
      obtain ⟨d, ds, h1, h2, h3, h4, h5⟩ := ih (n / 10) ((48 + n % 10) :: acc) (by omega)
      refine ⟨d, ds ++ [48 + n % 10], by rw [h1]; simp, h2, ?_, ?_, ?_⟩
      · intro x hx
        rcases List.mem_append.mp hx with hx | hx
        · exact h3 x hx
        · rw [List.mem_singleton.mp hx]
          simp [isDigit]
          omega
      · rw [← List.cons_append, digitsValue_append, h4]
        omega
      · intro e
        have := (h5 e).1
        omega

theorem spanDigits_digits (ds : List Nat) (hds : ∀ x ∈ ds, isDigit x = true) (c : Nat)
    (more : List Nat) (hc : isDigit c = false) :
    spanDigits (ds ++ c :: more) = (ds, c :: more) := by
  induction ds with
  | nil => simp [spanDigits, hc]
  | cons d ds ih =>
    have hd := hds d (List.mem_cons_self _ _)
    have ih2 := ih (fun x hx => hds x (List.mem_cons_of_mem _ hx))
    simp [spanDigits, hd, ih2]

/-- A number literal of digits alone, followed by a comma or a closing brace,
is read as the integer. -/
theorem numberLiteral_digits (neg : Bool) (d : Nat) (ds : List Nat) (c : Nat)
    (more : List Nat) (hd : isDigit d = true) (hds : ∀ x ∈ ds, isDigit x = true)
    (h0 : d = 48 → ds = []) (hc : c = 44 ∨ c = 125) :
    numberLiteral neg (d :: ds ++ c :: more) =
      some (JVal.num (if neg then -(digitsValue (d :: ds) : Int)
        else (digitsValue (d :: ds) : Int)), c :: more) := by
  have hcd : isDigit c = false := by
    rcases hc with rfl | rfl <;> decide
  have hfe : fractionAndExponent (c :: more) = some (false, c :: more) := by
    rcases hc with rfl | rfl <;> simp [fractionAndExponent]
  unfold numberLiteral
  simp only [List.cons_append, hd, not_true_eq_false, if_false]
  by_cases e : d = 48
  · have := h0 e
    subst this
    subst e
    simp only [if_true, List.nil_append, hfe]
  · simp only [e, if_false, spanDigits_digits ds hds c more hcd, hfe]

theorem isDigit_ne (d : Nat) (h : isDigit d = true) :
    d ≠ 34 ∧ d ≠ 91 ∧ d ≠ 123 ∧ d ≠ 45 := by
  simp only [isDigit, decide_eq_true_eq] at h
  omega

/-- The value that starts with the text `strconv.AppendInt` wrote for an
integer, followed by a comma or a closing brace, is that integer. -/
theorem parseJSON_intText (f depth : Nat) (n : Int) (c : Nat) (more : List Nat)
    (hc : c = 44 ∨ c = 125) :
    parseJSON (f + 1) depth Reading.value (intText n ++ c :: more) =
      some (JVal.num n, c :: more) := by
  obtain ⟨d, ds, h1, h2, h3, h4, h5⟩ := natDigits_spec (n.natAbs + 1) n.natAbs [] (by omega)
  simp only [List.append_nil] at h1
  obtain ⟨n34, n91, n123, n45⟩ := isDigit_ne d h2
  unfold intText
  by_cases hn : n < 0
  · rw [if_pos hn, h1]
    simp only [List.cons_append, parseJSON, show ¬ (45 = 34) by decide,
      show ¬ (45 = 91) by decide, show ¬ (45 = 123) by decide, if_false, if_true]
    rw [← List.cons_append, numberLiteral_digits true d ds c more h2 h3 (fun e => (h5 e).2) hc,
      h4]
    have e : -(n.natAbs : Int) = n := by omega
    simp only [if_true, e]
  · rw [if_neg hn, h1]
    simp only [List.cons_append, parseJSON, n34, n91, n123, n45, if_false, h2, if_true]
    rw [← List.cons_append, numberLiteral_digits false d ds c more h2 h3 (fun e => (h5 e).2) hc,
      h4]
    have e : (n.natAbs : Int) = n := by omega
    simp only [Bool.false_eq_true, if_false, e]

/-! ## Values: reading what the encoder wrote -/

theorem skipSpace_cons (b : Nat) (r : List Nat) (h : isSpace b = false) :
    skipSpace (b :: r) = b :: r := by
  simp [skipSpace, h]

theorem appendString_cons (src : List Nat) :
    ∃ t, appendString src = 34 :: t ∧ 1 ≤ t.length := by
  exact ⟨((goRunes src).map appendRune).flatten ++ [34], by simp [appendString], by simp⟩

theorem parseJSON_elements_eq (f depth : Nat) (bs : List Nat) :
    parseJSON (f + 1) depth Reading.elements bs =
      match parseJSON f depth Reading.value bs with
      | none => none
      | some (v, rest) =>
        match skipSpace rest with
        | c :: rest1 =>
          if c = 93 then some (JVal.arr [v], rest1)
          else if c = 44 then
            match parseJSON f depth Reading.elements (skipSpace rest1) with
            | some (JVal.arr vs, rest2) => some (JVal.arr (v :: vs), rest2)
            | _ => none
          else none
        | [] => none := by
  rw [parseJSON]

theorem parseJSON_members_eq (f depth : Nat) (bs : List Nat) :
    parseJSON (f + 1) depth Reading.members bs =
      match bs with
      | [] => none
      | q :: rest =>
        if q ≠ 34 then none
        else
          match stringLiteral rest with
          | none => none
          | some (key, rest1) =>
            match skipSpace rest1 with
            | c :: rest2 =>
              if c ≠ 58 then none
              else
                match parseJSON f depth Reading.value (skipSpace rest2) with
                | none => none
                | some (v, rest3) =>
                  match skipSpace rest3 with
                  | e :: rest4 =>
                    if e = 125 then some (JVal.obj [(String.mk key, v)], rest4)
                    else if e = 44 then
                      match parseJSON f depth Reading.members (skipSpace rest4) with
                      | some (JVal.obj kvs, rest5) =>
                        some (JVal.obj ((String.mk key, v) :: kvs), rest5)
                      | _ => none
                    else none
                  | [] => none
            | [] => none := by
  cases bs with
  | nil => simp only [parseJSON]
  | cons q rest =>
    simp only [parseJSON]

theorem parseJSON_array_eq (f depth : Nat) (rest : List Nat) (hd : depth < maxNestingDepth) :
    parseJSON (f + 1) depth Reading.value (91 :: rest) =
      match skipSpace rest with
      | c :: rest1 =>
        if c = 93 then some (JVal.arr [], rest1)
        else parseJSON f (depth + 1) Reading.elements (c :: rest1)
      | [] => none := by
  have hnd : ¬ maxNestingDepth ≤ depth := by omega
  rw [parseJSON]
  simp only [show ¬ ((91 : Nat) = 34) by decide, if_false, if_true, hnd]

theorem parseJSON_object_eq (f depth : Nat) (rest : List Nat) (hd : depth < maxNestingDepth) :
    parseJSON (f + 1) depth Reading.value (123 :: rest) =
      match skipSpace rest with
      | c :: rest1 =>
        if c = 125 then some (JVal.obj [], rest1)
        else parseJSON f (depth + 1) Reading.members (c :: rest1)
      | [] => none := by
  have hnd : ¬ maxNestingDepth ≤ depth := by omega
  rw [parseJSON]
  simp only [show ¬ ((123 : Nat) = 34) by decide, show ¬ ((123 : Nat) = 91) by decide,
    if_false, if_true, hnd]

theorem parseJSON_string (f depth : Nat) (src more : List Nat) :
    parseJSON (f + 1) depth Reading.value (appendString src ++ more) =
      some (JVal.str (coerceUTF8 src), more) := by
  obtain ⟨body, h1, h2⟩ := stringLiteral_appendString src more
  rw [h1]
  simp only [parseJSON, if_true, h2, Option.map_some']

theorem commaJoin_cons_cons (x y : List Nat) (rest : List (List Nat)) :
    commaJoin (x :: y :: rest) = x ++ 44 :: commaJoin (y :: rest) := rfl

theorem commaJoin_strings_cons (w : List Nat) (ws : List (List Nat)) :
    ∃ t, commaJoin ((w :: ws).map appendString) = 34 :: t := by
  cases ws with
  | nil => exact ⟨_, rfl⟩
  | cons y ys => exact ⟨_, rfl⟩

/-- The elements of an array of strings. -/
theorem parseJSON_elements (depth : Nat) (more : List Nat) (vs : List (List Nat)) :
    ∀ (v : List Nat) (f : Nat), vs.length + 1 ≤ f →
      parseJSON (f + 1) depth Reading.elements
        (commaJoin ((v :: vs).map appendString) ++ 93 :: more) =
        some (JVal.arr ((v :: vs).map (fun x => JVal.str (coerceUTF8 x))), more) := by
  induction vs with
  | nil =>
    intro v f hf
    obtain ⟨g, rfl⟩ : ∃ g, f = g + 1 := ⟨f - 1, by omega⟩
    simp only [List.map_cons, List.map_nil, commaJoin]
    rw [parseJSON_elements_eq, parseJSON_string g depth v (93 :: more)]
    simp only [skipSpace_cons 93 more (by decide), if_true]
  | cons w ws ih =>
    intro v f hf
    obtain ⟨g, rfl⟩ : ∃ g, f = g + 1 := ⟨f - 1, by simp at hf; omega⟩
    obtain ⟨t, ht⟩ := commaJoin_strings_cons w ws
    have ih2 := ih w g (by simp at hf; omega)
    simp only [List.map_cons] at ih2 ht ⊢
    rw [commaJoin_cons_cons, List.append_assoc, List.cons_append]
    rw [parseJSON_elements_eq, parseJSON_string g depth v]
    simp only [skipSpace_cons 44 _ (by decide), show ¬ ((44 : Nat) = 93) by decide, if_false,
      if_true]
    rw [ht, List.cons_append, skipSpace_cons 34 _ (by decide), ← List.cons_append, ← ht, ih2]

theorem null_text (more : List Nat) (f depth : Nat) :
    parseJSON (f + 1) depth Reading.value (asciiBytes "null" ++ more) = some (JVal.null, more) := by
  have e : asciiBytes "null" = [110, 117, 108, 108] := by decide
  rw [e]
  simp [parseJSON, isDigit, asciiBytes, List.isPrefixOf]

/-- The text of a slice of strings is read as its document. -/
theorem parseJSON_slice (f depth : Nat) (s : Option (List (List Nat))) (more : List Nat)
    (hd : depth < maxNestingDepth) (hf : (s.getD []).length + 1 ≤ f) :
    parseJSON (f + 1) depth Reading.value (sliceText s ++ more) = some (sliceDoc s, more) := by
  cases s with
  | none => exact null_text more f depth
  | some vs =>
    have hnd : ¬ maxNestingDepth ≤ depth := by omega
    cases vs with
    | nil =>
      simp only [sliceText, sliceDoc, List.map_nil, commaJoin, List.nil_append, List.cons_append,
        List.append_nil]
      rw [parseJSON_array_eq f depth _ hd]
      simp only [skipSpace_cons 93 more (by decide), if_true]
    | cons v vs =>
      obtain ⟨t, ht⟩ := commaJoin_strings_cons v vs
      obtain ⟨g, rfl⟩ : ∃ g, f = g + 1 := ⟨f - 1, by simp at hf; omega⟩
      have hel := parseJSON_elements (depth + 1) more vs v g (by simp at hf; omega)
      simp only [sliceText, sliceDoc, List.cons_append, List.append_assoc, List.nil_append]
      rw [parseJSON_array_eq (g + 1) depth _ hd]
      rw [ht, List.cons_append, skipSpace_cons 34 _ (by decide)]
      simp only [show ¬ ((34 : Nat) = 93) by decide, if_false]
      rw [← List.cons_append, ← ht, hel]

theorem sliceText_first (s : Option (List (List Nat))) :
    ∃ b t, sliceText s = b :: t ∧ isSpace b = false := by
  cases s with
  | none => exact ⟨110, [117, 108, 108], by decide, by decide⟩
  | some vs => exact ⟨91, _, rfl, by decide⟩

/-! ## Members -/

theorem skipSpace_first (vt more : List Nat)
    (h : ∃ b t, vt = b :: t ∧ isSpace b = false) : skipSpace (vt ++ more) = vt ++ more := by
  obtain ⟨b, t, rfl, hb⟩ := h
  rw [List.cons_append, skipSpace_cons _ _ hb]

theorem appendString_first (src : List Nat) :
    ∃ b t, appendString src = b :: t ∧ isSpace b = false := by
  obtain ⟨t, ht, _⟩ := appendString_cons src
  exact ⟨34, t, ht, by decide⟩

theorem intText_first (n : Int) : ∃ b t, intText n = b :: t ∧ isSpace b = false := by
  obtain ⟨d, ds, h1, h2, _, _, _⟩ := natDigits_spec (n.natAbs + 1) n.natAbs [] (by omega)
  simp only [List.append_nil] at h1
  unfold intText
  split_ifs
  · exact ⟨45, _, rfl, by decide⟩
  · refine ⟨d, ds, h1, ?_⟩
    simp only [isDigit, decide_eq_true_eq] at h2
    simp only [isSpace, decide_eq_false_iff_not]
    omega

theorem boolText_first (b : Bool) :
    ∃ c t, asciiBytes (if b then "true" else "false") = c :: t ∧ isSpace c = false := by
  cases b
  · exact ⟨102, [97, 108, 115, 101], by decide, by decide⟩
  · exact ⟨116, [114, 117, 101], by decide, by decide⟩

theorem headerText_first (h : Option (List (List Nat × Option (List (List Nat))))) :
    ∃ b t, headerText h = b :: t ∧ isSpace b = false := by
  cases h with
  | none => exact ⟨110, [117, 108, 108], by decide, by decide⟩
  | some vs => exact ⟨123, _, rfl, by decide⟩

theorem parseJSON_boolText (f depth : Nat) (b : Bool) (more : List Nat) :
    parseJSON (f + 1) depth Reading.value (asciiBytes (if b then "true" else "false") ++ more) =
      some (JVal.bool b, more) := by
  cases b
  · have e : asciiBytes "false" = [102, 97, 108, 115, 101] := by decide
    simp only [Bool.false_eq_true, if_false]
    rw [e]
    simp [parseJSON, isDigit, List.isPrefixOf, asciiBytes]
  · have e : asciiBytes "true" = [116, 114, 117, 101] := by decide
    simp only [if_true]
    rw [e]
    simp [parseJSON, isDigit, List.isPrefixOf, asciiBytes]

/-- The last member of an object. -/
theorem parseJSON_member_last (f depth : Nat) (kb vt : List Nat) (v : JVal) (rest : List Nat)
    (hv : parseJSON f depth Reading.value (vt ++ 125 :: rest) = some (v, 125 :: rest))
    (hs : ∃ b t, vt = b :: t ∧ isSpace b = false) :
    parseJSON (f + 1) depth Reading.members (appendString kb ++ 58 :: (vt ++ 125 :: rest)) =
      some (JVal.obj [(coerceUTF8 kb, v)], rest) := by
  obtain ⟨body, h1, h2⟩ := stringLiteral_appendString kb (58 :: (vt ++ 125 :: rest))
  rw [h1, parseJSON_members_eq]
  simp only [ne_eq, not_true_eq_false, if_false, h2, skipSpace_cons 58 _ (by decide),
    skipSpace_first vt _ hs, hv, skipSpace_cons 125 _ (by decide), if_true]

/-- A member that is followed by another one. -/
theorem parseJSON_member_more (f depth : Nat) (kb vt : List Nat) (v : JVal)
    (rest : List Nat) (kvs : List (String × JVal)) (after : List Nat)
    (hv : parseJSON f depth Reading.value (vt ++ 44 :: rest) = some (v, 44 :: rest))
    (hs : ∃ b t, vt = b :: t ∧ isSpace b = false)
    (hr : ∃ b t, rest = b :: t ∧ isSpace b = false)
    (hm : parseJSON f depth Reading.members rest = some (JVal.obj kvs, after)) :
    parseJSON (f + 1) depth Reading.members (appendString kb ++ 58 :: (vt ++ 44 :: rest)) =
      some (JVal.obj ((coerceUTF8 kb, v) :: kvs), after) := by
  obtain ⟨body, h1, h2⟩ := stringLiteral_appendString kb (58 :: (vt ++ 44 :: rest))
  have hr2 : skipSpace rest = rest := by
    have := skipSpace_first rest [] hr
    simpa using this
  rw [h1, parseJSON_members_eq]
  simp only [ne_eq, not_true_eq_false, if_false, h2, skipSpace_cons 58 _ (by decide),
    skipSpace_first vt _ hs, hv, skipSpace_cons 44 _ (by decide), if_true,
    show ¬ ((44 : Nat) = 125) by decide, hr2, hm]

/-! ## The header -/

theorem headerText_some (h : List (List Nat × Option (List (List Nat)))) :
    headerText (some h) = 123 :: commaJoin ((sortedKeys h).map (headerMember h)) ++ [125] := rfl

theorem commaJoin_members_first (h : List (List Nat × Option (List (List Nat))))
    (k : List Nat) (ks : List (List Nat)) (more : List Nat) :
    ∃ t, commaJoin ((k :: ks).map (headerMember h)) ++ more = 34 :: t := by
  obtain ⟨t, ht, _⟩ := appendString_cons k
  cases ks with
  | nil =>
    exact ⟨t ++ 58 :: (sliceText ((goMapGet h k).getD none) ++ more),
      by simp [commaJoin, headerMember, ht]⟩
  | cons y ys =>
    exact ⟨t ++ 58 :: (sliceText ((goMapGet h k).getD none) ++
        44 :: (commaJoin ((y :: ys).map (headerMember h)) ++ more)),
      by simp [commaJoin, headerMember, ht]⟩

/-- The members of the header map. -/
theorem parseJSON_headerMembers (h : List (List Nat × Option (List (List Nat)))) (depth M : Nat)
    (more : List Nat) (hd : depth < maxNestingDepth) (ks : List (List Nat)) :
    ∀ (k : List Nat) (f : Nat), ks.length + M + 2 ≤ f →
      (∀ x ∈ k :: ks, (((goMapGet h x).getD none).getD []).length ≤ M) →
      parseJSON (f + 1) depth Reading.members
        (commaJoin ((k :: ks).map (headerMember h)) ++ 125 :: more) =
        some (JVal.obj ((k :: ks).map (fun x =>
          (coerceUTF8 x, sliceDoc ((goMapGet h x).getD none)))), more) := by
  induction ks with
  | nil =>
    intro k f hf hM
    obtain ⟨g, rfl⟩ : ∃ g, f = g + 1 := ⟨f - 1, by omega⟩
    have hk := hM k (List.mem_cons_self _ _)
    simp only [List.map_cons, List.map_nil, commaJoin, headerMember, List.append_assoc,
      List.cons_append]
    exact parseJSON_member_last (g + 1) depth k _ _ more
      (parseJSON_slice g depth _ _ hd (by simp at hf; omega)) (sliceText_first _)
  | cons y ys ih =>
    intro k f hf hM
    obtain ⟨g, rfl⟩ : ∃ g, f = g + 1 := ⟨f - 1, by omega⟩
    have hk := hM k (List.mem_cons_self _ _)
    have ih2 := ih y g (by simp at hf; omega)
      (fun x hx => hM x (List.mem_cons_of_mem _ hx))
    obtain ⟨t, ht⟩ := commaJoin_members_first h y ys (125 :: more)
    simp only [List.map_cons] at ih2 ht ⊢
    rw [commaJoin_cons_cons]
    simp only [headerMember, List.append_assoc, List.cons_append] at ih2 ht ⊢
    exact parseJSON_member_more (g + 1) depth k _ _ _ _ more
      (parseJSON_slice g depth _ _ hd (by simp at hf; omega)) (sliceText_first _)
      ⟨34, t, ht, by decide⟩ ih2

/-- The text of the header map is read as its document. -/
theorem parseJSON_header (f depth M : Nat)
    (h : Option (List (List Nat × Option (List (List Nat))))) (more : List Nat)
    (hd : depth + 1 < maxNestingDepth)
    (hf : ∀ m, h = some m → (sortedKeys m).length + M + 2 ≤ f ∧
      ∀ x ∈ sortedKeys m, (((goMapGet m x).getD none).getD []).length ≤ M) :
    parseJSON (f + 1) depth Reading.value (headerText h ++ more) =
      some (headerDoc h, more) := by
  cases h with
  | none => exact null_text more f depth
  | some m =>
    obtain ⟨hf1, hf2⟩ := hf m rfl
    rw [headerText_some, headerDoc]
    cases hk : sortedKeys m with
    | nil =>
      simp only [List.map_nil, commaJoin, List.cons_append, List.nil_append]
      rw [parseJSON_object_eq f depth _ (by omega)]
      simp only [skipSpace_cons 125 more (by decide), if_true]
    | cons k ks =>
      rw [hk] at hf1 hf2
      obtain ⟨g, rfl⟩ : ∃ g, f = g + 1 := ⟨f - 1, by simp at hf1; omega⟩
      obtain ⟨t, ht⟩ := commaJoin_members_first m k ks (125 :: more)
      have hmem := parseJSON_headerMembers m (depth + 1) M more hd ks k g
        (by simp at hf1; omega) hf2
      simp only [List.cons_append, List.append_assoc, List.nil_append]
      rw [parseJSON_object_eq (g + 1) depth _ (by omega)]
      rw [ht, skipSpace_cons 34 _ (by decide)]
      simp only [show ¬ ((34 : Nat) = 125) by decide, if_false]
      rw [← ht, hmem]

theorem skipFirst_append (vt more : List Nat)
    (h : ∃ b t, vt = b :: t ∧ isSpace b = false) :
    ∃ b t, vt ++ more = b :: t ∧ isSpace b = false := by
  obtain ⟨b, t, rfl, hb⟩ := h
  exact ⟨b, t ++ more, rfl, hb⟩

/-! ## The struct -/

theorem commaJoin_length_count (xs : List (List Nat)) (h : ∀ x ∈ xs, 1 ≤ x.length) :
    xs.length ≤ (commaJoin xs).length := by
  induction xs with
  | nil => simp
  | cons x t ih =>
    cases t with
    | nil =>
      have := h x (List.mem_cons_self _ _)
      simpa [commaJoin] using this
    | cons y ys =>
      have h2 := ih (fun z hz => h z (List.mem_cons_of_mem _ hz))
      rw [commaJoin_cons_cons]
      simp only [List.length_append, List.length_cons] at h2 ⊢
      omega

theorem commaJoin_length_mem (xs : List (List Nat)) (x : List Nat) (h : x ∈ xs) :
    x.length ≤ (commaJoin xs).length := by
  induction xs with
  | nil => simp at h
  | cons a t ih =>
    cases t with
    | nil =>
      simp only [List.mem_singleton] at h
      subst h
      simp [commaJoin]
    | cons y ys =>
      rw [commaJoin_cons_cons]
      simp only [List.length_append, List.length_cons]
      rcases List.mem_cons.mp h with h1 | h1
      · subst h1
        omega
      · have := ih h1
        omega

theorem sliceText_length (s : Option (List (List Nat))) :
    (s.getD []).length ≤ (sliceText s).length := by
  cases s with
  | none => simp
  | some vs =>
    have := commaJoin_length_count (vs.map appendString) (by
      intro x hx
      obtain ⟨v, _, rfl⟩ := List.mem_map.mp hx
      obtain ⟨t, ht, _⟩ := appendString_cons v
      rw [ht]
      simp)
    simp only [sliceText, Option.getD_some, List.cons_append, List.length_cons,
      List.length_append, List.length_map] at this ⊢
    omega

theorem headerText_bounds (m : List (List Nat × Option (List (List Nat)))) :
    (sortedKeys m).length ≤ (headerText (some m)).length ∧
    ∀ x ∈ sortedKeys m,
      (((goMapGet m x).getD none).getD []).length ≤ (headerText (some m)).length := by
  rw [headerText_some]
  simp only [List.cons_append, List.length_cons, List.length_append, List.length_nil]
  constructor
  · have := commaJoin_length_count ((sortedKeys m).map (headerMember m)) (by
      intro x hx
      obtain ⟨v, _, rfl⟩ := List.mem_map.mp hx
      obtain ⟨t, ht, _⟩ := appendString_cons v
      simp [headerMember, ht])
    simp only [List.length_map] at this
    omega
  · intro x hx
    have h1 := commaJoin_length_mem ((sortedKeys m).map (headerMember m)) (headerMember m x)
      (List.mem_map_of_mem _ hx)
    have h2 := sliceText_length ((goMapGet m x).getD none)
    simp only [headerMember, List.length_append, List.length_cons] at h1
    omega

theorem tagText :
    asciiBytes "\"status\":" = appendString (asciiBytes "status") ++ [58] ∧
    asciiBytes ",\"statusCode\":" = 44 :: (appendString (asciiBytes "statusCode") ++ [58]) ∧
    asciiBytes ",\"proto\":" = 44 :: (appendString (asciiBytes "proto") ++ [58]) ∧
    asciiBytes ",\"header\":" = 44 :: (appendString (asciiBytes "header") ++ [58]) ∧
    asciiBytes ",\"contentLength\":" =
      44 :: (appendString (asciiBytes "contentLength") ++ [58]) ∧
    asciiBytes ",\"uncompressed\":" =
      44 :: (appendString (asciiBytes "uncompressed") ++ [58]) ∧
    asciiBytes ",\"cacheKey\":" = 44 :: (appendString (asciiBytes "cacheKey") ++ [58]) := by
  refine ⟨?_, ?_, ?_, ?_, ?_, ?_, ?_⟩ <;> decide

theorem tagName :
    coerceUTF8 (asciiBytes "status") = "status" ∧
    coerceUTF8 (asciiBytes "statusCode") = "statusCode" ∧
    coerceUTF8 (asciiBytes "proto") = "proto" ∧
    coerceUTF8 (asciiBytes "header") = "header" ∧
    coerceUTF8 (asciiBytes "contentLength") = "contentLength" ∧
    coerceUTF8 (asciiBytes "uncompressed") = "uncompressed" ∧
    coerceUTF8 (asciiBytes "cacheKey") = "cacheKey" := by
  refine ⟨?_, ?_, ?_, ?_, ?_, ?_, ?_⟩ <;> decide

/-- The text of the struct, member by member. -/
theorem jsonMarshal_members (g : GoResponseFile) :
    jsonMarshal g = 123 ::
      (appendString (asciiBytes "status") ++ 58 :: (appendString g.Status ++ 44 ::
      (appendString (asciiBytes "statusCode") ++ 58 :: (intText g.StatusCode ++ 44 ::
      (appendString (asciiBytes "proto") ++ 58 :: (appendString g.Proto ++ 44 ::
      (appendString (asciiBytes "header") ++ 58 :: (headerText g.Header ++ 44 ::
      (appendString (asciiBytes "contentLength") ++ 58 :: (intText g.ContentLength ++ 44 ::
      (appendString (asciiBytes "uncompressed") ++ 58 ::
        (asciiBytes (if g.Uncompressed then "true" else "false") ++ 44 ::
      (appendString (asciiBytes "cacheKey") ++ 58 ::
        (appendString g.CacheKey ++ 125 :: [])))))))))))))) := by
  obtain ⟨t1, t2, t3, t4, t5, t6, t7⟩ := tagText
  unfold jsonMarshal
  rw [t1, t2, t3, t4, t5, t6, t7]
  simp only [List.append_assoc, List.cons_append, List.nil_append]

theorem jsonMarshal_length (g : GoResponseFile) :
    (headerText g.Header).length + 20 ≤ (jsonMarshal g).length := by
  unfold jsonMarshal
  simp only [List.length_append, List.length_cons, asciiBytes, List.length_map]
  have e1 : ("\"status\":" : String).data.length = 9 := by decide
  have e2 : (",\"statusCode\":" : String).data.length = 14 := by decide
  omega

/-- The object `json.Marshal` wrote is read as the document of the value. -/
theorem parseJSON_jsonMarshal (g : GoResponseFile) (f : Nat)
    (hf : 2 * (headerText g.Header).length + 2 ≤ f) :
    parseJSON (f + 10) 0 Reading.value (jsonMarshal g) = some (goDocument g, []) := by
  obtain ⟨n1, n2, n3, n4, n5, n6, n7⟩ := tagName
  have hhead : parseJSON (f + 5) 1 Reading.value (headerText g.Header ++ 44 ::
      (appendString (asciiBytes "contentLength") ++ 58 :: (intText g.ContentLength ++ 44 ::
      (appendString (asciiBytes "uncompressed") ++ 58 ::
        (asciiBytes (if g.Uncompressed then "true" else "false") ++ 44 ::
      (appendString (asciiBytes "cacheKey") ++ 58 ::
        (appendString g.CacheKey ++ 125 :: []))))))) = some (headerDoc g.Header, _) :=
    parseJSON_header (f + 4) 1 (headerText g.Header).length g.Header _ (by decide) (by
      intro m hm
      obtain ⟨b1, b2⟩ := headerText_bounds m
      rw [hm] at hf ⊢
      exact ⟨by omega, b2⟩)
  have h7 := parseJSON_member_last (f + 2) 1 (asciiBytes "cacheKey") (appendString g.CacheKey)
    _ [] (parseJSON_string (f + 1) 1 g.CacheKey _) (appendString_first _)
  have h6 := parseJSON_member_more (f + 3) 1 (asciiBytes "uncompressed")
    (asciiBytes (if g.Uncompressed then "true" else "false")) _ _ _ _
    (parseJSON_boolText (f + 2) 1 g.Uncompressed _) (boolText_first _)
    (skipFirst_append _ _ (appendString_first _)) h7
  have h5 := parseJSON_member_more (f + 4) 1 (asciiBytes "contentLength")
    (intText g.ContentLength) _ _ _ _
    (parseJSON_intText (f + 3) 1 g.ContentLength 44 _ (Or.inl rfl)) (intText_first _)
    (skipFirst_append _ _ (appendString_first _)) h6
  have h4 := parseJSON_member_more (f + 5) 1 (asciiBytes "header")
    (headerText g.Header) _ _ _ _ hhead (headerText_first _)
    (skipFirst_append _ _ (appendString_first _)) h5
  have h3 := parseJSON_member_more (f + 6) 1 (asciiBytes "proto")
    (appendString g.Proto) _ _ _ _
    (parseJSON_string (f + 5) 1 g.Proto _) (appendString_first _)
    (skipFirst_append _ _ (appendString_first _)) h4
  have h2 := parseJSON_member_more (f + 7) 1 (asciiBytes "statusCode")
    (intText g.StatusCode) _ _ _ _
    (parseJSON_intText (f + 6) 1 g.StatusCode 44 _ (Or.inl rfl)) (intText_first _)
    (skipFirst_append _ _ (appendString_first _)) h3
  have h1 := parseJSON_member_more (f + 8) 1 (asciiBytes "status")
    (appendString g.Status) _ _ _ _
    (parseJSON_string (f + 7) 1 g.Status _) (appendString_first _)
    (skipFirst_append _ _ (appendString_first _)) h2
  obtain ⟨t, ht, _⟩ := appendString_cons (asciiBytes "status")
  rw [jsonMarshal_members, parseJSON_object_eq (f + 9) 0 _ (by decide)]
  rw [n1, n2, n3, n4, n5, n6, n7] at h1
  rw [ht, List.cons_append, skipSpace_cons 34 _ (by decide)]
  simp only [show ¬ ((34 : Nat) = 125) by decide, if_false]
  rw [← List.cons_append, ← ht, h1]
  rfl

/-- Reading back the text `json.Marshal` wrote: the syntax layer of
`json.Unmarshal` accepts it and finds the document of the value. -/
theorem jsonParse_jsonMarshal (g : GoResponseFile) :
    jsonParse (jsonMarshal g) = some (goDocument g) := by
  have hl := jsonMarshal_length g
  have hs : skipSpace (jsonMarshal g) = jsonMarshal g := by
    rw [jsonMarshal_members, skipSpace_cons 123 _ (by decide)]
  obtain ⟨f, hf⟩ : ∃ f, 2 * (jsonMarshal g).length + 2 = f + 10 :=
    ⟨2 * (jsonMarshal g).length + 2 - 10, by omega⟩
  unfold jsonParse
  rw [hs, hf, parseJSON_jsonMarshal g f (by omega)]
  simp [skipSpace]

/-! ## The order of the keys: UTF-8 keeps the order of the code points -/

theorem leBytes_append (e as bs : List Nat) : leBytes (e ++ as) (e ++ bs) = leBytes as bs := by
  induction e with
  | nil => rfl
  | cons x t ih => simp [leBytes, ih]

/-- The bytes of the encoding of a rune that is no surrogate, by the number
of bytes. -/
theorem EncodeRune_digits (a : Nat) (ha : a < 0xD800 ∨ (0xDFFF < a ∧ a < 0x110000)) :
    (a < 0x80 ∧ EncodeRune a = [a]) ∨
    (∃ x0 x1, 0x80 ≤ a ∧ a < 0x800 ∧ a = x0 * 64 + x1 ∧ x1 < 64 ∧
      EncodeRune a = [0xC0 + x0, 0x80 + x1]) ∨
    (∃ x0 x1 x2, 0x800 ≤ a ∧ a < 0x10000 ∧ a = (x0 * 64 + x1) * 64 + x2 ∧ x1 < 64 ∧ x2 < 64 ∧
      EncodeRune a = [0xE0 + x0, 0x80 + x1, 0x80 + x2]) ∨
    (∃ x0 x1 x2 x3, 0x10000 ≤ a ∧ a = ((x0 * 64 + x1) * 64 + x2) * 64 + x3 ∧
      x1 < 64 ∧ x2 < 64 ∧ x3 < 64 ∧
      EncodeRune a = [0xF0 + x0, 0x80 + x1, 0x80 + x2, 0x80 + x3]) := by
  unfold EncodeRune
  split_ifs with h1 h2 h3 h4
  · exact Or.inl ⟨h1, rfl⟩
  · exact Or.inr (Or.inl ⟨a / 64, a % 64, by omega, h2, by omega, by omega, rfl⟩)
  · exfalso
    omega
  · exact Or.inr (Or.inr (Or.inl ⟨a / 4096, a / 64 % 64, a % 64, by omega, h4, by omega,
      by omega, by omega, rfl⟩))
  · exact Or.inr (Or.inr (Or.inr ⟨a / 262144, a / 4096 % 64, a / 64 % 64, a % 64, by omega,
      by omega, by omega, by omega, by omega, rfl⟩))

theorem leBytes_first (x y : Nat) (s t : List Nat) (h : x < y) :
    leBytes (x :: s) (y :: t) = true ∧ leBytes (y :: t) (x :: s) = false := by
  constructor
  · simp [leBytes, h]
  · have h2 : ¬ y < x := by omega
    simp [leBytes, h, h2]

theorem leBytes_second (x : Nat) (s t : List Nat)
    (h : leBytes s t = true ∧ leBytes t s = false) :
    leBytes (x :: s) (x :: t) = true ∧ leBytes (x :: t) (x :: s) = false := by
  simp [leBytes, h.1, h.2]

theorem leBytes_digits2 (x0 x1 y0 y1 : Nat) (s t : List Nat)
    (h : x0 < y0 ∨ (x0 = y0 ∧ x1 < y1)) :
    leBytes (x0 :: x1 :: s) (y0 :: y1 :: t) = true ∧
    leBytes (y0 :: y1 :: t) (x0 :: x1 :: s) = false := by
  rcases h with h | ⟨rfl, h⟩
  · exact leBytes_first _ _ _ _ h
  · exact leBytes_second _ _ _ (leBytes_first _ _ _ _ h)

theorem leBytes_digits3 (x0 x1 x2 y0 y1 y2 : Nat) (s t : List Nat)
    (h : x0 < y0 ∨ (x0 = y0 ∧ (x1 < y1 ∨ (x1 = y1 ∧ x2 < y2)))) :
    leBytes (x0 :: x1 :: x2 :: s) (y0 :: y1 :: y2 :: t) = true ∧
    leBytes (y0 :: y1 :: y2 :: t) (x0 :: x1 :: x2 :: s) = false := by
  rcases h with h | ⟨rfl, h⟩
  · exact leBytes_first _ _ _ _ h
  · exact leBytes_second _ _ _ (leBytes_digits2 _ _ _ _ _ _ h)

theorem leBytes_digits4 (x0 x1 x2 x3 y0 y1 y2 y3 : Nat) (s t : List Nat)
    (h : x0 < y0 ∨ (x0 = y0 ∧ (x1 < y1 ∨ (x1 = y1 ∧ (x2 < y2 ∨ (x2 = y2 ∧ x3 < y3)))))) :
    leBytes (x0 :: x1 :: x2 :: x3 :: s) (y0 :: y1 :: y2 :: y3 :: t) = true ∧
    leBytes (y0 :: y1 :: y2 :: y3 :: t) (x0 :: x1 :: x2 :: x3 :: s) = false := by
  rcases h with h | ⟨rfl, h⟩
  · exact leBytes_first _ _ _ _ h
  · exact leBytes_second _ _ _ (leBytes_digits3 _ _ _ _ _ _ _ _ h)

theorem leBytes_EncodeRune_lt (a b : Nat) (as bs : List Nat)
    (ha : a < 0xD800 ∨ (0xDFFF < a ∧ a < 0x110000))
    (hb : b < 0xD800 ∨ (0xDFFF < b ∧ b < 0x110000)) (h : a < b) :
    leBytes (EncodeRune a ++ as) (EncodeRune b ++ bs) = true ∧
    leBytes (EncodeRune b ++ bs) (EncodeRune a ++ as) = false := by
  rcases EncodeRune_digits a ha with ⟨a1, ea⟩ | ⟨x0, x1, a1, a2, a3, a4, ea⟩ |
      ⟨x0, x1, x2, a1, a2, a3, a4, a5, ea⟩ | ⟨x0, x1, x2, x3, a1, a3, a4, a5, a6, ea⟩
  · rcases EncodeRune_digits b hb with ⟨b1, eb⟩ | ⟨y0, y1, b1, b2, b3, b4, eb⟩ |
      ⟨y0, y1, y2, b1, b2, b3, b4, b5, eb⟩ | ⟨y0, y1, y2, y3, b1, b3, b4, b5, b6, eb⟩ <;>
    rw [ea, eb] <;> exact leBytes_first _ _ _ _ (by omega)
  · rcases EncodeRune_digits b hb with ⟨b1, eb⟩ | ⟨y0, y1, b1, b2, b3, b4, eb⟩ |
      ⟨y0, y1, y2, b1, b2, b3, b4, b5, eb⟩ | ⟨y0, y1, y2, y3, b1, b3, b4, b5, b6, eb⟩
    · omega
    · rw [ea, eb]
      exact leBytes_digits2 _ _ _ _ _ _ (by omega)
    · rw [ea, eb]
      exact leBytes_first _ _ _ _ (by omega)
    · rw [ea, eb]
      exact leBytes_first _ _ _ _ (by omega)
  · rcases EncodeRune_digits b hb with ⟨b1, eb⟩ | ⟨y0, y1, b1, b2, b3, b4, eb⟩ |
      ⟨y0, y1, y2, b1, b2, b3, b4, b5, eb⟩ | ⟨y0, y1, y2, y3, b1, b3, b4, b5, b6, eb⟩
    · omega
    · omega
    · rw [ea, eb]
      exact leBytes_digits3 _ _ _ _ _ _ _ _ (by omega)
    · rw [ea, eb]
      exact leBytes_first _ _ _ _ (by omega)
  · rcases EncodeRune_digits b hb with ⟨b1, eb⟩ | ⟨y0, y1, b1, b2, b3, b4, eb⟩ |
      ⟨y0, y1, y2, b1, b2, b3, b4, b5, eb⟩ | ⟨y0, y1, y2, y3, b1, b3, b4, b5, b6, eb⟩
    · omega
    · omega
    · omega
    · rw [ea, eb]
      exact leBytes_digits4 _ _ _ _ _ _ _ _ _ _ (by omega)

theorem leBytes_utf8Bytes (as : List Char) :
    ∀ bs : List Char, leBytes (utf8Bytes as) (utf8Bytes bs) = leChars as bs := by
  induction as with
  | nil => intro bs; simp [utf8Bytes, leBytes, leChars]
  | cons a as ih =>
    intro bs
    cases bs with
    | nil =>
      obtain ⟨x, t, hx⟩ : ∃ x t, EncodeRune a.toNat = x :: t := by
        cases h : EncodeRune a.toNat with
        | nil => exact absurd h (EncodeRune_ne_nil _)
        | cons x t => exact ⟨x, t, rfl⟩
      simp [utf8Bytes, leBytes, leChars, hx]
    | cons b bs =>
      simp only [utf8Bytes, leChars]
      have ha := Char_toNat_valid a
      have hb := Char_toNat_valid b
      by_cases h1 : a.toNat < b.toNat
      · rw [(leBytes_EncodeRune_lt _ _ _ _ ha hb h1).1]
        simp [h1]
      · by_cases h2 : b.toNat < a.toNat
        · rw [(leBytes_EncodeRune_lt _ _ _ _ hb ha h2).2]
          simp [h1, h2]
        · have e : a.toNat = b.toNat := by omega
          rw [e, leBytes_append, ih]
          simp

theorem leBytes_goString (a b : String) : leBytes (goString a) (goString b) = strLe a b :=
  leBytes_utf8Bytes a.data b.data

theorem goString_inj : Function.Injective goString :=
  fun a b h => goString_injective a b h

/-! ## The Go value of a `ResponseFile` and its document -/

theorem goMapGet_goHeader (h : List (String × List String)) (k : String) :
    goMapGet (goHeader h) (goString k) = (mapGet h k).map (fun v => some (v.map goString)) := by
  induction h with
  | nil => rfl
  | cons e t ih =>
    obtain ⟨k1, v⟩ := e
    simp only [goHeader, List.map_cons, goMapGet, mapGet] at ih ⊢
    by_cases hk : k1 = k
    · simp [hk]
    · have : goString k1 ≠ goString k := fun hh => hk (goString_inj hh)
      simp only [hk, this, if_false]
      exact ih

theorem sortedKeys_goHeader (h : List (String × List String)) :
    sortedKeys (goHeader h) = (sortStrings (mapKeys h)).map goString := by
  unfold sortedKeys sortStrings mapKeys goHeader
  rw [List.map_map]
  have e : (Prod.fst ∘ fun kv : String × List String =>
      (goString kv.1, some (kv.2.map goString))) = goString ∘ Prod.fst := rfl
  rw [e, ← List.map_map, List.dedup_map_of_injective goString_inj]
  refine (List.map_insertionSort _ _ goString _ ?_).symm
  intro a _ b _
  rw [leBytes_goString]

theorem coerce_comp_goString :
    ((fun v => JVal.str (coerceUTF8 v)) ∘ goString) = JVal.str := by
  funext s
  simp [coerceUTF8_goString]

theorem headerDoc_goHeader (h : List (String × List String)) :
    headerDoc (some (goHeader h)) = marshalHeader h := by
  simp only [headerDoc, marshalHeader]
  rw [sortedKeys_goHeader, List.map_map]
  congr 1
  apply List.map_congr_left
  intro k hk
  have hmem : (mapGet h k).isSome = true := by
    rw [mapGet_isSome_iff_mem]
    unfold sortStrings mapKeys at hk
    rw [(List.perm_insertionSort _ _).mem_iff, List.mem_dedup] at hk
    exact hk
  obtain ⟨v, hv⟩ := Option.isSome_iff_exists.mp hmem
  simp only [Function.comp, coerceUTF8_goString, goMapGet_goHeader, hv, Option.map_some',
    Option.getD_some, sliceDoc, List.map_map, coerce_comp_goString]

/-- The document `json.Marshal` writes for a `ResponseFile` whose strings are
texts is the document of its fields. -/
theorem goDocument_toGo (m : ResponseFile) : goDocument m.toGo = Marshal m := by
  have e : m.toGo.Header = some (goHeader m.Header) := rfl
  unfold goDocument Marshal
  rw [e, headerDoc_goHeader]
  simp [ResponseFile.toGo, coerceUTF8_goString]

theorem jsonParse_toGo (m : ResponseFile) :
    jsonParse (jsonMarshal m.toGo) = some (Marshal m) := by
  rw [jsonParse_jsonMarshal, goDocument_toGo]

theorem decodeSlice_sliceDoc (s : Option (List (List Nat))) :
    decodeSlice (sliceDoc s) = ((s.getD []).map coerceUTF8, false) := by
  cases s with
  | none => rfl
  | some vs =>
    have h := decodeSlice_strings (vs.map coerceUTF8)
    simp only [List.map_map] at h
    exact h

theorem decodeHeader_headerDoc (h : Option (List (List Nat × Option (List (List Nat))))) :
    (decodeHeader (headerDoc h) []).2 = false := by
  cases h with
  | none => rfl
  | some m => simp [headerDoc, decodeHeader, decodeSlice_sliceDoc]

/-- What `Load` finds in the file `Dump` wrote. -/
theorem Load_Dump (env : Env) (g : GoResponseFile) (p : String) (w : World)
    (hd : env.dumpErr = false) :
    (Dump env g p w).2 = none ∧
    mapGet (Dump env g p w).1.files p = some (FileData.bytes (jsonMarshal g)) ∧
    Load jsonParse false emptyResponseFile p (Dump env g p w).1.files =
      Unmarshal (goDocument g) emptyResponseFile := by
  have hfile : mapGet (Dump env g p w).1.files p = some (FileData.bytes (jsonMarshal g)) := by
    simp [Dump, hd, mapGet_mapSet_self]
  refine ⟨by simp [Dump, hd], hfile, ?_⟩
  simp [Load, hfile, documentOf, jsonParse_jsonMarshal]

/-- The document of a Go value decodes, into the zero value, to its fields
with every string coerced to valid UTF-8. -/
theorem Unmarshal_goDocument (g : GoResponseFile) (h1 : inIntRange g.StatusCode = true)
    (h2 : inIntRange g.ContentLength = true) :
    (Unmarshal (goDocument g) emptyResponseFile).2 = none ∧
    (Unmarshal (goDocument g) emptyResponseFile).1.Status = coerceUTF8 g.Status ∧
    (Unmarshal (goDocument g) emptyResponseFile).1.StatusCode = g.StatusCode ∧
    (Unmarshal (goDocument g) emptyResponseFile).1.Proto = coerceUTF8 g.Proto ∧
    (Unmarshal (goDocument g) emptyResponseFile).1.Header
      = (decodeHeader (headerDoc g.Header) []).1 ∧
    (Unmarshal (goDocument g) emptyResponseFile).1.ContentLength = g.ContentLength ∧
    (Unmarshal (goDocument g) emptyResponseFile).1.Uncompressed = g.Uncompressed ∧
    (Unmarshal (goDocument g) emptyResponseFile).1.CacheKey = coerceUTF8 g.CacheKey := by
  obtain ⟨t1, t2, t3, t4, t5, t6, t7⟩ := fieldOf_tags
  have he := decodeHeader_headerDoc g.Header
  simp only [Unmarshal, goDocument, List.foldl, unmarshalKey, t1, t2, t3, t4, t5, t6, t7,
    setField, decodeString, decodeInt, decodeBool, h1, h2, if_true, emptyResponseFile, he,
    Bool.or_false, Bool.false_eq_true, if_false]
  exact ⟨trivial, trivial, trivial, trivial, trivial, trivial, trivial, trivial⟩

set_option maxRecDepth 100000 in
/-- C14 as stated fails: for the `ResponseFile` with the header `X` holding
the one-byte value 0xFF, `Dump` and `Load` succeed and the value read back
under `X` is the replacement character U+FFFD, three other bytes; the text in
the file has the escape `\ufffd` in the place of the byte. -/
theorem Dump_Load_replaces_invalid_bytes :
    (Dump scenarioEnv scenarioLatinHeader "/data/ABC.layer.meta.json" scenarioWorld).2 = none ∧
    goMapGet (scenarioLatinHeader.Header.getD []) (goString "X") = some (some [[0xFF]]) ∧
    mapGet (Dump scenarioEnv scenarioLatinHeader "/data/ABC.layer.meta.json"
        scenarioWorld).1.files "/data/ABC.layer.meta.json" =
      some (FileData.bytes (asciiBytes
        ("\x7b\"status\":\"OK\",\"statusCode\":200,\"proto\":\"HTTP/1.1\"," ++
         "\"header\":\x7b\"X\":[\"\\ufffd\"]\x7d,\"contentLength\":2," ++
         "\"uncompressed\":false,\"cacheKey\":\"ABC\"\x7d"))) ∧
    Load jsonParse false emptyResponseFile "/data/ABC.layer.meta.json"
      (Dump scenarioEnv scenarioLatinHeader "/data/ABC.layer.meta.json" scenarioWorld).1.files =
      ({ Status := "OK", StatusCode := 200, Proto := "HTTP/1.1",
         Header := [("X", [String.mk [Char.ofNat 0xFFFD]])], ContentLength := 2,
         Uncompressed := false, CacheKey := "ABC" }, none) ∧
    goString (String.mk [Char.ofNat 0xFFFD]) = [0xEF, 0xBF, 0xBD] ∧
    goString (String.mk [Char.ofNat 0xFFFD]) ≠ [0xFF] := by
  decide

/-- C14, amended: for every `ResponseFile` `m` whose strings are texts (valid
UTF-8) and whose two integers are in the range of the Go type `int`, and
every path at which `Dump` can write, `m.Dump(p)` succeeds and writes the text
of `json.Marshal`, and `Load(p)` into an empty `ResponseFile` reads that text
without error, with Status, StatusCode, Proto, ContentLength, Uncompressed and
CacheKey equal to those of `m` and with a Header that has the same values
under every key.  For every Go value `g`, whose strings are byte sequences,
the file is read back without error and every field is the field of `g` with
its strings coerced to valid UTF-8 (each invalid byte replaced by U+FFFD). -/
theorem Dump_Load_roundtrip (env : Env) (m : ResponseFile) (p : String)
    (w : World) (hd : env.dumpErr = false) (h1 : inIntRange m.StatusCode = true)
    (h2 : inIntRange m.ContentLength = true) :
    ((Dump env m.toGo p w).2 = none ∧
      mapGet (Dump env m.toGo p w).1.files p = some (FileData.bytes (jsonMarshal m.toGo)) ∧
      jsonParse (jsonMarshal m.toGo) = some (Marshal m)) ∧
    ((Load jsonParse false emptyResponseFile p (Dump env m.toGo p w).1.files).2 = none ∧
      (Load jsonParse false emptyResponseFile p (Dump env m.toGo p w).1.files).1.Status
        = m.Status ∧
      (Load jsonParse false emptyResponseFile p (Dump env m.toGo p w).1.files).1.StatusCode
        = m.StatusCode ∧
      (Load jsonParse false emptyResponseFile p (Dump env m.toGo p w).1.files).1.Proto
        = m.Proto ∧
      (∀ k, mapGet
          (Load jsonParse false emptyResponseFile p (Dump env m.toGo p w).1.files).1.Header k
        = mapGet m.Header k) ∧
      (Load jsonParse false emptyResponseFile p (Dump env m.toGo p w).1.files).1.ContentLength
        = m.ContentLength ∧
      (Load jsonParse false emptyResponseFile p (Dump env m.toGo p w).1.files).1.Uncompressed
        = m.Uncompressed ∧
      (Load jsonParse false emptyResponseFile p (Dump env m.toGo p w).1.files).1.CacheKey
        = m.CacheKey) ∧
    (∀ g : GoResponseFile, inIntRange g.StatusCode = true → inIntRange g.ContentLength = true →
      (Load jsonParse false emptyResponseFile p (Dump env g p w).1.files).2 = none ∧
      (Load jsonParse false emptyResponseFile p (Dump env g p w).1.files).1.Status
        = coerceUTF8 g.Status ∧
      (Load jsonParse false emptyResponseFile p (Dump env g p w).1.files).1.StatusCode
        = g.StatusCode ∧
      (Load jsonParse false emptyResponseFile p (Dump env g p w).1.files).1.Proto
        = coerceUTF8 g.Proto ∧
      (Load jsonParse false emptyResponseFile p (Dump env g p w).1.files).1.Header
        = (decodeHeader (headerDoc g.Header) []).1 ∧
      (Load jsonParse false emptyResponseFile p (Dump env g p w).1.files).1.ContentLength
        = g.ContentLength ∧
      (Load jsonParse false emptyResponseFile p (Dump env g p w).1.files).1.Uncompressed
        = g.Uncompressed ∧
      (Load jsonParse false emptyResponseFile p (Dump env g p w).1.files).1.CacheKey
        = coerceUTF8 g.CacheKey) := by
  obtain ⟨d1, d2, d3⟩ := Load_Dump env m.toGo p w hd
  refine ⟨⟨d1, d2, jsonParse_toGo m⟩, ?_, ?_⟩
  · rw [d3, goDocument_toGo]
    exact Unmarshal_Marshal m h1 h2
  · intro g g1 g2
    rw [(Load_Dump env g p w hd).2.2]
    exact Unmarshal_goDocument g g1 g2

set_option maxRecDepth 100000 in
theorem Dump_Load_roundtrip_witness :
    (scenarioEnv.dumpErr = false ∧
      inIntRange (NewResponseFile 2 200 [("Content-Type", ["text/plain"])] "ABC").StatusCode
        = true ∧
      inIntRange (NewResponseFile 2 200 [("Content-Type", ["text/plain"])] "ABC").ContentLength
        = true) ∧
    (Load jsonParse false emptyResponseFile "/data/ABC.layer.meta.json"
      (Dump scenarioEnv (NewResponseFile 2 200 [("Content-Type", ["text/plain"])] "ABC").toGo
        "/data/ABC.layer.meta.json" scenarioWorld).1.files).1.CacheKey = "ABC" :=
  ⟨⟨rfl, by decide, by decide⟩,
   (Dump_Load_roundtrip scenarioEnv
     (NewResponseFile 2 200 [("Content-Type", ["text/plain"])] "ABC")
     "/data/ABC.layer.meta.json" scenarioWorld rfl (by decide) (by decide)).2.1.2.2.2.2.2.2.2⟩

/-! ## storeFile: the claim of the writer -/

theorem SetStatus_entry (i : MemoryIndex) (k : String) (s : Int) (d : CacheKeyMetadata)
    (h : mapGet i.meta k = some d) :
    SetStatus i k s =
      ({ i with meta := mapModify i.meta k (fun data => { data with Status := s }) }, none) ∧
    mapGet (SetStatus i k s).1.meta k = some { d with Status := s } := by
  simp [SetStatus, h, mapGet_mapModify_self]

theorem SetResponseFile_entry (i : MemoryIndex) (k : String) (rf : Option ResponseFile)
    (d : CacheKeyMetadata) (h : mapGet i.meta k = some d) :
    SetResponseFile i k rf =
      ({ i with meta := mapModify i.meta k (fun data => { data with ResponseFile := rf }) },
       none) ∧
    mapGet (SetResponseFile i k rf).1.meta k = some { d with ResponseFile := rf } := by
  simp [SetResponseFile, h, mapGet_mapModify_self]

theorem SetWorker_entry_set (i : MemoryIndex) (k : String) (id : Int) (force : Bool)
    (d : CacheKeyMetadata) (h : mapGet i.meta k = some d)
    (hc : force = true ∨ d.WorkerID = NO_WORKER) :
    SetWorker i k id force =
      ({ i with meta := mapModify i.meta k (fun data => { data with WorkerID := id }) }, none) ∧
    mapGet (SetWorker i k id force).1.meta k = some { d with WorkerID := id } := by
  simp [SetWorker, h, hc, mapGet_mapModify_self]

theorem SetWorker_entry_keep (i : MemoryIndex) (k : String) (id : Int)
    (d : CacheKeyMetadata) (h : mapGet i.meta k = some d) (hc : d.WorkerID ≠ NO_WORKER) :
    SetWorker i k id false = (i, none) := by
  simp [SetWorker, h, hc]

theorem SetATime_entry (i : MemoryIndex) (k : String) (now : Int) (d : CacheKeyMetadata)
    (h : mapGet i.meta k = some d) :
    mapGet (SetATime i now k).1.meta k = some { d with Atime := now } ∧
    (SetATime i now k).1.store = i.store ∧ (SetATime i now k).1.dataref = i.dataref := by
  simp [SetATime, h, mapGet_mapModify_self]

theorem Create_index (env : Env) (cr : CacheRequest) (rf : ResponseFile) (c : List Nat)
    (w : World) :
    (Create env cr rf c w).1.index = (SetResponseFile w.index cr.CacheKey (some rf)).1 := by
  unfold Create
  simp only
  split_ifs
  · rfl
  · rfl
  · rfl
  · rfl
  · simp only [lruPushFront, copyBody, Dump, renamePartial, createPartial]
    split_ifs <;> (repeat' split) <;> rfl

/-- A worker that finds the entry claimed by another worker leaves `storeFile`
at once: no fetch, no change. -/
theorem storeFile_refused (env : Env) (id : Int) (cr : CacheRequest) (w : World)
    (d : CacheKeyMetadata) (h : mapGet w.index.meta cr.CacheKey = some d)
    (hw : d.WorkerID ≠ NO_WORKER) (hid : d.WorkerID ≠ id) :
    storeFile env id cr w = (w, none) := by
  unfold storeFile
  simp only [SetWorker_entry_keep w.index cr.CacheKey id d h hw]
  simp [GetWorker, h, hid]

theorem getResponseFromUpstream_fields (res : Option HttpResponse) (cr : CacheRequest)
    (b : Bool) (w : World) :
    (getResponseFromUpstream res cr b w).1 = w.log (Event.get b cr.Request.Path) := by
  unfold getResponseFromUpstream
  cases res <;> rfl

/-- A `storeFile` that fails on an entry nobody has claimed keeps the entry,
leaves the failed worker as its writer and leaves the status NotFound when it
was NotFound. -/
theorem storeFile_failure_keeps_claim (env : Env) (id : Int) (cr : CacheRequest) (w : World)
    (d : CacheKeyMetadata) (h : mapGet w.index.meta cr.CacheKey = some d)
    (hw : d.WorkerID = NO_WORKER) (herr : (storeFile env id cr w).2 ≠ none) :
    (mapGet (storeFile env id cr w).1.index.meta cr.CacheKey).isSome = true ∧
    GetWorker (storeFile env id cr w).1.index cr.CacheKey = id ∧
    (d.Status = STATUS_NOT_FOUND →
      GetStatus (storeFile env id cr w).1.index cr.CacheKey = STATUS_NOT_FOUND) := by
  revert herr
  unfold storeFile
  simp only [SetWorker, SetStatus, SetResponseFile, GetWorker, GetStatus, Create_index,
    getResponseFromUpstream_fields, World.log, h, hw, mapGet_mapModify_self, Option.map_some',
    or_true, if_true, ne_eq, not_true_eq_false, if_false]
  split_ifs
  all_goals
    intro herr
    first
      | exact absurd rfl herr
      | simp [mapGet_mapModify_self, h]

/-- C19, the code at the failing input: after `storeFile` of worker 0 has
failed (upstream 500, transport error, or a `Create` whose copy breaks off)
the entry of `ABC` is kept with status NotFound, but its writer is still
worker 0: `storeFile` of worker 1, with the upstream healthy again, returns
without a fetch and changes nothing, while worker 0 itself can retry and
stores the layer.  For every failed `storeFile` of a worker on an unclaimed
entry, `storeFile` of every other worker is refused in this way. -/
theorem failed_fetch_blocks_other_workers :
    ((storeFile scenarioUpstreamFails 0 scenarioRequest scenarioPut).2 ≠ none ∧
      GetStatus (storeFile scenarioUpstreamFails 0 scenarioRequest scenarioPut).1.index "ABC"
        = STATUS_NOT_FOUND ∧
      GetWorker (storeFile scenarioUpstreamFails 0 scenarioRequest scenarioPut).1.index "ABC"
        = 0) ∧
    storeFile scenarioEnv 1 scenarioRequest
        (storeFile scenarioUpstreamFails 0 scenarioRequest scenarioPut).1
      = ((storeFile scenarioUpstreamFails 0 scenarioRequest scenarioPut).1, none) ∧
    storeFile scenarioEnv 1 scenarioRequest
        (storeFile scenarioUpstreamDown 0 scenarioRequest scenarioPut).1
      = ((storeFile scenarioUpstreamDown 0 scenarioRequest scenarioPut).1, none) ∧
    storeFile scenarioEnv 1 scenarioRequest
        (storeFile scenarioCopyFails 0 scenarioRequest scenarioPut).1
      = ((storeFile scenarioCopyFails 0 scenarioRequest scenarioPut).1, none) ∧
    GetStatus (storeFile scenarioEnv 0 scenarioRequest
        (storeFile scenarioUpstreamFails 0 scenarioRequest scenarioPut).1).1.index "ABC"
      = STATUS_AVAILABLE ∧
    (∀ (env env' : Env) (id id' : Int) (cr : CacheRequest) (w : World)
        (d : CacheKeyMetadata),
      mapGet w.index.meta cr.CacheKey = some d → d.WorkerID = NO_WORKER →
      id ≠ NO_WORKER → id' ≠ id → (storeFile env id cr w).2 ≠ none →
      storeFile env' id' cr (storeFile env id cr w).1
        = ((storeFile env id cr w).1, none)) := by
  refine ⟨⟨by decide, by decide, by decide⟩, by decide, by decide, by decide, by decide, ?_⟩
  intro env env' id id' cr w d h hw hid hne herr
  obtain ⟨hsome, hwk, _⟩ := storeFile_failure_keeps_claim env id cr w d h hw herr
  obtain ⟨d', hd'⟩ := Option.isSome_iff_exists.mp hsome
  have hwd : d'.WorkerID = id := by
    simpa [GetWorker, hd'] using hwk
  exact storeFile_refused env' id' cr _ d' hd' (by rw [hwd]; exact hid)
    (by rw [hwd]; exact fun e => hne e.symm)


/-! ## A first request for a new layer -/

/-- `storeFile` on an unclaimed entry when the upstream answers 200 and no
file operation fails. -/
theorem storeFile_success (env : Env) (id : Int) (cr : CacheRequest) (w : World)
    (d : CacheKeyMetadata) (resp : HttpResponse)
    (h : mapGet w.index.meta cr.CacheKey = some d) (hw : d.WorkerID = NO_WORKER)
    (hg : env.getForCache = some resp) (h200 : resp.StatusCode = 200)
    (hc : env.createErr = false) (hrn : env.renameErr = false) (hcp : env.copyErr = none) :
    (storeFile env id cr w).2 = none ∧
    mapGet (storeFile env id cr w).1.index.meta cr.CacheKey =
      some { d with
        Status := STATUS_AVAILABLE
        WorkerID := NO_WORKER
        ResponseFile :=
          some (NewResponseFile resp.ContentLength 200 resp.Header cr.CacheKey) } ∧
    (storeFile env id cr w).1.index.store = w.index.store ∧
    (storeFile env id cr w).1.index.dataref = w.index.dataref ∧
    mapGet (storeFile env id cr w).1.files cr.DataFile = some (FileData.bytes resp.Body) ∧
    (storeFile env id cr w).1.trace =
      w.trace ++ [Event.get true cr.Request.Path, Event.create cr.CacheKey] ∧
    (storeFile env id cr w).1.queue = w.queue := by
  unfold storeFile
  by_cases hd : env.dumpErr = true
  all_goals
    simp [SetWorker, SetStatus, SetResponseFile, GetWorker, getResponseFromUpstream, hg,
      Create, World.log, h, hw, mapGet_mapModify_self, h200, hc, hrn, hcp, hd,
      createPartial, renamePartial, Dump, copyBody, lruPushFront, mapGet_mapSet_self]


theorem waitForStatusUpdate_const (c : Int) (h : c ≠ STATUS_NOT_FOUND) :
    waitForStatusUpdate (fun _ => c) = (c, none) := by
  show waitLoop (fun _ => c) (300 + 1) 0 c = (c, none)
  simp [waitLoop, h]

/-- The Available block of `Run` when the probe passes and the data file
opens: the reply is built from the response file of the entry and the bytes of
the data file. -/
theorem runAvailable_hit (env : Env) (cr : CacheRequest) (w : World) (d : CacheKeyMetadata)
    (rf : ResponseFile) (b : List Nat)
    (h : mapGet w.index.meta cr.CacheKey = some d) (hrf : d.ResponseFile = some rf)
    (hf : mapGet w.files cr.DataFile = some (FileData.bytes b))
    (h2 : env.headSecond = some 200) (ho : env.openErr = false) :
    mapGet (runAvailable env cr w).index.meta cr.CacheKey =
      some { d with Atime := env.nowRead } ∧
    (runAvailable env cr w).index.store = w.index.store ∧
    (runAvailable env cr w).files = w.files ∧
    (runAvailable env cr w).trace =
      w.trace ++ [Event.head cr.CacheKey (some 200), Event.read cr.CacheKey,
        Event.send cr.Request.Path ORIGIN_CACHE
          { Status := rf.Status, StatusCode := rf.StatusCode, Proto := rf.Proto, Body := b,
            Uncompressed := rf.Uncompressed, ContentLength := rf.ContentLength,
            Header := rf.Header }] := by
  unfold runAvailable getResponseFromCache Read
  cases hl : mapGet w.LRUElements cr.CacheKey <;>
  simp [checkPerms_eq, h2, World.log, GetResponseFile, SetATime, h, hrf, hf, ho, hl,
    mapGet_mapModify_self]

/-- One iteration of `Run` on a digest without an entry, when both probes
return 200, the upstream answers 200 and no file operation of `Create` or
`Read` fails. -/
theorem Run_new_digest (env : Env) (id : Int) (cr : CacheRequest) (w : World)
    (resp : HttpResponse)
    (hen : cr.CacheEnabled = true) (hk : cr.CacheKey ≠ "") (hdf : cr.DataFile ≠ "")
    (hm : mapGet w.index.meta cr.CacheKey = none)
    (hs : mapGet w.index.store cr.CacheKey = none)
    (h1 : env.headFirst = some 200) (h2 : env.headSecond = some 200)
    (hg : env.getForCache = some resp) (h200 : resp.StatusCode = 200)
    (hc : env.createErr = false) (hrn : env.renameErr = false) (hcp : env.copyErr = none)
    (ho : env.openErr = false) :
    mapGet (Run env id cr w).index.meta cr.CacheKey =
      some { Atime := env.nowRead, Ctime := env.nowPut, Status := STATUS_AVAILABLE,
             ResponseFile :=
               some (NewResponseFile resp.ContentLength 200 resp.Header cr.CacheKey),
             WorkerID := NO_WORKER } ∧
    mapGet (Run env id cr w).index.store cr.CacheKey = some cr.DataFile ∧
    mapGet (Run env id cr w).files cr.DataFile = some (FileData.bytes resp.Body) ∧
    (Run env id cr w).trace =
      w.trace ++ [Event.head cr.CacheKey (some 200), Event.get true cr.Request.Path,
        Event.create cr.CacheKey, Event.head cr.CacheKey (some 200),
        Event.read cr.CacheKey,
        Event.send cr.Request.Path ORIGIN_CACHE
          { Status := StatusText 200, StatusCode := 200, Proto := DEFAULT_PROTO,
            Body := resp.Body, Uncompressed := DEFAULT_UNCOMPRESSED,
            ContentLength := resp.ContentLength, Header := resp.Header }] := by
  have hput := Put_ok_of_nonempty w.index env.nowPut cr.CacheKey cr.DataFile hk hdf
  rw [hm, hs] at hput
  simp only at hput
  have hst0 : GetStatus w.index cr.CacheKey = STATUS_NOT_FOUND := by simp [GetStatus, hm]
  obtain ⟨e1, e2, e3, _, e5, e6, _⟩ := storeFile_success env id cr
    { w with
      trace := w.trace ++ [Event.head cr.CacheKey (some 200)]
      index := (Put w.index env.nowPut cr.CacheKey cr.DataFile).1 }
    { Atime := env.nowPut, Ctime := env.nowPut, Status := STATUS_NOT_FOUND,
      ResponseFile := none, WorkerID := NO_WORKER }
    resp (by rw [hput]; exact mapGet_mapSet_self _ _ _) rfl hg h200 hc hrn hcp
  have hst3 : GetStatus (storeFile env id cr
      { w with
        trace := w.trace ++ [Event.head cr.CacheKey (some 200)]
        index := (Put w.index env.nowPut cr.CacheKey cr.DataFile).1 }).1.index cr.CacheKey =
      STATUS_AVAILABLE := by
    simp only [GetStatus, e2]
  obtain ⟨r1, r2, r3, r4⟩ := runAvailable_hit env cr _ _ _ resp.Body e2 rfl e5 h2 ho
  have hrun : Run env id cr w = runAvailable env cr (storeFile env id cr
      { w with
        trace := w.trace ++ [Event.head cr.CacheKey (some 200)]
        index := (Put w.index env.nowPut cr.CacheKey cr.DataFile).1 }).1 := by
    unfold Run runCacheable
    simp only [hen, if_true, hst0, checkPerms_eq, h1, ne_eq, not_true_eq_false, if_false, e1,
      hst3, waitForStatusUpdate_const STATUS_AVAILABLE (by decide), runDispatch]
    have hp2 : (Put w.index env.nowPut cr.CacheKey cr.DataFile).2 = none := by rw [hput]
    rw [if_neg (by simp [hp2]), if_neg (by decide)]
  rw [hrun, r1, r2, r3, r4, e3, e5, e6, hput]
  refine ⟨rfl, mapGet_mapSet_self _ _ _, rfl, ?_⟩
  simp [NewResponseFile]

theorem NewCacheRequest_of_layer_Request (r : Request) (dataPath g : String)
    (hg : r.Method = MethodGet)
    (hm : ¬ MatchString REGEX_MANIFEST r.Path = true)
    (hl : FindStringSubmatch REGEX_LAYER r.Path = some [r.Path, g]) :
    (NewCacheRequest r dataPath).Request = r := by
  unfold NewCacheRequest
  simp only [cacheRequestBlock_fill _ _ _ _ _ _ _ hl hg,
    cacheRequestBlock_skip _ _ _ _ _ _ (fun h => hm h.1)]

theorem filepathJoin_layer_ne_empty (a g : String) : filepathJoin a (g ++ ".layer") ≠ "" := by
  obtain ⟨pre, h⟩ := filepathJoin_suffix a g ".layer" (by decide) (by decide)
  rw [h]
  intro e
  have hd := congrArg String.data e
  simp at hd

/-- A GET request `r` for a layer (the path matches the layer expression
with the digest `g` and not the manifest expression) is handled by worker
`id` while the index has no row for `g`.  When the HEAD probe returns 200 (it
is sent twice in the iteration), the upstream GET returns the response `resp`
with status code 200, and creating, renaming, copying and opening the data
file do not fail, then at the end of the iteration of `Run` the entry of `g`
has status Available and writer `NO_WORKER`; its response file has status
code 200 and the headers and content length of `resp` and the digest `g`;
`GetDatafile g` is the join of the data path and `<g>.layer`, and that file
holds the body of `resp`; the trace of the iteration is probe, upstream GET for
the cache, `Create`, probe, `Read`, and a reply with origin `cache` whose body
is the body of `resp`. -/
theorem Run_first_layer_request (env : Env) (id : Int) (r : Request)
    (dataPath g : String) (w : World) (resp : HttpResponse)
    (hget : r.Method = MethodGet)
    (hman : ¬ MatchString REGEX_MANIFEST r.Path = true)
    (hlay : FindStringSubmatch REGEX_LAYER r.Path = some [r.Path, g])
    (hm : mapGet w.index.meta g = none) (hs : mapGet w.index.store g = none)
    (h1 : env.headFirst = some 200) (h2 : env.headSecond = some 200)
    (hg : env.getForCache = some resp) (h200 : resp.StatusCode = 200)
    (hc : env.createErr = false) (hrn : env.renameErr = false) (hcp : env.copyErr = none)
    (ho : env.openErr = false) :
    GetStatus (Run env id (NewCacheRequest r dataPath) w).index g = STATUS_AVAILABLE ∧
    GetWorker (Run env id (NewCacheRequest r dataPath) w).index g = NO_WORKER ∧
    GetResponseFile (Run env id (NewCacheRequest r dataPath) w).index g =
      (some { Status := "OK", StatusCode := 200, Proto := DEFAULT_PROTO,
              ContentLength := resp.ContentLength, Header := resp.Header,
              Uncompressed := DEFAULT_UNCOMPRESSED, CacheKey := g }, none) ∧
    GetDatafile (Run env id (NewCacheRequest r dataPath) w).index g =
      (filepathJoin dataPath (g ++ ".layer"), none) ∧
    mapGet (Run env id (NewCacheRequest r dataPath) w).files
      (filepathJoin dataPath (g ++ ".layer")) = some (FileData.bytes resp.Body) ∧
    (Run env id (NewCacheRequest r dataPath) w).trace =
      w.trace ++ [Event.head g (some 200), Event.get true r.Path, Event.create g,
        Event.head g (some 200), Event.read g,
        Event.send r.Path ORIGIN_CACHE
          { Status := "OK", StatusCode := 200, Proto := DEFAULT_PROTO,
            Body := resp.Body, Uncompressed := DEFAULT_UNCOMPRESSED,
            ContentLength := resp.ContentLength, Header := resp.Header }] := by
  obtain ⟨hen, hkey, _, hfile⟩ := NewCacheRequest_of_layer r dataPath g hget hman hlay
  have hreq := NewCacheRequest_of_layer_Request r dataPath g hget hman hlay
  obtain ⟨g1, hgs, hne⟩ := FindStringSubmatch_some REGEX_LAYER r.Path _ hlay
  have hg1 : g ≠ "" := by
    have e : g = g1 := by simpa using hgs
    rw [e]
    exact hne
  obtain ⟨a1, a2, a3, a4⟩ := Run_new_digest env id (NewCacheRequest r dataPath) w resp hen
    (by rw [hkey]; exact hg1) (by rw [hfile]; exact filepathJoin_layer_ne_empty dataPath g)
    (by rw [hkey]; exact hm) (by rw [hkey]; exact hs) h1 h2 hg h200 hc hrn hcp ho
  simp only [hkey, hfile, hreq] at a1 a2 a3 a4
  refine ⟨?_, ?_, ?_, ?_, a3, ?_⟩
  · simp only [GetStatus, a1]
  · simp only [GetWorker, a1]
  · simp only [GetResponseFile, a1]
    rfl
  · simp only [GetDatafile, a2]
  · rw [a4]
    rfl

/-! ## filepath.Join of a clean directory and a file name -/

theorem splitSlash_ne_nil (s : List Char) : splitSlash s ≠ [] := by
  cases s with
  | nil => simp [splitSlash]
  | cons c cs =>
    unfold splitSlash
    split_ifs
    · simp
    · cases splitSlash cs <;> simp

theorem splitSlash_append_slash (p q : List Char) :
    splitSlash (p ++ '/' :: q) = splitSlash p ++ splitSlash q := by
  induction p with
  | nil => simp [splitSlash]
  | cons c cs ih =>
    by_cases hc : c = '/'
    · simp [splitSlash, hc, ih]
    · rw [List.cons_append]
      simp only [splitSlash, hc, if_false, ih]
      cases hs : splitSlash cs with
      | nil => exact absurd hs (splitSlash_ne_nil cs)
      | cons h t => rfl

theorem intercalate_concat_ne (sep : List Char) (ys : List (List Char)) (e : List Char)
    (h : ys ≠ []) :
    List.intercalate sep (ys ++ [e]) = List.intercalate sep ys ++ sep ++ e := by
  induction ys with
  | nil => exact absurd rfl h
  | cons y ys ih =>
    cases ys with
    | nil => simp [List.intercalate, List.intersperse]
    | cons z zs =>
      have ih2 := ih (by simp)
      rw [List.cons_append] at ih2
      rw [List.cons_append, List.cons_append]
      simp only [List.intercalate, List.intersperse, List.flatten_cons] at ih2 ⊢
      rw [ih2]
      simp

theorem Clean_of_data (a : String) (c : Char) (cs : List Char) (hd : a.data = c :: cs) :
    Clean a =
      if decide (c = '/') = true then
        "/" ++ String.mk (List.intercalate ['/']
          ((splitSlash (c :: cs)).foldl (cleanStep (decide (c = '/'))) []))
      else if (splitSlash (c :: cs)).foldl (cleanStep (decide (c = '/'))) [] = [] then "."
      else String.mk (List.intercalate ['/']
          ((splitSlash (c :: cs)).foldl (cleanStep (decide (c = '/'))) [])) := by
  unfold Clean
  rw [hd]

/-- Cleaning a path that ends with a slash and a plain file name of three or
more characters: the cleaned directory, a slash, the name; the directories `/`
and `.` apart. -/
theorem Clean_dir_name (a : String) (n : List Char) (ha : a ≠ "")
    (hn : '/' ∉ n) (hl : 3 ≤ n.length) (h1 : Clean a ≠ "/") (h2 : Clean a ≠ ".") :
    Clean (a ++ "/" ++ String.mk n) = Clean a ++ "/" ++ String.mk n := by
  cases hd : a.data with
  | nil => exact absurd (String.ext hd) ha
  | cons c cs =>
    have hdata : (a ++ "/" ++ String.mk n).data = c :: (cs ++ '/' :: n) := by
      simp [hd]
    have hsplit : splitSlash (c :: (cs ++ '/' :: n)) = splitSlash (c :: cs) ++ [n] := by
      rw [← List.cons_append, splitSlash_append_slash, splitSlash_noslash n hn]
    have hA := Clean_of_data a c cs hd
    have hB := Clean_of_data _ c (cs ++ '/' :: n) hdata
    rw [hsplit, List.foldl_append] at hB
    simp only [List.foldl_cons, List.foldl_nil, cleanStep_real _ _ _ hl] at hB
    have hout : List.foldl (cleanStep (decide (c = '/'))) [] (splitSlash (c :: cs)) ≠ [] := by
      intro e
      rw [e] at hA
      by_cases hc : c = '/'
      · simp only [hc, decide_True, if_true] at hA
        exact h1 (by rw [hA]; rfl)
      · simp only [hc, decide_False, if_true, Bool.false_eq_true, if_false] at hA
        exact h2 hA
    rw [intercalate_concat_ne _ _ _ hout] at hB
    rw [hA, hB]
    by_cases hc : c = '/'
    · simp only [hc, decide_True, if_true]
      apply String.ext
      simp
    · have hout2 : List.foldl (cleanStep false) [] (splitSlash (c :: cs)) ≠ [] := by
        simpa [hc] using hout
      have hne : List.foldl (cleanStep false) [] (splitSlash (c :: cs)) ++ [n] ≠ [] := by simp
      simp only [hc, decide_False, if_false, Bool.false_eq_true, hne, hout2]
      apply String.ext
      simp

/-- C20's path: for a clean data path other than `/` and `.` and a digest
without a slash, the join of the data path and `<digest>.layer` is the data
path, a slash, and `<digest>.layer`. -/
theorem filepathJoin_layer_plain (dataPath g : String) (hc : Clean dataPath = dataPath)
    (h1 : dataPath ≠ "/") (h2 : dataPath ≠ ".") (hg : '/' ∉ g.data) :
    filepathJoin dataPath (g ++ ".layer") = dataPath ++ "/" ++ g ++ ".layer" := by
  have ha : dataPath ≠ "" := by
    intro e
    rw [e] at hc
    exact absurd hc (by decide)
  unfold filepathJoin
  rw [if_pos ha]
  have hn : g ++ ".layer" = String.mk (g.data ++ ".layer".data) := by
    apply String.ext
    simp
  rw [hn, Clean_dir_name dataPath _ ha (by
      intro hmem
      rcases List.mem_append.mp hmem with h | h
      · exact hg h
      · revert h; decide) (by simp) (by rw [hc]; exact h1) (by rw [hc]; exact h2), hc]
  apply String.ext
  simp

/-- C20, the code at the failing input: the first GET for the layer digest
`../../etc/x` on a fresh cache with data path `/data`, with a probe that
passes, an upstream 200 and a `Create` that succeeds, leaves the entry
Available with writer `NO_WORKER` and a response file with status code 200 and
the headers, content length and digest of the response, and is answered from
the cache; but `GetDatafile` of the digest is `/etc/x.layer`, not
`/data/../../etc/x.layer`, and the body is written to `/etc/x.layer`, outside
the data directory.  For every request, digest and data path the rest of the
claim holds with `GetDatafile(digest)` being `filepath.Join(datadir,
digest + ".layer")`; that is `<datadir>/<digest>.layer` whenever the data path
is clean (other than `/` and `.`) and the digest has no slash. -/
theorem first_layer_request_datafile_escapes :
    (GetStatus (Run scenarioEnv 0
        (NewCacheRequest
          { Method := "GET", Path := "/v2/x/blobs/sha256:../../etc/x", Authorization := "" }
          "/data") scenarioWorld).index "../../etc/x" = STATUS_AVAILABLE ∧
      GetWorker (Run scenarioEnv 0
        (NewCacheRequest
          { Method := "GET", Path := "/v2/x/blobs/sha256:../../etc/x", Authorization := "" }
          "/data") scenarioWorld).index "../../etc/x" = NO_WORKER ∧
      GetResponseFile (Run scenarioEnv 0
        (NewCacheRequest
          { Method := "GET", Path := "/v2/x/blobs/sha256:../../etc/x", Authorization := "" }
          "/data") scenarioWorld).index "../../etc/x" =
        (some { Status := "OK", StatusCode := 200, Proto := DEFAULT_PROTO,
                ContentLength := 2, Header := [],
                Uncompressed := DEFAULT_UNCOMPRESSED, CacheKey := "../../etc/x" }, none) ∧
      GetDatafile (Run scenarioEnv 0
        (NewCacheRequest
          { Method := "GET", Path := "/v2/x/blobs/sha256:../../etc/x", Authorization := "" }
          "/data") scenarioWorld).index "../../etc/x" = ("/etc/x.layer", none) ∧
      "/etc/x.layer" ≠ "/data" ++ "/" ++ "../../etc/x" ++ ".layer" ∧
      mapGet (Run scenarioEnv 0
        (NewCacheRequest
          { Method := "GET", Path := "/v2/x/blobs/sha256:../../etc/x", Authorization := "" }
          "/data") scenarioWorld).files "/etc/x.layer" = some (FileData.bytes [79, 75]) ∧
      mapGet (Run scenarioEnv 0
        (NewCacheRequest
          { Method := "GET", Path := "/v2/x/blobs/sha256:../../etc/x", Authorization := "" }
          "/data") scenarioWorld).files ("/data" ++ "/" ++ "../../etc/x" ++ ".layer") = none ∧
      (Run scenarioEnv 0
        (NewCacheRequest
          { Method := "GET", Path := "/v2/x/blobs/sha256:../../etc/x", Authorization := "" }
          "/data") scenarioWorld).trace =
        [Event.head "../../etc/x" (some 200), Event.get true "/v2/x/blobs/sha256:../../etc/x",
         Event.create "../../etc/x", Event.head "../../etc/x" (some 200),
         Event.read "../../etc/x",
         Event.send "/v2/x/blobs/sha256:../../etc/x" ORIGIN_CACHE
           { Status := "OK", StatusCode := 200, Proto := DEFAULT_PROTO,
             Body := [79, 75], Uncompressed := DEFAULT_UNCOMPRESSED,
             ContentLength := 2, Header := [] }]) ∧
    (∀ (env : Env) (id : Int) (r : Request) (dataPath g : String) (w : World)
        (resp : HttpResponse),
      r.Method = MethodGet → ¬ MatchString REGEX_MANIFEST r.Path = true →
      FindStringSubmatch REGEX_LAYER r.Path = some [r.Path, g] →
      mapGet w.index.meta g = none → mapGet w.index.store g = none →
      env.headFirst = some 200 → env.headSecond = some 200 →
      env.getForCache = some resp → resp.StatusCode = 200 →
      env.createErr = false → env.renameErr = false → env.copyErr = none →
      env.openErr = false →
      GetStatus (Run env id (NewCacheRequest r dataPath) w).index g = STATUS_AVAILABLE ∧
      GetWorker (Run env id (NewCacheRequest r dataPath) w).index g = NO_WORKER ∧
      GetResponseFile (Run env id (NewCacheRequest r dataPath) w).index g =
        (some { Status := "OK", StatusCode := 200, Proto := DEFAULT_PROTO,
                ContentLength := resp.ContentLength, Header := resp.Header,
                Uncompressed := DEFAULT_UNCOMPRESSED, CacheKey := g }, none) ∧
      GetDatafile (Run env id (NewCacheRequest r dataPath) w).index g =
        (filepathJoin dataPath (g ++ ".layer"), none) ∧
      mapGet (Run env id (NewCacheRequest r dataPath) w).files
        (filepathJoin dataPath (g ++ ".layer")) = some (FileData.bytes resp.Body) ∧
      (Run env id (NewCacheRequest r dataPath) w).trace =
        w.trace ++ [Event.head g (some 200), Event.get true r.Path, Event.create g,
          Event.head g (some 200), Event.read g,
          Event.send r.Path ORIGIN_CACHE
            { Status := "OK", StatusCode := 200, Proto := DEFAULT_PROTO,
              Body := resp.Body, Uncompressed := DEFAULT_UNCOMPRESSED,
              ContentLength := resp.ContentLength, Header := resp.Header }]) ∧
    (∀ dataPath g : String, Clean dataPath = dataPath → dataPath ≠ "/" → dataPath ≠ "." →
      '/' ∉ g.data →
      filepathJoin dataPath (g ++ ".layer") = dataPath ++ "/" ++ g ++ ".layer") := by
  have h := Run_first_layer_request scenarioEnv 0
    { Method := "GET", Path := "/v2/x/blobs/sha256:../../etc/x", Authorization := "" }
    "/data" "../../etc/x" scenarioWorld scenarioUpstream rfl (by decide) (by decide) rfl rfl
    rfl rfl rfl rfl rfl rfl rfl rfl
  have hj : filepathJoin "/data" ("../../etc/x" ++ ".layer") = "/etc/x.layer" := by decide
  rw [hj] at h
  refine ⟨⟨h.1, h.2.1, h.2.2.1, h.2.2.2.1, by decide, h.2.2.2.2.1, by decide, h.2.2.2.2.2⟩,
    ?_, ?_⟩
  · intro env id r dataPath g w resp hget hman hlay hm hs h1 h2 hg h200 hc hrn hcp ho
    exact Run_first_layer_request env id r dataPath g w resp hget hman hlay hm hs h1 h2 hg
      h200 hc hrn hcp ho
  · intro dataPath g hc h1 h2 hg
    exact filepathJoin_layer_plain dataPath g hc h1 h2 hg

/-! ## waitForStatusUpdate: the number of polls -/

theorem waitLoopTimed_eq (obs : Nat → Int) (remaining x : Nat) (s : Int) :
    ((waitLoopTimed obs remaining x s).status, (waitLoopTimed obs remaining x s).err) =
      waitLoop obs remaining x s := by
  induction remaining generalizing x s with
  | zero => rfl
  | succ r ih =>
    unfold waitLoopTimed waitLoop
    simp only
    split_ifs
    · rfl
    · exact ih _ _

/-- The loop returns at the first poll that sees a status other than NotFound. -/
theorem waitLoopTimed_found (obs : Nat → Int) (k : Nat) :
    ∀ (remaining x : Nat) (s : Int), k < remaining →
      (∀ j, x < j → j ≤ x + k → obs j = STATUS_NOT_FOUND) →
      obs (x + k + 1) ≠ STATUS_NOT_FOUND →
      waitLoopTimed obs remaining x s =
        { status := obs (x + k + 1), err := none, polls := x + k + 1,
          sleptMs := 20 * (x + k) } := by
  induction k with
  | zero =>
    intro remaining x s hr _ hne
    obtain ⟨r, rfl⟩ := Nat.exists_eq_succ_of_ne_zero (Nat.pos_iff_ne_zero.mp hr)
    unfold waitLoopTimed
    simp only [Nat.add_zero] at hne ⊢
    rw [if_pos hne]
  | succ k ih =>
    intro remaining x s hr hnf hne
    obtain ⟨r, rfl⟩ := Nat.exists_eq_succ_of_ne_zero (Nat.not_eq_zero_of_lt hr)
    have h1 : obs (x + 1) = STATUS_NOT_FOUND := hnf (x + 1) (by omega) (by omega)
    unfold waitLoopTimed
    simp only [h1, ne_eq, not_true_eq_false, if_false]
    have e : x + (k + 1) = x + 1 + k := by omega
    rw [e] at hne ⊢
    exact ih r (x + 1) STATUS_NOT_FOUND (by omega) (fun j h2 h3 => hnf j (by omega) (by omega))
      hne

/-- The loop gives up when every poll has seen NotFound. -/
theorem waitLoopTimed_timeout (obs : Nat → Int) :
    ∀ (remaining x : Nat) (s : Int),
      (∀ j, x < j → j ≤ x + remaining → obs j = STATUS_NOT_FOUND) →
      waitLoopTimed obs remaining x s =
        { status := if remaining = 0 then s else STATUS_NOT_FOUND,
          err := some "timeout waiting for cache key status",
          polls := x + remaining, sleptMs := 20 * (x + remaining) } := by
  intro remaining
  induction remaining with
  | zero =>
    intro x s _
    rfl
  | succ r ih =>
    intro x s hnf
    have h1 : obs (x + 1) = STATUS_NOT_FOUND := hnf (x + 1) (by omega) (by omega)
    unfold waitLoopTimed
    simp only [h1, ne_eq, not_true_eq_false, if_false]
    rw [ih (x + 1) STATUS_NOT_FOUND (fun j h2 h3 => hnf j (by omega) (by omega))]
    have e : x + 1 + r = x + (r + 1) := by omega
    simp only [e, Nat.succ_ne_zero, if_false, ite_self]

/-- C28, the code at the failing input: while the status stays NotFound,
`waitForStatusUpdate` polls 301 times inside its loop (after one more call
of `GetStatus` before the loop) and sleeps 301 times 20 ms, 6020 ms in all,
before it returns the timeout error with the status NotFound; a status that
shows only at the 301st poll, 6000 ms after the start, is still returned
without error.  In general the function returns the first status other than
NotFound that a poll of the loop sees, without error, after `k` sleeps when
that is poll `k + 1`; and the counted loop returns what `waitForStatusUpdate`
returns. -/
theorem waitForStatusUpdate_polls_301_times :
    (∀ obs, ((waitForStatusUpdateTimed obs).status, (waitForStatusUpdateTimed obs).err) =
      waitForStatusUpdate obs) ∧
    waitForStatusUpdateTimed (fun _ => STATUS_NOT_FOUND) =
      { status := STATUS_NOT_FOUND, err := some "timeout waiting for cache key status",
        polls := 301, sleptMs := 6020 } ∧
    waitForStatusUpdateTimed (fun k => if k ≤ 300 then STATUS_NOT_FOUND else STATUS_AVAILABLE) =
      { status := STATUS_AVAILABLE, err := none, polls := 301, sleptMs := 6000 } ∧
    (∀ obs k, k ≤ 300 → (∀ j, 1 ≤ j → j ≤ k → obs j = STATUS_NOT_FOUND) →
      obs (k + 1) ≠ STATUS_NOT_FOUND →
      waitForStatusUpdateTimed obs =
        { status := obs (k + 1), err := none, polls := k + 1, sleptMs := 20 * k }) ∧
    (∀ obs, (∀ j, 1 ≤ j → j ≤ 301 → obs j = STATUS_NOT_FOUND) →
      waitForStatusUpdateTimed obs =
        { status := STATUS_NOT_FOUND, err := some "timeout waiting for cache key status",
          polls := 301, sleptMs := 6020 }) := by
  have hfound : ∀ obs k, k ≤ 300 → (∀ j, 1 ≤ j → j ≤ k → obs j = STATUS_NOT_FOUND) →
      obs (k + 1) ≠ STATUS_NOT_FOUND →
      waitForStatusUpdateTimed obs =
        { status := obs (k + 1), err := none, polls := k + 1, sleptMs := 20 * k } := by
    intro obs k hk hnf hne
    have h := waitLoopTimed_found obs k 301 0 (obs 0) (by omega)
      (fun j h1 h2 => hnf j (by omega) (by omega)) (by simpa using hne)
    simpa using h
  have htimeout : ∀ obs, (∀ j, 1 ≤ j → j ≤ 301 → obs j = STATUS_NOT_FOUND) →
      waitForStatusUpdateTimed obs =
        { status := STATUS_NOT_FOUND, err := some "timeout waiting for cache key status",
          polls := 301, sleptMs := 6020 } := by
    intro obs hnf
    have h := waitLoopTimed_timeout obs 301 0 (obs 0)
      (fun j h1 h2 => hnf j (by omega) (by omega))
    simpa using h
  refine ⟨fun obs => waitLoopTimed_eq obs 301 0 (obs 0), ?_, ?_, hfound, htimeout⟩
  · exact htimeout _ (fun _ _ _ => rfl)
  · have h := hfound (fun k => if k ≤ 300 then STATUS_NOT_FOUND else STATUS_AVAILABLE) 300
      (le_refl _) (fun j _ h2 => by simp [h2]) (by simp [STATUS_AVAILABLE, STATUS_NOT_FOUND])
    simpa using h

/-! ## GetLeastUsedFile and the loop of reduceDiskUsage -/

theorem Restore_LRUQueue (parse : JsonParser) (listErr : Bool) (readErr : String → Bool)
    (clock : EntryClock) (dataPath : String) (w : World) :
    (LocalCache.Restore parse listErr readErr clock dataPath w).1.LRUQueue = w.LRUQueue := by
  unfold LocalCache.Restore
  simp only
  split_ifs <;> rfl

theorem GetLeastUsedFile_empty (w : World) (h : w.LRUQueue = []) :
    GetLeastUsedFile w = LeastUsed.fault := by
  unfold GetLeastUsedFile
  rw [h]
  rfl

theorem GetLeastUsedFile_tail (w : World) (q : List (Nat × String)) (el : Nat) (k : String)
    (h : w.LRUQueue = q ++ [(el, k)]) :
    GetLeastUsedFile w =
      LeastUsed.result (GetDatafile w.index k).1 (GetDatafile w.index k).2 := by
  unfold GetLeastUsedFile
  rw [h, List.getLast?_append]
  rfl

/-- C30, the code at the failing input: on a fresh cache, and on a cache whose
index `Restore` has filled from the data directory, the LRU list is empty
and `GetLeastUsedFile` ends in the dereference of the nil element that
`Back()` returns: it returns neither a datafile nor an error.  `Restore`
never adds to the list, so this holds after every `Restore` on a fresh cache;
the iteration of `reduceDiskUsage` that finds the directory at or above its
limit then ends in the same fault.  When the list is not empty,
`GetLeastUsedFile` returns what `GetDatafile` returns for the digest at the
tail of the list. -/
theorem GetLeastUsedFile_faults_on_empty_list :
    GetLeastUsedFile scenarioWorld = LeastUsed.fault ∧
    (GetDatafile
        (LocalCache.Restore (fun _ => none) false (fun _ => false) (fun _ => 100) "/data"
          scenarioDirectoryMissing).1.index "b" = ("/data/b.layer", none) ∧
      GetLeastUsedFile
        (LocalCache.Restore (fun _ => none) false (fun _ => false) (fun _ => 100) "/data"
          scenarioDirectoryMissing).1 = LeastUsed.fault) ∧
    (∀ parse listErr readErr clock dataPath w, w.LRUQueue = [] →
      GetLeastUsedFile (LocalCache.Restore parse listErr readErr clock dataPath w).1 =
        LeastUsed.fault) ∧
    (∀ rmData rmMeta maxSize size w, w.LRUQueue = [] →
      ¬ size < maxSize - Int.tdiv maxSize 100 * 15 →
      reduceDiskUsageStep rmData rmMeta maxSize size w = ReduceStep.fault) ∧
    (∀ w q el k, w.LRUQueue = q ++ [(el, k)] →
      GetLeastUsedFile w =
        LeastUsed.result (GetDatafile w.index k).1 (GetDatafile w.index k).2) := by
  refine ⟨by decide, ⟨by decide, ?_⟩, ?_, ?_, ?_⟩
  · exact GetLeastUsedFile_empty _ (by rw [Restore_LRUQueue]; rfl)
  · intro parse listErr readErr clock dataPath w h
    exact GetLeastUsedFile_empty _ (by rw [Restore_LRUQueue]; exact h)
  · intro rmData rmMeta maxSize size w h hs
    unfold reduceDiskUsageStep
    simp only [hs, if_false, GetLeastUsedFile_empty w h]
  · intro w q el k h
    exact GetLeastUsedFile_tail w q el k h

/-- One iteration of the disk reducer, by the size of the directory, the LRU
list and the store row of the digest at its tail. -/
theorem reduceDiskUsageStep_eq (rmData rmMeta : Bool) (maxSize size : Int) (w : World) :
    reduceDiskUsageStep rmData rmMeta maxSize size w =
      if size < maxSize - Int.tdiv maxSize 100 * 15 then ReduceStep.sleep w
      else
        match w.LRUQueue.getLast? with
        | none => ReduceStep.fault
        | some el =>
          match mapGet w.index.store el.2 with
          | none => ReduceStep.again w
          | some df => ReduceStep.again (LocalCache.Delete rmData rmMeta df "" false w).1 := by
  unfold reduceDiskUsageStep GetLeastUsedFile GetDatafile
  by_cases hs : size < maxSize - Int.tdiv maxSize 100 * 15
  · simp only [hs, if_true]
  · simp only [hs, if_false]
    cases hq : w.LRUQueue.getLast? with
    | none => rfl
    | some el =>
      cases hdf : mapGet w.index.store el.2 with
      | none => simp [hdf]
      | some df => simp [hdf]

theorem reduceDiskUsageStep_sleep_iff (rmData rmMeta : Bool) (maxSize size : Int) (w : World) :
    reduceDiskUsageStep rmData rmMeta maxSize size w = ReduceStep.sleep w ↔
      size < maxSize - Int.tdiv maxSize 100 * 15 := by
  rw [reduceDiskUsageStep_eq]
  by_cases hs : size < maxSize - Int.tdiv maxSize 100 * 15
  · simp only [hs, if_true]
  · simp only [hs, if_false, iff_false]
    cases hq : w.LRUQueue.getLast? with
    | none => exact fun h => ReduceStep.noConfusion h
    | some el =>
      cases hdf : mapGet w.index.store el.2 with
      | none => simp only [hdf]; exact fun h => ReduceStep.noConfusion h
      | some df => simp only [hdf]; exact fun h => ReduceStep.noConfusion h

/-- C26 as stated fails: with `maxSize` 1 MiB and a directory of 880000
bytes, more than 850 KiB, the iteration of the disk reducer evicts nothing
and goes to sleep, although the LRU list holds a datafile; with `maxSize`
1 MiB and 891295 bytes, more than `maxSize` less 15 percent of `maxSize`, it
evicts nothing either; and with `maxSize` 1000 and a directory of exactly
850 bytes, `maxSize` less the tolerance, it still evicts the datafile at the
tail of the list. -/
theorem reduceDiskUsage_halts_above_850KiB :
    (850 * 1024 < (880000 : Int) ∧ scenarioStored.LRUQueue = [(0, "ABC")] ∧
      reduceDiskUsageStep false false 1048576 880000 scenarioStored =
        ReduceStep.sleep scenarioStored) ∧
    ((1048576 : Int) * 85 < 891295 * 100 ∧
      reduceDiskUsageStep false false 1048576 891295 scenarioStored =
        ReduceStep.sleep scenarioStored) ∧
    ((850 : Int) ≤ 1000 - Int.tdiv 1000 100 * 15 ∧
      reduceDiskUsageStep false false 1000 850 scenarioStored =
        ReduceStep.again
          (LocalCache.Delete false false "/data/ABC.layer" "" false scenarioStored).1 ∧
      mapGet (LocalCache.Delete false false "/data/ABC.layer" "" false scenarioStored).1.files
        "/data/ABC.layer" = none) := by
  decide

/-- C26, amended: one iteration of the disk reducer sleeps, without a change,
if and only if the directory size is below `maxSize - tolerance`, where
`tolerance` is `maxSize / 100 * 15` in integer arithmetic; at or above that
size it evicts the datafile of the digest at the tail of the LRU list (calls
`Delete(df, "", false)`) when the list is not empty and the tail digest has a
store row, goes round again without evicting when the tail digest has no
store row, and ends in the fault of `GetLeastUsedFile` when the list is
empty; so with a tail digest that has a datafile it evicts if and only if the
size is at least `maxSize - tolerance`.  For `maxSize` 1 MiB the tolerance is
157275 bytes and the reducer sleeps exactly when the size is below 891301
bytes.  On the cache of C18, whose list still holds a deleted digest, the
iteration at 5000 bytes of 1000 evicts nothing and goes round again. -/
theorem reduceDiskUsage_threshold (rmData rmMeta : Bool) (maxSize size : Int) (w : World) :
    (reduceDiskUsageStep rmData rmMeta maxSize size w = ReduceStep.sleep w ↔
      size < maxSize - Int.tdiv maxSize 100 * 15) ∧
    (maxSize - Int.tdiv maxSize 100 * 15 ≤ size →
      reduceDiskUsageStep rmData rmMeta maxSize size w =
        match w.LRUQueue.getLast? with
        | none => ReduceStep.fault
        | some el =>
          match mapGet w.index.store el.2 with
          | none => ReduceStep.again w
          | some df =>
            ReduceStep.again (LocalCache.Delete rmData rmMeta df "" false w).1) ∧
    (∀ el df, w.LRUQueue.getLast? = some el → mapGet w.index.store el.2 = some df →
      (reduceDiskUsageStep rmData rmMeta maxSize size w =
          ReduceStep.again (LocalCache.Delete rmData rmMeta df "" false w).1 ↔
        maxSize - Int.tdiv maxSize 100 * 15 ≤ size)) ∧
    (maxSize = 1048576 →
      Int.tdiv maxSize 100 * 15 = 157275 ∧
      (reduceDiskUsageStep rmData rmMeta maxSize size w = ReduceStep.sleep w ↔
        size < 891301)) ∧
    reduceDiskUsageStep false false 1000 5000
        (LocalCache.Delete false false "/data/ABC.layer" "ABC" false
          (Run scenarioEnv 0 scenarioRequest
            (Run scenarioCopyFails 0 scenarioRequest scenarioPut))).1 =
      ReduceStep.again
        (LocalCache.Delete false false "/data/ABC.layer" "ABC" false
          (Run scenarioEnv 0 scenarioRequest
            (Run scenarioCopyFails 0 scenarioRequest scenarioPut))).1 := by
  refine ⟨reduceDiskUsageStep_sleep_iff rmData rmMeta maxSize size w, ?_, ?_, ?_, by decide⟩
  · intro hs
    rw [reduceDiskUsageStep_eq, if_neg (not_lt.mpr hs)]
  · intro el df hq hdf
    rw [reduceDiskUsageStep_eq]
    by_cases hs : size < maxSize - Int.tdiv maxSize 100 * 15
    · simp only [hs, if_true]
      constructor
      · exact fun h => ReduceStep.noConfusion h
      · intro h
        omega
    · simp only [hs, if_false, hq, hdf, true_iff]
      omega
  · intro hm
    subst hm
    have e : Int.tdiv 1048576 100 * 15 = 157275 := by decide
    refine ⟨e, ?_⟩
    rw [reduceDiskUsageStep_sleep_iff, e]
    constructor <;> intro h <;> omega

theorem reduceDiskUsage_threshold_witness :
    reduceDiskUsageStep false false 1048576 891301 scenarioStored =
      ReduceStep.again
        (LocalCache.Delete false false "/data/ABC.layer" "" false scenarioStored).1 ∧
    (reduceDiskUsageStep false false 1048576 891300 scenarioStored =
      ReduceStep.sleep scenarioStored ↔ (891300 : Int) < 891301) :=
  have h1 := reduceDiskUsage_threshold false false 1048576 891301 scenarioStored
  have h2 := reduceDiskUsage_threshold false false 1048576 891300 scenarioStored
  ⟨(h1.2.2.1 (0, "ABC") "/data/ABC.layer" (by decide) (by decide)).2 (by decide),
   (h2.2.2.2.1 rfl).2⟩

/-! ## storeFile on an entry that is Available -/

/-- `storeFile` of a worker on an unclaimed entry always sends the GET for the
cache upstream, whatever the status of the entry. -/
theorem storeFile_fetches_unclaimed (env : Env) (id : Int) (cr : CacheRequest) (w : World)
    (d : CacheKeyMetadata) (h : mapGet w.index.meta cr.CacheKey = some d)
    (hw : d.WorkerID = NO_WORKER) :
    Event.get true cr.Request.Path ∈ (storeFile env id cr w).1.trace := by
  obtain ⟨hsw, hsw2⟩ := SetWorker_entry_set w.index cr.CacheKey id false d h (Or.inr hw)
  have hgw : GetWorker (SetWorker w.index cr.CacheKey id false).1 cr.CacheKey = id := by
    unfold GetWorker
    rw [hsw2]
  have he : (SetWorker w.index cr.CacheKey id false).2 = none := by
    rw [hsw]
  unfold storeFile
  generalize SetWorker w.index cr.CacheKey id false = sw at hgw he ⊢
  obtain ⟨idx1, err1⟩ := sw
  simp only at hgw he ⊢
  subst he
  have hg := getResponseFromUpstream_trace env.getForCache cr true { w with index := idx1 }
  generalize getResponseFromUpstream env.getForCache cr true { w with index := idx1 } = g
    at hg ⊢
  obtain ⟨w2, resp, err2⟩ := g
  simp only at hg ⊢
  rcases SetStatus w2.index cr.CacheKey STATUS_IN_PROGRESS with ⟨idx3, err3⟩
  simp only
  have hc := Create_trace env cr
    (NewResponseFile resp.ContentLength resp.StatusCode resp.Header cr.CacheKey) resp.Body
    { w2 with index := idx3 }
  generalize Create env cr
    (NewResponseFile resp.ContentLength resp.StatusCode resp.Header cr.CacheKey) resp.Body
    { w2 with index := idx3 } = c at hc ⊢
  obtain ⟨w4, err4⟩ := c
  simp only at hc ⊢
  have m2 : Event.get true cr.Request.Path ∈ w2.trace := by
    rw [hg]
    exact List.mem_append_right _ (List.mem_singleton_self _)
  have m4 : Event.get true cr.Request.Path ∈ w4.trace := by
    rw [hc]
    exact List.mem_append_left _ m2
  rw [if_neg (fun hh => hh rfl), if_neg (fun hh => hh hgw)]
  by_cases c3 : resp.StatusCode ≠ 200
  · rw [if_pos c3]
    exact m2
  rw [if_neg c3]
  by_cases c4 : err2 ≠ none
  · rw [if_pos c4]
    exact m2
  rw [if_neg c4]
  by_cases c5 : err3 ≠ none
  · rw [if_pos c5]
    exact m2
  rw [if_neg c5]
  by_cases c6 : err4 ≠ none
  · rw [if_pos c6]
    exact m4
  rw [if_neg c6]
  by_cases c7 : (SetStatus w4.index cr.CacheKey STATUS_AVAILABLE).2 ≠ none
  · rw [if_pos c7]
    exact m4
  rw [if_neg c7]
  exact m4

/-- C29, the code at the failing input: the layer `ABC` is stored, its entry
has status Available and writer `NO_WORKER`.  `storeFile` of worker 1 for
`ABC` claims the entry, sends the GET for the cache upstream and invokes
`Create` a second time; when the copy of the body breaks off in that second
`Create`, the status of the entry goes to NotFound and the data file is cut
to the bytes copied.  For every entry that is Available and unclaimed,
`storeFile` of any worker sends the GET upstream, and invokes `Create` when
the upstream answers 200. -/
theorem storeFile_refetches_available_entry :
    (GetStatus scenarioStored.index "ABC" = STATUS_AVAILABLE ∧
      GetWorker scenarioStored.index "ABC" = NO_WORKER ∧
      createCount "ABC" scenarioStored.trace = 1) ∧
    ((storeFile scenarioEnv 1 scenarioRequest scenarioStored).1.trace =
        scenarioStored.trace ++
          [Event.get true "/v2/x/blobs/sha256:ABC", Event.create "ABC"] ∧
      createCount "ABC" (storeFile scenarioEnv 1 scenarioRequest scenarioStored).1.trace = 2) ∧
    (GetStatus (storeFile scenarioCopyFails 1 scenarioRequest scenarioStored).1.index "ABC" =
        STATUS_NOT_FOUND ∧
      mapGet (storeFile scenarioCopyFails 1 scenarioRequest scenarioStored).1.files
        "/data/ABC.layer" = some (FileData.bytes [79])) ∧
    (∀ env id cr w d, mapGet w.index.meta cr.CacheKey = some d →
      d.Status = STATUS_AVAILABLE → d.WorkerID = NO_WORKER →
      Event.get true cr.Request.Path ∈ (storeFile env id cr w).1.trace) ∧
    (∀ env id cr w d resp, mapGet w.index.meta cr.CacheKey = some d →
      d.Status = STATUS_AVAILABLE → d.WorkerID = NO_WORKER →
      env.getForCache = some resp → resp.StatusCode = 200 →
      env.createErr = false → env.renameErr = false → env.copyErr = none →
      (storeFile env id cr w).1.trace =
        w.trace ++ [Event.get true cr.Request.Path, Event.create cr.CacheKey]) := by
  refine ⟨by decide, by decide, by decide, ?_, ?_⟩
  · intro env id cr w d h _ hw
    exact storeFile_fetches_unclaimed env id cr w d h hw
  · intro env id cr w d resp h _ hw hg h200 hc hrn hcp
    exact (storeFile_success env id cr w d resp h hw hg h200 hc hrn hcp).2.2.2.2.2.1


/-! ## One iteration of Run: one reply or one re-enqueue -/

theorem handleFromUpstream_outcome (env : Env) (cr : CacheRequest) (w : World) :
    (handleFromUpstream env cr w).trace =
      w.trace ++ [Event.get false cr.Request.Path,
        Event.send cr.Request.Path ORIGIN_UPSTREAM
          (env.getDirect.getD defaultBadGatewayResponse)] ∧
    (handleFromUpstream env cr w).queue = w.queue ∧
    (handleFromUpstream env cr w).index = w.index := by
  rw [handleFromUpstream_eq]
  exact ⟨rfl, rfl, rfl⟩

theorem Create_queue (env : Env) (cr : CacheRequest) (rf : ResponseFile) (c : List Nat)
    (w : World) : (Create env cr rf c w).1.queue = w.queue := by
  unfold Create
  simp only
  split_ifs
  · rfl
  · rfl
  · rfl
  · rfl
  · simp only [lruPushFront, copyBody, Dump, renamePartial, createPartial]
    split_ifs <;> (repeat' split) <;> rfl

/-- `storeFile` neither replies nor re-enqueues. -/
theorem storeFile_quiet (env : Env) (id : Int) (cr : CacheRequest) (w : World) :
    (storeFile env id cr w).1.queue = w.queue ∧
    ∃ evs, (storeFile env id cr w).1.trace = w.trace ++ evs ∧
      ∀ e ∈ evs, isSend e = false ∧ isPush e = false := by
  unfold storeFile
  rcases SetWorker w.index cr.CacheKey id false with ⟨idx1, err1⟩
  simp only
  have hg := getResponseFromUpstream_fields env.getForCache cr true { w with index := idx1 }
  generalize getResponseFromUpstream env.getForCache cr true { w with index := idx1 } = g
    at hg ⊢
  obtain ⟨w2, resp, err2⟩ := g
  simp only at hg ⊢
  subst hg
  rcases SetStatus (World.log { w with index := idx1 }
    (Event.get true cr.Request.Path)).index cr.CacheKey STATUS_IN_PROGRESS with ⟨idx3, err3⟩
  simp only
  have hc := Create_trace env cr
    (NewResponseFile resp.ContentLength resp.StatusCode resp.Header cr.CacheKey) resp.Body
    { World.log { w with index := idx1 } (Event.get true cr.Request.Path) with index := idx3 }
  have hq := Create_queue env cr
    (NewResponseFile resp.ContentLength resp.StatusCode resp.Header cr.CacheKey) resp.Body
    { World.log { w with index := idx1 } (Event.get true cr.Request.Path) with index := idx3 }
  generalize Create env cr
    (NewResponseFile resp.ContentLength resp.StatusCode resp.Header cr.CacheKey) resp.Body
    { World.log { w with index := idx1 } (Event.get true cr.Request.Path) with index := idx3 }
    = c at hc hq ⊢
  obtain ⟨w4, err4⟩ := c
  simp only at hc hq ⊢
  have hc2 : w4.trace = w.trace ++ [Event.get true cr.Request.Path, Event.create cr.CacheKey] := by
    rw [hc]
    simp only [World.log, List.append_assoc]
    rfl
  have hq2 : w4.queue = w.queue := hq
  have h0 : ∀ e ∈ ([] : List Event), isSend e = false ∧ isPush e = false :=
    fun e he => absurd he (List.not_mem_nil e)
  have h1 : ∀ e ∈ [Event.get true cr.Request.Path], isSend e = false ∧ isPush e = false := by
    simp [isSend, isPush]
  have h2 : ∀ e ∈ [Event.get true cr.Request.Path, Event.create cr.CacheKey],
      isSend e = false ∧ isPush e = false := by
    simp [isSend, isPush]
  by_cases c1 : err1 ≠ none
  · rw [if_pos c1]
    exact ⟨rfl, [], (List.append_nil _).symm, h0⟩
  rw [if_neg c1]
  by_cases c2 : GetWorker idx1 cr.CacheKey ≠ id
  · rw [if_pos c2]
    exact ⟨rfl, [], (List.append_nil _).symm, h0⟩
  rw [if_neg c2]
  by_cases c3 : resp.StatusCode ≠ 200
  · rw [if_pos c3]
    exact ⟨rfl, _, rfl, h1⟩
  rw [if_neg c3]
  by_cases c4 : err2 ≠ none
  · rw [if_pos c4]
    exact ⟨rfl, _, rfl, h1⟩
  rw [if_neg c4]
  by_cases c5 : err3 ≠ none
  · rw [if_pos c5]
    exact ⟨rfl, _, rfl, h1⟩
  rw [if_neg c5]
  by_cases c6 : err4 ≠ none
  · rw [if_pos c6]
    exact ⟨hq2, _, hc2, h2⟩
  rw [if_neg c6]
  by_cases c7 : (SetStatus w4.index cr.CacheKey STATUS_AVAILABLE).2 ≠ none
  · rw [if_pos c7]
    exact ⟨hq2, _, hc2, h2⟩
  rw [if_neg c7]
  exact ⟨hq2, _, hc2, h2⟩

theorem storeFile_missing (env : Env) (id : Int) (cr : CacheRequest) (w : World)
    (hm : mapGet w.index.meta cr.CacheKey = none) :
    (storeFile env id cr w).2 ≠ none := by
  have hsw : SetWorker w.index cr.CacheKey id false =
      (w.index, some "failed to update cache key status, not found") := by
    simp [SetWorker, hm]
  unfold storeFile
  simp only [hsw]
  simp

/-- A `storeFile` that holds the claim and returns nil has attached a
response file to the entry. -/
theorem storeFile_ok_entry (env : Env) (id : Int) (cr : CacheRequest) (w : World)
    (d : CacheKeyMetadata) (h : mapGet w.index.meta cr.CacheKey = some d)
    (hw : d.WorkerID = NO_WORKER ∨ d.WorkerID = id)
    (herr : (storeFile env id cr w).2 = none) :
    (GetResponseFile (storeFile env id cr w).1.index cr.CacheKey).1 ≠ none := by
  by_cases hn : d.WorkerID = NO_WORKER
  · revert herr
    unfold storeFile
    simp only [SetWorker, SetStatus, SetResponseFile, GetWorker, GetResponseFile, Create_index,
      getResponseFromUpstream_fields, World.log, h, hn, mapGet_mapModify_self,
      Option.map_some', ne_eq, not_true_eq_false, if_false, or_true, true_or, if_true]
    split_ifs
    all_goals
      intro herr
      first
        | exact False.elim herr
        | simp [mapGet_mapModify_self, h, hn]
  · have hid : d.WorkerID = id := hw.resolve_left hn
    revert herr
    unfold storeFile
    rw [SetWorker_entry_keep w.index cr.CacheKey id d h hn]
    simp only [SetWorker, SetStatus, SetResponseFile, GetWorker, GetResponseFile, Create_index,
      getResponseFromUpstream_fields, World.log, h, hid, mapGet_mapModify_self,
      Option.map_some', ne_eq, not_true_eq_false, if_false, or_true, true_or, if_true]
    split_ifs
    all_goals
      intro herr
      first
        | exact False.elim herr
        | simp [mapGet_mapModify_self, h, hid]

/-- A `storeFile` that returns nil on an entry that was NotFound and leaves it
Available has attached a response file to it. -/
theorem storeFile_available_has_response_file (env : Env) (id : Int) (cr : CacheRequest)
    (w : World) (hst : GetStatus w.index cr.CacheKey = STATUS_NOT_FOUND)
    (herr : (storeFile env id cr w).2 = none)
    (hav : GetStatus (storeFile env id cr w).1.index cr.CacheKey = STATUS_AVAILABLE) :
    ∀ d, mapGet (storeFile env id cr w).1.index.meta cr.CacheKey = some d →
      d.ResponseFile ≠ none := by
  cases hm : mapGet w.index.meta cr.CacheKey with
  | none => exact absurd herr (storeFile_missing env id cr w hm)
  | some d0 =>
    by_cases hw : d0.WorkerID = NO_WORKER ∨ d0.WorkerID = id
    · have hrf := storeFile_ok_entry env id cr w d0 hm hw herr
      intro d hd
      simpa [GetResponseFile, hd] using hrf
    · rw [not_or] at hw
      rw [storeFile_refused env id cr w d0 hm hw.1 hw.2] at hav
      rw [hst] at hav
      exact absurd hav (by decide)

theorem handleFromUpstream_replies_once (env : Env) (cr : CacheRequest) (w : World) :
    (handleFromUpstream env cr w).queue = w.queue ∧
    (handleFromUpstream env cr w).index = w.index ∧
    ∃ evs, (handleFromUpstream env cr w).trace = w.trace ++ evs ∧
      evs.countP isSend = 1 ∧ evs.countP isPush = 0 ∧ evs.countP isCacheSend = 0 := by
  obtain ⟨h1, h2, h3⟩ := handleFromUpstream_outcome env cr w
  exact ⟨h2, h3, _, h1, by simp [isSend], by simp [isPush],
    by simp [isCacheSend, ORIGIN_UPSTREAM, ORIGIN_CACHE]⟩

/-- The Available block of `Run` on an entry that has a response file, or on a
digest without an entry: one reply, no re-enqueue, the status left as it is. -/
theorem runAvailable_replies_once (env : Env) (cr : CacheRequest) (w : World)
    (hrf : ∀ d, mapGet w.index.meta cr.CacheKey = some d → d.ResponseFile ≠ none) :
    (runAvailable env cr w).queue = w.queue ∧
    GetStatus (runAvailable env cr w).index cr.CacheKey = GetStatus w.index cr.CacheKey ∧
    ∃ evs, (runAvailable env cr w).trace = w.trace ++ evs ∧
      evs.countP isSend = 1 ∧ evs.countP isPush = 0 := by
  unfold runAvailable
  rw [checkPerms_eq]
  by_cases h2 : env.headSecond = some 200
  · simp only [h2, if_true, ne_eq, not_true_eq_false, if_false]
    unfold getResponseFromCache Read
    cases hm : mapGet w.index.meta cr.CacheKey with
    | none =>
      simp only [GetResponseFile, World.log, hm, ne_eq, not_false_eq_true, if_true, reduceCtorEq]
      rw [handleFromUpstream_eq]
      refine ⟨rfl, by simp [GetStatus, hm], ?_⟩
      constructor
      constructor
      · simp only [List.append_assoc]
        rfl
      · constructor <;> simp [isSend, isPush]
    | some d =>
      obtain ⟨rf, hd⟩ := Option.ne_none_iff_exists'.mp (hrf d hm)
      cases hf : (if env.openErr = true then none else mapGet w.files cr.DataFile) with
      | none =>
        simp only [GetResponseFile, SetATime, World.log, hm, hd, hf, ne_eq, not_true_eq_false,
          if_false]
        rw [handleFromUpstream_eq]
        refine ⟨rfl, by simp [GetStatus, hm, mapGet_mapModify_self], ?_⟩
        constructor
        constructor
        · simp only [List.append_assoc]
          rfl
        · constructor <;> simp [isSend, isPush]
      | some file =>
        simp only [GetResponseFile, SetATime, World.log, hm, hd, hf, ne_eq, not_true_eq_false,
          if_false]
        cases hl : mapGet w.LRUElements cr.CacheKey with
        | none =>
          refine ⟨rfl, by simp [GetStatus, hm, mapGet_mapModify_self], ?_⟩
          constructor
          constructor
          · simp only [List.append_assoc]
            rfl
          · constructor <;> simp [isSend, isPush]
        | some el =>
          refine ⟨rfl, by simp [GetStatus, hm, mapGet_mapModify_self], ?_⟩
          constructor
          constructor
          · simp only [List.append_assoc]
            rfl
          · constructor <;> simp [isSend, isPush]
  · simp only [h2, if_false, ne_eq, not_false_eq_true, if_true, reduceCtorEq]
    rw [handleFromUpstream_eq]
    refine ⟨rfl, rfl, ?_⟩
    constructor
    constructor
    · simp only [List.append_assoc]
      rfl
    · constructor <;> simp [isSend, isPush]

/-- Events that are neither replies nor re-enqueues, put in front of an
iteration, do not change its outcome. -/
theorem IterationOutcome_after_quiet (cr : CacheRequest) (w w1 w2 : World) (p q : Prop)
    (evs1 : List Event) (ht : w1.trace = w.trace ++ evs1)
    (hquiet : ∀ e ∈ evs1, isSend e = false ∧ isPush e = false) (hq : w1.queue = w.queue)
    (h : IterationOutcome cr w1 w2 p q) : IterationOutcome cr w w2 p q := by
  obtain ⟨evs, h1, h2, h3⟩ := h
  have hs : evs1.countP isSend = 0 :=
    List.countP_eq_zero.mpr (fun e he => by simp [(hquiet e he).1])
  have hp : evs1.countP isPush = 0 :=
    List.countP_eq_zero.mpr (fun e he => by simp [(hquiet e he).2])
  have hc : evs1.countP isCacheSend = 0 :=
    List.countP_eq_zero.mpr (fun e he hce => by
      have := isCacheSend_isSend e hce
      rw [(hquiet e he).1] at this
      exact Bool.noConfusion this)
  refine ⟨evs1 ++ evs, by rw [h1, ht, List.append_assoc], ?_, ?_⟩
  · simpa [List.countP_append, hs, hp, hq] using h2
  · simpa [List.countP_append, hc] using h3

theorem IterationOutcome_handle (env : Env) (cr : CacheRequest) (w : World) (p q : Prop) :
    IterationOutcome cr w (handleFromUpstream env cr w) p q := by
  obtain ⟨hq, _, evs, ht, h1, h2, h3⟩ := handleFromUpstream_replies_once env cr w
  exact ⟨evs, ht, Or.inl ⟨h1, h2, hq⟩, fun h => absurd h (by omega)⟩

theorem IterationOutcome_push (cr : CacheRequest) (w : World) (p q : Prop) (hp : p) :
    IterationOutcome cr w (Push cr w) p q :=
  ⟨[Event.push cr.Request.Path], rfl, Or.inr ⟨by simp [isSend], by simp [isPush], rfl, hp⟩,
    fun h => absurd h (by simp [isCacheSend])⟩

/-- The statements of `Run` after the NotFound block, for the status `st` of
the entry: one reply, or one re-enqueue when the status is InProgress; a
reply with origin cache only when the status is Available. -/
theorem runDispatch_outcome (env : Env) (cr : CacheRequest) (st : Int) (w : World)
    (hst : GetStatus w.index cr.CacheKey = st)
    (hrf : st = STATUS_AVAILABLE →
      ∀ d, mapGet w.index.meta cr.CacheKey = some d → d.ResponseFile ≠ none) :
    GetStatus (runDispatch env cr st w).index cr.CacheKey = st ∧
    IterationOutcome cr w (runDispatch env cr st w) (st = STATUS_IN_PROGRESS)
      (st = STATUS_AVAILABLE) := by
  unfold runDispatch
  split_ifs with h1 h2
  · exact ⟨hst, IterationOutcome_push cr w _ _ h1⟩
  · obtain ⟨hq, hs, evs, ht, hc1, hc2⟩ := runAvailable_replies_once env cr w (hrf h2)
    exact ⟨hs.trans hst, evs, ht, Or.inl ⟨hc1, hc2, hq⟩, fun _ => h2⟩
  · exact ⟨by rw [(handleFromUpstream_outcome env cr w).2.2]; exact hst,
      IterationOutcome_handle env cr w _ _⟩

theorem IterationOutcome_mono (cr : CacheRequest) (w w2 : World) (p q p2 q2 : Prop)
    (hp : p → p2) (hq : q → q2) (h : IterationOutcome cr w w2 p q) :
    IterationOutcome cr w w2 p2 q2 := by
  obtain ⟨evs, h1, h2, h3⟩ := h
  refine ⟨evs, h1, ?_, fun hc => hq (h3 hc)⟩
  rcases h2 with h2 | ⟨a, b, c, d⟩
  · exact Or.inl h2
  · exact Or.inr ⟨a, b, c, hp d⟩

theorem waitForStatusUpdate_timeout :
    waitForStatusUpdate (fun _ => STATUS_NOT_FOUND) =
      (STATUS_NOT_FOUND, some "timeout waiting for cache key status") := by
  have h := waitLoopTimed_eq (fun _ => STATUS_NOT_FOUND) 301 0 STATUS_NOT_FOUND
  rw [waitLoopTimed_timeout (fun _ => STATUS_NOT_FOUND) 301 0 STATUS_NOT_FOUND
    (fun _ _ _ => rfl)] at h
  exact h.symm

/-- The statements of `Run` after a `storeFile` that returned nil: the wait
for the status, then the re-enqueue or the dispatch on the status. -/
theorem afterStore_outcome (env : Env) (cr : CacheRequest) (w : World)
    (hrf : GetStatus w.index cr.CacheKey = STATUS_AVAILABLE →
      ∀ d, mapGet w.index.meta cr.CacheKey = some d → d.ResponseFile ≠ none)
    (w2 : World)
    (hw2 : w2 =
      if (waitForStatusUpdate (fun _ => GetStatus w.index cr.CacheKey)).2 ≠ none then Push cr w
      else runDispatch env cr
        (waitForStatusUpdate (fun _ => GetStatus w.index cr.CacheKey)).1 w) :
    IterationOutcome cr w w2
      (GetStatus w2.index cr.CacheKey = STATUS_IN_PROGRESS ∨
        (waitForStatusUpdate (fun _ => GetStatus w2.index cr.CacheKey)).2 ≠ none)
      (GetStatus w2.index cr.CacheKey = STATUS_AVAILABLE) := by
  by_cases hs : GetStatus w.index cr.CacheKey = STATUS_NOT_FOUND
  · rw [hs, waitForStatusUpdate_timeout, if_pos (by simp)] at hw2
    subst hw2
    refine IterationOutcome_push cr w _ _ (Or.inr ?_)
    have : (Push cr w).index = w.index := rfl
    rw [this, hs, waitForStatusUpdate_timeout]
    simp
  · rw [waitForStatusUpdate_const _ hs, if_neg (by simp)] at hw2
    subst hw2
    obtain ⟨h1, h2⟩ := runDispatch_outcome env cr _ w rfl hrf
    exact IterationOutcome_mono cr w _ _ _ _ _ (fun h => Or.inl (h1.trans h))
      (fun h => h1.trans h) h2

/-- `Put` leaves a status that reads NotFound as it is. -/
theorem Put_keeps_not_found (i : MemoryIndex) (now : Int) (k df : String)
    (h : GetStatus i k = STATUS_NOT_FOUND) :
    GetStatus (Put i now k df).1 k = STATUS_NOT_FOUND := by
  unfold Put
  split_ifs
  · exact h
  · cases hm : mapGet i.meta k with
    | none => simp [GetStatus, mapGet_mapSet_self]
    | some d => simpa [GetStatus, hm] using h

/-- One iteration of the worker loop on the request `cr`, started in a world
in which the entry of the digest, when it is Available, has a response file:
either exactly one reply and no re-enqueue, or no reply and exactly one
re-enqueue. -/
theorem Run_outcome_of_response_file (env : Env) (id : Int) (cr : CacheRequest) (w : World)
    (hrf : ∀ d, mapGet w.index.meta cr.CacheKey = some d → d.Status = STATUS_AVAILABLE →
      d.ResponseFile ≠ none) :
    ∃ evs, (Run env id cr w).trace = w.trace ++ evs ∧
      ((evs.countP isSend = 1 ∧ evs.countP isPush = 0 ∧ (Run env id cr w).queue = w.queue) ∨
        (evs.countP isSend = 0 ∧ evs.countP isPush = 1 ∧
          (Run env id cr w).queue = w.queue ++ [cr] ∧
          (GetStatus (Run env id cr w).index cr.CacheKey = STATUS_IN_PROGRESS ∨
            (waitForStatusUpdate
              (fun _ => GetStatus (Run env id cr w).index cr.CacheKey)).2 ≠ none))) ∧
      (0 < evs.countP isCacheSend →
        GetStatus (Run env id cr w).index cr.CacheKey = STATUS_AVAILABLE) := by
  show IterationOutcome cr w (Run env id cr w) _ _
  unfold Run
  by_cases hen : cr.CacheEnabled = true
  · rw [if_pos hen]
    unfold runCacheable
    by_cases hst : GetStatus w.index cr.CacheKey = STATUS_NOT_FOUND
    · rw [if_pos hst]
      simp only [checkPerms_eq]
      by_cases h1 : env.headFirst = some 200
      · simp only [h1, if_true, ne_eq, not_true_eq_false, if_false]
        by_cases hp : (Put w.index env.nowPut cr.CacheKey cr.DataFile).2 = none
        · rw [if_neg (not_not.mpr hp)]
          by_cases hsf : (storeFile env id cr
              { w with
                trace := w.trace ++ [Event.head cr.CacheKey (some 200)]
                index := (Put w.index env.nowPut cr.CacheKey cr.DataFile).1 }).2 = none
          · rw [if_neg (not_not.mpr hsf)]
            obtain ⟨hq, evs, ht, hquiet⟩ := storeFile_quiet env id cr
              { w with
                trace := w.trace ++ [Event.head cr.CacheKey (some 200)]
                index := (Put w.index env.nowPut cr.CacheKey cr.DataFile).1 }
            refine IterationOutcome_after_quiet cr w (storeFile env id cr
              { w with
                trace := w.trace ++ [Event.head cr.CacheKey (some 200)]
                index := (Put w.index env.nowPut cr.CacheKey cr.DataFile).1 }).1 _ _ _
              ([Event.head cr.CacheKey (some 200)] ++ evs)
              (by rw [ht, List.append_assoc]) ?_ hq ?_
            · intro e he
              rcases List.mem_append.mp he with h | h
              · rw [List.mem_singleton.mp h]
                exact ⟨rfl, rfl⟩
              · exact hquiet e h
            · exact afterStore_outcome env cr _
                (storeFile_available_has_response_file env id cr _
                  (Put_keeps_not_found w.index env.nowPut cr.CacheKey cr.DataFile hst) hsf)
                _ rfl
          · rw [if_pos hsf]
            obtain ⟨hq, evs, ht, hquiet⟩ := storeFile_quiet env id cr
              { w with
                trace := w.trace ++ [Event.head cr.CacheKey (some 200)]
                index := (Put w.index env.nowPut cr.CacheKey cr.DataFile).1 }
            refine IterationOutcome_after_quiet cr w (storeFile env id cr
              { w with
                trace := w.trace ++ [Event.head cr.CacheKey (some 200)]
                index := (Put w.index env.nowPut cr.CacheKey cr.DataFile).1 }).1 _ _ _
              ([Event.head cr.CacheKey (some 200)] ++ evs)
              (by rw [ht, List.append_assoc]) ?_ hq (IterationOutcome_handle env cr _ _ _)
            intro e he
            rcases List.mem_append.mp he with h | h
            · rw [List.mem_singleton.mp h]
              exact ⟨rfl, rfl⟩
            · exact hquiet e h
        · rw [if_pos hp]
          exact IterationOutcome_after_quiet cr w
            { w with
              trace := w.trace ++ [Event.head cr.CacheKey (some 200)]
              index := (Put w.index env.nowPut cr.CacheKey cr.DataFile).1 } _ _ _
            [Event.head cr.CacheKey (some 200)] rfl (by simp [isSend, isPush]) rfl
            (IterationOutcome_handle env cr _ _ _)
      · simp only [h1, if_false, ne_eq, not_false_eq_true, if_true, reduceCtorEq]
        exact IterationOutcome_after_quiet cr w
          { w with trace := w.trace ++ [Event.head cr.CacheKey env.headFirst] } _ _ _
          [Event.head cr.CacheKey env.headFirst] rfl (by simp [isSend, isPush]) rfl
          (IterationOutcome_handle env cr _ _ _)
    · rw [if_neg hst]
      obtain ⟨h1, h2⟩ := runDispatch_outcome env cr _ w rfl (fun hav d hd => hrf d hd (by
        simpa [GetStatus, hd] using hav))
      exact IterationOutcome_mono cr w _ _ _ _ _ (fun h => Or.inl (h1.trans h))
        (fun h => h1.trans h) h2
  · rw [if_neg hen]
    exact IterationOutcome_handle env cr w _ _

/-- Why the invariant is needed: in a world set up with an Available entry
that has no response file (no sequence of the steps above reaches one) the
iteration ends in the dereference of the nil pointer that `GetResponseFile`
returned, and neither replies nor re-enqueues. -/
theorem Run_faults_without_response_file :
    GetStatus scenarioNoResponseFile.index "ABC" = STATUS_AVAILABLE ∧
    (GetResponseFile scenarioNoResponseFile.index "ABC").1 = none ∧
    (Run scenarioEnv 0 scenarioRequest scenarioNoResponseFile).trace =
      [Event.head "ABC" (some 200), Event.read "ABC", Event.fault] ∧
    (Run scenarioEnv 0 scenarioRequest scenarioNoResponseFile).queue = [] := by
  decide

/-! ## Available entries keep their response file -/

theorem ResponseFilesPresent_modify (i : MemoryIndex) (k : String)
    (f : CacheKeyMetadata → CacheKeyMetadata) (h : ResponseFilesPresent i)
    (hf : ∀ d, mapGet i.meta k = some d → (f d).Status = STATUS_AVAILABLE →
      (f d).ResponseFile ≠ none) :
    ResponseFilesPresent { i with meta := mapModify i.meta k f } := by
  intro x d hd hs
  by_cases hx : x = k
  · subst hx
    simp only [mapGet_mapModify_self] at hd
    cases hm : mapGet i.meta x with
    | none => rw [hm] at hd; exact Option.noConfusion hd
    | some d0 =>
      rw [hm] at hd
      have e : f d0 = d := Option.some.inj hd
      subst e
      exact hf d0 hm hs
  · simp only [mapGet_mapModify_ne _ _ hx] at hd
    exact h x d hd hs

theorem ResponseFilesPresent_SetWorker (i : MemoryIndex) (k : String) (id : Int) (force : Bool)
    (h : ResponseFilesPresent i) : ResponseFilesPresent (SetWorker i k id force).1 := by
  unfold SetWorker
  cases hm : mapGet i.meta k with
  | none => exact h
  | some d =>
    simp only
    split_ifs
    · exact ResponseFilesPresent_modify i k _ h (fun d0 hd0 hs => h k d0 hd0 hs)
    · exact h

theorem ResponseFilesPresent_SetATime (i : MemoryIndex) (now : Int) (k : String)
    (h : ResponseFilesPresent i) : ResponseFilesPresent (SetATime i now k).1 := by
  unfold SetATime
  cases hm : mapGet i.meta k with
  | none => exact h
  | some d => exact ResponseFilesPresent_modify i k _ h (fun d0 hd0 hs => h k d0 hd0 hs)

theorem ResponseFilesPresent_SetStatus (i : MemoryIndex) (k : String) (s : Int)
    (h : ResponseFilesPresent i) (hs : s = STATUS_AVAILABLE → HasResponseFile i k) :
    ResponseFilesPresent (SetStatus i k s).1 := by
  unfold SetStatus
  cases hm : mapGet i.meta k with
  | none => exact h
  | some d => exact ResponseFilesPresent_modify i k _ h (fun d0 hd0 hav => hs hav d0 hd0)

theorem ResponseFilesPresent_SetResponseFile (i : MemoryIndex) (k : String) (rf : ResponseFile)
    (h : ResponseFilesPresent i) :
    ResponseFilesPresent (SetResponseFile i k (some rf)).1 := by
  unfold SetResponseFile
  cases hm : mapGet i.meta k with
  | none => exact h
  | some d =>
    exact ResponseFilesPresent_modify i k _ h (fun _ _ _ => Option.some_ne_none rf)

theorem HasResponseFile_SetResponseFile (i : MemoryIndex) (k : String) (rf : ResponseFile) :
    HasResponseFile (SetResponseFile i k (some rf)).1 k := by
  unfold SetResponseFile
  cases hm : mapGet i.meta k with
  | none =>
    intro d hd
    simp only at hd
    rw [hm] at hd
    exact Option.noConfusion hd
  | some d0 =>
    intro d hd
    simp only [mapGet_mapModify_self, hm, Option.map_some'] at hd
    rw [← Option.some.inj hd]
    exact Option.some_ne_none rf

theorem ResponseFilesPresent_Put (i : MemoryIndex) (now : Int) (k df : String)
    (h : ResponseFilesPresent i) : ResponseFilesPresent (Put i now k df).1 := by
  unfold Put
  split_ifs
  · exact h
  · intro x d hd hs
    simp only at hd
    cases hm : mapGet i.meta k with
    | none =>
      rw [hm] at hd
      simp only at hd
      by_cases hx : x = k
      · subst hx
        rw [mapGet_mapSet_self] at hd
        rw [← Option.some.inj hd] at hs
        exact absurd hs (show STATUS_NOT_FOUND ≠ STATUS_AVAILABLE by decide)
      · rw [mapGet_mapSet_ne _ _ hx] at hd
        exact h x d hd hs
    | some d0 =>
      rw [hm] at hd
      exact h x d hd hs

theorem ResponseFilesPresent_Delete (i : MemoryIndex) (k : String)
    (h : ResponseFilesPresent i) : ResponseFilesPresent (Delete i k) := by
  intro x d hd hs
  simp only [Delete] at hd
  by_cases hx : x = k
  · subst hx
    rw [mapGet_mapDel_self] at hd
    exact Option.noConfusion hd
  · rw [mapGet_mapDel_ne _ hx] at hd
    exact h x d hd hs

theorem ResponseFilesPresent_storeFile (env : Env) (id : Int) (cr : CacheRequest) (w : World)
    (h : ResponseFilesPresent w.index) :
    ResponseFilesPresent (storeFile env id cr w).1.index := by
  unfold storeFile
  have h1 := ResponseFilesPresent_SetWorker w.index cr.CacheKey id false h
  generalize SetWorker w.index cr.CacheKey id false = sw at h1 ⊢
  obtain ⟨idx1, err1⟩ := sw
  simp only at h1 ⊢
  have hg := getResponseFromUpstream_fields env.getForCache cr true { w with index := idx1 }
  generalize getResponseFromUpstream env.getForCache cr true { w with index := idx1 } = g
    at hg ⊢
  obtain ⟨w2, resp, err2⟩ := g
  simp only at hg ⊢
  subst hg
  simp only [World.log]
  have h3 := ResponseFilesPresent_SetStatus idx1 cr.CacheKey STATUS_IN_PROGRESS h1
    (fun e => absurd e (by decide))
  generalize SetStatus idx1 cr.CacheKey STATUS_IN_PROGRESS = ss at h3 ⊢
  obtain ⟨idx3, err3⟩ := ss
  simp only at h3 ⊢
  generalize hce : Create env cr _ _ _ = c
  have hci := congrArg (fun p => p.1.index) hce
  simp only [Create_index] at hci
  obtain ⟨w4, err4⟩ := c
  simp only at hci ⊢
  have h4 : ResponseFilesPresent w4.index := by
    rw [← hci]
    exact ResponseFilesPresent_SetResponseFile _ cr.CacheKey _ h3
  have h4r : HasResponseFile w4.index cr.CacheKey := by
    rw [← hci]
    exact HasResponseFile_SetResponseFile _ _ _
  by_cases c1 : err1 ≠ none
  · rw [if_pos c1]
    exact h1
  rw [if_neg c1]
  by_cases c2 : GetWorker idx1 cr.CacheKey ≠ id
  · rw [if_pos c2]
    exact h1
  rw [if_neg c2]
  by_cases c3 : resp.StatusCode ≠ 200
  · rw [if_pos c3]
    exact h1
  rw [if_neg c3]
  by_cases c4 : err2 ≠ none
  · rw [if_pos c4]
    exact h1
  rw [if_neg c4]
  by_cases c5 : err3 ≠ none
  · rw [if_pos c5]
    exact h3
  rw [if_neg c5]
  by_cases c6 : err4 ≠ none
  · rw [if_pos c6]
    exact ResponseFilesPresent_SetStatus _ cr.CacheKey STATUS_NOT_FOUND h4
      (fun e => absurd e (by decide))
  rw [if_neg c6]
  by_cases c7 : (SetStatus w4.index cr.CacheKey STATUS_AVAILABLE).2 ≠ none
  · rw [if_pos c7]
    exact ResponseFilesPresent_SetStatus _ cr.CacheKey STATUS_AVAILABLE h4 (fun _ => h4r)
  rw [if_neg c7]
  exact ResponseFilesPresent_SetWorker _ cr.CacheKey NO_WORKER true
    (ResponseFilesPresent_SetStatus _ cr.CacheKey STATUS_AVAILABLE h4 (fun _ => h4r))

theorem runAvailable_index (env : Env) (cr : CacheRequest) (w : World) :
    (runAvailable env cr w).index = w.index ∨
    (runAvailable env cr w).index = (SetATime w.index env.nowRead cr.CacheKey).1 := by
  unfold runAvailable
  rw [checkPerms_eq]
  by_cases h2 : env.headSecond = some 200
  · simp only [h2, if_true, ne_eq, not_true_eq_false, if_false]
    unfold getResponseFromCache Read
    cases hm : mapGet w.index.meta cr.CacheKey with
    | none =>
      simp only [GetResponseFile, World.log, hm, ne_eq, not_false_eq_true, if_true, reduceCtorEq]
      rw [handleFromUpstream_eq]
      exact Or.inl rfl
    | some d =>
      cases hf : (if env.openErr = true then none else mapGet w.files cr.DataFile) with
      | none =>
        simp only [GetResponseFile, World.log, hm, hf, ne_eq, not_true_eq_false, if_false]
        rw [handleFromUpstream_eq]
        exact Or.inr rfl
      | some file =>
        simp only [GetResponseFile, World.log, hm, hf, ne_eq, not_true_eq_false, if_false]
        cases hd : d.ResponseFile with
        | none =>
          simp only
          cases hl : mapGet w.LRUElements cr.CacheKey with
          | none => exact Or.inr rfl
          | some el => exact Or.inr rfl
        | some rf =>
          simp only
          cases hl : mapGet w.LRUElements cr.CacheKey with
          | none => exact Or.inr rfl
          | some el => exact Or.inr rfl
  · simp only [h2, if_false, ne_eq, not_false_eq_true, if_true, reduceCtorEq]
    rw [handleFromUpstream_eq]
    exact Or.inl rfl

theorem ResponseFilesPresent_runDispatch (env : Env) (cr : CacheRequest) (st : Int) (w : World)
    (h : ResponseFilesPresent w.index) :
    ResponseFilesPresent (runDispatch env cr st w).index := by
  unfold runDispatch
  split_ifs
  · exact h
  · rcases runAvailable_index env cr w with e | e
    · rw [e]; exact h
    · rw [e]; exact ResponseFilesPresent_SetATime _ _ _ h
  · rw [handleFromUpstream_eq]
    exact h

theorem handleFromUpstream_index (env : Env) (cr : CacheRequest) (w : World) :
    (handleFromUpstream env cr w).index = w.index :=
  (handleFromUpstream_outcome env cr w).2.2

theorem ResponseFilesPresent_runCacheable (env : Env) (id : Int) (cr : CacheRequest)
    (st : Int) (w : World) (h : ResponseFilesPresent w.index) :
    ResponseFilesPresent (runCacheable env id cr st w).index := by
  unfold runCacheable
  by_cases c0 : st = STATUS_NOT_FOUND
  swap
  · rw [if_neg c0]
    exact ResponseFilesPresent_runDispatch env cr _ _ h
  rw [if_pos c0]
  have hck : (checkPerms env.headFirst cr w).1.index = w.index := by
    rw [checkPerms_eq]
  generalize checkPerms env.headFirst cr w = ck at hck ⊢
  obtain ⟨w1, err1⟩ := ck
  simp only at hck ⊢
  have h1 : ResponseFilesPresent w1.index := by
    rw [hck]
    exact h
  by_cases c1 : err1 ≠ none
  · rw [if_pos c1, handleFromUpstream_index]
    exact h1
  rw [if_neg c1]
  have hP := ResponseFilesPresent_Put w1.index env.nowPut cr.CacheKey cr.DataFile h1
  generalize Put w1.index env.nowPut cr.CacheKey cr.DataFile = pp at hP ⊢
  obtain ⟨idx2, err2⟩ := pp
  simp only at hP ⊢
  by_cases c2 : err2 ≠ none
  · rw [if_pos c2, handleFromUpstream_index]
    exact hP
  rw [if_neg c2]
  have hS := ResponseFilesPresent_storeFile env id cr { w1 with index := idx2 } hP
  generalize storeFile env id cr { w1 with index := idx2 } = sf at hS ⊢
  obtain ⟨w3, err3⟩ := sf
  simp only at hS ⊢
  by_cases c3 : err3 ≠ none
  · rw [if_pos c3, handleFromUpstream_index]
    exact hS
  rw [if_neg c3]
  generalize waitForStatusUpdate (fun _ => GetStatus w3.index cr.CacheKey) = ws
  obtain ⟨st4, err4⟩ := ws
  simp only
  by_cases c4 : err4 ≠ none
  · rw [if_pos c4]
    exact hS
  rw [if_neg c4]
  exact ResponseFilesPresent_runDispatch env cr _ _ hS

theorem ResponseFilesPresent_Run (env : Env) (id : Int) (cr : CacheRequest) (w : World)
    (h : ResponseFilesPresent w.index) : ResponseFilesPresent (Run env id cr w).index := by
  unfold Run
  split_ifs
  · exact ResponseFilesPresent_runCacheable env id cr _ w h
  · rw [handleFromUpstream_index]
    exact h

theorem SetStatus_meta_ne (i : MemoryIndex) (k x : String) (s : Int) (hx : x ≠ k) :
    mapGet (SetStatus i k s).1.meta x = mapGet i.meta x := by
  unfold SetStatus
  cases hm : mapGet i.meta k with
  | none => rfl
  | some d => exact mapGet_mapModify_ne _ _ hx

theorem SetResponseFile_meta_ne (i : MemoryIndex) (k x : String) (rf : Option ResponseFile)
    (hx : x ≠ k) : mapGet (SetResponseFile i k rf).1.meta x = mapGet i.meta x := by
  unfold SetResponseFile
  cases hm : mapGet i.meta k with
  | none => rfl
  | some d => exact mapGet_mapModify_ne _ _ hx

/-- The three setter calls of `Restore` on one entry: the entry ends Available
with the response file that was loaded. -/
theorem ResponseFilesPresent_restored (i : MemoryIndex) (k : String) (rf : ResponseFile)
    (h : ResponseFilesPresent i) :
    ResponseFilesPresent
      (SetStatus (SetResponseFile (SetStatus i k STATUS_AVAILABLE).1 k (some rf)).1 k
        STATUS_AVAILABLE).1 := by
  apply ResponseFilesPresent_SetStatus _ _ _ _ (fun _ => HasResponseFile_SetResponseFile _ _ _)
  intro x d hd hs
  by_cases hx : x = k
  · subst hx
    exact HasResponseFile_SetResponseFile _ _ _ d hd
  · rw [SetResponseFile_meta_ne _ _ _ _ hx, SetStatus_meta_ne _ _ _ _ hx] at hd
    exact h x d hd hs

theorem ResponseFilesPresent_restoreFile (parse : JsonParser) (readErr : String → Bool)
    (clock : EntryClock) (dataPath : String) (files : List (String × FileData))
    (name : String) (idx : MemoryIndex) (h : ResponseFilesPresent idx) :
    ResponseFilesPresent (restoreFile parse readErr clock dataPath files name idx).1 := by
  unfold restoreFile
  simp only
  split_ifs
  · exact h
  · exact ResponseFilesPresent_Delete _ _
      (ResponseFilesPresent_restored _ _ _ (ResponseFilesPresent_Put _ _ _ _ h))
  · exact ResponseFilesPresent_restored _ _ _ (ResponseFilesPresent_Put _ _ _ _ h)

theorem ResponseFilesPresent_restoreLoop (parse : JsonParser) (readErr : String → Bool)
    (clock : EntryClock) (dataPath : String) (files : List (String × FileData))
    (names : List String) (idx : MemoryIndex) (h : ResponseFilesPresent idx) :
    ResponseFilesPresent (restoreLoop parse readErr clock dataPath files names idx).1 := by
  induction names generalizing idx with
  | nil => exact h
  | cons name rest ih =>
    have h1 := ResponseFilesPresent_restoreFile parse readErr clock dataPath files name idx h
    unfold restoreLoop
    cases hr : restoreFile parse readErr clock dataPath files name idx with
    | mk idx1 err =>
      rw [hr] at h1
      cases err with
      | none => exact ih idx1 h1
      | some e => exact h1

theorem ResponseFilesPresent_Restore (parse : JsonParser) (listErr : Bool)
    (readErr : String → Bool) (clock : EntryClock) (dataPath : String) (w : World)
    (h : ResponseFilesPresent w.index) :
    ResponseFilesPresent (LocalCache.Restore parse listErr readErr clock dataPath w).1.index := by
  unfold LocalCache.Restore
  simp only
  split_ifs
  · exact h
  · exact ResponseFilesPresent_restoreLoop _ _ _ _ _ _ _ h

theorem ResponseFilesPresent_LocalCache_Delete (rmData rmMeta : Bool) (filepath ckey : String)
    (atomic : Bool) (w : World) (h : ResponseFilesPresent w.index) :
    ResponseFilesPresent (LocalCache.Delete rmData rmMeta filepath ckey atomic w).1.index := by
  unfold LocalCache.Delete
  by_cases c0 : filepath = "" ∧ ckey = ""
  · rw [if_pos c0]
    exact h
  rw [if_neg c0]
  simp only
  generalize (if filepath = "" then (GetDatafile w.index ckey).1 else filepath) = fp
  generalize (if ckey = "" then GetDataRef w.index fp else ckey) = ck
  generalize hw1 : (if ck ≠ "" then _ else w) = w1
  have h1 : ResponseFilesPresent w1.index := by
    rw [← hw1]
    by_cases c1 : ck ≠ ""
    · rw [if_pos c1]
      exact ResponseFilesPresent_Delete w.index ck h
    · rw [if_neg c1]
      exact h
  by_cases c2 : fp ≠ ""
  swap
  · rw [if_neg c2]
    exact h1
  rw [if_pos c2]
  generalize osRemove rmData fp w1.files = r2
  obtain ⟨files2, err2⟩ := r2
  simp only
  by_cases c3 : err2 ≠ some OsError.notExist ∧ atomic = true
  · rw [if_pos c3]
    exact h1
  rw [if_neg c3]
  generalize osRemove rmMeta (ComputeResponseFilePath fp) files2 = r3
  obtain ⟨files3, err3⟩ := r3
  simp only
  by_cases c4 : err3 ≠ some OsError.notExist ∧ atomic = true
  · rw [if_pos c4]
    exact h1
  rw [if_neg c4]
  exact h1

/-- Every cache reached from a fresh one keeps the invariant on response
files. -/
theorem ResponseFilesPresent_runCacheOps (ops : List CacheOp) (w : World)
    (h : ResponseFilesPresent w.index) : ResponseFilesPresent (runCacheOps w ops).index := by
  induction ops generalizing w with
  | nil => exact h
  | cons op ops ih =>
    apply ih
    cases op with
    | run env id cr => exact ResponseFilesPresent_Run env id cr w h
    | finish env id cr st =>
      show ResponseFilesPresent (if cr.CacheEnabled then runCacheable env id cr st w
        else handleFromUpstream env cr w).index
      split_ifs
      · exact ResponseFilesPresent_runCacheable env id cr st w h
      · rw [handleFromUpstream_index]
        exact h
    | restore parse listErr readErr clock dataPath =>
      exact ResponseFilesPresent_Restore parse listErr readErr clock dataPath w h
    | delete rmData rmMeta filepath ckey atomic =>
      exact ResponseFilesPresent_LocalCache_Delete rmData rmMeta filepath ckey atomic w h
    | setFiles files => exact h
    | setQueue queue => exact h

theorem ResponseFilesPresent_fresh : ResponseFilesPresent freshWorld.index :=
  fun _ _ hd _ => Option.noConfusion hd

/-- C27: in every cache reached from a fresh one by iterations of the workers
(whole ones, and ones that go on from a status read earlier), by `Restore`, by
`LocalCache.Delete` and by changes of the data directory and of the queue, one
iteration of the worker loop on the request `cr` adds to the trace either
exactly one reply and no re-enqueue, leaving the queue as it was, or no reply
and exactly one re-enqueue, with `cr` put at the end of the queue.  It
re-enqueues only when the status of the entry is InProgress or the wait for the
status has timed out, and it replies with origin cache only when the status of
the entry is Available. -/
theorem Run_one_reply_or_one_requeue (ops : List CacheOp) (env : Env) (id : Int)
    (cr : CacheRequest) :
    ∃ evs, (Run env id cr (runCacheOps freshWorld ops)).trace =
        (runCacheOps freshWorld ops).trace ++ evs ∧
      ((evs.countP isSend = 1 ∧ evs.countP isPush = 0 ∧
          (Run env id cr (runCacheOps freshWorld ops)).queue =
            (runCacheOps freshWorld ops).queue) ∨
        (evs.countP isSend = 0 ∧ evs.countP isPush = 1 ∧
          (Run env id cr (runCacheOps freshWorld ops)).queue =
            (runCacheOps freshWorld ops).queue ++ [cr] ∧
          (GetStatus (Run env id cr (runCacheOps freshWorld ops)).index cr.CacheKey =
              STATUS_IN_PROGRESS ∨
            (waitForStatusUpdate
              (fun _ => GetStatus (Run env id cr (runCacheOps freshWorld ops)).index
                cr.CacheKey)).2 ≠ none))) ∧
      (0 < evs.countP isCacheSend →
        GetStatus (Run env id cr (runCacheOps freshWorld ops)).index cr.CacheKey =
          STATUS_AVAILABLE) :=
  Run_outcome_of_response_file env id cr (runCacheOps freshWorld ops)
    (fun d hd hs =>
      ResponseFilesPresent_runCacheOps ops freshWorld ResponseFilesPresent_fresh _ d hd hs)

/-! ## checkStalePartialFiles: the path of the samples -/

/-- C25, the code at the failing input: the data path is `/data` (no slash
at its end, as in the configuration of the test of the repository) and the
directory holds the partial file `ABC.layer.partial`, which never grows.
`checkStalePartialFiles` builds the path `/dataABC.layer.partial`, the
concatenation of the data path and the name without a separator; `os.Stat`
fails on it and the file is skipped: it is never sampled and not unlinked.
Only when the data path ends with a slash is the file sampled at its own
path: then it is unlinked when its size never grows and kept when a later
sample is larger.  For every data path and name, when the first `Stat` of the
concatenation fails the entry is left alone. -/
theorem stale_partial_file_kept :
    ((LocalCache.List false "/data" scenarioPartial).1 = ["ABC.layer.partial"] ∧
      "/data" ++ "ABC.layer.partial" = "/dataABC.layer.partial" ∧
      checkStalePartialFiles false false "/data" scenarioStaleStat scenarioPartial =
        scenarioPartial) ∧
    ((checkStalePartialFiles false false "/data/" scenarioStaleStat scenarioPartial).files =
        [] ∧
      checkStalePartialFiles false false "/data/" scenarioGrowingStat scenarioPartial =
        scenarioPartial) ∧
    (∀ dataPath stat rmErr name w, stat (dataPath ++ name) 0 = none →
      checkStalePartialFile dataPath stat rmErr name w = w) := by
  refine ⟨by decide, by decide, ?_⟩
  intro dataPath stat rmErr name w h
  unfold checkStalePartialFile
  split_ifs
  · rfl
  · simp only [h]


/-! ## cleanCacheKey: the thresholds -/

theorem mapGet_mapDel_none {β : Type} (m : List (String × β)) (k x : String)
    (h : mapGet m x = none) : mapGet (mapDel m k) x = none := by
  by_cases hx : x = k
  · rw [hx]
    exact mapGet_mapDel_self m k
  · rw [mapGet_mapDel_ne m hx]
    exact h

theorem osRemove_absent (fails : Bool) (path x : String) (files : List (String × FileData))
    (h : mapGet files x = none) : mapGet (osRemove fails path files).1 x = none := by
  unfold osRemove
  split_ifs
  · exact h
  · cases mapGet files path with
    | none => exact h
    | some _ => exact mapGet_mapDel_none files path x h

theorem osRemove_removes (path : String) (files : List (String × FileData)) :
    mapGet (osRemove false path files).1 path = none := by
  unfold osRemove
  simp only [Bool.false_eq_true, if_false]
  cases h : mapGet files path with
  | none => exact h
  | some _ => exact mapGet_mapDel_self files path

/-- `Delete(df, k, false)` with both names given removes the rows of `k` and
the two files, unless their removal fails. -/
theorem LocalCache_Delete_effect (rmData rmMeta : Bool) (df k : String) (w : World)
    (hk : k ≠ "") (hdf : df ≠ "") :
    mapGet (LocalCache.Delete rmData rmMeta df k false w).1.index.meta k = none ∧
    mapGet (LocalCache.Delete rmData rmMeta df k false w).1.index.store k = none ∧
    (rmData = false →
      mapGet (LocalCache.Delete rmData rmMeta df k false w).1.files df = none) ∧
    (rmMeta = false →
      mapGet (LocalCache.Delete rmData rmMeta df k false w).1.files
        (ComputeResponseFilePath df) = none) := by
  unfold LocalCache.Delete
  simp only [hk, hdf, and_false, false_and, if_false, ne_eq, not_false_eq_true, if_true,
    Bool.false_eq_true, and_self]
  refine ⟨?_, ?_, ?_, ?_⟩
  · exact mapGet_mapDel_self _ _
  · exact mapGet_mapDel_self _ _
  · intro h
    subst h
    exact osRemove_absent _ _ _ _ (osRemove_removes _ _)
  · intro h
    subst h
    exact osRemove_removes _ _

/-! ## The float64 seconds of a duration -/

theorem bitLog_le (k : Nat) : ∀ fuel n : Nat, n < 2 ^ (k + 1) → bitLog fuel n ≤ k := by
  induction k with
  | zero =>
    intro fuel n h
    cases fuel with
    | zero => simp [bitLog]
    | succ f =>
      have : ¬ 2 ≤ n := by simpa using h
      simp [bitLog, this]
  | succ k ih =>
    intro fuel n h
    cases fuel with
    | zero => simp [bitLog]
    | succ f =>
      unfold bitLog
      split_ifs with h2
      · have hn : n / 2 < 2 ^ (k + 1) := by
          rw [Nat.div_lt_iff_lt_mul (by decide)]
          rw [pow_succ] at h
          exact h
        have := ih f (n / 2) hn
        omega
      · omega

theorem roundHalfEven_le (a b : Nat) (hb : 0 < b) :
    2 * (roundHalfEven a b * b) ≤ 2 * a + b := by
  have h := Nat.div_add_mod a b
  have hr := Nat.mod_lt a hb
  unfold roundHalfEven
  simp only
  have e : (a / b + 1) * b = b * (a / b) + b := by ring
  have e2 : a / b * b = b * (a / b) := by ring
  split_ifs
  · rw [e2]; omega
  · rw [e]; omega
  · rw [e2]; omega
  · rw [e]; omega

theorem roundHalfEven_ge (a b : Nat) : a / b ≤ roundHalfEven a b := by
  unfold roundHalfEven
  simp only
  split_ifs <;> omega

theorem roundHalfEven_le_of_le_mul (a b m : Nat) (hb : 0 < b) (h : a ≤ b * m) :
    roundHalfEven a b ≤ m := by
  have hd := Nat.div_add_mod a b
  have hq : a / b ≤ m := by
    calc a / b ≤ b * m / b := Nat.div_le_div_right h
      _ = m := Nat.mul_div_cancel_left m hb
  have hlt : a % b ≠ 0 → a / b < m := by
    intro hr
    by_contra hc
    have hqm : a / b = m := by omega
    rw [hqm] at hd
    omega
  unfold roundHalfEven
  simp only
  split_ifs with h1 h2 h3
  · exact hq
  · exact hlt (by omega)
  · exact hq
  · exact hlt (by omega)

theorem ulp_dvd (p q k : Nat) (hx : p * 2 ^ 82 / q < 2 ^ (k + 1)) :
    2 ^ (floorLog2 (p * 2 ^ 82 / q) - 52) ∣ 2 ^ (k - 52) :=
  pow_dvd_pow 2 (by
    have := bitLog_le k (p * 2 ^ 82 / q) (p * 2 ^ 82 / q) hx
    unfold floorLog2
    omega)

theorem float64Scaled_upper (p q k : Nat) (hq : 0 < q) (hx : p * 2 ^ 82 / q < 2 ^ (k + 1)) :
    q * (2 * float64Scaled p q) ≤ 2 * (p * 2 ^ 82) + q * 2 ^ (k - 52) := by
  unfold float64Scaled
  split_ifs with hp
  · simp
  · simp only
    have hU : 2 ^ (floorLog2 (p * 2 ^ 82 / q) - 52) ≤ 2 ^ (k - 52) :=
      Nat.le_of_dvd (by positivity) (ulp_dvd p q k hx)
    have hpos : 0 < q * 2 ^ (floorLog2 (p * 2 ^ 82 / q) - 52) := by positivity
    have h := roundHalfEven_le (p * 2 ^ 82) _ hpos
    calc q * (2 * (roundHalfEven (p * 2 ^ 82) (q * 2 ^ (floorLog2 (p * 2 ^ 82 / q) - 52)) *
            2 ^ (floorLog2 (p * 2 ^ 82 / q) - 52)))
        = 2 * (roundHalfEven (p * 2 ^ 82) (q * 2 ^ (floorLog2 (p * 2 ^ 82 / q) - 52)) *
            (q * 2 ^ (floorLog2 (p * 2 ^ 82 / q) - 52))) := by ring
      _ ≤ 2 * (p * 2 ^ 82) + q * 2 ^ (floorLog2 (p * 2 ^ 82 / q) - 52) := h
      _ ≤ 2 * (p * 2 ^ 82) + q * 2 ^ (k - 52) :=
          Nat.add_le_add_left (Nat.mul_le_mul_left q hU) _

/-- Rounding does not pass a float64 below the number. -/
theorem float64Scaled_lower (p q k M : Nat) (hq : 0 < q)
    (hx : p * 2 ^ 82 / q < 2 ^ (k + 1)) (hM : 2 ^ (k - 52) ∣ M) (hle : q * M ≤ p * 2 ^ 82) :
    M ≤ float64Scaled p q := by
  unfold float64Scaled
  split_ifs with hp
  · subst hp
    simp only [Nat.zero_mul, Nat.le_zero, mul_eq_zero] at hle
    rcases hle with h | h
    · omega
    · exact Nat.le_of_eq h
  · simp only
    obtain ⟨c, hc⟩ := Dvd.dvd.trans (ulp_dvd p q k hx) hM
    have hUpos : 0 < 2 ^ (floorLog2 (p * 2 ^ 82 / q) - 52) := by positivity
    have hpos : 0 < q * 2 ^ (floorLog2 (p * 2 ^ 82 / q) - 52) := by positivity
    have h1 : c ≤ p * 2 ^ 82 / (q * 2 ^ (floorLog2 (p * 2 ^ 82 / q) - 52)) := by
      rw [Nat.le_div_iff_mul_le hpos]
      calc c * (q * 2 ^ (floorLog2 (p * 2 ^ 82 / q) - 52))
          = q * (2 ^ (floorLog2 (p * 2 ^ 82 / q) - 52) * c) := by ring
        _ = q * M := by rw [hc]
        _ ≤ p * 2 ^ 82 := hle
    have h2 := roundHalfEven_ge (p * 2 ^ 82) (q * 2 ^ (floorLog2 (p * 2 ^ 82 / q) - 52))
    calc M = c * 2 ^ (floorLog2 (p * 2 ^ 82 / q) - 52) := by rw [hc]; ring
      _ ≤ _ := Nat.mul_le_mul_right _ (h1.trans h2)

/-- Rounding does not pass a float64 above the number. -/
theorem float64Scaled_le_of_le (p q k M : Nat) (hq : 0 < q)
    (hx : p * 2 ^ 82 / q < 2 ^ (k + 1)) (hM : 2 ^ (k - 52) ∣ M) (hle : p * 2 ^ 82 ≤ q * M) :
    float64Scaled p q ≤ M := by
  unfold float64Scaled
  split_ifs with hp
  · exact Nat.zero_le _
  · simp only
    obtain ⟨c, hc⟩ := Dvd.dvd.trans (ulp_dvd p q k hx) hM
    have hpos : 0 < q * 2 ^ (floorLog2 (p * 2 ^ 82 / q) - 52) := by positivity
    have h1 : roundHalfEven (p * 2 ^ 82) (q * 2 ^ (floorLog2 (p * 2 ^ 82 / q) - 52)) ≤ c := by
      apply roundHalfEven_le_of_le_mul _ _ _ hpos
      calc p * 2 ^ 82 ≤ q * M := hle
        _ = q * 2 ^ (floorLog2 (p * 2 ^ 82 / q) - 52) * c := by rw [hc]; ring
    calc _ ≤ c * 2 ^ (floorLog2 (p * 2 ^ 82 / q) - 52) := Nat.mul_le_mul_right _ h1
      _ = M := by rw [hc]; ring

/-- The float64 of a fraction of a second is below `1 - 2^-30`. -/
theorem float64Scaled_nsec (nsec : Nat) (h : nsec < 1000000000) :
    float64Scaled nsec 1000000000 + 2 ^ 52 < 2 ^ 82 := by
  have hx : nsec * 2 ^ 82 / 1000000000 < 2 ^ (81 + 1) := by
    rw [Nat.div_lt_iff_lt_mul (by decide)]
    omega
  have hu := float64Scaled_upper nsec 1000000000 81 (by decide) hx
  norm_num at hu ⊢
  omega

/-- The seconds of a duration lie between its whole seconds and the next
whole second. -/
theorem secondsScaled_bounds (n : Nat) (h : n < 2 ^ 63) :
    n / 1000000000 * 2 ^ 82 ≤ secondsScaled n ∧
    secondsScaled n ≤ (n / 1000000000 + 1) * 2 ^ 82 := by
  have hy := float64Scaled_nsec (n % 1000000000) (Nat.mod_lt _ (by decide))
  have hsec : n / 1000000000 < 2 ^ 34 := by
    rw [Nat.div_lt_iff_lt_mul (by decide)]
    norm_num at h ⊢
    omega
  have hx : (n / 1000000000 * 2 ^ 82 + float64Scaled (n % 1000000000) 1000000000) * 2 ^ 82 /
      2 ^ 82 < 2 ^ (115 + 1) := by
    rw [Nat.mul_div_cancel _ (by positivity)]
    norm_num at hy hsec ⊢
    omega
  unfold secondsScaled
  constructor
  · apply float64Scaled_lower _ _ 115 _ (by positivity) hx
    · exact Dvd.dvd.mul_left (pow_dvd_pow 2 (by decide)) _
    · rw [Nat.mul_comm]
      exact Nat.mul_le_mul_right _ (Nat.le_add_right _ _)
  · apply float64Scaled_le_of_le _ _ 115 _ (by positivity) hx
    · exact Dvd.dvd.mul_left (pow_dvd_pow 2 (by decide)) _
    · rw [Nat.mul_comm (2 ^ 82)]
      apply Nat.mul_le_mul_right
      norm_num at hy ⊢
      omega

/-- Below `2^24` seconds the conversion to `int` gives the whole seconds. -/
theorem wholeSeconds_small (n : Nat) (h : n < 2 ^ 24 * 1000000000) :
    wholeSeconds n = n / 1000000000 := by
  have hy := float64Scaled_nsec (n % 1000000000) (Nat.mod_lt _ (by decide))
  have hsec : n / 1000000000 < 2 ^ 24 := by
    rw [Nat.div_lt_iff_lt_mul (by decide)]
    exact h
  have hlo := (secondsScaled_bounds n (by norm_num at h ⊢; omega)).1
  have hx : (n / 1000000000 * 2 ^ 82 + float64Scaled (n % 1000000000) 1000000000) * 2 ^ 82 /
      2 ^ 82 < 2 ^ (105 + 1) := by
    rw [Nat.mul_div_cancel _ (by positivity)]
    norm_num at hy hsec ⊢
    omega
  have hu := float64Scaled_upper
    (n / 1000000000 * 2 ^ 82 + float64Scaled (n % 1000000000) 1000000000) (2 ^ 82) 105
    (by positivity) hx
  unfold wholeSeconds
  have hs : secondsScaled n =
      float64Scaled
        (n / 1000000000 * 2 ^ 82 + float64Scaled (n % 1000000000) 1000000000) (2 ^ 82) := rfl
  rw [← hs] at hu
  norm_num at hu hlo hy ⊢
  omega

/-- A whole number of seconds is its own float64. -/
theorem wholeSeconds_whole (n : Nat) (h : n < 2 ^ 63) (hw : n % 1000000000 = 0) :
    wholeSeconds n = n / 1000000000 := by
  have hlo := (secondsScaled_bounds n h).1
  have hsec : n / 1000000000 < 2 ^ 34 := by
    rw [Nat.div_lt_iff_lt_mul (by decide)]
    norm_num at h ⊢
    omega
  have h0 : float64Scaled 0 1000000000 = 0 := rfl
  have hx : (n / 1000000000 * 2 ^ 82 + 0) * 2 ^ 82 / 2 ^ 82 < 2 ^ (133 + 1) := by
    rw [Nat.mul_div_cancel _ (by positivity)]
    norm_num at hsec ⊢
    omega
  have hu := float64Scaled_upper (n / 1000000000 * 2 ^ 82 + 0) (2 ^ 82) 133
    (by positivity) hx
  have hs : secondsScaled n = float64Scaled (n / 1000000000 * 2 ^ 82 + 0) (2 ^ 82) := by
    unfold secondsScaled
    rw [hw, h0]
  unfold wholeSeconds
  rw [← hs] at hu
  norm_num at hu hlo ⊢
  omega

/-- The conversion to `int` gives the whole seconds or one second more. -/
theorem wholeSeconds_near (n : Nat) (h : n < 2 ^ 63) :
    wholeSeconds n = n / 1000000000 ∨ wholeSeconds n = n / 1000000000 + 1 := by
  obtain ⟨hlo, hhi⟩ := secondsScaled_bounds n h
  unfold wholeSeconds
  norm_num at hlo hhi ⊢
  omega

theorem tdiv_Second (d : Int) :
    Int.tdiv d Second = Int.sign d * ((d.natAbs / 1000000000 : Nat) : Int) := by
  cases d with
  | ofNat n =>
    cases n with
    | zero => rfl
    | succ m =>
      show Int.tdiv (Int.ofNat (m + 1)) (Int.ofNat 1000000000) =
        Int.sign (Int.ofNat (m + 1)) * (((m + 1) / 1000000000 : Nat) : Int)
      simp only [Int.tdiv, Int.sign, Int.one_mul]
      rfl
  | negSucc m =>
    show Int.tdiv (Int.negSucc m) (Int.ofNat 1000000000) = _
    simp [Int.tdiv, Int.sign, Int.natAbs]

theorem effectiveThreshold_eq (d : Int) :
    effectiveThreshold d = Int.sign d * (wholeSeconds d.natAbs : Int) * Second := by
  unfold effectiveThreshold negatedWholeSeconds
  ring

/-- A duration of magnitude below `2^24` seconds counts with its whole
seconds. -/
theorem effectiveThreshold_small (d : Int) (h : |d| < 2 ^ 24 * Second) :
    effectiveThreshold d = Int.tdiv d Second * Second := by
  have hn : d.natAbs < 2 ^ 24 * 1000000000 := by
    have := Int.abs_eq_natAbs d
    unfold Second at h
    omega
  rw [effectiveThreshold_eq, tdiv_Second, wholeSeconds_small d.natAbs hn]

/-- A whole number of seconds counts as it is. -/
theorem effectiveThreshold_whole (s : Int) (h : |s * Second| < 2 ^ 63) :
    effectiveThreshold (s * Second) = s * Second := by
  have hn : (s * Second).natAbs < 2 ^ 63 := by
    have := Int.abs_eq_natAbs (s * Second)
    omega
  have hw : (s * Second).natAbs % 1000000000 = 0 := by
    rw [Int.natAbs_mul]
    exact Nat.mul_mod_left _ _
  rw [effectiveThreshold_eq, wholeSeconds_whole _ hn hw, ← tdiv_Second,
    Int.mul_tdiv_cancel s (by decide)]

/-- Every duration counts with its whole seconds or with one second more. -/
theorem effectiveThreshold_near (d : Int) (h : |d| < 2 ^ 63) :
    effectiveThreshold d = Int.tdiv d Second * Second ∨
    effectiveThreshold d = Int.tdiv d Second * Second + Int.sign d * Second := by
  have hn : d.natAbs < 2 ^ 63 := by
    have := Int.abs_eq_natAbs d
    omega
  rw [effectiveThreshold_eq, tdiv_Second]
  rcases wholeSeconds_near d.natAbs hn with e | e
  · left
    rw [e]
  · right
    rw [e]
    push_cast
    ring

set_option maxRecDepth 100000 in
/-- At `2^24` seconds the fraction of a second can round up: 16777216.999999999
seconds count as 16777217 seconds. -/
theorem effectiveThreshold_rounds_up :
    effectiveThreshold 16777216999999999 = 16777217 * Second := by
  decide

/-- A path cannot end in `.layer` and in `.manifest`. -/
theorem not_layer_of_manifest (s : String) (h : HasSuffix s SUFFIX_MANIFEST_FILE = true) :
    HasSuffix s SUFFIX_LAYER_FILE = false := by
  unfold HasSuffix at h ⊢
  rw [Bool.eq_false_iff]
  intro h2
  rw [List.isSuffixOf_iff_suffix] at h h2
  obtain ⟨t, ht⟩ := h
  obtain ⟨t2, ht2⟩ := h2
  have e1 : s.data.getLast? = some 't' := by
    rw [← ht]
    simp [SUFFIX_MANIFEST_FILE, List.getLast?_append]
  have e2 : s.data.getLast? = some 'r' := by
    rw [← ht2]
    simp [SUFFIX_LAYER_FILE, List.getLast?_append]
  rw [e1] at e2
  exact absurd e2 (by decide)

/-- `cleanCacheKey` on a digest that has an entry, by the durations it
compares the ages with. -/
theorem cleanCacheKey_eq (rmData rmMeta statFails : Bool) (now1 now2 : Int) (k df : String)
    (maxAge maxU : Int) (w : World) (d : CacheKeyMetadata)
    (h : mapGet w.index.meta k = some d) :
    cleanCacheKey rmData rmMeta statFails now1 now2 k df maxAge maxU w =
      if effectiveThreshold maxU < now1 - d.Atime * Second then
        (LocalCache.Delete rmData rmMeta df k false w).1
      else if effectiveThreshold maxAge < now2 - d.Ctime * Second then
        (LocalCache.Delete rmData rmMeta df k false w).1
      else if statFails = false ∧ mapGet w.files df = none then
        (LocalCache.Delete rmData rmMeta df k false w).1
      else w := by
  have hu : (d.Atime * Second < now1 + negatedWholeSeconds maxU) ↔
      effectiveThreshold maxU < now1 - d.Atime * Second := by
    unfold effectiveThreshold
    constructor <;> intro hh <;> omega
  have ha : (d.Ctime * Second < now2 + negatedWholeSeconds maxAge) ↔
      effectiveThreshold maxAge < now2 - d.Ctime * Second := by
    unfold effectiveThreshold
    constructor <;> intro hh <;> omega
  have hs : osStat statFails df w.files = some OsError.notExist ↔
      (statFails = false ∧ mapGet w.files df = none) := by
    unfold osStat
    cases statFails <;> cases mapGet w.files df <;> simp
  unfold cleanCacheKey
  simp only [GetATime, GetCTime, h, ne_eq, not_true_eq_false, if_false, decide_eq_true_eq, hu,
    ha, hs]

set_option maxRecDepth 100000 in
/-- C23 as stated fails: the layer `ABC` was read at second 101 and created
at second 100, `max_unused` is 60.5 s and `max_age` one hour.  At 161.2 s
after the epoch the layer has been unused for 60.2 s, which is not more than
`max_unused`, it is younger than `max_age` and its datafile exists; yet
`cleanCacheKey` (and `cleanCacheKeys` with these thresholds for layers)
deletes the entry and its files, because the threshold it compares with is
60 s. -/
theorem cleanCacheKey_deletes_within_max_unused :
    (GetATime scenarioStored.index "ABC" = (101, none) ∧
      GetCTime scenarioStored.index "ABC" = (100, none) ∧
      GetDatafile scenarioStored.index "ABC" = ("/data/ABC.layer", none) ∧
      (mapGet scenarioStored.files "/data/ABC.layer").isSome = true) ∧
    (¬ ((161200000000 : Int) - 101 * Second > 60500000000) ∧
      ¬ ((161200000000 : Int) - 100 * Second > 3600000000000)) ∧
    ((cleanCacheKey false false false 161200000000 161200000000 "ABC" "/data/ABC.layer"
        3600000000000 60500000000 scenarioStored).index = NewMemoryIndex ∧
      (cleanCacheKey false false false 161200000000 161200000000 "ABC" "/data/ABC.layer"
        3600000000000 60500000000 scenarioStored).files = []) ∧
    ((cleanCacheKeys { maxUnused := 60500000000, maxAge := 3600000000000 }
        { maxUnused := 60500000000, maxAge := 3600000000000 } (fun _ => false)
        (fun _ => false) (fun _ => (161200000000, 161200000000)) id
        scenarioStored).index = NewMemoryIndex) := by
  decide

/-- C23, amended: for a digest `k` that has an entry, `cleanCacheKey`
deletes the entry and its files (calls `Delete(df, k, false)`) if
`now - atime` is more than the duration `T(max_unused)` the code compares
with; otherwise deletes them if `now - ctime` is more than `T(max_age)`;
otherwise deletes them if `os.Stat` reports that the datafile does not exist;
and otherwise leaves the world as it is.  `T(d)` is
`time.Duration(int(d.Seconds())) * time.Second`, computed in float64: it is
`d` cut toward zero to whole seconds for every duration of a magnitude below
`2^24` seconds, it is `d` itself for every whole number of seconds, and for
every other duration it is `d` cut to whole seconds or one second more
(16777216.999999999 s count as 16777217 s).  The deletion removes the meta and
store rows of `k`, and the data file and the sidecar unless their removal
fails.  `cleanCacheKeys` applies this with the thresholds for layers to a
digest whose datafile ends in `.layer` and with the thresholds for manifests
to one whose datafile ends in `.manifest`. -/
theorem cleanCacheKey_policy (rmData rmMeta statFails : Bool) (now1 now2 : Int)
    (k df : String) (maxAge maxU : Int) (w : World) (d : CacheKeyMetadata)
    (h : mapGet w.index.meta k = some d) (hdf : mapGet w.index.store k = some df) :
    (cleanCacheKey rmData rmMeta statFails now1 now2 k df maxAge maxU w =
      if effectiveThreshold maxU < now1 - d.Atime * Second then
        (LocalCache.Delete rmData rmMeta df k false w).1
      else if effectiveThreshold maxAge < now2 - d.Ctime * Second then
        (LocalCache.Delete rmData rmMeta df k false w).1
      else if statFails = false ∧ mapGet w.files df = none then
        (LocalCache.Delete rmData rmMeta df k false w).1
      else w) ∧
    (k ≠ "" → df ≠ "" →
      mapGet (LocalCache.Delete rmData rmMeta df k false w).1.index.meta k = none ∧
      mapGet (LocalCache.Delete rmData rmMeta df k false w).1.index.store k = none ∧
      (rmData = false →
        mapGet (LocalCache.Delete rmData rmMeta df k false w).1.files df = none) ∧
      (rmMeta = false →
        mapGet (LocalCache.Delete rmData rmMeta df k false w).1.files
          (ComputeResponseFilePath df) = none)) ∧
    (∀ x : Int, |x| < 2 ^ 24 * Second →
      effectiveThreshold x = Int.tdiv x Second * Second) ∧
    (∀ s : Int, |s * Second| < 2 ^ 63 → effectiveThreshold (s * Second) = s * Second) ∧
    (∀ x : Int, |x| < 2 ^ 63 →
      effectiveThreshold x = Int.tdiv x Second * Second ∨
      effectiveThreshold x = Int.tdiv x Second * Second + Int.sign x * Second) ∧
    effectiveThreshold 16777216999999999 = 16777217 * Second ∧
    (∀ layers manifests rmFails statFails2 clock,
      (HasSuffix df SUFFIX_LAYER_FILE = true →
        cleanCacheKeysStep layers manifests rmFails statFails2 clock k w =
          cleanCacheKey (rmFails df) (rmFails (ComputeResponseFilePath df)) (statFails2 df)
            (clock k).1 (clock k).2 k df layers.maxAge layers.maxUnused w) ∧
      (HasSuffix df SUFFIX_MANIFEST_FILE = true →
        cleanCacheKeysStep layers manifests rmFails statFails2 clock k w =
          cleanCacheKey (rmFails df) (rmFails (ComputeResponseFilePath df)) (statFails2 df)
            (clock k).1 (clock k).2 k df manifests.maxAge manifests.maxUnused w)) := by
  refine ⟨cleanCacheKey_eq rmData rmMeta statFails now1 now2 k df maxAge maxU w d h,
    fun hk hd => LocalCache_Delete_effect rmData rmMeta df k w hk hd,
    effectiveThreshold_small, effectiveThreshold_whole, effectiveThreshold_near,
    effectiveThreshold_rounds_up, ?_⟩
  intro layers manifests rmFails statFails2 clock
  constructor
  · intro hl
    unfold cleanCacheKeysStep
    simp only [GetDatafile, hdf, hl, if_true]
  · intro hm
    unfold cleanCacheKeysStep
    simp only [GetDatafile, hdf, hm, not_layer_of_manifest df hm, if_true,
      Bool.false_eq_true, if_false]

set_option maxRecDepth 100000 in
theorem cleanCacheKey_policy_witness :
    cleanCacheKey false false false 162000000000 162000000000 "ABC" "/data/ABC.layer"
        3600000000000 60500000000 scenarioStored =
      (LocalCache.Delete false false "/data/ABC.layer" "ABC" false scenarioStored).1 ∧
    cleanCacheKey false false false 161000000000 161000000000 "ABC" "/data/ABC.layer"
        3600000000000 60500000000 scenarioStored = scenarioStored :=
  have h1 := (cleanCacheKey_policy false false false 162000000000 162000000000 "ABC"
    "/data/ABC.layer" 3600000000000 60500000000 scenarioStored
    { Status := STATUS_AVAILABLE, WorkerID := NO_WORKER,
      ResponseFile := some (NewResponseFile 2 200 [] "ABC"), Atime := 101, Ctime := 100 }
    (by decide) (by decide)).1
  have h2 := (cleanCacheKey_policy false false false 161000000000 161000000000 "ABC"
    "/data/ABC.layer" 3600000000000 60500000000 scenarioStored
    { Status := STATUS_AVAILABLE, WorkerID := NO_WORKER,
      ResponseFile := some (NewResponseFile 2 200 [] "ABC"), Atime := 101, Ctime := 100 }
    (by decide) (by decide)).1
  ⟨h1.trans (by decide), h2.trans (by decide)⟩


/-! ## cleanOrphanFiles: the pairing of files and sidecars -/

/-- C24, the code at the failing input: the digest `a.meta.json` has been
stored, so the data directory holds the content file `a.meta.json.layer`
together with its sidecar `a.meta.json.layer.meta.json`.  For the sidecar
`cleanOrphanFiles` computes the name of the content file by removing every
occurrence of `.meta.json`, which gives `a.layer`; it finds no such file,
takes both files for orphans and deletes the pair, with the entry of the
digest, in whatever order it ranges over the orphans.  On directories whose
names hold `.meta.json` at the end only, it behaves as claimed: a stored
layer with its sidecar is kept, a content file without sidecar is deleted
while a paired one is kept, a sidecar without content file is deleted, and a
partial file is kept. -/
theorem cleanOrphanFiles_deletes_paired_files :
    (GetStatus scenarioOddStored.index "a.meta.json" = STATUS_AVAILABLE ∧
      (LocalCache.List false "/data" scenarioOddStored).1 =
        ["a.meta.json.layer", "a.meta.json.layer.meta.json"] ∧
      ComputeResponseFilePath "a.meta.json.layer" = "a.meta.json.layer.meta.json" ∧
      stringsReplaceAll "a.meta.json.layer.meta.json" SUFFIX_META_FILE "" = "a.layer") ∧
    (mapKeys (orphansOf ["a.meta.json.layer", "a.meta.json.layer.meta.json"]) =
        ["a.meta.json.layer.meta.json", "a.meta.json.layer"] ∧
      (cleanOrphanFiles false (fun _ => false) id "/data" scenarioOddStored).files = [] ∧
      (cleanOrphanFiles false (fun _ => false) id "/data" scenarioOddStored).index =
        NewMemoryIndex ∧
      (cleanOrphanFiles false (fun _ => false) List.reverse "/data" scenarioOddStored).files =
        [] ∧
      (cleanOrphanFiles false (fun _ => false) List.reverse "/data" scenarioOddStored).index =
        NewMemoryIndex) ∧
    (cleanOrphanFiles false (fun _ => false) id "/data" scenarioStored = scenarioStored ∧
      (cleanOrphanFiles false (fun _ => false) id "/data" scenarioDirectoryMissing).files =
        [("/data/b.layer", FileData.bytes [2]),
         ("/data/b.layer.meta.json", FileData.json (NewResponseFile 1 200 [] "b"))] ∧
      (cleanOrphanFiles false (fun _ => false) id "/data"
        { scenarioWorld with
          files := [("/data/c.layer.meta.json", FileData.json (NewResponseFile 1 200 [] "c"))] }
        ).files = [] ∧
      cleanOrphanFiles false (fun _ => false) id "/data" scenarioPartial = scenarioPartial) := by
  decide


/-! ## rewriteRequest: the rule and the placeholders -/

theorem rewriteRules_none (rules : List UpstreamRule) (r : ProxyRequest)
    (h : ∀ c ∈ rules, c.regex r.Host = none) : rewriteRules rules r = none := by
  induction rules with
  | nil => rfl
  | cons c rest ih =>
    unfold rewriteRules
    rw [h c (List.mem_cons_self _ _)]
    simp only [Option.isSome_none, Bool.not_false, if_true]
    exact ih (fun x hx => h x (List.mem_cons_of_mem _ hx))

theorem rewriteRules_first (pre post : List UpstreamRule) (cfg : UpstreamRule)
    (r : ProxyRequest) (groups : List String)
    (hpre : ∀ c ∈ pre, c.regex r.Host = none) (hm : cfg.regex r.Host = some groups) :
    rewriteRules (pre ++ cfg :: post) r =
      some { r with
        URLScheme := cfg.scheme
        URLHost := substituteGroups cfg.host 0 groups
        Host := substituteGroups cfg.host 0 groups } := by
  induction pre with
  | nil =>
    simp only [List.nil_append]
    unfold rewriteRules
    rw [hm]
    rfl
  | cons c rest ih =>
    simp only [List.cons_append]
    unfold rewriteRules
    rw [hpre c (List.mem_cons_self _ _)]
    simp only [Option.isSome_none, Bool.not_false, if_true]
    exact ih (fun x hx => hpre x (List.mem_cons_of_mem _ hx))

theorem rewriteHeaders_Host (clientIP : Option String) (r : ProxyRequest) :
    (rewriteHeaders clientIP r).Host = r.Host := by
  unfold rewriteHeaders
  cases clientIP <;> rfl

/-- C21, the code at the failing input: the rule has the expression
`^(a)(b)(c)(d)(e)(f)(g)(h)(i)(j)$` and the host template
`$group10.example.com`, the request host is `abcdefghij`, so capture group 10
is `j`.  `rewriteRequest` sets the upstream host to `a0.example.com`: the
round for group 1 has replaced the text `$group1` inside `$group10` before
the round for group 10 ran.  With the template `$group1-$group0.example.com`
the groups 1 and 0 are substituted as claimed.  The choice of the rule is as
claimed: the first rule in order whose expression matches the request host
gives the scheme and, after the rounds of replacement, the host; when no rule
matches, the scheme and host of the default backend are used. -/
theorem rewriteRequest_group10_is_group1 :
    (scenarioTenGroups "abcdefghij" =
        some ["abcdefghij", "a", "b", "c", "d", "e", "f", "g", "h", "i", "j"] ∧
      (rewriteRequest (scenarioProxy "$group10.example.com") (some "10.0.0.1")
        (scenarioHostRequest "abcdefghij")).URLHost = "a0.example.com" ∧
      (rewriteRequest (scenarioProxy "$group10.example.com") (some "10.0.0.1")
        (scenarioHostRequest "abcdefghij")).Host = "a0.example.com") ∧
    ((rewriteRequest (scenarioProxy "$group1-$group0.example.com") (some "10.0.0.1")
        (scenarioHostRequest "abcdefghij")).URLHost = "a-abcdefghij.example.com" ∧
      rewriteRequest (scenarioProxy "$group1-$group0.example.com") (some "10.0.0.1")
        (scenarioHostRequest "other.host") =
        { RequestURI := "", RemoteAddr := "10.0.0.1:4000", Host := "registry.local",
          Header := [("X-Original-Host", ["other.host"]), ("X-Forwarded-For", ["10.0.0.1"])],
          URLScheme := "http", URLHost := "registry.local" }) ∧
    (∀ (p : Proxy) (clientIP : Option String) (r : ProxyRequest) (pre post : List UpstreamRule)
        (cfg : UpstreamRule) (groups : List String),
      p.upstreamRules = pre ++ cfg :: post → (∀ c ∈ pre, c.regex r.Host = none) →
      cfg.regex r.Host = some groups →
      (rewriteRequest p clientIP r).URLScheme = cfg.scheme ∧
      (rewriteRequest p clientIP r).URLHost = substituteGroups cfg.host 0 groups ∧
      (rewriteRequest p clientIP r).Host = substituteGroups cfg.host 0 groups) ∧
    (∀ (p : Proxy) (clientIP : Option String) (r : ProxyRequest),
      (∀ c ∈ p.upstreamRules, c.regex r.Host = none) →
      (rewriteRequest p clientIP r).URLScheme = p.defaultBackend.Schema ∧
      (rewriteRequest p clientIP r).URLHost = p.defaultBackend.Host ∧
      (rewriteRequest p clientIP r).Host = p.defaultBackend.Host) := by
  refine ⟨by decide, by decide, ?_, ?_⟩
  · intro p clientIP r pre post cfg groups hr hpre hm
    unfold rewriteRequest
    simp only
    rw [hr, rewriteRules_first pre post cfg (rewriteHeaders clientIP r) groups
      (by rw [rewriteHeaders_Host]; exact hpre) (by rw [rewriteHeaders_Host]; exact hm)]
    exact ⟨rfl, rfl, rfl⟩
  · intro p clientIP r h
    unfold rewriteRequest
    simp only
    rw [rewriteRules_none p.upstreamRules (rewriteHeaders clientIP r)
      (by rw [rewriteHeaders_Host]; exact h)]
    exact ⟨rfl, rfl, rfl⟩


/-! ## lazyStream: when the loop is left -/

/-- Once the source is used up and `written` differs from `totalBytes`, a
round changes nothing. -/
theorem lazyStreamRound_stuck (totalBytes : Int) (src : Source) (dst : Sink) (written : Int)
    (hs : src.reads = []) (hw : written ≠ totalBytes) :
    lazyStreamRound totalBytes src dst written = Round.next src dst written := by
  unfold lazyStreamRound Source.Read lazyStreamTail
  simp [hs, hw]

/-- Once the source is used up and `written` differs from `totalBytes`, the
loop is never left. -/
theorem lazyStreamLoop_stuck (totalBytes : Int) (fuel : Nat) (src : Source) (dst : Sink)
    (written : Int) (hs : src.reads = []) (hw : written ≠ totalBytes) :
    lazyStreamLoop totalBytes fuel src dst written = none := by
  induction fuel with
  | zero => rfl
  | succ n ih =>
    unfold lazyStreamLoop
    rw [lazyStreamRound_stuck totalBytes src dst written hs hw]
    exact ih

theorem deliveredBytes_cons (r : ReadResult) (rest : List ReadResult) :
    deliveredBytes (r :: rest) = r.data ++ deliveredBytes rest := by
  simp [deliveredBytes]

/-- A round on a destination that takes every write in full. -/
theorem lazyStreamRound_full (totalBytes : Int) (last : String) (r : ReadResult)
    (rest : List ReadResult) (dst : Sink) (written : Int) (hw : dst.writes = []) :
    lazyStreamRound totalBytes { reads := r :: rest, last := last } dst written =
      lazyStreamTail totalBytes r.err { reads := rest, last := last }
        { received := dst.received ++ r.data, writes := [] } (written + r.data.length) := by
  obtain ⟨received, writes⟩ := dst
  simp only at hw
  subst hw
  unfold lazyStreamRound Source.Read Sink.Write
  by_cases hn : 0 < (r.data.length : Int)
  · have hneg : ¬ ((r.data.length : Int) < 0) := by omega
    simp [hn, hneg]
  · have h0 : r.data = [] := by
      cases hd : r.data with
      | nil => rfl
      | cons a t =>
        rw [hd] at hn
        simp at hn
    simp [h0]

/-- The loop on a source that delivers exactly the bytes still missing, and
reports nothing but EOF, is left after at most one round per read and one
more, with all the bytes written and no error. -/
theorem lazyStreamLoop_exact (last : String) (hl : last = EOF) :
    ∀ (reads : List ReadResult) (n : Nat) (dst : Sink) (written : Int),
      dst.writes = [] → (∀ r ∈ reads, r.err = none ∨ r.err = some EOF) →
      lazyStreamLoop (written + (deliveredBytes reads).length) (n + reads.length + 1)
          { reads := reads, last := last } dst written =
        some (written + (deliveredBytes reads).length, none,
          { received := dst.received ++ deliveredBytes reads, writes := [] }) := by
  intro reads
  induction reads with
  | nil =>
    intro n dst written hw _
    obtain ⟨received, writes⟩ := dst
    simp only at hw
    subst hw
    simp [lazyStreamLoop, lazyStreamRound, Source.Read, lazyStreamTail, deliveredBytes, hl]
  | cons r rest ih =>
    intro n dst written hw herr
    have hfuel : n + (r :: rest).length + 1 = (n + rest.length + 1) + 1 := by
      simp only [List.length_cons]
      omega
    rw [hfuel]
    unfold lazyStreamLoop
    rw [lazyStreamRound_full _ last r rest dst written hw]
    have hlen : ((deliveredBytes (r :: rest)).length : Int) =
        (r.data.length : Int) + ((deliveredBytes rest).length : Int) := by
      rw [deliveredBytes_cons, List.length_append]
      push_cast
      rfl
    have hT : written + ((deliveredBytes (r :: rest)).length : Int) =
        written + (r.data.length : Int) + ((deliveredBytes rest).length : Int) := by
      rw [hlen]
      omega
    unfold lazyStreamTail
    by_cases hc : r.err ≠ none ∧
        written + (r.data.length : Int) = written + ((deliveredBytes (r :: rest)).length : Int)
    · rw [if_pos hc]
      have hrest : deliveredBytes rest = [] := by
        have h0 : ((deliveredBytes rest).length : Int) = 0 := by
          have := hc.2
          rw [hT] at this
          omega
        exact List.length_eq_zero.mp (by exact_mod_cast h0)
      have he : r.err = some EOF :=
        (herr r (List.mem_cons_self _ _)).resolve_left hc.1
      simp only [he, ne_eq, not_true_eq_false, if_false, deliveredBytes_cons, hrest,
        List.append_nil, List.length_append, List.length_nil, Nat.add_zero]
    · rw [if_neg hc]
      simp only
      rw [hT]
      have := ih n { received := dst.received ++ r.data, writes := [] }
        (written + (r.data.length : Int)) rfl
        (fun x hx => herr x (List.mem_cons_of_mem _ hx))
      rw [this, deliveredBytes_cons, List.append_assoc]

/-- C22, the code at the failing input: the source delivers one byte and
then reports EOF on every read (a data file cut short), the destination
takes every write, and `totalBytes` is 2.  `lazyStream` does not return:
whatever the number of rounds, the loop is still running, because the only
exit of a round without a write error asks for `written == totalBytes`.  The
same holds for a source that delivers three bytes, and for every source that
is used up while `written` differs from `totalBytes`, whatever error it
reports.  When the reads deliver exactly `totalBytes` bytes, report no error
but EOF, and no write fails, `lazyStream` returns `(totalBytes, nil)` after
at most one round per read and one more, and the destination has received
the bytes in order; this covers EOF reported with the last byte and EOF
reported by the next read. -/
theorem lazyStream_spins_on_short_source :
    (∀ fuel, lazyStream fuel scenarioSink
      { reads := [{ data := [79], err := none }], last := EOF } 2 = none) ∧
    (∀ fuel, lazyStream fuel scenarioSink
      { reads := [{ data := [79, 75, 33], err := none }], last := EOF } 2 = none) ∧
    (∀ totalBytes fuel src dst written, src.reads = [] → written ≠ totalBytes →
      lazyStreamLoop totalBytes fuel src dst written = none) ∧
    (∀ (reads : List ReadResult) (n : Nat) (dst : Sink), dst.writes = [] →
      (∀ r ∈ reads, r.err = none ∨ r.err = some EOF) →
      lazyStream (n + reads.length + 1) dst { reads := reads, last := EOF }
          (deliveredBytes reads).length =
        some (((deliveredBytes reads).length : Int), none,
          { received := dst.received ++ deliveredBytes reads, writes := [] })) ∧
    lazyStream 1 scenarioSink { reads := [{ data := [79, 75], err := some EOF }], last := EOF }
        2 = some (2, none, { received := [79, 75], writes := [] }) ∧
    lazyStream 2 scenarioSink { reads := [{ data := [79, 75], err := none }], last := EOF }
        2 = some (2, none, { received := [79, 75], writes := [] }) := by
  refine ⟨?_, ?_, ?_, ?_, by decide, by decide⟩
  · intro fuel
    cases fuel with
    | zero => rfl
    | succ n =>
      unfold lazyStream lazyStreamLoop
      rw [lazyStreamRound_full _ EOF _ _ scenarioSink 0 rfl]
      simp only [lazyStreamTail, ne_eq, not_true_eq_false, false_and, if_false]
      exact lazyStreamLoop_stuck _ _ _ _ _ rfl (by decide)
  · intro fuel
    cases fuel with
    | zero => rfl
    | succ n =>
      unfold lazyStream lazyStreamLoop
      rw [lazyStreamRound_full _ EOF _ _ scenarioSink 0 rfl]
      simp only [lazyStreamTail, ne_eq, not_true_eq_false, false_and, if_false]
      exact lazyStreamLoop_stuck _ _ _ _ _ rfl (by decide)
  · intro totalBytes fuel src dst written hs hw
    exact lazyStreamLoop_stuck totalBytes fuel src dst written hs hw
  · intro reads n dst hw herr
    have h := lazyStreamLoop_exact EOF rfl reads n dst 0 hw herr
    simpa [lazyStream] using h

end Imgcache
